import Mathlib

/-!
# Vircon32 assembler preprocessor

A shallow embedding of `DevelopmentTools/Assembler/VirconASMPreprocessor.cpp`
and the properties of its directive state machine.

Conventions of the embedding:

* `std::list` / `std::vector` stacks are Lean lists kept with `back()` FIRST,
  so `ContextStack.back()` is the head of `ContextStack` and
  `IfStack.back()` is the head of `IfStack`;
* a list iterator is an index into the list (`LinePosition`, `TokenPosition`);
* `EmitError` is always called without its `Abort` argument; preprocessor
  errors abort assembly, so a call prints the diagnostic and throws, which is
  `Except.error (Failure.Error location description)`;
* a read through an end iterator or through `front()` of an empty list, where
  the value read is used, is `Failure.Undefined`;
* `Token::Clone` is the identity on values.
-/

namespace Vircon

/-! ## Tokens -/

/-- Modelled from the spec: `SourceLocation` of the lexer headers, the file path
and line that errors and warnings carry. -/
structure SourceLocation where
  FilePath : String
  Line : Int
deriving DecidableEq, Repr

/-- Modelled from the spec: the `SymbolTypes` enumeration lives in the lexer
headers, which are not part of the sources at hand.  The preprocessor only
ever tests for `Percent`; the other members stand for the remaining symbols of
the assembly language. -/
inductive SymbolTypes
  | Percent
  | Comma
  | Colon
  | Plus
  | Minus
  | OpenBracket
  | CloseBracket
deriving DecidableEq, Repr

/-- Modelled from the spec: the `TokenTypes` enumeration of the lexer headers.
The preprocessor distinguishes start-of-file, end-of-file, identifiers, symbols
and string literals; every other token class is carried along untouched. -/
inductive TokenTypes
  | StartOfFile
  | EndOfFile
  | Identifier
  | Symbol
  | LiteralString
  | LiteralInteger
  | Other
deriving DecidableEq, Repr

/-- Modelled from the spec: the payload of the `Token` subclasses
(`IdentifierToken::Name`, `LiteralStringToken::Value`, the symbol of a symbol
token, ...). -/
inductive TokenData
  | StartOfFile
  | EndOfFile
  | Identifier (Name : String)
  | Symbol (Which : SymbolTypes)
  | LiteralString (Value : String)
  | LiteralInteger (Value : Int)
  | Other (Text : String)
deriving DecidableEq, Repr

/-- Modelled from the spec: a lexer token, i.e. its location and its payload. -/
structure Token where
  Location : SourceLocation
  Data : TokenData
deriving DecidableEq, Repr

abbrev TokenList := List Token

/-- The virtual `Token::Type()`. -/
def Token.Type (T : Token) : TokenTypes :=
  match T.Data with
  | .StartOfFile => .StartOfFile
  | .EndOfFile => .EndOfFile
  | .Identifier _ => .Identifier
  | .Symbol _ => .Symbol
  | .LiteralString _ => .LiteralString
  | .LiteralInteger _ => .LiteralInteger
  | .Other _ => .Other

/-- Modelled from the spec: `IsLastToken` of the lexer headers, true exactly on
the end-of-file marker. -/
def IsLastToken (T : Token) : Bool :=
  T.Type == .EndOfFile

/-- Modelled from the spec: `TokenIsThisSymbol` of the lexer headers, true when
the token is a symbol token carrying the given symbol. -/
def TokenIsThisSymbol (T : Token) (Which : SymbolTypes) : Bool :=
  match T.Data with
  | .Symbol W => W == Which
  | _ => false

deriving instance DecidableEq for Except

/-! ## Failures -/

/-- The ways in which preprocessing stops abnormally. -/
inductive Failure
  /-- Embedding of `EmitError( Location, Description )`: diagnostic plus `runtime_error`. -/
  | Error (Location : SourceLocation) (Description : String)
  /-- A `runtime_error` thrown directly (not through `EmitError`). -/
  | Runtime (What : String)
  /-- The source reads through an end iterator, or the front of an empty list. -/
  | Undefined
deriving DecidableEq, Repr

/-! ## Preprocessor state -/

/-- Modelled from the spec: the shared definitions map (identifier to token
sequence), declared in the preprocessor header as a `std::map`; here an
association list read through `find`. -/
abbrev DefinitionsMap := List (String × TokenList)

/-- Embedding of `Definitions.find( Name )`, with `none` for `Definitions.end()`. -/
def DefinitionsMap.find : DefinitionsMap → String → Option TokenList
  | [], _ => none
  | (Key, Value) :: Rest, Name =>
    if Key = Name then some Value else DefinitionsMap.find Rest Name

/-- Embedding of `Definitions.erase( Name )`. -/
def DefinitionsMap.erase (D : DefinitionsMap) (Name : String) : DefinitionsMap :=
  D.filter (fun Entry => decide (Entry.1 ≠ Name))

/-- Embedding of `Definitions[ Name ] = Value`. -/
def DefinitionsMap.assign (D : DefinitionsMap) (Name : String) (Value : TokenList) :
    DefinitionsMap :=
  (Name, Value) :: D.erase Name

/-- Modelled from the spec: one frame of the if-stack (`IfContext` of the
preprocessor header), carrying starting line, condition-is-met and
else-was-found. -/
structure IfContext where
  StartingLine : Int
  ConditionIsMet : Bool
  ElseWasFound : Bool
deriving DecidableEq, Repr

/-- Modelled from the spec: one processing context (`ProcessingContext` of the
preprocessor header), with the fields that the source file uses: the cloned
lines of a file, the line iterator, the folder for relative includes, the file
path and the if-stack. -/
structure ProcessingContext where
  ReferenceFolder : String
  FilePath : String
  SourceLines : List TokenList
  LinePosition : Nat
  IfStack : List IfContext
deriving DecidableEq, Repr

/-- Embedding of `ProcessingContext::Advance`. -/
def ProcessingContext.Advance (C : ProcessingContext) : ProcessingContext :=
  if C.LinePosition ≠ C.SourceLines.length then
    { C with LinePosition := C.LinePosition + 1 }
  else C

/-- Embedding of `ProcessingContext::LinesHaveEnded`. -/
def ProcessingContext.LinesHaveEnded (C : ProcessingContext) : Bool :=
  C.SourceLines.isEmpty || decide (C.LinePosition = C.SourceLines.length)

/-- Embedding of `ProcessingContext::GetCurrentLine`. -/
def ProcessingContext.GetCurrentLine (C : ProcessingContext) : Except Failure TokenList :=
  if C.LinesHaveEnded then
    .error (.Runtime "preprocessing context tried to access more lines than available")
  else
    match C.SourceLines[C.LinePosition]? with
    | some Line => .ok Line
    | none => .error .Undefined

/-- The value of one frame in `AreAllIfConditionsMet`:
`ElseWasFound ? !ConditionIsMet : ConditionIsMet`. -/
def IfContext.Evaluates (F : IfContext) : Bool :=
  if F.ElseWasFound then !F.ConditionIsMet else F.ConditionIsMet

/-- Embedding of `ProcessingContext::AreAllIfConditionsMet`. -/
def ProcessingContext.AreAllIfConditionsMet (C : ProcessingContext) : Bool :=
  C.IfStack.all IfContext.Evaluates

/-- Modelled from the spec: the lexer object handed to the preprocessor, with the
two members that the source file reads: the directory of the file it tokenized
and the token lines. -/
structure VirconASMLexer where
  InputDirectory : String
  TokenLines : List TokenList
deriving DecidableEq, Repr

/-- Modelled from the spec: the host on which the assembler runs.
`PathSeparator` is the platform constant of `FilePaths.cpp`; `TokenizeFile`
stands for `FileExists` followed by `VirconASMLexer::TokenizeFile`, `none`
meaning that no file exists at the path. -/
structure Host where
  PathSeparator : Char
  TokenizeFile : String → Option VirconASMLexer

/-- Modelled from the spec: the preprocessor object (`VirconASMPreprocessor` of
the preprocessor header): context stack, definitions map and processed tokens.
`Warnings` records what `EmitWarning` prints. -/
structure VirconASMPreprocessor where
  ContextStack : List ProcessingContext
  Definitions : DefinitionsMap
  ProcessedTokens : TokenList
  Warnings : List (SourceLocation × String)
deriving DecidableEq, Repr

/-! ## Context handling -/

/-- Embedding of `PushContext( VirconASMLexer& )`. -/
def PushContextLexer (P : VirconASMPreprocessor) (Lexer : VirconASMLexer) :
    Except Failure VirconASMPreprocessor :=
  match Lexer.TokenLines with
  | (First :: _) :: _ =>
    .ok { P with ContextStack :=
            { ReferenceFolder := Lexer.InputDirectory
              FilePath := First.Location.FilePath
              SourceLines := Lexer.TokenLines
              LinePosition := 0
              IfStack := [] } :: P.ContextStack }
  | _ => .error .Undefined

/-- Embedding of `PushContext( SourceLocation, const std::string& )`. -/
def PushContextFile (H : Host) (P : VirconASMPreprocessor) (Location : SourceLocation)
    (FilePath : String) : Except Failure VirconASMPreprocessor :=
  match P.ContextStack with
  | [] => .error .Undefined
  | Top :: _ =>
    let PathToInclude := (Top.ReferenceFolder.push H.PathSeparator) ++ FilePath
    match H.TokenizeFile PathToInclude with
    | none => .error (.Error Location ("cannot open include file \"" ++ FilePath ++ "\""))
    | some Lexer => PushContextLexer P Lexer

/-- Embedding of `PopContext`. -/
def PopContext (P : VirconASMPreprocessor) : VirconASMPreprocessor :=
  { P with ContextStack := P.ContextStack.tail }

/-- Embedding of `IncludeFile`. -/
def IncludeFile (H : Host) (P : VirconASMPreprocessor) (Location : SourceLocation)
    (FilePath : String) : Except Failure VirconASMPreprocessor :=
  PushContextFile H P Location FilePath

/-! ## Replacement of definitions -/

/-- One call of `ReplaceDefinitions( Line )`: the rewritten line and the flag
`WereReplacementsMade`.  An identifier found in the map is erased and the
clones of the definition's tokens, relocated to the identifier's location, are
linked in its place; scanning resumes after them.  (The source links the clones
through `ProcessedTokens.insert( Position, … )` where `Position` iterates over
`Line`: a list insert links the new node before `Position`, that is, into
`Line`.) -/
def ReplaceDefinitions (Definitions : DefinitionsMap) : TokenList → TokenList × Bool
  | [] => ([], false)
  | NextToken :: Rest =>
    let Tail := ReplaceDefinitions Definitions Rest
    match NextToken.Data with
    | .Identifier IdentifierName =>
      match Definitions.find IdentifierName with
      | none => (NextToken :: Tail.1, Tail.2)
      | some ValueTokens =>
        (ValueTokens.map (fun ValueToken => { ValueToken with Location := NextToken.Location })
            ++ Tail.1, true)
    | _ => (NextToken :: Tail.1, Tail.2)

/-- The replacement loop of `ProcessLine` (CASE 3),
`while( ReplaceDefinitions( Line ) ) { DefinitionCycles++; if( DefinitionCycles > 10 ) EmitError(…) }`,
entered with `PassesLeft = 10 - DefinitionCycles`: the counter of the source
counts up to the cap, this one counts down from it, so that the test
`DefinitionCycles + 1 > 10` reads `PassesLeft = 0`.  The error is located at
`Line.front()`, read from the line as the pass has just rewritten it. -/
def ReplaceLoop (Definitions : DefinitionsMap) : Nat → TokenList → Except Failure TokenList
  | PassesLeft, Line =>
    let Pass := ReplaceDefinitions Definitions Line
    if Pass.2 then
      match PassesLeft with
      | 0 =>
        match Pass.1 with
        | [] => .error .Undefined
        | Front :: _ =>
          .error (.Error Front.Location
            "definition replacement is too deep (possible circular reference)")
      | Fewer + 1 => ReplaceLoop Definitions Fewer Pass.1
    else .ok Pass.1

/-! ## Directive parsers -/

/-- Embedding of `ExpectIdentifier( TokenPosition )` on the tokens of `Line`: the name and
the advanced iterator. -/
def ExpectIdentifier (Line : TokenList) (TokenPosition : Nat) : Except Failure (String × Nat) :=
  match Line[TokenPosition]? with
  | none => .error .Undefined
  | some NextToken =>
    if IsLastToken NextToken then
      match TokenPosition with
      | 0 => .error .Undefined
      | Before + 1 =>
        match Line[Before]? with
        | some PreviousToken => .error (.Error PreviousToken.Location "unexpected end of file")
        | none => .error .Undefined
    else
      match NextToken.Data with
      | .Identifier Name => .ok (Name, TokenPosition + 1)
      | _ => .error (.Error NextToken.Location "expected identifier")

/-- The location of `*DirectiveLine.begin()`. -/
def FrontLocation (Line : TokenList) : Except Failure SourceLocation :=
  match Line with
  | [] => .error .Undefined
  | Front :: _ => .ok Front.Location

/-- The check `if( TokenPosition != DirectiveLine.end() ) EmitError( …, "expected end of line" )`. -/
def ExpectEndOfLine (Line : TokenList) (TokenPosition : Nat) : Except Failure Unit :=
  match Line[TokenPosition]? with
  | some Extra => .error (.Error Extra.Location "expected end of line")
  | none => .ok ()

/-- Embedding of `ProcessInclude`. -/
def ProcessInclude (H : Host) (P : VirconASMPreprocessor) (DirectiveLine : TokenList) :
    Except Failure VirconASMPreprocessor :=
  match DirectiveLine[2]? with
  | none => do
    let Location ← FrontLocation DirectiveLine
    .error (.Error Location "include file path is missing")
  | some FilePathToken =>
    match FilePathToken.Data with
    | .LiteralString IncludedFilePath => do
      ExpectEndOfLine DirectiveLine 3
      IncludeFile H P FilePathToken.Location IncludedFilePath
    | _ => .error (.Error FilePathToken.Location "expected file path string")

/-- The loop of `ProcessDefine` that copies the tokens after the name into the
definition, rejecting the name itself and the percent symbol. -/
def CollectDefinition (DefinitionName : String) :
    TokenList → TokenList → Except Failure TokenList
  | [], DefinitionValueTokens => .ok DefinitionValueTokens
  | NextToken :: Rest, DefinitionValueTokens =>
    if NextToken.Data = .Identifier DefinitionName then
      .error (.Error NextToken.Location
        "a definition cannot contain itself (circular reference)")
    else if TokenIsThisSymbol NextToken .Percent then
      .error (.Error NextToken.Location "definitions cannot contain the percent symbol (%)")
    else CollectDefinition DefinitionName Rest (DefinitionValueTokens ++ [NextToken])

/-- Embedding of `ProcessDefine`. -/
def ProcessDefine (P : VirconASMPreprocessor) (DirectiveLine : TokenList) :
    Except Failure VirconASMPreprocessor :=
  match DirectiveLine[2]? with
  | none => do
    let Location ← FrontLocation DirectiveLine
    .error (.Error Location "definition name is missing")
  | some _ => do
    let (DefinitionName, TokenPosition) ← ExpectIdentifier DirectiveLine 2
    let Cleared := P.Definitions.assign DefinitionName []
    let DefinitionValueTokens ←
      CollectDefinition DefinitionName (DirectiveLine.drop TokenPosition) []
    .ok { P with Definitions := Cleared.assign DefinitionName DefinitionValueTokens }

/-- Embedding of `ProcessUndef`. -/
def ProcessUndef (P : VirconASMPreprocessor) (DirectiveLine : TokenList) :
    Except Failure VirconASMPreprocessor :=
  match DirectiveLine[2]? with
  | none => do
    let Location ← FrontLocation DirectiveLine
    .error (.Error Location "definition name is missing")
  | some _ => do
    let (DefinitionName, TokenPosition) ← ExpectIdentifier DirectiveLine 2
    ExpectEndOfLine DirectiveLine TokenPosition
    match P.Definitions.find DefinitionName with
    | some _ => .ok { P with Definitions := P.Definitions.erase DefinitionName }
    | none => .ok P

/-- Replaces `ContextStack.back()`. -/
def SetTop (P : VirconASMPreprocessor) (Top : ProcessingContext) : VirconASMPreprocessor :=
  { P with ContextStack := Top :: P.ContextStack.tail }

/-- Embedding of `ProcessIf( IsIfndef )`. -/
def ProcessIf (P : VirconASMPreprocessor) (DirectiveLine : TokenList) (IsIfndef : Bool) :
    Except Failure VirconASMPreprocessor :=
  match DirectiveLine[2]? with
  | none => do
    let Location ← FrontLocation DirectiveLine
    .error (.Error Location "expected an identifier")
  | some _ => do
    let (QueriedDefinition, TokenPosition) ← ExpectIdentifier DirectiveLine 2
    ExpectEndOfLine DirectiveLine TokenPosition
    let Location ← FrontLocation DirectiveLine
    match P.ContextStack with
    | [] => .error .Undefined
    | Top :: _ =>
      let DefinitionExists := (P.Definitions.find QueriedDefinition).isSome
      let AddedContext : IfContext :=
        { StartingLine := Location.Line
          ElseWasFound := false
          ConditionIsMet := (DefinitionExists == !IsIfndef) }
      .ok (SetTop P { Top with IfStack := AddedContext :: Top.IfStack })

/-- Embedding of `ProcessElse`. -/
def ProcessElse (P : VirconASMPreprocessor) (DirectiveLine : TokenList) :
    Except Failure VirconASMPreprocessor := do
  ExpectEndOfLine DirectiveLine 2
  let Location ← FrontLocation DirectiveLine
  match P.ContextStack with
  | [] => .error .Undefined
  | Top :: _ =>
    match Top.IfStack with
    | [] => .error (.Error Location "%else with no previous %if")
    | Frame :: Outer =>
      if Frame.ElseWasFound then
        .error (.Error Location "%else can only be used once per %if")
      else
        .ok (SetTop P { Top with IfStack := { Frame with ElseWasFound := true } :: Outer })

/-- Embedding of `ProcessEndif`. -/
def ProcessEndif (P : VirconASMPreprocessor) (DirectiveLine : TokenList) :
    Except Failure VirconASMPreprocessor := do
  ExpectEndOfLine DirectiveLine 2
  let Location ← FrontLocation DirectiveLine
  match P.ContextStack with
  | [] => .error .Undefined
  | Top :: _ =>
    match Top.IfStack with
    | [] => .error (.Error Location "#endif with no previous #if")
    | _ :: Outer => .ok (SetTop P { Top with IfStack := Outer })

/-- Embedding of `ProcessError( WarningOnly )`. -/
def ProcessError (P : VirconASMPreprocessor) (DirectiveLine : TokenList) (WarningOnly : Bool) :
    Except Failure VirconASMPreprocessor :=
  match DirectiveLine[2]? with
  | none => .error .Undefined
  | some MessageToken =>
    match MessageToken.Data with
    | .LiteralString Message => do
      ExpectEndOfLine DirectiveLine 3
      let Location ← FrontLocation DirectiveLine
      if WarningOnly then .ok { P with Warnings := P.Warnings ++ [(Location, Message)] }
      else .error (.Error Location Message)
    | _ => .error (.Error MessageToken.Location "expected a string")

/-! ## Line processing -/

/-- The dispatch on the directive name at the end of `ProcessLine` (CASE 4),
once the name has been read and ignored directives have been discarded. -/
def ProcessDirective (H : Host) (P : VirconASMPreprocessor) (Line : TokenList)
    (Front : Token) (DirectiveName : String) : Except Failure VirconASMPreprocessor :=
  if DirectiveName = "include" then
    if P.ContextStack.length > 20 then
      .error (.Error Front.Location
        "includes are too deeply nested (possible circular references)")
    else ProcessInclude H P Line
  else if DirectiveName = "define" then ProcessDefine P Line
  else if DirectiveName = "undef" then ProcessUndef P Line
  else if DirectiveName = "ifdef" then ProcessIf P Line false
  else if DirectiveName = "ifndef" then ProcessIf P Line true
  else if DirectiveName = "else" then ProcessElse P Line
  else if DirectiveName = "endif" then ProcessEndif P Line
  else if DirectiveName = "error" then ProcessError P Line false
  else if DirectiveName = "warning" then ProcessError P Line true
  else
    .error (.Error Front.Location
      ("unsupported preprocessor directive \"" ++ DirectiveName ++ "\""))

/-- The test that keeps the four conditional directives alive inside an
ignored section. -/
def IsConditionalName (DirectiveName : String) : Bool :=
  !(DirectiveName != "ifdef" && DirectiveName != "ifndef"
    && DirectiveName != "else" && DirectiveName != "endif")

/-- Embedding of `ProcessLine`, on the current line of `ContextStack.back()`. -/
def ProcessLine (H : Host) (P : VirconASMPreprocessor) : Except Failure VirconASMPreprocessor :=
  match P.ContextStack with
  | [] => .error .Undefined
  | Top :: _ => do
    let Line ← Top.GetCurrentLine
    match Line with
    -- CASE 1: empty lines are ignored
    | [] => .ok P
    | Front :: _ =>
      -- CASE 2: no start/end of file tokens from included files
      if decide (P.ContextStack.length > 1)
          && (Front.Type == .StartOfFile || Front.Type == .EndOfFile) then .ok P
      else
        let LineIsIgnored := !Top.AreAllIfConditionsMet
        let LineIsDirective := TokenIsThisSymbol Front .Percent
        if !LineIsDirective then
          -- CASE 3: non-directive lines
          if !LineIsIgnored then do
            let Replaced ← ReplaceLoop P.Definitions 10 Line
            .ok { SetTop P { Top with SourceLines := Top.SourceLines.set Top.LinePosition Replaced }
                  with ProcessedTokens := P.ProcessedTokens ++ Replaced }
          else .ok P
        else
          -- CASE 4: directives
          match Line[1]? with
          | none => .ok P
          | some _ => do
            let (DirectiveName, _) ← ExpectIdentifier Line 1
            if LineIsIgnored && !IsConditionalName DirectiveName then .ok P
            else ProcessDirective H P Line Front DirectiveName

/-! ## The main loop -/

/-- Applies `f` to the element at position `Index` of a list. -/
def ModifyAt {α : Type} (f : α → α) : Nat → List α → List α
  | _, [] => []
  | 0, X :: Rest => f X :: Rest
  | Index + 1, X :: Rest => X :: ModifyAt f Index Rest

/-- The statement `ContextBeingProcessed.Advance()` after `ProcessLine`: the
context advanced is the one that was `ContextStack.back()` BEFORE the line was
processed, when the stack held `SizeBefore` contexts. -/
def AdvanceContextBeingProcessed (SizeBefore : Nat) (P : VirconASMPreprocessor) :
    VirconASMPreprocessor :=
  { P with ContextStack :=
      ModifyAt ProcessingContext.Advance (P.ContextStack.length - SizeBefore) P.ContextStack }

/-- One turn of the loops of `Preprocess`: with no context left the loops are
over; a context whose lines have ended is popped; otherwise the current line
is processed and the context it belongs to advanced. -/
def LoopStep (H : Host) (P : VirconASMPreprocessor) : Except Failure VirconASMPreprocessor :=
  match P.ContextStack with
  | [] => .ok P
  | Top :: _ =>
    if Top.LinesHaveEnded then .ok (PopContext P)
    else do
      let Q ← ProcessLine H P
      .ok (AdvanceContextBeingProcessed P.ContextStack.length Q)

/-- The loops of `Preprocess`, run for at most `Fuel` turns. -/
def RunLoop (H : Host) : Nat → VirconASMPreprocessor → Except Failure VirconASMPreprocessor
  | 0, P => .ok P
  | Fuel + 1, P =>
    match LoopStep H P with
    | .error E => .error E
    | .ok Q => RunLoop H Fuel Q

/-- The state in which `Preprocess` enters its loops: previous contexts,
definitions and results deleted, the context of the lexer pushed. -/
def StartState (Lexer : VirconASMLexer) : Except Failure VirconASMPreprocessor :=
  PushContextLexer { ContextStack := [], Definitions := [], ProcessedTokens := [], Warnings := [] }
    Lexer

/-- Embedding of `Preprocess( Lexer )` on a preprocessor object `Previous`, with at most
`Fuel` turns of its loops.  The run is complete when the resulting context
stack is empty. -/
def Preprocess (H : Host) (Fuel : Nat) (Previous : VirconASMPreprocessor)
    (Lexer : VirconASMLexer) : Except Failure VirconASMPreprocessor :=
  match PushContextLexer
      { Previous with ContextStack := [], Definitions := [], ProcessedTokens := [], Warnings := [] }
      Lexer with
  | .error E => .error E
  | .ok P => RunLoop H Fuel P

/-- The states that the loops of `Preprocess` pass through on a lexer input. -/
inductive Reachable (H : Host) (Lexer : VirconASMLexer) : VirconASMPreprocessor → Prop
  | start {P : VirconASMPreprocessor} : StartState Lexer = .ok P → Reachable H Lexer P
  | step {P Q : VirconASMPreprocessor} :
      Reachable H Lexer P → LoopStep H P = .ok Q → Reachable H Lexer Q

/-! ## Replacement: the shape of a pass -/

/-- A token that a pass of `ReplaceDefinitions` replaces: an identifier whose
name is a key of the definitions map. -/
def IsDefinedIdentifier (D : DefinitionsMap) (T : Token) : Bool :=
  match T.Data with
  | .Identifier Name => (D.find Name).isSome
  | _ => false

/-- What one pass puts in the place of one token. -/
def ReplaceToken (D : DefinitionsMap) (T : Token) : TokenList :=
  match T.Data with
  | .Identifier Name =>
    match D.find Name with
    | none => [T]
    | some ValueTokens => ValueTokens.map (fun V => { V with Location := T.Location })
  | _ => [T]

/-- The line after `Passes` calls of `ReplaceDefinitions`. -/
def PassesOn (D : DefinitionsMap) : Nat → TokenList → TokenList
  | 0, Line => Line
  | Passes + 1, Line => PassesOn D Passes (ReplaceDefinitions D Line).1

/-! ## Vocabulary for the properties -/

/-- The preprocessor stands on a line that CASE 3 of `ProcessLine` copies to
the output: the current line `Line` of `ContextStack.back()` is not empty, is
not a file marker of an included file, does not start with `%`, and every
if-condition of the context is met. -/
def EmitsCurrentLine (P : VirconASMPreprocessor) (Line : TokenList) : Prop :=
  ∃ Top Below Front Rest,
    P.ContextStack = Top :: Below ∧ Top.GetCurrentLine = .ok Line ∧ Line = Front :: Rest
    ∧ ¬ (Below ≠ [] ∧ (Front.Type = .StartOfFile ∨ Front.Type = .EndOfFile))
    ∧ TokenIsThisSymbol Front .Percent = false
    ∧ Top.AreAllIfConditionsMet = true

/-- The token `U` is a clone of a token stored in the definitions map, with its
location rewritten to `Location`. -/
def IsRelocatedDefinitionToken (D : DefinitionsMap) (Location : SourceLocation) (U : Token) :
    Prop :=
  ∃ Name Value V, D.find Name = some Value ∧ V ∈ Value ∧ U = { V with Location := Location }

/-- What the tokens put in the place of the token `T` of a line look like: for
an identifier that names a definition, clones of definition tokens located at
`T`; for any other token, the token itself. -/
def ExpandsTo (D : DefinitionsMap) (T : Token) (Piece : TokenList) : Prop :=
  if IsDefinedIdentifier D T then
    ∀ U ∈ Piece, U.Location = T.Location ∧ IsRelocatedDefinitionToken D T.Location U
  else Piece = [T]

/-! ## Sample inputs -/

/-- A location in the sample file `main.asm`. -/
def At (Line : Int) : SourceLocation := ⟨"main.asm", Line⟩

/-- The sample host: POSIX separator, no file to include. -/
def NoFiles : Host := ⟨'/', fun _ => none⟩

/-- A preprocessor object before its first use. -/
def Fresh : VirconASMPreprocessor :=
  { ContextStack := [], Definitions := [], ProcessedTokens := [], Warnings := [] }

/-- The sample program
```
%define X 5
%define Y X+X
MOV R0, Y
```
between its file markers. -/
def SampleDefines : VirconASMLexer :=
  { InputDirectory := "."
    TokenLines :=
      [ [⟨At 0, .StartOfFile⟩],
        [⟨At 1, .Symbol .Percent⟩, ⟨At 1, .Identifier "define"⟩, ⟨At 1, .Identifier "X"⟩,
          ⟨At 1, .LiteralInteger 5⟩],
        [⟨At 2, .Symbol .Percent⟩, ⟨At 2, .Identifier "define"⟩, ⟨At 2, .Identifier "Y"⟩,
          ⟨At 2, .Identifier "X"⟩, ⟨At 2, .Symbol .Plus⟩, ⟨At 2, .Identifier "X"⟩],
        [⟨At 3, .Other "MOV"⟩, ⟨At 3, .Other "R0"⟩, ⟨At 3, .Symbol .Comma⟩,
          ⟨At 3, .Identifier "Y"⟩],
        [⟨At 4, .EndOfFile⟩] ] }

/-- The state of the sample program when its third line `MOV R0, Y` is the
current line: both definitions are in the map. -/
def SampleAtMov : VirconASMPreprocessor :=
  { ContextStack :=
      [ { ReferenceFolder := ".", FilePath := "main.asm"
          SourceLines := SampleDefines.TokenLines, LinePosition := 3, IfStack := [] } ]
    Definitions :=
      [ ("Y", [⟨At 2, .Identifier "X"⟩, ⟨At 2, .Symbol .Plus⟩, ⟨At 2, .Identifier "X"⟩]),
        ("X", [⟨At 1, .LiteralInteger 5⟩]) ]
    ProcessedTokens := [⟨At 0, .StartOfFile⟩]
    Warnings := [] }

/-- The `%` token of a sample line. -/
def PercentAt (Line : Int) : Token := ⟨At Line, .Symbol .Percent⟩

/-- An identifier token of a sample line. -/
def IdentifierAt (Line : Int) (Name : String) : Token := ⟨At Line, .Identifier Name⟩

/-- The failure of the replacement cap, located at the front of the line as
the last pass left it. -/
def TooDeep (Line : TokenList) : Failure :=
  match Line with
  | [] => .Undefined
  | Front :: _ =>
    .Error Front.Location "definition replacement is too deep (possible circular reference)"

/-- A chain of eleven definitions, the last of them empty, and a line that
uses the first:
```
%define A11
%define A10 A11
   ...
%define A1 A2
A1
```
Eleven passes replace something on the line `A1`, and the eleventh leaves the
line empty. -/
def SampleChain : VirconASMLexer :=
  { InputDirectory := "."
    TokenLines :=
      [ [⟨At 0, .StartOfFile⟩],
        [PercentAt 1, IdentifierAt 1 "define", IdentifierAt 1 "A11"],
        [PercentAt 2, IdentifierAt 2 "define", IdentifierAt 2 "A10", IdentifierAt 2 "A11"],
        [PercentAt 3, IdentifierAt 3 "define", IdentifierAt 3 "A9", IdentifierAt 3 "A10"],
        [PercentAt 4, IdentifierAt 4 "define", IdentifierAt 4 "A8", IdentifierAt 4 "A9"],
        [PercentAt 5, IdentifierAt 5 "define", IdentifierAt 5 "A7", IdentifierAt 5 "A8"],
        [PercentAt 6, IdentifierAt 6 "define", IdentifierAt 6 "A6", IdentifierAt 6 "A7"],
        [PercentAt 7, IdentifierAt 7 "define", IdentifierAt 7 "A5", IdentifierAt 7 "A6"],
        [PercentAt 8, IdentifierAt 8 "define", IdentifierAt 8 "A4", IdentifierAt 8 "A5"],
        [PercentAt 9, IdentifierAt 9 "define", IdentifierAt 9 "A3", IdentifierAt 9 "A4"],
        [PercentAt 10, IdentifierAt 10 "define", IdentifierAt 10 "A2", IdentifierAt 10 "A3"],
        [PercentAt 11, IdentifierAt 11 "define", IdentifierAt 11 "A1", IdentifierAt 11 "A2"],
        [IdentifierAt 12 "A1"],
        [⟨At 13, .EndOfFile⟩] ] }

/-- Two definitions that use each other, and a line that uses one of them:
```
%define A B
%define B A
A
```
-/
def SampleMutual : VirconASMLexer :=
  { InputDirectory := "."
    TokenLines :=
      [ [⟨At 0, .StartOfFile⟩],
        [PercentAt 1, IdentifierAt 1 "define", IdentifierAt 1 "A", IdentifierAt 1 "B"],
        [PercentAt 2, IdentifierAt 2 "define", IdentifierAt 2 "B", IdentifierAt 2 "A"],
        [IdentifierAt 3 "A"],
        [⟨At 4, .EndOfFile⟩] ] }

/-- The condition under which the spec has `%define` rejected, on the tokens
`Rest` that follow the directive name: the name is missing or is not an
identifier, or the tokens after the name contain an identifier equal to the
name or a `%` symbol. -/
def DefineIsRejected (Rest : TokenList) : Prop :=
  match Rest with
  | [] => True
  | NameToken :: Tokens =>
    match NameToken.Data with
    | .Identifier Name => ∃ T ∈ Tokens, T.Data = .Identifier Name ∨ T.Data = .Symbol .Percent
    | _ => True

/-- The state of the sample program when its second line `%define Y X+X` is
the current line. -/
def SampleAtDefineY : VirconASMPreprocessor :=
  { ContextStack :=
      [ { ReferenceFolder := ".", FilePath := "main.asm"
          SourceLines := SampleDefines.TokenLines, LinePosition := 2, IfStack := [] } ]
    Definitions := [ ("X", [⟨At 1, .LiteralInteger 5⟩]) ]
    ProcessedTokens := [⟨At 0, .StartOfFile⟩]
    Warnings := [] }

/-- A sample state inside a conditional section: the current line is `%else`,
the innermost frame belongs to an `%ifdef` whose condition was met, and an
outer frame is open as well. -/
def SampleAtElse : VirconASMPreprocessor :=
  { ContextStack :=
      [ { ReferenceFolder := ".", FilePath := "main.asm"
          SourceLines :=
            [ [⟨At 0, .StartOfFile⟩],
              [PercentAt 1, IdentifierAt 1 "ifndef", IdentifierAt 1 "Z"],
              [PercentAt 2, IdentifierAt 2 "ifdef", IdentifierAt 2 "X"],
              [PercentAt 3, IdentifierAt 3 "else"],
              [PercentAt 4, IdentifierAt 4 "else"],
              [PercentAt 5, IdentifierAt 5 "endif"],
              [PercentAt 6, IdentifierAt 6 "endif"],
              [⟨At 7, .EndOfFile⟩] ]
          LinePosition := 3
          IfStack := [ ⟨2, true, false⟩, ⟨1, true, false⟩ ] } ]
    Definitions := [ ("X", []) ]
    ProcessedTokens := [⟨At 0, .StartOfFile⟩]
    Warnings := [] }

/-! ## Lines that stay within one context and one if-stack -/

/-- The lines still to be processed in a context, the current one first. -/
def ProcessingContext.Pending (C : ProcessingContext) : List TokenList :=
  C.SourceLines.drop C.LinePosition

/-- What can still be observed of a context: its folder, file, if-stack and
pending lines.  Lines already processed are left out. -/
structure ContextView where
  ReferenceFolder : String
  FilePath : String
  IfStack : List IfContext
  Pending : List TokenList
deriving DecidableEq, Repr

/-- The observable part of a context. -/
def ProcessingContext.View (C : ProcessingContext) : ContextView :=
  { ReferenceFolder := C.ReferenceFolder, FilePath := C.FilePath
    IfStack := C.IfStack, Pending := C.Pending }

/-- What can still be observed of a preprocessor state: definitions, output,
warnings and the observable part of every context. -/
structure Observation where
  Definitions : DefinitionsMap
  ProcessedTokens : TokenList
  Warnings : List (SourceLocation × String)
  Contexts : List ContextView
deriving DecidableEq, Repr

/-- The observable part of a preprocessor state. -/
def Observe (P : VirconASMPreprocessor) : Observation :=
  { Definitions := P.Definitions, ProcessedTokens := P.ProcessedTokens
    Warnings := P.Warnings, Contexts := P.ContextStack.map ProcessingContext.View }

/-- The line is the directive `%Name` followed by tokens with the payloads
`Arguments`, and nothing else. -/
def IsDirectiveLine (Name : String) (Arguments : List TokenData) (Line : TokenList) : Prop :=
  Line.map Token.Data = .Symbol .Percent :: .Identifier Name :: Arguments

/-- A line that is neither an `%include` nor one of the four conditional
directives: processing it pushes no context and leaves every if-stack alone. -/
def IsFlatLine (Line : TokenList) : Bool :=
  match Line with
  | Front :: Keyword :: _ =>
    if TokenIsThisSymbol Front .Percent then
      match Keyword.Data with
      | .Identifier Name => !(Name == "include" || IsConditionalName Name)
      | _ => true
    else true
  | _ => true

/-- A line that an ignored section passes over in silence: a non-directive
line, a lone `%`, or a directive named by an identifier other than the four
conditional directives. -/
def IsSkippedLine (Line : TokenList) : Bool :=
  match Line with
  | Front :: Keyword :: _ =>
    if TokenIsThisSymbol Front .Percent then
      match Keyword.Data with
      | .Identifier Name => !IsConditionalName Name
      | _ => false
    else true
  | _ => true

/-- The preprocessor state reduced to its definitions map. -/
def Bare (D : DefinitionsMap) : VirconASMPreprocessor :=
  { ContextStack := [], Definitions := D, ProcessedTokens := [], Warnings := [] }

/-- The effect of one line on the state outside the contexts: the definitions
after the line, the tokens it appends to the output, the warnings it prints,
and the line as it is left in `SourceLines`. -/
structure LineOutcome where
  Definitions : DefinitionsMap
  Emitted : TokenList
  Warned : List (SourceLocation × String)
  Rewritten : TokenList

/-- The effect of `ProcessLine` on a flat line, computed from what the line can
see: whether the context is an included one (`Nested`), whether its
if-conditions are met (`Active`), and the definitions. -/
def FlatLine (H : Host) (Nested Active : Bool) (D : DefinitionsMap) (Line : TokenList) :
    Except Failure LineOutcome :=
  match Line with
  | [] => .ok ⟨D, [], [], Line⟩
  | Front :: _ =>
    if Nested && (Front.Type == .StartOfFile || Front.Type == .EndOfFile) then
      .ok ⟨D, [], [], Line⟩
    else if !TokenIsThisSymbol Front .Percent then
      if Active then
        match ReplaceLoop D 10 Line with
        | .error E => .error E
        | .ok Replaced => .ok ⟨D, Replaced, [], Replaced⟩
      else .ok ⟨D, [], [], Line⟩
    else
      match Line[1]? with
      | none => .ok ⟨D, [], [], Line⟩
      | some _ =>
        match ExpectIdentifier Line 1 with
        | .error E => .error E
        | .ok (DirectiveName, _) =>
          if !Active && !IsConditionalName DirectiveName then .ok ⟨D, [], [], Line⟩
          else
            match ProcessDirective H (Bare D) Line Front DirectiveName with
            | .error E => .error E
            | .ok Q => .ok ⟨Q.Definitions, [], Q.Warnings, Line⟩

/-- The effect of a sequence of lines on the state outside the contexts. -/
structure LinesOutcome where
  Definitions : DefinitionsMap
  Emitted : TokenList
  Warned : List (SourceLocation × String)
  Rewritten : List TokenList

/-- The effect of processing a sequence of flat lines one after the other. -/
def FlatLines (H : Host) (Nested Active : Bool) :
    DefinitionsMap → List TokenList → Except Failure LinesOutcome
  | D, [] => .ok ⟨D, [], [], []⟩
  | D, Line :: Rest =>
    match FlatLine H Nested Active D Line with
    | .error E => .error E
    | .ok First =>
      match FlatLines H Nested Active First.Definitions Rest with
      | .error E => .error E
      | .ok Others =>
        .ok ⟨Others.Definitions, First.Emitted ++ Others.Emitted,
          First.Warned ++ Others.Warned, First.Rewritten :: Others.Rewritten⟩

/-- The state after a flat line: the outcome installed, the line rewritten in
place and the context advanced. -/
def AfterLine (P : VirconASMPreprocessor) (Top : ProcessingContext)
    (Below : List ProcessingContext) (O : LineOutcome) : VirconASMPreprocessor :=
  { ContextStack :=
      { Top with SourceLines := Top.SourceLines.set Top.LinePosition O.Rewritten
                 LinePosition := Top.LinePosition + 1 } :: Below
    Definitions := O.Definitions
    ProcessedTokens := P.ProcessedTokens ++ O.Emitted
    Warnings := P.Warnings ++ O.Warned }

/-- A line that CASE 3 of `ProcessLine` handles in a context that is included
(`Nested`) or not: it does not start with `%` and is not a file marker of an
included file. -/
def IsOrdinaryLine (Nested : Bool) (Line : TokenList) : Bool :=
  match Line with
  | [] => true
  | Front :: _ =>
    !TokenIsThisSymbol Front .Percent
      && !(Nested && (Front.Type == .StartOfFile || Front.Type == .EndOfFile))

/-- The tokens that a sequence of ordinary lines puts on the output under the
definitions `D`: line after line, what the replacement loop makes of it. -/
def EmitLines (D : DefinitionsMap) : List TokenList → Except Failure TokenList
  | [] => .ok []
  | Line :: Rest =>
    match ReplaceLoop D 10 Line with
    | .error E => .error E
    | .ok Replaced =>
      match EmitLines D Rest with
      | .error E => .error E
      | .ok Others => .ok (Replaced ++ Others)

/-- The directive name of an `%ifdef` or `%ifndef`. -/
def IfKeyword (IsIfndef : Bool) : String :=
  if IsIfndef then "ifndef" else "ifdef"

/-- A sample that defines `X`, removes it, and asks for it:
```
%define X 1
%undef X
%ifdef X        (resp. %ifndef X)
MOV R0, X
```
-/
def SampleUndefLines (IsIfndef : Bool) : List TokenList :=
  [ [⟨At 0, .StartOfFile⟩],
    [PercentAt 1, IdentifierAt 1 "define", IdentifierAt 1 "X", ⟨At 1, .LiteralInteger 1⟩],
    [PercentAt 2, IdentifierAt 2 "undef", IdentifierAt 2 "X"],
    [PercentAt 3, IdentifierAt 3 (IfKeyword IsIfndef), IdentifierAt 3 "X"],
    [⟨At 4, .Other "MOV"⟩, ⟨At 4, .Other "R0"⟩, ⟨At 4, .Symbol .Comma⟩, IdentifierAt 4 "X"],
    [⟨At 5, .EndOfFile⟩] ]

/-- The context of the sample, standing at line `Position`. -/
def SampleUndefContext (IsIfndef : Bool) (Position : Nat) : ProcessingContext :=
  { ReferenceFolder := ".", FilePath := "main.asm"
    SourceLines := SampleUndefLines IsIfndef, LinePosition := Position, IfStack := [] }

/-- The sample state standing at line `Position`, nothing defined. -/
def SampleAtUndef (IsIfndef : Bool) (Position : Nat) : VirconASMPreprocessor :=
  { ContextStack := [SampleUndefContext IsIfndef Position]
    Definitions := []
    ProcessedTokens := [⟨At 0, .StartOfFile⟩]
    Warnings := [] }

/-! ## Included files -/

/-- What holds of the context stack in every state that `Preprocess` passes
through: it holds at most 21 contexts, and in every context other than
`ContextStack.back()` all if-conditions are met. -/
def StackInvariant (P : VirconASMPreprocessor) : Prop :=
  P.ContextStack.length ≤ 21
    ∧ ∀ C ∈ P.ContextStack.tail, C.AreAllIfConditionsMet = true

/-- A location in the sample file `part.asm`. -/
def InPart (Line : Int) : SourceLocation := ⟨"part.asm", Line⟩

/-- A location in the sample file `loop.asm`. -/
def InLoop (Line : Int) : SourceLocation := ⟨"loop.asm", Line⟩

/-- The sample file `part.asm`:
```
%ifndef Y
MOV R0, X
%endif
```
between its file markers. -/
def SamplePart : VirconASMLexer :=
  { InputDirectory := "."
    TokenLines :=
      [ [⟨InPart 0, .StartOfFile⟩],
        [⟨InPart 1, .Symbol .Percent⟩, ⟨InPart 1, .Identifier "ifndef"⟩,
          ⟨InPart 1, .Identifier "Y"⟩],
        [⟨InPart 2, .Other "MOV"⟩, ⟨InPart 2, .Other "R0"⟩, ⟨InPart 2, .Symbol .Comma⟩,
          ⟨InPart 2, .Identifier "X"⟩],
        [⟨InPart 3, .Symbol .Percent⟩, ⟨InPart 3, .Identifier "endif"⟩],
        [⟨InPart 4, .EndOfFile⟩] ] }

/-- The sample file `loop.asm`, which includes itself:
```
%include "loop.asm"
```
between its file markers. -/
def SampleLoop : VirconASMLexer :=
  { InputDirectory := "."
    TokenLines :=
      [ [⟨InLoop 0, .StartOfFile⟩],
        [⟨InLoop 1, .Symbol .Percent⟩, ⟨InLoop 1, .Identifier "include"⟩,
          ⟨InLoop 1, .LiteralString "loop.asm"⟩],
        [⟨InLoop 2, .EndOfFile⟩] ] }

/-- The sample host: POSIX separator, and the two files `part.asm` and
`loop.asm` in the folder `.`. -/
def SampleFiles : Host :=
  { PathSeparator := '/'
    TokenizeFile := fun Path =>
      if Path = "./part.asm" then some SamplePart
      else if Path = "./loop.asm" then some SampleLoop
      else none }

/-- The sample file `main.asm` that includes `part.asm` inside a conditional
section:
```
%define X 5
%ifdef X
%include "part.asm"
%endif
```
between its file markers. -/
def SampleMain : VirconASMLexer :=
  { InputDirectory := "."
    TokenLines :=
      [ [⟨At 0, .StartOfFile⟩],
        [PercentAt 1, IdentifierAt 1 "define", IdentifierAt 1 "X", ⟨At 1, .LiteralInteger 5⟩],
        [PercentAt 2, IdentifierAt 2 "ifdef", IdentifierAt 2 "X"],
        [PercentAt 3, IdentifierAt 3 "include", ⟨At 3, .LiteralString "part.asm"⟩],
        [PercentAt 4, IdentifierAt 4 "endif"],
        [⟨At 5, .EndOfFile⟩] ] }

/-- The state of the run on `SampleMain` in which the line `MOV R0, X` of the
included file is the current line: two contexts, each with one open frame. -/
def SampleAtIncludedMov : VirconASMPreprocessor :=
  { ContextStack :=
      [ { ReferenceFolder := ".", FilePath := "part.asm"
          SourceLines := SamplePart.TokenLines, LinePosition := 2
          IfStack := [⟨1, true, false⟩] },
        { ReferenceFolder := ".", FilePath := "main.asm"
          SourceLines := SampleMain.TokenLines, LinePosition := 4
          IfStack := [⟨2, true, false⟩] } ]
    Definitions := [ ("X", [⟨At 1, .LiteralInteger 5⟩]) ]
    ProcessedTokens := [⟨At 0, .StartOfFile⟩]
    Warnings := [] }

/-- The state of the run on `SampleLoop` after 40 turns: the file has
included itself 20 times and stands, in the innermost context, on its
start-of-file line with the `%include` line next.  It is given by the run
itself (an aborted run has no such state). -/
def SampleAtDeepestInclude : VirconASMPreprocessor :=
  match Preprocess SampleFiles 41 Fresh SampleLoop with
  | .ok P => P
  | .error _ => Fresh

/-- The state that the turn on the line `MOV R0, X` of the included file leads
to (given by the turn itself). -/
def SampleAfterIncludedMov : VirconASMPreprocessor :=
  match LoopStep SampleFiles SampleAtIncludedMov with
  | .ok Q => Q
  | .error _ => Fresh

/-- The context in which nothing is open and nothing is left. -/
def NoContext : ProcessingContext :=
  { ReferenceFolder := "", FilePath := "", SourceLines := [], LinePosition := 0, IfStack := [] }

/-! ## The output, line by line -/

/-- The line on which the preprocessor stands, when that line is one whose
tokens go to the output: it is not a directive line and all if-conditions of
its context are met.  With `SkipMarkers` the start-of-file and end-of-file
lines of included files are left out as well, as CASE 2 of `ProcessLine` does;
without it, every active non-directive line counts. -/
def EmittedLine (SkipMarkers : Bool) (P : VirconASMPreprocessor) : Option TokenList :=
  match P.ContextStack with
  | [] => none
  | Top :: Below =>
    match Top.GetCurrentLine with
    | .error _ => none
    | .ok [] => none
    | .ok (Front :: Rest) =>
      if SkipMarkers && decide (Below ≠ [])
          && (Front.Type == .StartOfFile || Front.Type == .EndOfFile) then none
      else if !TokenIsThisSymbol Front .Percent && Top.AreAllIfConditionsMet then
        some (Front :: Rest)
      else none

/-- The tokens of the line on which the preprocessor stands after definition
substitution, when that line is one whose tokens go to the output; no tokens
otherwise. -/
def LineTokens (SkipMarkers : Bool) (P : VirconASMPreprocessor) : TokenList :=
  match EmittedLine SkipMarkers P with
  | none => []
  | some Line =>
    match ReplaceLoop P.Definitions 10 Line with
    | .ok Replaced => Replaced
    | .error _ => []

/-- The tokens contributed by the lines that a run of `Fuel` turns reaches, one
entry per turn, in the order in which the lines are reached. -/
def TokensByTurn (SkipMarkers : Bool) (H : Host) :
    Nat → VirconASMPreprocessor → List TokenList
  | 0, _ => []
  | Fuel + 1, P =>
    match LoopStep H P with
    | .error _ => []
    | .ok Q => LineTokens SkipMarkers P :: TokensByTurn SkipMarkers H Fuel Q

/-- The preprocessor after the complete run on `SampleMain` (given by the run
itself). -/
def SampleMainDone : VirconASMPreprocessor :=
  match Preprocess SampleFiles 13 Fresh SampleMain with
  | .ok Q => Q
  | .error _ => Fresh

/-! ## More sample states -/

/-- A sample state inside an included file, at the line of the given index:
line 1 is `%endif` and line 2 is `%else`, the if-stack of the included file is
empty and the including file has the frame of its `%ifdef X` open. -/
def SampleAtForeign (LinePosition : Nat) : VirconASMPreprocessor :=
  { ContextStack :=
      [ { ReferenceFolder := ".", FilePath := "part.asm"
          SourceLines :=
            [ [⟨InPart 0, .StartOfFile⟩],
              [⟨InPart 1, .Symbol .Percent⟩, ⟨InPart 1, .Identifier "endif"⟩],
              [⟨InPart 2, .Symbol .Percent⟩, ⟨InPart 2, .Identifier "else"⟩],
              [⟨InPart 3, .EndOfFile⟩] ]
          LinePosition := LinePosition
          IfStack := [] },
        { ReferenceFolder := ".", FilePath := "main.asm"
          SourceLines := SampleMain.TokenLines, LinePosition := 4
          IfStack := [⟨2, true, false⟩] } ]
    Definitions := [ ("X", [⟨At 1, .LiteralInteger 5⟩]) ]
    ProcessedTokens := [⟨At 0, .StartOfFile⟩]
    Warnings := [] }

/-- The sample of `SampleAtElse` two lines further: the current line is the
first `%endif`, and both frames are open. -/
def SampleAtEndif : VirconASMPreprocessor :=
  { ContextStack :=
      [ { ReferenceFolder := ".", FilePath := "main.asm"
          SourceLines :=
            [ [⟨At 0, .StartOfFile⟩],
              [PercentAt 1, IdentifierAt 1 "ifndef", IdentifierAt 1 "Z"],
              [PercentAt 2, IdentifierAt 2 "ifdef", IdentifierAt 2 "X"],
              [PercentAt 3, IdentifierAt 3 "else"],
              [PercentAt 4, IdentifierAt 4 "else"],
              [PercentAt 5, IdentifierAt 5 "endif"],
              [PercentAt 6, IdentifierAt 6 "endif"],
              [⟨At 7, .EndOfFile⟩] ]
          LinePosition := 5
          IfStack := [ ⟨2, true, true⟩, ⟨1, true, false⟩ ] } ]
    Definitions := [ ("X", []) ]
    ProcessedTokens := [⟨At 0, .StartOfFile⟩]
    Warnings := [] }

/-- A sample state whose current line is the unsupported directive
`%pragma once`. -/
def SampleAtPragma : VirconASMPreprocessor :=
  { ContextStack :=
      [ { ReferenceFolder := ".", FilePath := "main.asm"
          SourceLines :=
            [ [⟨At 0, .StartOfFile⟩],
              [PercentAt 1, IdentifierAt 1 "pragma", IdentifierAt 1 "once"],
              [⟨At 2, .EndOfFile⟩] ]
          LinePosition := 1
          IfStack := [] } ]
    Definitions := []
    ProcessedTokens := [⟨At 0, .StartOfFile⟩]
    Warnings := [] }

/-- The state of the run on `SampleMain` in which its line
`%include "part.asm"` is the current line. -/
def SampleAtInclude : VirconASMPreprocessor :=
  { ContextStack :=
      [ { ReferenceFolder := ".", FilePath := "main.asm"
          SourceLines := SampleMain.TokenLines, LinePosition := 3
          IfStack := [⟨2, true, false⟩] } ]
    Definitions := [ ("X", [⟨At 1, .LiteralInteger 5⟩]) ]
    ProcessedTokens := [⟨At 0, .StartOfFile⟩]
    Warnings := [] }

/-! ## The console: words and numbers

The writers of the GPU and SPU ports (`V32GPUWriters.cpp`, `V32SPUWriters.cpp`)
use types, constants and helper functions of headers that are not part of the
sources at hand; these are modelled here from the specification and from the
way the writers use them. -/

/-- Modelled from the spec: a 32-bit machine word (`V32Word`), a union whose
members `AsInteger`, `AsBinary`, `AsFloat` and `AsColor` are views of one bit
pattern.  The pattern is a natural number read modulo 2^32. -/
structure V32Word where
  Bits : Nat
deriving DecidableEq, Repr

/-- The conversion `(int32_t)` of a non-negative number: the two's complement
reading of its low 32 bits. -/
def ToInt32 (Number : Nat) : Int :=
  if Number % 4294967296 < 2147483648 then ((Number % 4294967296 : Nat) : Int)
  else ((Number % 4294967296 : Nat) : Int) - 4294967296

/-- Modelled from the spec: a single-precision number, kept as its bit pattern
(1 sign bit, 8 exponent bits, 23 mantissa bits). -/
structure Float32 where
  Bits : Nat
deriving DecidableEq, Repr

/-- Modelled from the spec: a GPU color (`GPUColor`), kept as its 32-bit pattern. -/
structure GPUColor where
  Bits : Nat
deriving DecidableEq, Repr

/-- The member `AsBinary` of a word. -/
def V32Word.AsBinary (Value : V32Word) : Nat := Value.Bits % 4294967296

/-- The member `AsInteger` of a word. -/
def V32Word.AsInteger (Value : V32Word) : Int := ToInt32 Value.Bits

/-- The member `AsFloat` of a word. -/
def V32Word.AsFloat (Value : V32Word) : Float32 := ⟨Value.Bits % 4294967296⟩

/-- The member `AsColor` of a word. -/
def V32Word.AsColor (Value : V32Word) : GPUColor := ⟨Value.Bits % 4294967296⟩

/-- The word whose member `AsInteger` is the given number (reduced to 32 bits). -/
def V32Word.OfInteger (Number : Int) : V32Word := ⟨(Number % 4294967296).toNat⟩

/-- The sign bit of a single-precision number. -/
def Float32.Sign (F : Float32) : Bool := decide (F.Bits / 2147483648 % 2 = 1)

/-- The biased exponent of a single-precision number. -/
def Float32.Exponent (F : Float32) : Nat := F.Bits / 8388608 % 256

/-- The mantissa bits of a single-precision number. -/
def Float32.Mantissa (F : Float32) : Nat := F.Bits % 8388608

/-- Modelled from the spec: `isnan` of `<cmath>`: all exponent bits set and a
mantissa other than zero. -/
def Float32.isnan (F : Float32) : Bool := decide (F.Exponent = 255) && decide (F.Mantissa ≠ 0)

/-- Modelled from the spec: `isinf` of `<cmath>`: all exponent bits set and a
mantissa of zero. -/
def Float32.isinf (F : Float32) : Bool := decide (F.Exponent = 255) && decide (F.Mantissa = 0)

/-- The position of a number that is not a NaN in the order of the
single-precision numbers: its magnitude bits, negated under a sign bit (so that
both zeros share a position). -/
def Float32.Key (F : Float32) : Int :=
  if F.Sign then -((F.Bits % 2147483648 : Nat) : Int) else ((F.Bits % 2147483648 : Nat) : Int)

/-- The comparison `<` of single-precision numbers, false when either is a NaN. -/
def Float32.Less (F G : Float32) : Bool :=
  !F.isnan && !G.isnan && decide (F.Key < G.Key)

/-- The conversion of an integer to single precision; exact for the integers
of magnitude below 2^24, the only ones the writers convert. -/
def Float32.OfInt (Number : Int) : Float32 :=
  if Number = 0 then ⟨0⟩
  else
    let Magnitude := Number.natAbs
    let Exponent := Nat.log2 Magnitude
    ⟨(if Number < 0 then 2147483648 else 0) + (Exponent + 127) * 8388608
      + (Magnitude - 2 ^ Exponent) * 2 ^ (23 - Exponent)⟩

/-- Modelled from the spec: `Clamp( Variable, Minimum, Maximum )` of
`NumericFunctions.hpp` on an integer: the variable is moved to the nearer bound
when it lies outside the range. -/
def Clamp (Variable Minimum Maximum : Int) : Int :=
  if Variable < Minimum then Minimum
  else if Variable > Maximum then Maximum
  else Variable

/-- Modelled from the spec: `Clamp( Variable, Minimum, Maximum )` of
`NumericFunctions.hpp` on a single-precision variable with integer bounds. -/
def ClampFloat (Variable : Float32) (Minimum Maximum : Int) : Float32 :=
  if Variable.Less (Float32.OfInt Minimum) then Float32.OfInt Minimum
  else if (Float32.OfInt Maximum).Less Variable then Float32.OfInt Maximum
  else Variable

/-- Modelled from the spec: the constants of `Constants::` that the GPU writers
read.  Their values are frozen by the console definition but are not part of
the sources at hand, so they are parameters. -/
structure Constants where
  ScreenWidth : Int
  ScreenHeight : Int
  GPUTextureSize : Int
  GPURegionsPerTexture : Int
deriving DecidableEq, Repr

/-- Modelled from the spec: `Constants::SPUSoundChannels`, the number of sound
channels, which the specification fixes at 16. -/
def SPUSoundChannels : Int := 16

/-- Modelled from the spec: the enumerators of `IOPortValues` that the writers
compare with, as their `(int32_t)` values.  The codes are not part of the
sources at hand, so they are parameters. -/
structure IOPortValues where
  GPUCommand_ClearScreen : Int
  GPUCommand_DrawRegion : Int
  GPUCommand_DrawRegionZoomed : Int
  GPUCommand_DrawRegionRotated : Int
  GPUCommand_DrawRegionRotozoomed : Int
  GPUBlendingMode_Alpha : Int
  GPUBlendingMode_Add : Int
  GPUBlendingMode_Subtract : Int
  SPUCommand_PlaySelectedChannel : Int
  SPUCommand_PauseSelectedChannel : Int
  SPUCommand_StopSelectedChannel : Int
  SPUCommand_PauseAllChannels : Int
  SPUCommand_ResumeAllChannels : Int
  SPUCommand_StopAllChannels : Int
  SPUChannelState_Stopped : Int
deriving DecidableEq, Repr

/-! ## The GPU and its port writers (`V32GPUWriters.cpp`) -/

/-- Modelled from the spec: a region of a texture (`GPURegion`). -/
structure GPURegion where
  MinX : Int
  MinY : Int
  MaxX : Int
  MaxY : Int
  HotspotX : Int
  HotspotY : Int
deriving DecidableEq, Repr

/-- Modelled from the spec: a texture (`GPUTexture`) with its array `Regions`. -/
structure GPUTexture where
  Regions : List GPURegion
deriving DecidableEq, Repr

/-- Modelled from the spec: a pointer to a region, `&Texture->Regions[ Region ]`,
kept as the index of the texture (−1 for the BIOS texture, otherwise the index
in `CartridgeTextures`) and the index of the region in its array. -/
structure RegionPointer where
  Texture : Int
  Region : Int
deriving DecidableEq, Repr

/-- Modelled from the spec: the GPU (`V32GPU`), with the members that the
writers use.  `PointedTexture` is kept as a texture index (−1 for
`&BiosTexture`, otherwise the index in `CartridgeTextures`). -/
structure V32GPU where
  ClearColor : GPUColor
  MultiplyColor : GPUColor
  ActiveBlending : Int
  SelectedTexture : Int
  SelectedRegion : Int
  DrawingPointX : Int
  DrawingPointY : Int
  DrawingScaleX : Float32
  DrawingScaleY : Float32
  DrawingAngle : Float32
  RemainingPixels : Int
  BiosTexture : GPUTexture
  CartridgeTextures : List GPUTexture
  PointedTexture : Int
  PointedRegion : RegionPointer
deriving DecidableEq, Repr

/-- One call of a method of `OpenGL2DContext` whose body is not part of the
sources at hand. -/
inductive OpenGL2DCall where
  | SetBlendingMode (BlendingMode : Int)
  | DrawTexturedQuad (Texture : Int) (Region : GPURegion)
  | ClearScreen (ClearColor : GPUColor)
deriving DecidableEq, Repr

/-- The global object `OpenGL2D` (class `OpenGL2DContext`), with the member that
the writers assign, `MultiplyColor`, and the calls received by its methods, in
order. -/
structure OpenGL2DContext where
  MultiplyColor : GPUColor
  Calls : List OpenGL2DCall
deriving DecidableEq, Repr

/-- What the GPU writers act on: the GPU passed by reference and the global
object `OpenGL2D`. -/
structure VideoState where
  GPU : V32GPU
  OpenGL2D : OpenGL2DContext
deriving DecidableEq, Repr

/-- Modelled from the spec: the methods `V32GPU::ClearScreen` and
`V32GPU::DrawRegion( ScalingEnabled, RotationEnabled )`, whose bodies are not
part of the sources at hand.  By the specification a command spends draw budget
and forwards calls to the host; so each method is a function that yields the
new `RemainingPixels` and the new state of `OpenGL2D`, and leaves every other
member of the GPU as it is. -/
structure GPUMethods where
  ClearScreen : V32GPU → OpenGL2DContext → Int × OpenGL2DContext
  DrawRegion : Bool → Bool → V32GPU → OpenGL2DContext → Int × OpenGL2DContext

/-- The state after a method of the GPU that yields the given budget and host
state. -/
def VideoState.After (S : VideoState) (Result : Int × OpenGL2DContext) : VideoState :=
  { GPU := { S.GPU with RemainingPixels := Result.1 }, OpenGL2D := Result.2 }

/-- The texture that a texture pointer designates: `BiosTexture` for −1,
`CartridgeTextures[ Index ]` for an index of the vector, no object otherwise. -/
def V32GPU.TextureAt (GPU : V32GPU) (Index : Int) : Option GPUTexture :=
  if Index = -1 then some GPU.BiosTexture
  else if 0 ≤ Index then GPU.CartridgeTextures[Index.toNat]?
  else none

/-- The GPU with the texture designated by a texture pointer replaced. -/
def V32GPU.SetTextureAt (GPU : V32GPU) (Index : Int) (Texture : GPUTexture) : V32GPU :=
  if Index = -1 then { GPU with BiosTexture := Texture }
  else { GPU with CartridgeTextures := GPU.CartridgeTextures.set Index.toNat Texture }

/-- The region that `PointedRegion` designates, if it designates one. -/
def V32GPU.RegionAt (GPU : V32GPU) (Pointer : RegionPointer) : Option GPURegion :=
  match GPU.TextureAt Pointer.Texture with
  | none => none
  | some Texture => if Pointer.Region < 0 then none else Texture.Regions[Pointer.Region.toNat]?

/-- An assignment through `GPU.PointedRegion->`: the designated region is
changed in place; through a pointer that designates no region the behaviour
is undefined (`none`). -/
def V32GPU.WritePointedRegion (GPU : V32GPU) (Change : GPURegion → GPURegion) :
    Option V32GPU :=
  match GPU.TextureAt GPU.PointedRegion.Texture with
  | none => none
  | some Texture =>
    if GPU.PointedRegion.Region < 0 then none
    else
      match Texture.Regions[GPU.PointedRegion.Region.toNat]? with
      | none => none
      | some Region =>
        some (GPU.SetTextureAt GPU.PointedRegion.Texture
          { Texture with
              Regions := Texture.Regions.set GPU.PointedRegion.Region.toNat (Change Region) })

/-- The state after an assignment through `GPU.PointedRegion->`. -/
def VideoState.WritePointedRegion (S : VideoState) (Change : GPURegion → GPURegion) :
    Option VideoState :=
  (S.GPU.WritePointedRegion Change).map (fun GPU => { S with GPU := GPU })

/-- Embedding of `WriteGPUCommand`. -/
def WriteGPUCommand (V : IOPortValues) (M : GPUMethods) (S : VideoState) (Value : V32Word) :
    VideoState :=
  if Value.AsInteger = V.GPUCommand_ClearScreen then S.After (M.ClearScreen S.GPU S.OpenGL2D)
  else if Value.AsInteger = V.GPUCommand_DrawRegion then
    S.After (M.DrawRegion false false S.GPU S.OpenGL2D)
  else if Value.AsInteger = V.GPUCommand_DrawRegionZoomed then
    S.After (M.DrawRegion true false S.GPU S.OpenGL2D)
  else if Value.AsInteger = V.GPUCommand_DrawRegionRotated then
    S.After (M.DrawRegion false true S.GPU S.OpenGL2D)
  else if Value.AsInteger = V.GPUCommand_DrawRegionRotozoomed then
    S.After (M.DrawRegion true true S.GPU S.OpenGL2D)
  else S

/-- Embedding of `WriteGPURemainingPixels`. -/
def WriteGPURemainingPixels (S : VideoState) (_ : V32Word) : VideoState := S

/-- Embedding of `WriteGPUClearColor`. -/
def WriteGPUClearColor (S : VideoState) (Value : V32Word) : VideoState :=
  { S with GPU := { S.GPU with ClearColor := Value.AsColor } }

/-- Embedding of `WriteGPUMultiplyColor`. -/
def WriteGPUMultiplyColor (S : VideoState) (Value : V32Word) : VideoState :=
  { GPU := { S.GPU with MultiplyColor := Value.AsColor }
    OpenGL2D := { S.OpenGL2D with MultiplyColor := Value.AsColor } }

/-- The two statements of each case of `WriteGPUActiveBlending`:
`OpenGL2D.SetBlendingMode( Mode ); GPU.ActiveBlending = Value.AsInteger;`. -/
def SetActiveBlending (S : VideoState) (Mode : Int) (Value : V32Word) : VideoState :=
  { GPU := { S.GPU with ActiveBlending := Value.AsInteger }
    OpenGL2D := { S.OpenGL2D with Calls := S.OpenGL2D.Calls ++ [.SetBlendingMode Mode] } }

/-- Embedding of `WriteGPUActiveBlending`. -/
def WriteGPUActiveBlending (V : IOPortValues) (S : VideoState) (Value : V32Word) : VideoState :=
  if Value.AsInteger = V.GPUBlendingMode_Alpha then
    SetActiveBlending S V.GPUBlendingMode_Alpha Value
  else if Value.AsInteger = V.GPUBlendingMode_Add then
    SetActiveBlending S V.GPUBlendingMode_Add Value
  else if Value.AsInteger = V.GPUBlendingMode_Subtract then
    SetActiveBlending S V.GPUBlendingMode_Subtract Value
  else S

/-- Embedding of `WriteGPUSelectedTexture`. -/
def WriteGPUSelectedTexture (S : VideoState) (Value : V32Word) : VideoState :=
  if Value.AsInteger < -1 ∨ Value.AsInteger ≥ ToInt32 S.GPU.CartridgeTextures.length then S
  else if Value.AsInteger = -1 then
    { S with GPU :=
        { S.GPU with
            SelectedTexture := Value.AsInteger
            PointedTexture := -1
            PointedRegion := ⟨-1, S.GPU.SelectedRegion⟩ } }
  else
    { S with GPU :=
        { S.GPU with
            SelectedTexture := Value.AsInteger
            PointedTexture := Value.AsInteger
            PointedRegion := ⟨Value.AsInteger, S.GPU.SelectedRegion⟩ } }

/-- Embedding of `WriteGPUSelectedRegion`. -/
def WriteGPUSelectedRegion (K : Constants) (S : VideoState) (Value : V32Word) : VideoState :=
  if Value.AsInteger < 0 ∨ Value.AsInteger ≥ K.GPURegionsPerTexture then S
  else
    { S with GPU :=
        { S.GPU with
            SelectedRegion := Value.AsInteger
            PointedRegion := ⟨S.GPU.PointedTexture, Value.AsInteger⟩ } }

/-- Embedding of `WriteGPUDrawingPointX`. -/
def WriteGPUDrawingPointX (K : Constants) (S : VideoState) (Value : V32Word) : VideoState :=
  { S with GPU :=
      { S.GPU with DrawingPointX := Clamp Value.AsInteger (-1000) (K.ScreenWidth + 1000) } }

/-- Embedding of `WriteGPUDrawingPointY`. -/
def WriteGPUDrawingPointY (K : Constants) (S : VideoState) (Value : V32Word) : VideoState :=
  { S with GPU :=
      { S.GPU with DrawingPointY := Clamp Value.AsInteger (-1000) (K.ScreenHeight + 1000) } }

/-- Embedding of `WriteGPUDrawingScaleX`. -/
def WriteGPUDrawingScaleX (S : VideoState) (Value : V32Word) : VideoState :=
  if Value.AsFloat.isnan || Value.AsFloat.isinf then S
  else { S with GPU := { S.GPU with DrawingScaleX := ClampFloat Value.AsFloat (-1024) 1024 } }

/-- Embedding of `WriteGPUDrawingScaleY`. -/
def WriteGPUDrawingScaleY (S : VideoState) (Value : V32Word) : VideoState :=
  if Value.AsFloat.isnan || Value.AsFloat.isinf then S
  else { S with GPU := { S.GPU with DrawingScaleY := ClampFloat Value.AsFloat (-1024) 1024 } }

/-- Embedding of `WriteGPUDrawingAngle`. -/
def WriteGPUDrawingAngle (S : VideoState) (Value : V32Word) : VideoState :=
  if Value.AsFloat.isnan || Value.AsFloat.isinf then S
  else { S with GPU := { S.GPU with DrawingAngle := ClampFloat Value.AsFloat (-1024) 1024 } }

/-- Embedding of `WriteGPURegionMinX`. -/
def WriteGPURegionMinX (K : Constants) (S : VideoState) (Value : V32Word) : Option VideoState :=
  S.WritePointedRegion
    (fun Region => { Region with MinX := Clamp Value.AsInteger 0 (K.GPUTextureSize - 1) })

/-- Embedding of `WriteGPURegionMinY`. -/
def WriteGPURegionMinY (K : Constants) (S : VideoState) (Value : V32Word) : Option VideoState :=
  S.WritePointedRegion
    (fun Region => { Region with MinY := Clamp Value.AsInteger 0 (K.GPUTextureSize - 1) })

/-- Embedding of `WriteGPURegionMaxX`. -/
def WriteGPURegionMaxX (K : Constants) (S : VideoState) (Value : V32Word) : Option VideoState :=
  let ValidX := Clamp Value.AsInteger 0 (K.GPUTextureSize - 1)
  S.WritePointedRegion (fun Region => { Region with MaxX := ValidX })

/-- Embedding of `WriteGPURegionMaxY`. -/
def WriteGPURegionMaxY (K : Constants) (S : VideoState) (Value : V32Word) : Option VideoState :=
  S.WritePointedRegion
    (fun Region => { Region with MaxY := Clamp Value.AsInteger 0 (K.GPUTextureSize - 1) })

/-- Embedding of `WriteGPURegionHotspotX`. -/
def WriteGPURegionHotspotX (K : Constants) (S : VideoState) (Value : V32Word) :
    Option VideoState :=
  S.WritePointedRegion
    (fun Region =>
      { Region with
          HotspotX := Clamp Value.AsInteger (-K.GPUTextureSize) (2 * K.GPUTextureSize - 1) })

/-- Embedding of `WriteGPURegionHotspotY`. -/
def WriteGPURegionHotspotY (K : Constants) (S : VideoState) (Value : V32Word) :
    Option VideoState :=
  S.WritePointedRegion
    (fun Region =>
      { Region with
          HotspotY := Clamp Value.AsInteger (-K.GPUTextureSize) (2 * K.GPUTextureSize - 1) })

/-- Modelled from the spec: the local ports of the GPU, one for each register
that the specification lists and each writer of `V32GPUWriters.cpp`. -/
inductive GPULocalPorts where
  | Command | RemainingPixels | ClearColor | MultiplyColor | ActiveBlending
  | SelectedTexture | SelectedRegion | DrawingPointX | DrawingPointY
  | DrawingScaleX | DrawingScaleY | DrawingAngle
  | RegionMinX | RegionMinY | RegionMaxX | RegionMaxY | RegionHotspotX | RegionHotspotY
deriving DecidableEq, Repr

/-- Modelled from the spec: a write to a GPU port, dispatched to the writer of
the port.  The result is `none` when the writer assigns through a pointer that
designates no object. -/
def WriteGPUPort (K : Constants) (V : IOPortValues) (M : GPUMethods) (Port : GPULocalPorts)
    (S : VideoState) (Value : V32Word) : Option VideoState :=
  match Port with
  | .Command => some (WriteGPUCommand V M S Value)
  | .RemainingPixels => some (WriteGPURemainingPixels S Value)
  | .ClearColor => some (WriteGPUClearColor S Value)
  | .MultiplyColor => some (WriteGPUMultiplyColor S Value)
  | .ActiveBlending => some (WriteGPUActiveBlending V S Value)
  | .SelectedTexture => some (WriteGPUSelectedTexture S Value)
  | .SelectedRegion => some (WriteGPUSelectedRegion K S Value)
  | .DrawingPointX => some (WriteGPUDrawingPointX K S Value)
  | .DrawingPointY => some (WriteGPUDrawingPointY K S Value)
  | .DrawingScaleX => some (WriteGPUDrawingScaleX S Value)
  | .DrawingScaleY => some (WriteGPUDrawingScaleY S Value)
  | .DrawingAngle => some (WriteGPUDrawingAngle S Value)
  | .RegionMinX => WriteGPURegionMinX K S Value
  | .RegionMinY => WriteGPURegionMinY K S Value
  | .RegionMaxX => WriteGPURegionMaxX K S Value
  | .RegionMaxY => WriteGPURegionMaxY K S Value
  | .RegionHotspotX => WriteGPURegionHotspotX K S Value
  | .RegionHotspotY => WriteGPURegionHotspotY K S Value

/-- A sequence of writes to GPU ports, in order. -/
def WriteGPUPorts (K : Constants) (V : IOPortValues) (M : GPUMethods) :
    List (GPULocalPorts × V32Word) → VideoState → Option VideoState
  | [], S => some S
  | (Port, Value) :: Rest, S =>
    match WriteGPUPort K V M Port S Value with
    | none => none
    | some Q => WriteGPUPorts K V M Rest Q

/-! ## The SPU and its port writers (`V32SPUWriters.cpp`) -/

/-- Modelled from the spec: a sound (`SPUSound`), with the members that the
writers use. -/
structure SPUSound where
  Length : Int
  PlayWithLoop : Int
  LoopStart : Int
  LoopEnd : Int
deriving DecidableEq

/-- Modelled from the spec: a sound channel (`SPUChannel`).  `CurrentSound` is
a pointer to a sound, kept as a sound index (−1 for `&BiosSound`, otherwise
the index in `CartridgeSounds`); `Position` is a fractional sample index. -/
structure SPUChannel where
  State : Int
  AssignedSound : Int
  CurrentSound : Int
  Volume : Float32
  Speed : Float32
  LoopEnabled : Int
  Position : ℚ
deriving DecidableEq

/-- Modelled from the spec: the SPU (`V32SPU`), with the members that the
writers use.  `PointedSound` is kept as a sound index (−1 for `&BiosSound`) and
`PointedChannel` as an index in `Channels`. -/
structure V32SPU where
  GlobalVolume : Float32
  SelectedSound : Int
  SelectedChannel : Int
  BiosSound : SPUSound
  CartridgeSounds : List SPUSound
  Channels : List SPUChannel
  PointedSound : Int
  PointedChannel : Int
deriving DecidableEq

/-- The members of a channel that playing, pausing, resuming and stopping
may change. -/
structure ChannelPlayback where
  State : Int
  LoopEnabled : Int
  Position : ℚ
deriving DecidableEq

/-- Modelled from the spec: the methods `PlayChannel`, `PauseChannel`,
`StopChannel`, `PauseAllChannels`, `ResumeAllChannels` and `StopAllChannels` of
`V32SPU`, whose bodies are not part of the sources at hand.  By the
specification they drive the state machine of a channel; so each is a function
that yields the new state, loop flag and position of a channel (for the three
last ones, of each channel in turn), and leaves every other member as it is. -/
structure SPUMethods where
  PlayChannel : V32SPU → SPUChannel → ChannelPlayback
  PauseChannel : V32SPU → SPUChannel → ChannelPlayback
  StopChannel : V32SPU → SPUChannel → ChannelPlayback
  PauseAllChannels : V32SPU → SPUChannel → ChannelPlayback
  ResumeAllChannels : V32SPU → SPUChannel → ChannelPlayback
  StopAllChannels : V32SPU → SPUChannel → ChannelPlayback

/-- The channel after a method that yields the given playback members. -/
def SPUChannel.After (Channel : SPUChannel) (Result : ChannelPlayback) : SPUChannel :=
  { Channel with
      State := Result.State
      LoopEnabled := Result.LoopEnabled
      Position := Result.Position }

/-- The sound that a sound pointer designates: `BiosSound` for −1,
`CartridgeSounds[ Index ]` for an index of the vector, no object otherwise. -/
def V32SPU.SoundAt (SPU : V32SPU) (Index : Int) : Option SPUSound :=
  if Index = -1 then some SPU.BiosSound
  else if 0 ≤ Index then SPU.CartridgeSounds[Index.toNat]?
  else none

/-- The SPU with the sound designated by a sound pointer replaced. -/
def V32SPU.SetSoundAt (SPU : V32SPU) (Index : Int) (Sound : SPUSound) : V32SPU :=
  if Index = -1 then { SPU with BiosSound := Sound }
  else { SPU with CartridgeSounds := SPU.CartridgeSounds.set Index.toNat Sound }

/-- The channel that a channel pointer designates, if it designates one. -/
def V32SPU.ChannelAt (SPU : V32SPU) (Index : Int) : Option SPUChannel :=
  if Index < 0 then none else SPU.Channels[Index.toNat]?

/-- An assignment through `SPU.PointedSound->`: the designated sound is changed
in place; through a pointer that designates no sound the behaviour is
undefined (`none`). -/
def V32SPU.WritePointedSound (SPU : V32SPU) (Change : SPUSound → SPUSound) : Option V32SPU :=
  match SPU.SoundAt SPU.PointedSound with
  | none => none
  | some Sound => some (SPU.SetSoundAt SPU.PointedSound (Change Sound))

/-- An assignment through `SPU.PointedChannel->`: the designated channel is
changed in place; through a pointer that designates no channel the behaviour is
undefined (`none`). -/
def V32SPU.WritePointedChannel (SPU : V32SPU) (Change : SPUChannel → SPUChannel) :
    Option V32SPU :=
  match SPU.ChannelAt SPU.PointedChannel with
  | none => none
  | some Channel =>
    some { SPU with Channels := SPU.Channels.set SPU.PointedChannel.toNat (Change Channel) }

/-- Embedding of `WriteSPUCommand`. -/
def WriteSPUCommand (V : IOPortValues) (M : SPUMethods) (SPU : V32SPU) (Value : V32Word) :
    Option V32SPU :=
  if Value.AsInteger = V.SPUCommand_PlaySelectedChannel then
    SPU.WritePointedChannel (fun Channel => Channel.After (M.PlayChannel SPU Channel))
  else if Value.AsInteger = V.SPUCommand_PauseSelectedChannel then
    SPU.WritePointedChannel (fun Channel => Channel.After (M.PauseChannel SPU Channel))
  else if Value.AsInteger = V.SPUCommand_StopSelectedChannel then
    SPU.WritePointedChannel (fun Channel => Channel.After (M.StopChannel SPU Channel))
  else if Value.AsInteger = V.SPUCommand_PauseAllChannels then
    some { SPU with
      Channels := SPU.Channels.map (fun Channel => Channel.After (M.PauseAllChannels SPU Channel)) }
  else if Value.AsInteger = V.SPUCommand_ResumeAllChannels then
    some { SPU with
      Channels := SPU.Channels.map (fun Channel => Channel.After (M.ResumeAllChannels SPU Channel)) }
  else if Value.AsInteger = V.SPUCommand_StopAllChannels then
    some { SPU with
      Channels := SPU.Channels.map (fun Channel => Channel.After (M.StopAllChannels SPU Channel)) }
  else some SPU

/-- Embedding of `WriteSPUGlobalVolume`. -/
def WriteSPUGlobalVolume (SPU : V32SPU) (Value : V32Word) : V32SPU :=
  if Value.AsFloat.isnan || Value.AsFloat.isinf then SPU
  else { SPU with GlobalVolume := ClampFloat Value.AsFloat 0 2 }

/-- Embedding of `WriteSPUSelectedSound`. -/
def WriteSPUSelectedSound (SPU : V32SPU) (Value : V32Word) : V32SPU :=
  if Value.AsInteger < -1 ∨ Value.AsInteger ≥ ToInt32 SPU.CartridgeSounds.length then SPU
  else if Value.AsInteger = -1 then
    { SPU with SelectedSound := Value.AsInteger, PointedSound := -1 }
  else { SPU with SelectedSound := Value.AsInteger, PointedSound := Value.AsInteger }

/-- Embedding of `WriteSPUSelectedChannel`. -/
def WriteSPUSelectedChannel (SPU : V32SPU) (Value : V32Word) : V32SPU :=
  if Value.AsInteger < 0 ∨ Value.AsInteger ≥ SPUSoundChannels then SPU
  else { SPU with SelectedChannel := Value.AsInteger, PointedChannel := Value.AsInteger }

/-- Embedding of `WriteSPUSoundLength`. -/
def WriteSPUSoundLength (SPU : V32SPU) (_ : V32Word) : V32SPU := SPU

/-- Embedding of `WriteSPUSoundPlayWithLoop`. -/
def WriteSPUSoundPlayWithLoop (SPU : V32SPU) (Value : V32Word) : Option V32SPU :=
  SPU.WritePointedSound
    (fun Sound => { Sound with PlayWithLoop := if Value.AsBinary ≠ 0 then 1 else 0 })

/-- Embedding of `WriteSPUSoundLoopStart`. -/
def WriteSPUSoundLoopStart (SPU : V32SPU) (Value : V32Word) : Option V32SPU :=
  SPU.WritePointedSound
    (fun Sound =>
      { Sound with
          LoopStart := min (Clamp Value.AsInteger 0 (Sound.Length - 1)) Sound.LoopEnd })

/-- Embedding of `WriteSPUSoundLoopEnd`. -/
def WriteSPUSoundLoopEnd (SPU : V32SPU) (Value : V32Word) : Option V32SPU :=
  SPU.WritePointedSound
    (fun Sound =>
      { Sound with
          LoopEnd := max (Clamp Value.AsInteger 0 (Sound.Length - 1)) Sound.LoopStart })

/-- Embedding of `WriteSPUChannelState`. -/
def WriteSPUChannelState (SPU : V32SPU) (_ : V32Word) : V32SPU := SPU

/-- Embedding of `WriteSPUChannelAssignedSound`. -/
def WriteSPUChannelAssignedSound (V : IOPortValues) (SPU : V32SPU) (Value : V32Word) :
    Option V32SPU :=
  if Value.AsInteger < -1 ∨ Value.AsInteger ≥ ToInt32 SPU.CartridgeSounds.length then some SPU
  else
    match SPU.ChannelAt SPU.PointedChannel with
    | none => none
    | some Pointed =>
      if Pointed.State ≠ V.SPUChannelState_Stopped then some SPU
      else if Value.AsInteger = -1 then
        SPU.WritePointedChannel
          (fun Channel => { Channel with AssignedSound := Value.AsInteger, CurrentSound := -1 })
      else
        SPU.WritePointedChannel
          (fun Channel =>
            { Channel with AssignedSound := Value.AsInteger, CurrentSound := Value.AsInteger })

/-- Embedding of `WriteSPUChannelVolume`. -/
def WriteSPUChannelVolume (SPU : V32SPU) (Value : V32Word) : Option V32SPU :=
  if Value.AsFloat.isnan || Value.AsFloat.isinf then some SPU
  else SPU.WritePointedChannel (fun Channel => { Channel with Volume := ClampFloat Value.AsFloat 0 8 })

/-- Embedding of `WriteSPUChannelSpeed`. -/
def WriteSPUChannelSpeed (SPU : V32SPU) (Value : V32Word) : Option V32SPU :=
  if Value.AsFloat.isnan || Value.AsFloat.isinf then some SPU
  else
    SPU.WritePointedChannel (fun Channel => { Channel with Speed := ClampFloat Value.AsFloat 0 128 })

/-- Embedding of `WriteSPUChannelLoopEnabled`. -/
def WriteSPUChannelLoopEnabled (SPU : V32SPU) (Value : V32Word) : Option V32SPU :=
  SPU.WritePointedChannel
    (fun Channel => { Channel with LoopEnabled := if Value.AsBinary ≠ 0 then 1 else 0 })

/-- Embedding of `WriteSPUChannelPosition`. -/
def WriteSPUChannelPosition (SPU : V32SPU) (Value : V32Word) : Option V32SPU :=
  match SPU.ChannelAt SPU.PointedChannel with
  | none => none
  | some Pointed =>
    match SPU.SoundAt Pointed.CurrentSound with
    | none => none
    | some Sound =>
      let SoundLength := Sound.Length
      SPU.WritePointedChannel
        (fun Channel =>
          { Channel with Position := ((Clamp Value.AsInteger 0 (SoundLength - 1) : Int) : ℚ) })

/-- Modelled from the spec: the local ports of the SPU, one for each register
that the specification lists and each writer of `V32SPUWriters.cpp`. -/
inductive SPULocalPorts where
  | Command | GlobalVolume | SelectedSound | SelectedChannel | SoundLength
  | SoundPlayWithLoop | SoundLoopStart | SoundLoopEnd | ChannelState
  | ChannelAssignedSound | ChannelVolume | ChannelSpeed | ChannelLoopEnabled
  | ChannelPosition
deriving DecidableEq, Repr

/-- Modelled from the spec: a write to an SPU port, dispatched to the writer of
the port.  The result is `none` when the writer reads or assigns through a
pointer that designates no object. -/
def WriteSPUPort (V : IOPortValues) (M : SPUMethods) (Port : SPULocalPorts) (SPU : V32SPU)
    (Value : V32Word) : Option V32SPU :=
  match Port with
  | .Command => WriteSPUCommand V M SPU Value
  | .GlobalVolume => some (WriteSPUGlobalVolume SPU Value)
  | .SelectedSound => some (WriteSPUSelectedSound SPU Value)
  | .SelectedChannel => some (WriteSPUSelectedChannel SPU Value)
  | .SoundLength => some (WriteSPUSoundLength SPU Value)
  | .SoundPlayWithLoop => WriteSPUSoundPlayWithLoop SPU Value
  | .SoundLoopStart => WriteSPUSoundLoopStart SPU Value
  | .SoundLoopEnd => WriteSPUSoundLoopEnd SPU Value
  | .ChannelState => some (WriteSPUChannelState SPU Value)
  | .ChannelAssignedSound => WriteSPUChannelAssignedSound V SPU Value
  | .ChannelVolume => WriteSPUChannelVolume SPU Value
  | .ChannelSpeed => WriteSPUChannelSpeed SPU Value
  | .ChannelLoopEnabled => WriteSPUChannelLoopEnabled SPU Value
  | .ChannelPosition => WriteSPUChannelPosition SPU Value

/-- A sequence of writes to SPU ports, in order. -/
def WriteSPUPorts (V : IOPortValues) (M : SPUMethods) :
    List (SPULocalPorts × V32Word) → V32SPU → Option V32SPU
  | [], SPU => some SPU
  | (Port, Value) :: Rest, SPU =>
    match WriteSPUPort V M Port SPU Value with
    | none => none
    | some Q => WriteSPUPorts V M Rest Q

/-! ## Invariants and samples of the console -/

/-- The pointers of the GPU designate objects: every texture has the
`GPURegionsPerTexture` regions of its array, the cartridge textures can be
counted in an `int32_t`, and `PointedTexture` and `PointedRegion` designate a
texture and a region of a texture. -/
def GPUPointersValid (K : Constants) (GPU : V32GPU) : Prop :=
  GPU.CartridgeTextures.length < 2147483648
  ∧ (GPU.BiosTexture.Regions.length : Int) = K.GPURegionsPerTexture
  ∧ (∀ Texture ∈ GPU.CartridgeTextures, (Texture.Regions.length : Int) = K.GPURegionsPerTexture)
  ∧ (-1 ≤ GPU.PointedTexture ∧ GPU.PointedTexture < GPU.CartridgeTextures.length)
  ∧ (-1 ≤ GPU.PointedRegion.Texture ∧ GPU.PointedRegion.Texture < GPU.CartridgeTextures.length)
  ∧ (0 ≤ GPU.PointedRegion.Region ∧ GPU.PointedRegion.Region < K.GPURegionsPerTexture)

/-- The constants of a small sample console, with 4 regions in each texture. -/
def SampleConstants : Constants :=
  { ScreenWidth := 640, ScreenHeight := 360, GPUTextureSize := 1024, GPURegionsPerTexture := 4 }

/-- The port codes of the sample console. -/
def SampleValues : IOPortValues :=
  { GPUCommand_ClearScreen := 16, GPUCommand_DrawRegion := 17
    GPUCommand_DrawRegionZoomed := 18, GPUCommand_DrawRegionRotated := 19
    GPUCommand_DrawRegionRotozoomed := 20
    GPUBlendingMode_Alpha := 32, GPUBlendingMode_Add := 33, GPUBlendingMode_Subtract := 34
    SPUCommand_PlaySelectedChannel := 48, SPUCommand_PauseSelectedChannel := 49
    SPUCommand_StopSelectedChannel := 50, SPUCommand_PauseAllChannels := 51
    SPUCommand_ResumeAllChannels := 52, SPUCommand_StopAllChannels := 53
    SPUChannelState_Stopped := 64 }

/-- The GPU methods of the sample console: a clear is forwarded to the host; a
draw is dropped when the budget is spent, and otherwise spends one unit of it
and forwards the pointed region to the host. -/
def SampleGPUMethods : GPUMethods :=
  { ClearScreen := fun GPU OpenGL2D =>
      (GPU.RemainingPixels, { OpenGL2D with Calls := OpenGL2D.Calls ++ [.ClearScreen GPU.ClearColor] })
    DrawRegion := fun _ _ GPU OpenGL2D =>
      if GPU.RemainingPixels ≤ 0 then (GPU.RemainingPixels, OpenGL2D)
      else
        match GPU.RegionAt GPU.PointedRegion with
        | none => (GPU.RemainingPixels, OpenGL2D)
        | some Region =>
          (GPU.RemainingPixels - 1,
            { OpenGL2D with
                Calls := OpenGL2D.Calls ++ [.DrawTexturedQuad GPU.PointedRegion.Texture Region] }) }

/-- A texture of the sample console: 4 regions, all zero. -/
def SampleTexture : GPUTexture := { Regions := List.replicate 4 ⟨0, 0, 0, 0, 0, 0⟩ }

/-- A state of the sample console with two cartridge textures, in which region
2 of cartridge texture 1 is selected. -/
def SampleVideo : VideoState :=
  { GPU :=
      { ClearColor := ⟨0⟩, MultiplyColor := ⟨4294967295⟩, ActiveBlending := 32
        SelectedTexture := 1, SelectedRegion := 2
        DrawingPointX := 0, DrawingPointY := 0
        DrawingScaleX := Float32.OfInt 1, DrawingScaleY := Float32.OfInt 1
        DrawingAngle := Float32.OfInt 0
        RemainingPixels := 1000
        BiosTexture := SampleTexture
        CartridgeTextures := [SampleTexture, SampleTexture]
        PointedTexture := 1, PointedRegion := ⟨1, 2⟩ }
    OpenGL2D := { MultiplyColor := ⟨4294967295⟩, Calls := [] } }

/-- The pointers of the SPU designate objects: the cartridge sounds can be
counted in an `int32_t`, there are `SPUSoundChannels` channels, and
`PointedSound`, `PointedChannel` and the `CurrentSound` of every channel
designate a sound or a channel. -/
def SPUPointersValid (SPU : V32SPU) : Prop :=
  SPU.CartridgeSounds.length < 2147483648
  ∧ (SPU.Channels.length : Int) = SPUSoundChannels
  ∧ (-1 ≤ SPU.PointedSound ∧ SPU.PointedSound < SPU.CartridgeSounds.length)
  ∧ (0 ≤ SPU.PointedChannel ∧ SPU.PointedChannel < SPUSoundChannels)
  ∧ (∀ Channel ∈ SPU.Channels,
      -1 ≤ Channel.CurrentSound ∧ Channel.CurrentSound < SPU.CartridgeSounds.length)

/-- The SPU methods of the sample console, with the codes 64, 65 and 66 for a
stopped, a playing and a paused channel: playing starts a channel that has
stopped from position 0 with the loop flag of its sound, pausing and resuming
switch between playing and paused, stopping stops. -/
def SampleSPUMethods : SPUMethods :=
  { PlayChannel := fun SPU Channel =>
      if Channel.State = 64 then
        { State := 65
          LoopEnabled :=
            match SPU.SoundAt Channel.CurrentSound with
            | some Sound => Sound.PlayWithLoop
            | none => Channel.LoopEnabled
          Position := 0 }
      else { State := 65, LoopEnabled := Channel.LoopEnabled, Position := Channel.Position }
    PauseChannel := fun _ Channel =>
      { State := if Channel.State = 65 then 66 else Channel.State
        LoopEnabled := Channel.LoopEnabled, Position := Channel.Position }
    StopChannel := fun _ Channel =>
      { State := 64, LoopEnabled := Channel.LoopEnabled, Position := 0 }
    PauseAllChannels := fun _ Channel =>
      { State := if Channel.State = 65 then 66 else Channel.State
        LoopEnabled := Channel.LoopEnabled, Position := Channel.Position }
    ResumeAllChannels := fun _ Channel =>
      { State := if Channel.State = 66 then 65 else Channel.State
        LoopEnabled := Channel.LoopEnabled, Position := Channel.Position }
    StopAllChannels := fun _ Channel =>
      { State := 64, LoopEnabled := Channel.LoopEnabled, Position := 0 } }

/-- A stopped channel of the sample console, assigned to the BIOS sound. -/
def SampleChannel : SPUChannel :=
  { State := 64, AssignedSound := -1, CurrentSound := -1
    Volume := Float32.OfInt 1, Speed := Float32.OfInt 1, LoopEnabled := 0, Position := 0 }

/-- A state of the SPU of the sample console: a BIOS sound of 100 samples with
the loop from 20 to 60, one cartridge sound of 50 samples, 16 stopped channels;
the BIOS sound and channel 5 are selected. -/
def SampleSPU : V32SPU :=
  { GlobalVolume := Float32.OfInt 1
    SelectedSound := -1, SelectedChannel := 5
    BiosSound := { Length := 100, PlayWithLoop := 0, LoopStart := 20, LoopEnd := 60 }
    CartridgeSounds := [ { Length := 50, PlayWithLoop := 0, LoopStart := 0, LoopEnd := 49 } ]
    Channels := List.replicate 16 SampleChannel
    PointedSound := -1, PointedChannel := 5 }

/-- What a write to an SPU port keeps: the number of cartridge sounds, the
bounds of the selected channel, and the validity of the pointers. -/
def SPUWriteKeeps (SPU Q : V32SPU) : Prop :=
  Q.CartridgeSounds.length = SPU.CartridgeSounds.length
  ∧ ((0 ≤ SPU.SelectedChannel ∧ SPU.SelectedChannel < SPUSoundChannels) →
      (0 ≤ Q.SelectedChannel ∧ Q.SelectedChannel < SPUSoundChannels))
  ∧ (SPUPointersValid SPU → SPUPointersValid Q)

/-! ## Runs through an included file -/

/-- The context that `PushContext( Lexer )` puts on the stack: the lines of the
lexer with the iterator on the first of them, the folder of the lexer, the file
named by the first token, and no open if-frame. -/
def IncludedContext (Lexer : VirconASMLexer) : ProcessingContext :=
  { ReferenceFolder := Lexer.InputDirectory
    FilePath :=
      match Lexer.TokenLines with
      | (First :: _) :: _ => First.Location.FilePath
      | _ => ""
    SourceLines := Lexer.TokenLines
    LinePosition := 0
    IfStack := [] }

/-- The context stack stands above the contexts `Below`, which lie untouched at
its bottom. -/
def StandsAbove (Below : List ProcessingContext) (P : VirconASMPreprocessor) : Prop :=
  ∃ Upper, Upper ≠ [] ∧ P.ContextStack = Upper ++ Below

/-- The lines that a context has still before it, counted. -/
def ProcessingContext.LinesLeft (C : ProcessingContext) : Nat :=
  C.SourceLines.length - C.LinePosition

/-- The run from `P`, whose stack is `Top :: Rest`, comes to an end of the
context on top: after some number of turns it has either failed or reached a
state in which the lines of that context (same file, same number of lines)
have ended and the contexts `Rest` lie directly below it. -/
def FinishesContext (H : Host) (P : VirconASMPreprocessor) (Top : ProcessingContext)
    (Rest : List ProcessingContext) : Prop :=
  ∃ Turns,
    (∃ E, RunLoop H Turns P = .error E)
    ∨ (∃ R Last, RunLoop H Turns P = .ok R ∧ R.ContextStack = Last :: Rest
        ∧ Last.LinesHaveEnded = true
        ∧ Last.ReferenceFolder = Top.ReferenceFolder ∧ Last.FilePath = Top.FilePath
        ∧ Last.SourceLines.length = Top.SourceLines.length)

/-! ## A tower of folders -/

/-- The folder `k` levels down the sample tower: `.`, `./x`, `./x/x`, … -/
def TowerFolder (Level : Nat) : String :=
  "." ++ String.join (List.replicate Level "/x")

/-- The file `step.asm` in the folder `Level` levels down the tower, which
includes the file of the same name one level further down:
```
%include "x/step.asm"
```
between its file markers. -/
def TowerStep (Level : Nat) : VirconASMLexer :=
  { InputDirectory := TowerFolder Level
    TokenLines :=
      [ [⟨⟨"step.asm", 0⟩, .StartOfFile⟩],
        [⟨⟨"step.asm", 1⟩, .Symbol .Percent⟩, ⟨⟨"step.asm", 1⟩, .Identifier "include"⟩,
          ⟨⟨"step.asm", 1⟩, .LiteralString "x/step.asm"⟩],
        [⟨⟨"step.asm", 2⟩, .EndOfFile⟩] ] }

/-- The host of the sample tower: POSIX separator, and the file `step.asm` in
each of the folders 1 to 20 levels down; the folder 21 levels down has no such
file. -/
def SampleTower : Host :=
  { PathSeparator := '/'
    TokenizeFile := fun Path =>
      (List.range 20).findSome? (fun Level =>
        if Path = TowerFolder (Level + 1) ++ "/step.asm" then some (TowerStep (Level + 1))
        else none) }

/-! ## States that the loops cannot tell apart -/

/-- What the loops of `Preprocess` can see of a context: its observable part,
and whether its lines have ended. -/
def ProcessingContext.Sight (C : ProcessingContext) : ContextView × Bool :=
  (C.View, C.LinesHaveEnded)

/-- Two preprocessor states that differ at most in the warnings printed so far
and in the lines that their contexts have behind them. -/
def Similar (P Q : VirconASMPreprocessor) : Prop :=
  P.Definitions = Q.Definitions ∧ P.ProcessedTokens = Q.ProcessedTokens
  ∧ P.ContextStack.map ProcessingContext.Sight = Q.ContextStack.map ProcessingContext.Sight

/-- Two results of a run that are the same failure, or states that are
similar. -/
def SimilarResults (First Second : Except Failure VirconASMPreprocessor) : Prop :=
  match First, Second with
  | .ok P, .ok Q => Similar P Q
  | .error E, .error F => E = F
  | _, _ => False

/-- Two results of processing a directive line, in states with the stacks
`T :: B` and `T' :: B'`, that are the same effect: the same failure, the same
new if-stack for the current context, or the same context pushed. -/
def SameEffect (P Q : VirconASMPreprocessor) (T T' : ProcessingContext)
    (B B' : List ProcessingContext) (First Second : Except Failure VirconASMPreprocessor) :
    Prop :=
  (∃ E, First = .error E ∧ Second = .error E)
  ∨ (∃ Frames,
      First = .ok { P with ContextStack := { T with IfStack := Frames } :: B }
      ∧ Second = .ok { Q with ContextStack := { T' with IfStack := Frames } :: B' })
  ∨ (∃ New,
      First = .ok { P with ContextStack := New :: T :: B }
      ∧ Second = .ok { Q with ContextStack := New :: T' :: B' })

/-! ## Errors and warnings -/

/-- The state in which the line on which the preprocessor stands is absent
from its file: the current context holds the same lines but for that one, and
stands on the line that followed it. -/
def WithoutCurrentLine (P : VirconASMPreprocessor) : VirconASMPreprocessor :=
  match P.ContextStack with
  | [] => P
  | Top :: Below =>
    { P with ContextStack :=
        { Top with SourceLines := Top.SourceLines.eraseIdx Top.LinePosition } :: Below }

/-- The sample file with messages:
```
%define X 5
%warning "careful"
MOV R0, X
%ifdef Y
%error "stop"
%endif
%error "halt"
```
between its file markers. -/
def SampleMessages : VirconASMLexer :=
  { InputDirectory := "."
    TokenLines :=
      [ [⟨At 0, .StartOfFile⟩],
        [PercentAt 1, IdentifierAt 1 "define", IdentifierAt 1 "X", ⟨At 1, .LiteralInteger 5⟩],
        [PercentAt 2, IdentifierAt 2 "warning", ⟨At 2, .LiteralString "careful"⟩],
        [⟨At 3, .Other "MOV"⟩, ⟨At 3, .Other "R0"⟩, ⟨At 3, .Symbol .Comma⟩, IdentifierAt 3 "X"],
        [PercentAt 4, IdentifierAt 4 "ifdef", IdentifierAt 4 "Y"],
        [PercentAt 5, IdentifierAt 5 "error", ⟨At 5, .LiteralString "stop"⟩],
        [PercentAt 6, IdentifierAt 6 "endif"],
        [PercentAt 7, IdentifierAt 7 "error", ⟨At 7, .LiteralString "halt"⟩],
        [⟨At 8, .EndOfFile⟩] ] }

/-- The state of the run on `SampleMessages` in which the line of the given
index is the current line, with the given if-stack and output. -/
def SampleAtMessage (LinePosition : Nat) (IfStack : List IfContext) (Output : TokenList) :
    VirconASMPreprocessor :=
  { ContextStack :=
      [ { ReferenceFolder := ".", FilePath := "main.asm"
          SourceLines := SampleMessages.TokenLines, LinePosition := LinePosition
          IfStack := IfStack } ]
    Definitions := [ ("X", [⟨At 1, .LiteralInteger 5⟩]) ]
    ProcessedTokens := Output
    Warnings := [] }

/-! ## Definitions across files -/

/-- A location in the sample file `defs.asm`. -/
def InDefs (Line : Int) : SourceLocation := ⟨"defs.asm", Line⟩

/-- The sample file `defs.asm`, which uses a name, defines another and removes
the first:
```
MOV R1, X
%define Y 7
%undef X
```
between its file markers. -/
def SampleDefs : VirconASMLexer :=
  { InputDirectory := "."
    TokenLines :=
      [ [⟨InDefs 0, .StartOfFile⟩],
        [⟨InDefs 1, .Other "MOV"⟩, ⟨InDefs 1, .Other "R1"⟩, ⟨InDefs 1, .Symbol .Comma⟩,
          ⟨InDefs 1, .Identifier "X"⟩],
        [⟨InDefs 2, .Symbol .Percent⟩, ⟨InDefs 2, .Identifier "define"⟩,
          ⟨InDefs 2, .Identifier "Y"⟩, ⟨InDefs 2, .LiteralInteger 7⟩],
        [⟨InDefs 3, .Symbol .Percent⟩, ⟨InDefs 3, .Identifier "undef"⟩,
          ⟨InDefs 3, .Identifier "X"⟩],
        [⟨InDefs 4, .EndOfFile⟩] ] }

/-- The host with the one file `defs.asm` in the folder `.`. -/
def SampleShared : Host :=
  { PathSeparator := '/'
    TokenizeFile := fun Path => if Path = "./defs.asm" then some SampleDefs else none }

/-- The sample file that defines a name, includes `defs.asm` and then uses the
names:
```
%define X 5
%include "defs.asm"
MOV R0, Y, X
```
between its file markers. -/
def SampleSharing : VirconASMLexer :=
  { InputDirectory := "."
    TokenLines :=
      [ [⟨At 0, .StartOfFile⟩],
        [PercentAt 1, IdentifierAt 1 "define", IdentifierAt 1 "X", ⟨At 1, .LiteralInteger 5⟩],
        [PercentAt 2, IdentifierAt 2 "include", ⟨At 2, .LiteralString "defs.asm"⟩],
        [⟨At 3, .Other "MOV"⟩, ⟨At 3, .Other "R0"⟩, ⟨At 3, .Symbol .Comma⟩, IdentifierAt 3 "Y",
          ⟨At 3, .Symbol .Comma⟩, IdentifierAt 3 "X"],
        [⟨At 4, .EndOfFile⟩] ] }

/-- The state of the run on `SampleSharing` in which its line
`%include "defs.asm"` is the current line. -/
def SampleAtSharedInclude : VirconASMPreprocessor :=
  { ContextStack :=
      [ { ReferenceFolder := ".", FilePath := "main.asm"
          SourceLines := SampleSharing.TokenLines, LinePosition := 2, IfStack := [] } ]
    Definitions := [ ("X", [⟨At 1, .LiteralInteger 5⟩]) ]
    ProcessedTokens := [⟨At 0, .StartOfFile⟩]
    Warnings := [] }

deriving instance DecidableEq for LineOutcome

deriving instance DecidableEq for LinesOutcome

/-! ## More vocabulary of the console -/

/-- The blending mode held by the GPU is one of the three modes. -/
def BlendingIsValid (V : IOPortValues) (GPU : V32GPU) : Prop :=
  GPU.ActiveBlending = V.GPUBlendingMode_Alpha ∨ GPU.ActiveBlending = V.GPUBlendingMode_Add
    ∨ GPU.ActiveBlending = V.GPUBlendingMode_Subtract

/-- A single-precision number that is neither a NaN nor an infinity. -/
def Float32.IsFinite (F : Float32) : Bool := !F.isnan && !F.isinf

/-- The state of the SPU of the sample console in which the selected channel 5
is playing. -/
def SamplePlaying : V32SPU :=
  { SampleSPU with Channels := SampleSPU.Channels.set 5 { SampleChannel with State := 65 } }

/-- The invariant of the data model for the loop of a sound: loop start and
loop end lie in [0, length − 1] and the loop end is not before the loop
start. -/
def SoundIsValid (Sound : SPUSound) : Prop :=
  0 ≤ Sound.LoopStart ∧ Sound.LoopStart ≤ Sound.LoopEnd ∧ Sound.LoopEnd ≤ Sound.Length - 1

/-- Every sound of the SPU that has at least one sample satisfies the
invariant of the data model. -/
def SoundsAreValid (SPU : V32SPU) : Prop :=
  ∀ Index Sound, SPU.SoundAt Index = some Sound → 1 ≤ Sound.Length → SoundIsValid Sound

/-! ## The value of a single-precision number -/

/-- The magnitude that the 31 low bits of a single-precision number denote, in
units of 2^−149: the mantissa for a subnormal number (exponent bits 0), and
otherwise the mantissa with its hidden bit, shifted by the exponent. -/
def MagnitudeOfBits (Bits : Nat) : Nat :=
  if Bits / 8388608 = 0 then Bits % 8388608
  else (8388608 + Bits % 8388608) * 2 ^ (Bits / 8388608 - 1)

/-- The magnitude of a single-precision number, in units of 2^−149. -/
def Float32.Magnitude (F : Float32) : Nat := MagnitudeOfBits (F.Bits % 2147483648)

/-- The value of a finite single-precision number, in units of 2^−149. -/
def Float32.Scaled (F : Float32) : Int :=
  if F.Sign then -(F.Magnitude : Int) else (F.Magnitude : Int)

/-- The value of a finite single-precision number. -/
def Float32.Value (F : Float32) : ℚ := (F.Scaled : ℚ) / 2 ^ 149

/-- The number stored on a write of `Written` to a port clamped to
[`Minimum`, `Maximum`]: the number itself when its value lies in the range,
the nearer bound otherwise. -/
def StoresClamped (Written Stored : Float32) (Minimum Maximum : Int) : Prop :=
  ((Minimum : ℚ) ≤ Written.Value ∧ Written.Value ≤ (Maximum : ℚ) → Stored = Written)
  ∧ (Written.Value < (Minimum : ℚ) → Stored = Float32.OfInt Minimum)
  ∧ ((Maximum : ℚ) < Written.Value → Stored = Float32.OfInt Maximum)

/-! ## File paths (`FilePaths.cpp`)

Strings are lists of characters; `string::npos` is `none`. -/

/-- The member `rfind( c )` of `std::string`: the position of the last
occurrence of a character, `none` (`string::npos`) when there is none. -/
def rfind : List Char → Char → Option Nat
  | [], _ => none
  | First :: Rest, c =>
    match rfind Rest c with
    | some Position => some (Position + 1)
    | none => if First = c then some 0 else none

/-- The member `substr( Position )` of `std::string`: the characters from a
position on.  (The source calls it with positions up to the length only, for
which `std::string` raises no exception.) -/
def substrFrom (Text : List Char) (Position : Nat) : List Char :=
  Text.drop Position

/-- The member `substr( Position, Count )` of `std::string`: at most `Count`
characters from a position on. -/
def substr (Text : List Char) (Position Count : Nat) : List Char :=
  (Text.drop Position).take Count

/-- The variable `PathSeparator`, which depends on the host operating system:
a backslash where one of `__WIN32__`, `_WIN32`, `_WIN64` is defined, a forward
slash elsewhere. -/
def PathSeparator (Windows : Bool) : Char :=
  if Windows then '\\' else '/'

/-- The body of the loop of `NormalizePathSeparators` on one character. -/
def NormalizeSeparator (Windows : Bool) (c : Char) : Char :=
  if Windows then (if c = '/' then '\\' else c)
  else (if c = '\\' then '/' else c)

/-- Embedding of `NormalizePathSeparators`. -/
def NormalizePathSeparators (Windows : Bool) (FilePath : String) : String :=
  ⟨FilePath.data.map (NormalizeSeparator Windows)⟩

/-- Embedding of `GetFileExtension`. -/
def GetFileExtension (FilePath : String) : String :=
  match rfind FilePath.data '.' with
  | none => ""
  | some DotPosition => ⟨substrFrom FilePath.data (DotPosition + 1)⟩

/-- Embedding of `GetFileWithoutExtension`. -/
def GetFileWithoutExtension (FilePath : String) : String :=
  match rfind FilePath.data '.' with
  | none => ""
  | some DotPosition => ⟨substr FilePath.data 0 DotPosition⟩

/-- Embedding of `ReplaceFileExtension`. -/
def ReplaceFileExtension (FilePath NewExtension : String) : String :=
  let OriginalExtension := GetFileExtension FilePath
  let PathWithoutExtension : String :=
    ⟨substr FilePath.data 0 (FilePath.data.length - OriginalExtension.data.length)⟩
  PathWithoutExtension ++ NewExtension

/-- Embedding of `GetPathDirectory`. -/
def GetPathDirectory (Windows : Bool) (FilePath : String) : String :=
  let NormalizedPath := NormalizePathSeparators Windows FilePath
  match rfind NormalizedPath.data (PathSeparator Windows) with
  | none => "." ++ String.singleton (PathSeparator Windows)
  | some SlashPosition => ⟨substr NormalizedPath.data 0 (SlashPosition + 1)⟩

/-- Embedding of `GetPathFileName`. -/
def GetPathFileName (Windows : Bool) (FilePath : String) : String :=
  let NormalizedPath := NormalizePathSeparators Windows FilePath
  match rfind NormalizedPath.data (PathSeparator Windows) with
  | none => FilePath
  | some SlashPosition =>
    if NormalizedPath.data.length < SlashPosition + 2 then ""
    else ⟨substr NormalizedPath.data (SlashPosition + 1) (NormalizedPath.data.length - 1)⟩

/-- The path contains a path separator of either kind. -/
def HasSeparator (FilePath : String) : Prop :=
  '/' ∈ FilePath.data ∨ '\\' ∈ FilePath.data

/-! ## Sample input: a name defined twice and removed twice -/

/-- The sample program
```
%define X 5
%define X 7
MOV R0, X
%undef X
%undef X
MOV R0, X
```
between its file markers. -/
def SampleRedefines : VirconASMLexer :=
  { InputDirectory := "."
    TokenLines :=
      [ [⟨At 0, .StartOfFile⟩],
        [PercentAt 1, IdentifierAt 1 "define", IdentifierAt 1 "X", ⟨At 1, .LiteralInteger 5⟩],
        [PercentAt 2, IdentifierAt 2 "define", IdentifierAt 2 "X", ⟨At 2, .LiteralInteger 7⟩],
        [⟨At 3, .Other "MOV"⟩, ⟨At 3, .Other "R0"⟩, ⟨At 3, .Symbol .Comma⟩, IdentifierAt 3 "X"],
        [PercentAt 4, IdentifierAt 4 "undef", IdentifierAt 4 "X"],
        [PercentAt 5, IdentifierAt 5 "undef", IdentifierAt 5 "X"],
        [⟨At 6, .Other "MOV"⟩, ⟨At 6, .Other "R0"⟩, ⟨At 6, .Symbol .Comma⟩, IdentifierAt 6 "X"],
        [⟨At 7, .EndOfFile⟩] ] }

/-- A state of the sample program in which the given line is the current one
and the given definitions are in the map. -/
def SampleAtRedefine (LinePosition : Nat) (Definitions : DefinitionsMap) :
    VirconASMPreprocessor :=
  { ContextStack :=
      [ { ReferenceFolder := ".", FilePath := "main.asm"
          SourceLines := SampleRedefines.TokenLines, LinePosition := LinePosition
          IfStack := [] } ]
    Definitions := Definitions
    ProcessedTokens := [⟨At 0, .StartOfFile⟩]
    Warnings := [] }

/-! ## Sample input: a line inside an inactive section -/

/-- A state in which the given line is the current one and lies inside the
inactive section of an `%ifdef` whose condition is not met, in a stack of the
given number of contexts. -/
def SampleInactive (Line : TokenList) (Below : List ProcessingContext) : VirconASMPreprocessor :=
  { ContextStack :=
      { ReferenceFolder := ".", FilePath := "main.asm"
        SourceLines := [[⟨At 0, .StartOfFile⟩], [PercentAt 1, IdentifierAt 1 "ifdef",
          IdentifierAt 1 "X"], Line]
        LinePosition := 2
        IfStack := [⟨1, false, false⟩] } :: Below
    Definitions := []
    ProcessedTokens := [⟨At 0, .StartOfFile⟩]
    Warnings := [] }

/-! ## Sample input: an included file that leaves if-frames open -/

/-- A location in the sample file `open.asm`. -/
def InOpen (Line : Int) : SourceLocation := ⟨"open.asm", Line⟩

/-- The sample file `open.asm`, which closes neither of its two conditional
sections:
```
%ifdef X
%ifndef GUARD
NOP
```
between its file markers. -/
def SampleOpen : VirconASMLexer :=
  { InputDirectory := "."
    TokenLines :=
      [ [⟨InOpen 0, .StartOfFile⟩],
        [⟨InOpen 1, .Symbol .Percent⟩, ⟨InOpen 1, .Identifier "ifdef"⟩,
          ⟨InOpen 1, .Identifier "X"⟩],
        [⟨InOpen 2, .Symbol .Percent⟩, ⟨InOpen 2, .Identifier "ifndef"⟩,
          ⟨InOpen 2, .Identifier "GUARD"⟩],
        [⟨InOpen 3, .Other "NOP"⟩],
        [⟨InOpen 4, .EndOfFile⟩] ] }

/-- The sample host with the file `open.asm` in the folder `.`. -/
def SampleOpenHost : Host :=
  { PathSeparator := '/'
    TokenizeFile := fun Path => if Path = "./open.asm" then some SampleOpen else none }

/-- The sample file `main.asm` that includes `open.asm` inside a conditional
section:
```
%define X 5
%ifdef X
%include "open.asm"
MOV
%endif
```
between its file markers. -/
def SampleOpenMain : VirconASMLexer :=
  { InputDirectory := "."
    TokenLines :=
      [ [⟨At 0, .StartOfFile⟩],
        [PercentAt 1, IdentifierAt 1 "define", IdentifierAt 1 "X", ⟨At 1, .LiteralInteger 5⟩],
        [PercentAt 2, IdentifierAt 2 "ifdef", IdentifierAt 2 "X"],
        [PercentAt 3, IdentifierAt 3 "include", ⟨At 3, .LiteralString "open.asm"⟩],
        [⟨At 4, .Other "MOV"⟩],
        [PercentAt 5, IdentifierAt 5 "endif"],
        [⟨At 6, .EndOfFile⟩] ] }

/-- The context of `main.asm` of the sample, inside its conditional section, at
the given line. -/
def SampleOpenContext (LinePosition : Nat) : ProcessingContext :=
  { ReferenceFolder := ".", FilePath := "main.asm"
    SourceLines := SampleOpenMain.TokenLines, LinePosition := LinePosition
    IfStack := [⟨2, true, false⟩] }

/-- The state of the sample when the line `%include "open.asm"` is the current
line. -/
def SampleAtOpenInclude : VirconASMPreprocessor :=
  { ContextStack := [SampleOpenContext 3]
    Definitions := [("X", [⟨At 1, .LiteralInteger 5⟩])]
    ProcessedTokens := [⟨At 0, .StartOfFile⟩]
    Warnings := [] }

/-! ## The pointers of the GPU and the selection -/

/-- The pointers of the GPU follow the selection: `PointedTexture` designates
the texture number `SelectedTexture` (the BIOS texture for −1) and
`PointedRegion` the region number `SelectedRegion` of that texture. -/
def PointersFollowSelection (GPU : V32GPU) : Prop :=
  GPU.PointedTexture = GPU.SelectedTexture
  ∧ GPU.PointedRegion = ⟨GPU.SelectedTexture, GPU.SelectedRegion⟩

/-- Between the states `S` and `Q` nothing but the region designated by
`Pointer` has changed: the host object, every register and pointer of the GPU
and the number of cartridge textures are the same, and every other pointer
designates the same region, or no region, in both. -/
def OnlyRegionChanged (S Q : VideoState) (Pointer : RegionPointer) : Prop :=
  Q.OpenGL2D = S.OpenGL2D
  ∧ Q.GPU = { S.GPU with
                BiosTexture := Q.GPU.BiosTexture
                CartridgeTextures := Q.GPU.CartridgeTextures }
  ∧ Q.GPU.CartridgeTextures.length = S.GPU.CartridgeTextures.length
  ∧ ∀ Other : RegionPointer, Other ≠ Pointer → Q.GPU.RegionAt Other = S.GPU.RegionAt Other

/-! ## Reads of the ports

The readers of the ports are not part of the sources at hand; they are
modelled from the specification, by which a read returns the content of the
register of the port, and 0 for a write-only register. -/

/-- The conversion `(int32_t)` of a fractional number: its integer part, toward
zero. -/
def Truncate (Number : ℚ) : Int := Int.tdiv Number.num Number.den

/-- Modelled from the spec: a read of a GPU port.  The command port is
write-only and reads 0; the region ports read the fields of the region that
`PointedRegion` designates (`none` when it designates no region); every other
port reads its register. -/
def ReadGPUPort (Port : GPULocalPorts) (GPU : V32GPU) : Option V32Word :=
  match Port with
  | .Command => some ⟨0⟩
  | .RemainingPixels => some (V32Word.OfInteger GPU.RemainingPixels)
  | .ClearColor => some ⟨GPU.ClearColor.Bits⟩
  | .MultiplyColor => some ⟨GPU.MultiplyColor.Bits⟩
  | .ActiveBlending => some (V32Word.OfInteger GPU.ActiveBlending)
  | .SelectedTexture => some (V32Word.OfInteger GPU.SelectedTexture)
  | .SelectedRegion => some (V32Word.OfInteger GPU.SelectedRegion)
  | .DrawingPointX => some (V32Word.OfInteger GPU.DrawingPointX)
  | .DrawingPointY => some (V32Word.OfInteger GPU.DrawingPointY)
  | .DrawingScaleX => some ⟨GPU.DrawingScaleX.Bits⟩
  | .DrawingScaleY => some ⟨GPU.DrawingScaleY.Bits⟩
  | .DrawingAngle => some ⟨GPU.DrawingAngle.Bits⟩
  | .RegionMinX =>
    (GPU.RegionAt GPU.PointedRegion).map (fun Region => V32Word.OfInteger Region.MinX)
  | .RegionMinY =>
    (GPU.RegionAt GPU.PointedRegion).map (fun Region => V32Word.OfInteger Region.MinY)
  | .RegionMaxX =>
    (GPU.RegionAt GPU.PointedRegion).map (fun Region => V32Word.OfInteger Region.MaxX)
  | .RegionMaxY =>
    (GPU.RegionAt GPU.PointedRegion).map (fun Region => V32Word.OfInteger Region.MaxY)
  | .RegionHotspotX =>
    (GPU.RegionAt GPU.PointedRegion).map (fun Region => V32Word.OfInteger Region.HotspotX)
  | .RegionHotspotY =>
    (GPU.RegionAt GPU.PointedRegion).map (fun Region => V32Word.OfInteger Region.HotspotY)

/-- Modelled from the spec: a read of an SPU port.  The command port is
write-only and reads 0; the sound ports read the members of the sound that
`PointedSound` designates and the channel ports those of the channel that
`PointedChannel` designates (`none` when it designates no object), the position
as an integer; every other port reads its register. -/
def ReadSPUPort (Port : SPULocalPorts) (SPU : V32SPU) : Option V32Word :=
  match Port with
  | .Command => some ⟨0⟩
  | .GlobalVolume => some ⟨SPU.GlobalVolume.Bits⟩
  | .SelectedSound => some (V32Word.OfInteger SPU.SelectedSound)
  | .SelectedChannel => some (V32Word.OfInteger SPU.SelectedChannel)
  | .SoundLength =>
    (SPU.SoundAt SPU.PointedSound).map (fun Sound => V32Word.OfInteger Sound.Length)
  | .SoundPlayWithLoop =>
    (SPU.SoundAt SPU.PointedSound).map (fun Sound => V32Word.OfInteger Sound.PlayWithLoop)
  | .SoundLoopStart =>
    (SPU.SoundAt SPU.PointedSound).map (fun Sound => V32Word.OfInteger Sound.LoopStart)
  | .SoundLoopEnd =>
    (SPU.SoundAt SPU.PointedSound).map (fun Sound => V32Word.OfInteger Sound.LoopEnd)
  | .ChannelState =>
    (SPU.ChannelAt SPU.PointedChannel).map (fun Channel => V32Word.OfInteger Channel.State)
  | .ChannelAssignedSound =>
    (SPU.ChannelAt SPU.PointedChannel).map
      (fun Channel => V32Word.OfInteger Channel.AssignedSound)
  | .ChannelVolume =>
    (SPU.ChannelAt SPU.PointedChannel).map (fun Channel => ⟨Channel.Volume.Bits⟩)
  | .ChannelSpeed =>
    (SPU.ChannelAt SPU.PointedChannel).map (fun Channel => ⟨Channel.Speed.Bits⟩)
  | .ChannelLoopEnabled =>
    (SPU.ChannelAt SPU.PointedChannel).map
      (fun Channel => V32Word.OfInteger Channel.LoopEnabled)
  | .ChannelPosition =>
    (SPU.ChannelAt SPU.PointedChannel).map
      (fun Channel => V32Word.OfInteger (Truncate Channel.Position))

/-- The range to which the specification has the integer written to a GPU port
clamped, for the ports that clamp. -/
def GPUIntegerRange (K : Constants) : GPULocalPorts → Option (Int × Int)
  | .DrawingPointX => some (-1000, K.ScreenWidth + 1000)
  | .DrawingPointY => some (-1000, K.ScreenHeight + 1000)
  | .RegionMinX => some (0, K.GPUTextureSize - 1)
  | .RegionMinY => some (0, K.GPUTextureSize - 1)
  | .RegionMaxX => some (0, K.GPUTextureSize - 1)
  | .RegionMaxY => some (0, K.GPUTextureSize - 1)
  | .RegionHotspotX => some (-K.GPUTextureSize, 2 * K.GPUTextureSize - 1)
  | .RegionHotspotY => some (-K.GPUTextureSize, 2 * K.GPUTextureSize - 1)
  | _ => none

/-- The range to which the specification has the float written to a GPU port
clamped, for the ports that clamp. -/
def GPUFloatRange : GPULocalPorts → Option (Int × Int)
  | .DrawingScaleX => some (-1024, 1024)
  | .DrawingScaleY => some (-1024, 1024)
  | .DrawingAngle => some (-1024, 1024)
  | _ => none

/-- The sound in which the channel that `PointedChannel` designates plays. -/
def V32SPU.PointedCurrentSound (SPU : V32SPU) : Option SPUSound :=
  match SPU.ChannelAt SPU.PointedChannel with
  | none => none
  | some Channel => SPU.SoundAt Channel.CurrentSound

/-- The range to which the specification has the integer written to an SPU
port clamped, for the ports that clamp: [0, length − 1], of the selected sound
for the loop bounds and of the current sound of the selected channel for the
position. -/
def SPUIntegerRange (SPU : V32SPU) : SPULocalPorts → Option (Int × Int)
  | .SoundLoopStart => (SPU.SoundAt SPU.PointedSound).map (fun Sound => (0, Sound.Length - 1))
  | .SoundLoopEnd => (SPU.SoundAt SPU.PointedSound).map (fun Sound => (0, Sound.Length - 1))
  | .ChannelPosition => SPU.PointedCurrentSound.map (fun Sound => (0, Sound.Length - 1))
  | _ => none

/-- The range to which the specification has the float written to an SPU port
clamped, for the ports that clamp. -/
def SPUFloatRange : SPULocalPorts → Option (Int × Int)
  | .GlobalVolume => some (0, 2)
  | .ChannelVolume => some (0, 8)
  | .ChannelSpeed => some (0, 128)
  | _ => none

/-- The ports of the SPU whose register is a flag, written "as a boolean". -/
def SPUFlagPort : SPULocalPorts → Bool
  | .SoundPlayWithLoop => true
  | .ChannelLoopEnabled => true
  | _ => false

/-- The other loop bound of the selected sound, to which a write to a loop
bound may snap. -/
def SPUOtherLoopBound (SPU : V32SPU) : SPULocalPorts → Option Int
  | .SoundLoopStart => (SPU.SoundAt SPU.PointedSound).map (fun Sound => Sound.LoopEnd)
  | .SoundLoopEnd => (SPU.SoundAt SPU.PointedSound).map (fun Sound => Sound.LoopStart)
  | _ => none

/-- What the claim has a read after a write of `Value` return: the value
written, the value clamped to the range of the port, or 0 for a write-only
register. -/
def ClaimedRead (Value New : V32Word) (WriteOnly : Bool)
    (IntegerRange FloatRange : Option (Int × Int)) : Prop :=
  New.AsBinary = Value.AsBinary
  ∨ (∃ Minimum Maximum, IntegerRange = some (Minimum, Maximum)
      ∧ New = V32Word.OfInteger (Clamp Value.AsInteger Minimum Maximum))
  ∨ (∃ Minimum Maximum, FloatRange = some (Minimum, Maximum)
      ∧ New = ⟨(ClampFloat Value.AsFloat Minimum Maximum).Bits⟩)
  ∨ (WriteOnly = true ∧ New.AsBinary = 0)

/-- The guards behind which the writer of a GPU port returns without storing
anything, so that the write is ignored: every write to the read-only register
(`WriteGPURemainingPixels`), a blending mode other than the three modes
(`WriteGPUActiveBlending`), a texture or region number out of range
(`WriteGPUSelectedTexture`, `WriteGPUSelectedRegion`), a NaN or an infinity to
a float port (`WriteGPUDrawingScaleX`, `WriteGPUDrawingScaleY`,
`WriteGPUDrawingAngle`).  The other writers have no such guard. -/
def GPUWriteIsIgnored (K : Constants) (V : IOPortValues) (Port : GPULocalPorts) (GPU : V32GPU)
    (Value : V32Word) : Prop :=
  match Port with
  | .RemainingPixels => True
  | .ActiveBlending =>
    Value.AsInteger ≠ V.GPUBlendingMode_Alpha ∧ Value.AsInteger ≠ V.GPUBlendingMode_Add
      ∧ Value.AsInteger ≠ V.GPUBlendingMode_Subtract
  | .SelectedTexture =>
    Value.AsInteger < -1 ∨ Value.AsInteger ≥ ToInt32 GPU.CartridgeTextures.length
  | .SelectedRegion => Value.AsInteger < 0 ∨ Value.AsInteger ≥ K.GPURegionsPerTexture
  | .DrawingScaleX => Value.AsFloat.isnan = true ∨ Value.AsFloat.isinf = true
  | .DrawingScaleY => Value.AsFloat.isnan = true ∨ Value.AsFloat.isinf = true
  | .DrawingAngle => Value.AsFloat.isnan = true ∨ Value.AsFloat.isinf = true
  | _ => False

instance (K : Constants) (V : IOPortValues) (Port : GPULocalPorts) (GPU : V32GPU)
    (Value : V32Word) : Decidable (GPUWriteIsIgnored K V Port GPU Value) := by
  unfold GPUWriteIsIgnored
  cases Port <;> infer_instance

/-- The guards behind which the writer of an SPU port returns without storing
anything, so that the write is ignored: every write to a read-only register
(`WriteSPUSoundLength`, `WriteSPUChannelState`), a sound or channel number out
of range (`WriteSPUSelectedSound`, `WriteSPUSelectedChannel`,
`WriteSPUChannelAssignedSound`), a sound assigned to a channel that is not
stopped (`WriteSPUChannelAssignedSound`), a NaN or an infinity to a float port
(`WriteSPUGlobalVolume`, `WriteSPUChannelVolume`, `WriteSPUChannelSpeed`).  The
other writers have no such guard. -/
def SPUWriteIsIgnored (V : IOPortValues) (Port : SPULocalPorts) (SPU : V32SPU)
    (Value : V32Word) : Prop :=
  match Port with
  | .SoundLength => True
  | .ChannelState => True
  | .GlobalVolume => Value.AsFloat.isnan = true ∨ Value.AsFloat.isinf = true
  | .ChannelVolume => Value.AsFloat.isnan = true ∨ Value.AsFloat.isinf = true
  | .ChannelSpeed => Value.AsFloat.isnan = true ∨ Value.AsFloat.isinf = true
  | .SelectedSound =>
    Value.AsInteger < -1 ∨ Value.AsInteger ≥ ToInt32 SPU.CartridgeSounds.length
  | .SelectedChannel => Value.AsInteger < 0 ∨ Value.AsInteger ≥ SPUSoundChannels
  | .ChannelAssignedSound =>
    (Value.AsInteger < -1 ∨ Value.AsInteger ≥ ToInt32 SPU.CartridgeSounds.length)
      ∨ (SPU.ChannelAt SPU.PointedChannel).any
          (fun Pointed => decide (Pointed.State ≠ V.SPUChannelState_Stopped)) = true
  | _ => False

instance (V : IOPortValues) (Port : SPULocalPorts) (SPU : V32SPU) (Value : V32Word) :
    Decidable (SPUWriteIsIgnored V Port SPU Value) := by
  unfold SPUWriteIsIgnored
  cases Port <;> infer_instance

/-- What a read after a write of `Value` does return.  When the write is one
that is ignored: the word `Old` read before the write.  Otherwise: what the
claim says, or for a flag port the value clamped to [0, 1] as the unsigned
number that the writer reads, or for a loop bound the other loop bound. -/
def AmendedRead (Ignored : Prop) (Value Old New : V32Word) (WriteOnly : Bool)
    (IntegerRange FloatRange : Option (Int × Int)) (IsFlag : Bool) (OtherBound : Option Int) :
    Prop :=
  (Ignored ∧ New = Old)
  ∨ (¬ Ignored
      ∧ (ClaimedRead Value New WriteOnly IntegerRange FloatRange
        ∨ (IsFlag = true ∧ New = V32Word.OfInteger (Clamp (Value.AsBinary : Int) 0 1))
        ∨ (∃ Bound, OtherBound = some Bound ∧ New = V32Word.OfInteger Bound)))

/-! ## Conditional blocks: balanced branches and the ignored branch -/

/-- The conditional directive that `ProcessLine` dispatches a line to, whatever
follows its name: `some Name`, with `Name` one of `ifdef`, `ifndef`, `else` and
`endif`, when the line starts with `%` followed by that name, and `none` for
every other line. -/
def ConditionalKeyword (Line : TokenList) : Option String :=
  match Line with
  | Front :: Keyword :: _ =>
    if TokenIsThisSymbol Front .Percent then
      match Keyword.Data with
      | .Identifier Name => if IsConditionalName Name then some Name else none
      | _ => none
    else none
  | _ => none

/-- The number of conditionals that are open within a sequence of lines after
one more line of it, when `Depth` of them were open before the line: `none`
when the line is an `%else` or an `%endif` and no conditional is open within
the sequence, so that the directive belongs to a conditional opened outside. -/
def NestingAfter (Depth : Nat) (Line : TokenList) : Option Nat :=
  match ConditionalKeyword Line with
  | none => some Depth
  | some Name =>
    if Name = "ifdef" ∨ Name = "ifndef" then some (Depth + 1)
    else if Depth = 0 then none
    else if Name = "else" then some Depth
    else some (Depth - 1)

/-- The number of conditionals left open by a sequence of lines that starts
with `Depth` of them open, `none` when some `%else` or `%endif` of the sequence
belongs to a conditional opened outside of it. -/
def Nesting : Nat → List TokenList → Option Nat
  | Depth, [] => some Depth
  | Depth, Line :: Rest =>
    match NestingAfter Depth Line with
    | none => none
    | some Next => Nesting Next Rest

/-- What a line of an ignored section does to the conditionals opened within
the section, given by `Flags`, the else-was-found flag of each of them with the
innermost first; `none` when `ProcessLine` raises a failure on the line or the
line belongs to a conditional opened outside.  A line that does not start with
`%`, a lone `%` and a directive named by an identifier other than the four
conditional ones are passed over; `%ifdef NAME` and `%ifndef NAME` open a
conditional; `%else` marks the innermost one, once; `%endif` closes it.  A `%`
followed by anything but an identifier, and a conditional directive with
missing or surplus tokens, raise a failure. -/
def IgnoredLine (Flags : List Bool) (Line : TokenList) : Option (List Bool) :=
  match Line with
  | Front :: Keyword :: Others =>
    if TokenIsThisSymbol Front .Percent then
      match Keyword.Data with
      | .Identifier Name =>
        if Name = "ifdef" ∨ Name = "ifndef" then
          match Others with
          | [NameToken] =>
            match NameToken.Data with
            | .Identifier _ => some (false :: Flags)
            | _ => none
          | _ => none
        else if Name = "else" then
          match Others, Flags with
          | [], false :: Inner => some (true :: Inner)
          | _, _ => none
        else if Name = "endif" then
          match Others, Flags with
          | [], _ :: Inner => some Inner
          | _, _ => none
        else some Flags
      | _ => none
    else some Flags
  | _ => some Flags

/-- A sequence of lines that an ignored section passes over from its first
line to its last: no line of it raises a failure, and its conditional
directives are balanced, so that all conditionals given by `Flags` and all
those that the sequence opens are closed within it. -/
def IsIgnoredBranch : List Bool → List TokenList → Bool
  | Flags, [] => Flags.isEmpty
  | Flags, Line :: Rest =>
    match IgnoredLine Flags Line with
    | none => false
    | some Next => IsIgnoredBranch Next Rest

/-- Two states that run through the first branch of a conditional block, `P`
inside the block and `Q` with the first branch standing alone.  The states
differ in one context only, which lies directly above `Below`, possibly under
included files that both runs are in: in `P` that context has the frame of the
block open, under the conditionals opened within the branch, and has the rest
of the branch, then `Tail`, before it; in `Q` it has no such frame and has the
rest of the branch, then `Post`, before it.  The conditional directives of the
rest of the branch are balanced. -/
def InFirstBranch (Below : List ProcessingContext) (Frame : IfContext) (Outer : List IfContext)
    (Tail Post : List TokenList) (P Q : VirconASMPreprocessor) : Prop :=
  ∃ Upper TP TQ Nested Ahead,
    P.ContextStack = Upper ++ TP :: Below
    ∧ Q = { P with ContextStack := Upper ++ TQ :: Below }
    ∧ TP.IfStack = Nested ++ Frame :: Outer ∧ TQ.IfStack = Nested ++ Outer
    ∧ TP.Pending = Ahead ++ Tail ∧ TQ.Pending = Ahead ++ Post
    ∧ TP.ReferenceFolder = TQ.ReferenceFolder ∧ TP.FilePath = TQ.FilePath
    ∧ Nesting Nested.length Ahead = some 0

/-- Two states at the end of the first branch of a conditional block: `P` has
the frame of the block open and `Tail` before it, `Q` has `Post` before it. -/
def AtEndOfFirstBranch (Below : List ProcessingContext) (Frame : IfContext)
    (Outer : List IfContext) (Tail Post : List TokenList) (P Q : VirconASMPreprocessor) : Prop :=
  ∃ TP TQ,
    P.ContextStack = TP :: Below
    ∧ Q = { P with ContextStack := TQ :: Below }
    ∧ TP.IfStack = Frame :: Outer ∧ TQ.IfStack = Outer
    ∧ TP.Pending = Tail ∧ TQ.Pending = Post
    ∧ TP.ReferenceFolder = TQ.ReferenceFolder ∧ TP.FilePath = TQ.FilePath

/-- A conditional block whose second branch holds a `%` followed by a number:
```
%define X
%ifdef X
a
%else
% 5
%endif
```
between its file markers. -/
def SampleBadBranch : VirconASMLexer :=
  { InputDirectory := "."
    TokenLines :=
      [ [⟨At 0, .StartOfFile⟩],
        [PercentAt 1, IdentifierAt 1 "define", IdentifierAt 1 "X"],
        [PercentAt 2, IdentifierAt 2 "ifdef", IdentifierAt 2 "X"],
        [IdentifierAt 3 "a"],
        [PercentAt 4, IdentifierAt 4 "else"],
        [PercentAt 5, ⟨At 5, .LiteralInteger 5⟩],
        [PercentAt 6, IdentifierAt 6 "endif"],
        [⟨At 7, .EndOfFile⟩] ] }

/-- The input `SampleBadBranch` with the three directive lines of the
conditional block and its whole second branch removed. -/
def SampleBadBranchFirstBranch : VirconASMLexer :=
  { InputDirectory := "."
    TokenLines :=
      [ [⟨At 0, .StartOfFile⟩],
        [PercentAt 1, IdentifierAt 1 "define", IdentifierAt 1 "X"],
        [IdentifierAt 3 "a"],
        [⟨At 7, .EndOfFile⟩] ] }

/-- The first branch of the sample block: a nested conditional and an include
of `part.asm`.
```
%ifdef X
a
%endif
%include "part.asm"
```
-/
def SampleFirstBranch : List TokenList :=
  [ [PercentAt 2, IdentifierAt 2 "ifdef", IdentifierAt 2 "X"],
    [IdentifierAt 3 "a"],
    [PercentAt 4, IdentifierAt 4 "endif"],
    [PercentAt 5, IdentifierAt 5 "include", ⟨At 5, .LiteralString "part.asm"⟩] ]

/-- The second branch of the sample block: a nested conditional with both
branches, a line of code and directives that are discarded.
```
%ifndef Z
b
%include "missing.asm"
%else
%error "never"
%endif
%
```
-/
def SampleSecondBranch : List TokenList :=
  [ [PercentAt 7, IdentifierAt 7 "ifndef", IdentifierAt 7 "Z"],
    [IdentifierAt 8 "b"],
    [PercentAt 9, IdentifierAt 9 "include", ⟨At 9, .LiteralString "missing.asm"⟩],
    [PercentAt 10, IdentifierAt 10 "else"],
    [PercentAt 11, IdentifierAt 11 "error", ⟨At 11, .LiteralString "never"⟩],
    [PercentAt 12, IdentifierAt 12 "endif"],
    [PercentAt 13] ]

/-- The lines after the sample block. -/
def SampleAfterBlock : List TokenList :=
  [ [IdentifierAt 15 "c"], [⟨At 16, .EndOfFile⟩] ]

/-- The context of the sample block, standing on the `%ifdef X` line that
opens it: that line, the first branch, `%else`, the second branch, `%endif`
and the lines after the block. -/
def SampleBlockContext : ProcessingContext :=
  { ReferenceFolder := ".", FilePath := "main.asm"
    SourceLines :=
      [⟨At 0, .StartOfFile⟩]
        :: [PercentAt 1, IdentifierAt 1 "ifdef", IdentifierAt 1 "X"]
        :: (SampleFirstBranch
            ++ [PercentAt 6, IdentifierAt 6 "else"]
            :: (SampleSecondBranch ++ [PercentAt 14, IdentifierAt 14 "endif"] :: SampleAfterBlock))
    LinePosition := 1, IfStack := [] }

/-- The context of the first branch of the sample block alone, followed by
the lines after the block. -/
def SampleBranchContext : ProcessingContext :=
  { ReferenceFolder := ".", FilePath := "main.asm"
    SourceLines := [⟨At 0, .StartOfFile⟩] :: (SampleFirstBranch ++ SampleAfterBlock)
    LinePosition := 1, IfStack := [] }

/-- The sample block about to be processed, with `X` defined as `5`. -/
def SampleAtBlock : VirconASMPreprocessor :=
  { ContextStack := [SampleBlockContext]
    Definitions := [ ("X", [⟨At 0, .LiteralInteger 5⟩]) ]
    ProcessedTokens := [⟨At 0, .StartOfFile⟩]
    Warnings := [] }

/-! # Theorems -/

/-! ## Theorems: replacement of definitions -/

theorem ReplaceDefinitions_fst (D : DefinitionsMap) (Line : TokenList) :
    (ReplaceDefinitions D Line).1 = (Line.map (ReplaceToken D)).flatten := by
  induction Line with
  | nil => rfl
  | cons T Rest ih =>
    simp only [ReplaceDefinitions, List.map_cons, List.flatten_cons, ReplaceToken]
    cases hT : T.Data <;> simp [ih]
    rename_i Name
    cases hF : D.find Name <;> simp [ih]

theorem ReplaceDefinitions_snd (D : DefinitionsMap) (Line : TokenList) :
    (ReplaceDefinitions D Line).2 = Line.any (IsDefinedIdentifier D) := by
  induction Line with
  | nil => rfl
  | cons T Rest ih =>
    simp only [ReplaceDefinitions, List.any_cons, IsDefinedIdentifier]
    cases hT : T.Data <;> simp [ih]
    rename_i Name
    cases hF : D.find Name <;> simp [ih]

theorem ReplaceToken_of_not_defined {D : DefinitionsMap} {T : Token}
    (h : IsDefinedIdentifier D T = false) : ReplaceToken D T = [T] := by
  unfold IsDefinedIdentifier at h
  unfold ReplaceToken
  cases hT : T.Data <;> simp [hT] at h ⊢
  rename_i Name
  cases hF : D.find Name <;> simp [hF] at h ⊢

theorem ReplaceDefinitions_stable {D : DefinitionsMap} {Line : TokenList}
    (h : (ReplaceDefinitions D Line).2 = false) : (ReplaceDefinitions D Line).1 = Line := by
  rw [ReplaceDefinitions_snd] at h
  rw [ReplaceDefinitions_fst]
  induction Line with
  | nil => rfl
  | cons T Rest ih =>
    simp only [List.any_cons, Bool.or_eq_false_iff] at h
    simp [ReplaceToken_of_not_defined h.1, ih h.2]

theorem PassesOn_append (D : DefinitionsMap) (Passes : Nat) (L₁ L₂ : TokenList) :
    PassesOn D Passes (L₁ ++ L₂) = PassesOn D Passes L₁ ++ PassesOn D Passes L₂ := by
  induction Passes generalizing L₁ L₂ with
  | zero => rfl
  | succ k ih =>
    simp only [PassesOn, ReplaceDefinitions_fst, List.map_append, List.flatten_append]
    exact ih _ _

theorem PassesOn_flatten (D : DefinitionsMap) (Passes : Nat) (Line : TokenList) :
    PassesOn D Passes Line = (Line.map (fun T => PassesOn D Passes [T])).flatten := by
  induction Line with
  | nil =>
    induction Passes with
    | zero => rfl
    | succ k ih => simpa [PassesOn, ReplaceDefinitions] using ih
  | cons T Rest ih =>
    have := PassesOn_append D Passes [T] Rest
    simp only [List.singleton_append] at this
    rw [this, ih]; simp

/-- A successful replacement loop returns the line after some number of
passes, the last of which found nothing to replace. -/
theorem ReplaceLoop_ok {D : DefinitionsMap} {PassesLeft : Nat} {Line Emitted : TokenList}
    (h : ReplaceLoop D PassesLeft Line = .ok Emitted) :
    ∃ Passes, Passes ≤ PassesLeft ∧ Emitted = PassesOn D Passes Line
      ∧ (ReplaceDefinitions D Emitted).2 = false := by
  induction PassesLeft generalizing Line with
  | zero =>
    unfold ReplaceLoop at h
    by_cases hp : (ReplaceDefinitions D Line).2 = true
    · simp only [hp, if_true] at h
      split at h <;> cases h
    · simp only [hp] at h
      simp only [Bool.not_eq_true] at hp
      have hs := ReplaceDefinitions_stable hp
      injection h with h
      rw [hs] at h
      subst h
      exact ⟨0, le_refl _, rfl, hp⟩
  | succ k ih =>
    unfold ReplaceLoop at h
    by_cases hp : (ReplaceDefinitions D Line).2 = true
    · simp only [hp, if_true] at h
      obtain ⟨m, hm, he, hst⟩ := ih h
      exact ⟨m + 1, by omega, he, hst⟩
    · simp only [hp] at h
      simp only [Bool.not_eq_true] at hp
      have hs := ReplaceDefinitions_stable hp
      injection h with h
      rw [hs] at h
      subst h
      exact ⟨0, by omega, rfl, hp⟩

/-! ## Theorems: lines copied to the output -/

theorem GetCurrentLine_ok {C : ProcessingContext} {Line : TokenList}
    (h : C.GetCurrentLine = .ok Line) :
    C.LinesHaveEnded = false ∧ C.SourceLines[C.LinePosition]? = some Line := by
  unfold ProcessingContext.GetCurrentLine at h
  by_cases he : C.LinesHaveEnded = true
  · simp [he] at h
  · simp only [he] at h
    simp only [Bool.not_eq_true] at he
    refine ⟨he, ?_⟩
    cases hg : C.SourceLines[C.LinePosition]? with
    | none => simp [hg] at h
    | some L => simp [hg] at h; simp [h]

/-- On a line that CASE 3 copies, `ProcessLine` is the replacement loop
followed by the copy. -/
theorem ProcessLine_emits (H : Host) {P : VirconASMPreprocessor} {Line : TokenList}
    (h : EmitsCurrentLine P Line) :
    ∃ Top Below, P.ContextStack = Top :: Below ∧
    ProcessLine H P =
      match ReplaceLoop P.Definitions 10 Line with
      | .error E => .error E
      | .ok Replaced =>
        .ok { ContextStack :=
                { Top with SourceLines := Top.SourceLines.set Top.LinePosition Replaced } :: Below
              Definitions := P.Definitions
              ProcessedTokens := P.ProcessedTokens ++ Replaced
              Warnings := P.Warnings } := by
  obtain ⟨Top, Below, Front, Rest, hS, hL, hF, hM, hD, hA⟩ := h
  refine ⟨Top, Below, hS, ?_⟩
  subst hF
  have hM' : (decide ((Top :: Below).length > 1)
      && (Front.Type == .StartOfFile || Front.Type == .EndOfFile)) = false := by
    by_cases hB : Below = []
    · subst hB; simp
    · have : ¬ (Front.Type = .StartOfFile ∨ Front.Type = .EndOfFile) := fun h => hM ⟨hB, h⟩
      simp only [not_or] at this
      simp [this.1, this.2]
  unfold ProcessLine
  simp only [hS, hL, bind, Except.bind, hM', hD, hA]
  cases ReplaceLoop P.Definitions 10 (Front :: Rest) <;> simp [SetTop, hS]

theorem PassesOn_all {D : DefinitionsMap} {Location : SourceLocation} (Passes : Nat)
    (Line : TokenList)
    (h : ∀ U ∈ Line, U.Location = Location ∧ IsRelocatedDefinitionToken D Location U) :
    ∀ U ∈ PassesOn D Passes Line,
      U.Location = Location ∧ IsRelocatedDefinitionToken D Location U := by
  induction Passes generalizing Line with
  | zero => exact h
  | succ k ih =>
    apply ih
    intro U hU
    rw [ReplaceDefinitions_fst] at hU
    simp only [List.mem_flatten, List.mem_map] at hU
    obtain ⟨Piece, ⟨T, hT, rfl⟩, hUP⟩ := hU
    obtain ⟨hTL, hTR⟩ := h T hT
    unfold ReplaceToken at hUP
    cases hData : T.Data with
    | Identifier Name =>
      simp only [hData] at hUP
      cases hFind : D.find Name with
      | none =>
        simp only [hFind, List.mem_singleton] at hUP
        subst hUP; exact ⟨hTL, hTR⟩
      | some Value =>
        simp only [hFind, List.mem_map] at hUP
        obtain ⟨V, hV, rfl⟩ := hUP
        exact ⟨hTL, Name, Value, V, hFind, hV, by rw [hTL]⟩
    | _ =>
      simp only [hData, List.mem_singleton] at hUP
      subst hUP; exact ⟨hTL, hTR⟩

theorem PassesOn_not_defined {D : DefinitionsMap} {T : Token}
    (h : IsDefinedIdentifier D T = false) (Passes : Nat) : PassesOn D Passes [T] = [T] := by
  induction Passes with
  | zero => rfl
  | succ k ih =>
    simp only [PassesOn, ReplaceDefinitions_fst, List.map_cons, List.map_nil,
      List.flatten_cons, List.flatten_nil, List.append_nil, ReplaceToken_of_not_defined h]
    exact ih

theorem PassesOn_defined {D : DefinitionsMap} {T : Token}
    (h : IsDefinedIdentifier D T = true) (Passes : Nat) :
    ∀ U ∈ PassesOn D (Passes + 1) [T],
      U.Location = T.Location ∧ IsRelocatedDefinitionToken D T.Location U := by
  simp only [PassesOn, ReplaceDefinitions_fst, List.map_cons, List.map_nil,
    List.flatten_cons, List.flatten_nil, List.append_nil]
  apply PassesOn_all
  intro U hU
  unfold IsDefinedIdentifier at h
  unfold ReplaceToken at hU
  cases hData : T.Data with
  | Identifier Name =>
    simp only [hData] at hU h
    cases hFind : D.find Name with
    | none => simp [hFind] at h
    | some Value =>
      simp only [hFind, List.mem_map] at hU
      obtain ⟨V, hV, rfl⟩ := hU
      exact ⟨rfl, Name, Value, V, hFind, hV, rfl⟩
  | _ => simp [hData] at h

/-- The result of a successful replacement loop, token by token of the
original line. -/
theorem ReplaceLoop_pieces {D : DefinitionsMap} {PassesLeft : Nat} {Line Emitted : TokenList}
    (h : ReplaceLoop D PassesLeft Line = .ok Emitted) :
    ∃ Pieces : List TokenList,
      Emitted = Pieces.flatten ∧ List.Forall₂ (ExpandsTo D) Line Pieces := by
  obtain ⟨Passes, -, hE, hStable⟩ := ReplaceLoop_ok h
  refine ⟨Line.map (fun T => PassesOn D Passes [T]), ?_, ?_⟩
  · rw [hE]; exact PassesOn_flatten D Passes Line
  · rw [List.forall₂_map_right_iff]
    apply List.forall₂_same.mpr
    intro T hT
    unfold ExpandsTo
    by_cases hDef : IsDefinedIdentifier D T = true
    · simp only [hDef, if_true]
      cases Passes with
      | zero =>
        exfalso
        simp only [PassesOn] at hE
        subst hE
        rw [ReplaceDefinitions_snd] at hStable
        have := List.any_eq_false.mp hStable T hT
        simp [hDef] at this
      | succ k => exact PassesOn_defined hDef k
    · simp only [hDef]
      simp only [Bool.not_eq_true] at hDef
      exact PassesOn_not_defined hDef Passes

/-- Claim C4: On every active non-directive line that is copied to the output,
the tokens appended are, token by token of the line: for an identifier that
names a definition, clones of definition tokens (obtained directly or through
definitions that use other definitions, over any number of passes) that all
carry the location of that identifier; for any other token, the token
itself. -/
theorem C4_expansion_keeps_identifier_location (H : Host) (P Q : VirconASMPreprocessor)
    (Line : TokenList) (hLine : EmitsCurrentLine P Line) (hOk : ProcessLine H P = .ok Q) :
    ∃ Pieces : List TokenList,
      Q.ProcessedTokens = P.ProcessedTokens ++ Pieces.flatten
      ∧ List.Forall₂ (ExpandsTo P.Definitions) Line Pieces := by
  obtain ⟨Top, Below, -, hP⟩ := ProcessLine_emits H hLine
  rw [hP] at hOk
  cases hR : ReplaceLoop P.Definitions 10 Line with
  | error E => simp [hR] at hOk
  | ok Replaced =>
    simp only [hR, Except.ok.injEq] at hOk
    obtain ⟨Pieces, hE, hF⟩ := ReplaceLoop_pieces hR
    exact ⟨Pieces, by rw [← hOk, hE], hF⟩

/-- The sample `%define X 5`, `%define Y X+X`, `MOV R0, Y`: preprocessing
yields `MOV R0, 5+5` between the file markers, the tokens `5`, `+`, `5` located
at the line of `Y`, and the general statement holds on the line `MOV R0, Y`. -/
theorem C4_expansion_keeps_identifier_location_witness :
    (Preprocess NoFiles 6 Fresh SampleDefines).map (fun Q => Q.ProcessedTokens)
      = .ok [⟨At 0, .StartOfFile⟩, ⟨At 3, .Other "MOV"⟩, ⟨At 3, .Other "R0"⟩,
          ⟨At 3, .Symbol .Comma⟩, ⟨At 3, .LiteralInteger 5⟩, ⟨At 3, .Symbol .Plus⟩,
          ⟨At 3, .LiteralInteger 5⟩, ⟨At 4, .EndOfFile⟩]
    ∧ (Preprocess NoFiles 3 Fresh SampleDefines) = .ok SampleAtMov
    ∧ ∃ Q, ProcessLine NoFiles SampleAtMov = .ok Q ∧
      ∃ Pieces : List TokenList,
        Q.ProcessedTokens = SampleAtMov.ProcessedTokens ++ Pieces.flatten
        ∧ List.Forall₂ (ExpandsTo SampleAtMov.Definitions)
            [⟨At 3, .Other "MOV"⟩, ⟨At 3, .Other "R0"⟩, ⟨At 3, .Symbol .Comma⟩,
              ⟨At 3, .Identifier "Y"⟩] Pieces :=
  ⟨by decide, by decide, _, rfl,
    C4_expansion_keeps_identifier_location NoFiles SampleAtMov _ _
      ⟨_, _, _, _, rfl, by decide, rfl, by decide, by decide, by decide⟩ rfl⟩

/-- A line that is stable after `Passes` replacing passes, `Passes` within the
cap, is returned as those passes left it. -/
theorem ReplaceLoop_within_cap (D : DefinitionsMap) (PassesLeft : Nat) (Line : TokenList)
    (Passes : Nat) (hCap : Passes ≤ PassesLeft)
    (hReplacing : ∀ k < Passes, (ReplaceDefinitions D (PassesOn D k Line)).2 = true)
    (hStable : (ReplaceDefinitions D (PassesOn D Passes Line)).2 = false) :
    ReplaceLoop D PassesLeft Line = .ok (PassesOn D Passes Line) := by
  induction PassesLeft generalizing Line Passes with
  | zero =>
    have : Passes = 0 := by omega
    subst this
    unfold ReplaceLoop
    simp only [PassesOn] at hStable
    simp [hStable, PassesOn, ReplaceDefinitions_stable hStable]
  | succ n ih =>
    cases Passes with
    | zero =>
      unfold ReplaceLoop
      simp only [PassesOn] at hStable
      simp [hStable, PassesOn, ReplaceDefinitions_stable hStable]
    | succ m =>
      have h0 := hReplacing 0 (by omega)
      simp only [PassesOn] at h0
      unfold ReplaceLoop
      simp only [h0, if_true, PassesOn]
      exact ih _ m (by omega) (fun k hk => hReplacing (k + 1) (by omega)) hStable

/-- A line on which more passes replace something than the cap allows fails,
at the front of the line as the last pass left it. -/
theorem ReplaceLoop_beyond_cap (D : DefinitionsMap) (PassesLeft : Nat) (Line : TokenList)
    (hReplacing : ∀ k ≤ PassesLeft, (ReplaceDefinitions D (PassesOn D k Line)).2 = true) :
    ReplaceLoop D PassesLeft Line = .error (TooDeep (PassesOn D (PassesLeft + 1) Line)) := by
  induction PassesLeft generalizing Line with
  | zero =>
    have h0 := hReplacing 0 (le_refl _)
    simp only [PassesOn] at h0
    unfold ReplaceLoop
    simp only [h0, if_true, PassesOn, TooDeep]
    cases (ReplaceDefinitions D Line).1 <;> rfl
  | succ n ih =>
    have h0 := hReplacing 0 (by omega)
    simp only [PassesOn] at h0
    unfold ReplaceLoop
    simp only [h0, if_true, PassesOn]
    exact ih _ (fun k hk => hReplacing (k + 1) (by omega))

/-- Claim C6 (failing input): On the chain of eleven definitions, eleven passes
replace something on the line `A1` and the last one leaves the line empty: the
cap is exceeded, and the location of the error is read from the front of an
empty line, so the run does not end in the error "definition replacement is too
deep".  With two definitions that use each other the run does end in that
error. -/
theorem C6_cap_error_reads_front_of_emptied_line :
    Preprocess NoFiles 13 Fresh SampleChain = .error .Undefined
    ∧ Preprocess NoFiles 4 Fresh SampleMutual
        = .error (.Error (At 3)
            "definition replacement is too deep (possible circular reference)") := by
  constructor <;> decide!

/-! ## Theorems: single directives -/

theorem TokenIsThisSymbol_iff (T : Token) (Which : SymbolTypes) :
    TokenIsThisSymbol T Which = true ↔ T.Data = .Symbol Which := by
  unfold TokenIsThisSymbol
  cases T.Data <;> simp

theorem DefinitionsMap_find_erase_self (D : DefinitionsMap) (Name : String) :
    (D.erase Name).find Name = none := by
  induction D with
  | nil => rfl
  | cons Entry Rest ih =>
    obtain ⟨Key, Value⟩ := Entry
    by_cases hK : Key = Name
    · simpa [DefinitionsMap.erase, List.filter_cons, hK] using ih
    · simpa [DefinitionsMap.erase, List.filter_cons, hK, DefinitionsMap.find] using ih

theorem DefinitionsMap_find_erase_other (D : DefinitionsMap) {Name Other : String}
    (h : Other ≠ Name) : (D.erase Name).find Other = D.find Other := by
  induction D with
  | nil => rfl
  | cons Entry Rest ih =>
    obtain ⟨Key, Value⟩ := Entry
    by_cases hK : Key = Name
    · subst hK
      have : ¬ Key = Other := fun e => h e.symm
      simpa [DefinitionsMap.erase, List.filter_cons, DefinitionsMap.find, this] using ih
    · by_cases hO : Key = Other
      · subst hO
        simp [DefinitionsMap.erase, List.filter_cons, hK, DefinitionsMap.find]
      · simpa [DefinitionsMap.erase, List.filter_cons, hK, DefinitionsMap.find, hO] using ih

theorem DefinitionsMap_find_assign_self (D : DefinitionsMap) (Name : String)
    (Value : TokenList) : (D.assign Name Value).find Name = some Value := by
  simp [DefinitionsMap.assign, DefinitionsMap.find]

theorem DefinitionsMap_find_assign_other (D : DefinitionsMap) {Name Other : String}
    (Value : TokenList) (h : Other ≠ Name) :
    (D.assign Name Value).find Other = D.find Other := by
  have : ¬ Name = Other := fun e => h e.symm
  simp [DefinitionsMap.assign, DefinitionsMap.find, this, DefinitionsMap_find_erase_other D h]

/-- On a directive line whose second token is an identifier, `ProcessLine`
discards the directive when the line is ignored and the name is not one of the
four conditional directives, and dispatches on the name otherwise. -/
theorem ProcessLine_directive (H : Host) {P : VirconASMPreprocessor}
    {Top : ProcessingContext} {Below : List ProcessingContext} {Front Keyword : Token}
    {Rest : TokenList} {DirectiveName : String}
    (hStack : P.ContextStack = Top :: Below)
    (hLine : Top.GetCurrentLine = .ok (Front :: Keyword :: Rest))
    (hPercent : Front.Data = .Symbol .Percent)
    (hKeyword : Keyword.Data = .Identifier DirectiveName) :
    ProcessLine H P =
      if (!Top.AreAllIfConditionsMet && !IsConditionalName DirectiveName) = true then .ok P
      else ProcessDirective H P (Front :: Keyword :: Rest) Front DirectiveName := by
  have hT : Front.Type = .Symbol := by simp [Token.Type, hPercent]
  have hD : TokenIsThisSymbol Front .Percent = true := (TokenIsThisSymbol_iff _ _).mpr hPercent
  have hK : IsLastToken Keyword = false := by simp [IsLastToken, Token.Type, hKeyword]
  unfold ProcessLine
  simp only [hStack, hLine, bind, Except.bind, hT, hD, ExpectIdentifier]
  simp [hK, hKeyword]

theorem CollectDefinition_accepts (Name : String) (Tokens Collected : TokenList)
    (h : ∀ T ∈ Tokens, ¬ (T.Data = .Identifier Name ∨ T.Data = .Symbol .Percent)) :
    CollectDefinition Name Tokens Collected = .ok (Collected ++ Tokens) := by
  induction Tokens generalizing Collected with
  | nil => simp [CollectDefinition]
  | cons T Rest ih =>
    have hT := h T (List.mem_cons_self _ _)
    simp only [not_or] at hT
    have hS : TokenIsThisSymbol T .Percent = false := by
      cases hb : TokenIsThisSymbol T .Percent
      · rfl
      · exact absurd ((TokenIsThisSymbol_iff _ _).mp hb) hT.2
    unfold CollectDefinition
    simp only [hT.1, if_false, hS]
    rw [ih _ (fun U hU => h U (List.mem_cons_of_mem _ hU))]
    simp

theorem CollectDefinition_rejects (Name : String) (Tokens Collected : TokenList)
    (h : ∃ T ∈ Tokens, T.Data = .Identifier Name ∨ T.Data = .Symbol .Percent) :
    ∃ E, CollectDefinition Name Tokens Collected = .error E := by
  induction Tokens generalizing Collected with
  | nil => simp at h
  | cons T Rest ih =>
    unfold CollectDefinition
    by_cases h1 : T.Data = .Identifier Name
    · simp [h1]
    · by_cases h2 : TokenIsThisSymbol T .Percent = true
      · simp [h1, h2]
      · simp only [h1, if_false, h2]
        apply ih
        obtain ⟨U, hU, hBad⟩ := h
        rcases List.mem_cons.mp hU with rfl | hU
        · rcases hBad with hBad | hBad
          · exact absurd hBad h1
          · exact absurd ((TokenIsThisSymbol_iff _ _).mpr hBad) h2
        · exact ⟨U, hU, hBad⟩

/-- The function `ProcessDefine` on a directive line, case by case of the tokens after the
directive name. -/
theorem ProcessDefine_eq (P : VirconASMPreprocessor) (Front Keyword : Token) (Rest : TokenList) :
    ProcessDefine P (Front :: Keyword :: Rest) =
      match Rest with
      | [] => .error (.Error Front.Location "definition name is missing")
      | NameToken :: Tokens =>
        if IsLastToken NameToken then .error (.Error Keyword.Location "unexpected end of file")
        else
          match NameToken.Data with
          | .Identifier Name =>
            match CollectDefinition Name Tokens [] with
            | .error E => .error E
            | .ok Value =>
              .ok { P with Definitions := (P.Definitions.assign Name []).assign Name Value }
          | _ => .error (.Error NameToken.Location "expected identifier") := by
  cases Rest with
  | nil => simp [ProcessDefine, FrontLocation, bind, Except.bind]
  | cons NameToken Tokens =>
    by_cases hL : IsLastToken NameToken = true
    · simp [ProcessDefine, ExpectIdentifier, hL, bind, Except.bind]
    · simp only [ProcessDefine, ExpectIdentifier, hL, bind, Except.bind, List.getElem?_cons_succ,
        List.getElem?_cons_zero]
      cases hD : NameToken.Data <;> simp
      cases CollectDefinition _ Tokens [] <;> simp

/-- Claim C7: An active `%define` is rejected with an error if and only if the
name is missing or is not an identifier, or the tokens after the name contain
an identifier equal to the name or a `%` symbol; otherwise it succeeds, the
definitions map maps the name to exactly the tokens that follow it on the
line, in order, and nothing else of the state changes but the map. -/
theorem C7_define_rejected_iff (H : Host) (P : VirconASMPreprocessor)
    (Top : ProcessingContext) (Below : List ProcessingContext) (Front Keyword : Token)
    (Rest : TokenList)
    (hStack : P.ContextStack = Top :: Below)
    (hLine : Top.GetCurrentLine = .ok (Front :: Keyword :: Rest))
    (hPercent : Front.Data = .Symbol .Percent)
    (hKeyword : Keyword.Data = .Identifier "define")
    (hActive : Top.AreAllIfConditionsMet = true) :
    ((∃ E, ProcessLine H P = .error E) ↔ DefineIsRejected Rest)
    ∧ (¬ DefineIsRejected Rest →
        ∃ Q, ProcessLine H P = .ok Q
          ∧ Q.ContextStack = P.ContextStack ∧ Q.ProcessedTokens = P.ProcessedTokens
          ∧ Q.Warnings = P.Warnings
          ∧ ∀ NameToken Name Tokens, Rest = NameToken :: Tokens →
              NameToken.Data = .Identifier Name → Q.Definitions.find Name = some Tokens) := by
  have hPL : ProcessLine H P = ProcessDefine P (Front :: Keyword :: Rest) := by
    rw [ProcessLine_directive H hStack hLine hPercent hKeyword]
    simp [hActive, ProcessDirective]
  rw [hPL, ProcessDefine_eq]
  cases Rest with
  | nil => simp [DefineIsRejected]
  | cons NameToken Tokens =>
    by_cases hL : IsLastToken NameToken = true
    · have : NameToken.Data = .EndOfFile := by
        unfold IsLastToken Token.Type at hL
        cases hD : NameToken.Data <;> simp [hD] at hL
        rfl
      simp [hL, DefineIsRejected, this]
    · simp only [hL]
      cases hD : NameToken.Data with
      | Identifier Name =>
        simp only [DefineIsRejected, hD]
        by_cases hBad : ∃ T ∈ Tokens, T.Data = .Identifier Name ∨ T.Data = .Symbol .Percent
        · obtain ⟨E, hE⟩ := CollectDefinition_rejects Name Tokens [] hBad
          simp [hE, hBad]
        · have hOk := CollectDefinition_accepts Name Tokens []
            (fun T hT hB => hBad ⟨T, hT, hB⟩)
          simp only [hOk, List.nil_append, hBad, iff_false, not_exists, not_false_eq_true,
            forall_true_left]
          simp only [Bool.false_eq_true, if_false]
          refine ⟨fun E hE => (by cases hE), _, rfl, rfl, rfl, rfl, ?_⟩
          intro NT N Tk hEq hN
          injection hEq with h1 h2
          subst h1 h2
          rw [hD] at hN
          injection hN with hN
          subst hN
          exact DefinitionsMap_find_assign_self _ _ _
      | _ => simp [DefineIsRejected, hD]

/-- The directive `%define Y X+X` of the sample is accepted and maps `Y` to
the three tokens `X`, `+`, `X`. -/
theorem C7_define_rejected_iff_witness :
    ((∃ E, ProcessLine NoFiles SampleAtDefineY = .error E)
        ↔ DefineIsRejected [IdentifierAt 2 "Y", IdentifierAt 2 "X", ⟨At 2, .Symbol .Plus⟩,
            IdentifierAt 2 "X"])
    ∧ (¬ DefineIsRejected [IdentifierAt 2 "Y", IdentifierAt 2 "X", ⟨At 2, .Symbol .Plus⟩,
            IdentifierAt 2 "X"] →
        ∃ Q, ProcessLine NoFiles SampleAtDefineY = .ok Q
          ∧ Q.ContextStack = SampleAtDefineY.ContextStack
          ∧ Q.ProcessedTokens = SampleAtDefineY.ProcessedTokens
          ∧ Q.Warnings = SampleAtDefineY.Warnings
          ∧ ∀ NameToken Name Tokens,
              [IdentifierAt 2 "Y", IdentifierAt 2 "X", ⟨At 2, .Symbol .Plus⟩, IdentifierAt 2 "X"]
                = NameToken :: Tokens →
              NameToken.Data = .Identifier Name → Q.Definitions.find Name = some Tokens) :=
  C7_define_rejected_iff NoFiles SampleAtDefineY _ [] (PercentAt 2) (IdentifierAt 2 "define") _
    rfl (by decide) rfl rfl (by decide)

/-- The function `ProcessIf` on a well-formed `%ifdef NAME` or `%ifndef NAME` line. -/
theorem ProcessIf_eq (P : VirconASMPreprocessor) (Top : ProcessingContext)
    (Below : List ProcessingContext) (Front Keyword NameToken : Token) (Name : String)
    (IsIfndef : Bool) (hStack : P.ContextStack = Top :: Below)
    (hName : NameToken.Data = .Identifier Name) :
    ProcessIf P [Front, Keyword, NameToken] IsIfndef =
      .ok { P with ContextStack :=
              { Top with IfStack :=
                  { StartingLine := Front.Location.Line
                    ConditionIsMet := ((P.Definitions.find Name).isSome == !IsIfndef)
                    ElseWasFound := false } :: Top.IfStack } :: Below } := by
  have hL : IsLastToken NameToken = false := by simp [IsLastToken, Token.Type, hName]
  simp [ProcessIf, ExpectIdentifier, hL, hName, ExpectEndOfLine, FrontLocation, hStack,
    bind, Except.bind, SetTop]

/-- The function `ProcessElse` on a well-formed `%else` line. -/
theorem ProcessElse_eq (P : VirconASMPreprocessor) (Top : ProcessingContext)
    (Below : List ProcessingContext) (Front Keyword : Token)
    (hStack : P.ContextStack = Top :: Below) :
    ProcessElse P [Front, Keyword] =
      match Top.IfStack with
      | [] => .error (.Error Front.Location "%else with no previous %if")
      | Frame :: Outer =>
        if Frame.ElseWasFound then
          .error (.Error Front.Location "%else can only be used once per %if")
        else
          .ok { P with ContextStack :=
                  { Top with IfStack := { Frame with ElseWasFound := true } :: Outer } :: Below } := by
  simp only [ProcessElse, ExpectEndOfLine, FrontLocation, hStack, bind, Except.bind, SetTop]
  cases Top.IfStack <;> simp

/-- The function `ProcessEndif` on a well-formed `%endif` line. -/
theorem ProcessEndif_eq (P : VirconASMPreprocessor) (Top : ProcessingContext)
    (Below : List ProcessingContext) (Front Keyword : Token)
    (hStack : P.ContextStack = Top :: Below) :
    ProcessEndif P [Front, Keyword] =
      match Top.IfStack with
      | [] => .error (.Error Front.Location "#endif with no previous #if")
      | _ :: Outer => .ok { P with ContextStack := { Top with IfStack := Outer } :: Below } := by
  simp only [ProcessEndif, ExpectEndOfLine, FrontLocation, hStack, bind, Except.bind, SetTop]
  cases Top.IfStack <;> simp

/-- The function `ProcessUndef` on a well-formed `%undef NAME` line. -/
theorem ProcessUndef_eq (P : VirconASMPreprocessor) (Front Keyword NameToken : Token)
    (Name : String) (hName : NameToken.Data = .Identifier Name) :
    ProcessUndef P [Front, Keyword, NameToken] =
      match P.Definitions.find Name with
      | some _ => .ok { P with Definitions := P.Definitions.erase Name }
      | none => .ok P := by
  have hL : IsLastToken NameToken = false := by simp [IsLastToken, Token.Type, hName]
  simp only [ProcessUndef, ExpectIdentifier, hL, hName, ExpectEndOfLine, bind, Except.bind,
    List.getElem?_cons_succ, List.getElem?_cons_zero]
  simp

/-- Claim C10: `%else` flips the polarity of the innermost open if-frame of the
current context and of no other frame: the frame is marked as having seen its
`%else`, after which it evaluates true iff its condition was not met, and the
outer frames, the other contexts and the rest of the state are unchanged; a
second `%else` for the same frame raises "%else can only be used once per %if",
so a frame is flipped at most once. -/
theorem C10_else_flips_innermost_frame_once (H : Host) (P : VirconASMPreprocessor)
    (Top : ProcessingContext) (Below : List ProcessingContext) (Front Keyword : Token)
    (Frame : IfContext) (Outer : List IfContext)
    (hStack : P.ContextStack = Top :: Below)
    (hLine : Top.GetCurrentLine = .ok [Front, Keyword])
    (hPercent : Front.Data = .Symbol .Percent)
    (hKeyword : Keyword.Data = .Identifier "else")
    (hFrames : Top.IfStack = Frame :: Outer) :
    (Frame.ElseWasFound = false →
      ProcessLine H P =
        .ok { P with ContextStack :=
                { Top with IfStack := { Frame with ElseWasFound := true } :: Outer } :: Below }
      ∧ ({ Frame with ElseWasFound := true } : IfContext).Evaluates = !Frame.ConditionIsMet)
    ∧ (Frame.ElseWasFound = true →
        ProcessLine H P = .error (.Error Front.Location "%else can only be used once per %if")) := by
  have hPL : ProcessLine H P = ProcessElse P [Front, Keyword] := by
    rw [ProcessLine_directive H hStack hLine hPercent hKeyword]
    simp [IsConditionalName, ProcessDirective]
  rw [hPL, ProcessElse_eq P Top Below Front Keyword hStack, hFrames]
  constructor
  · intro h
    simp [h, IfContext.Evaluates]
  · intro h
    simp [h]

/-- In the sample state the first `%else` flips the frame of `%ifdef X`,
which then evaluates false, and leaves the frame of `%ifndef Z` alone; the
`%else` on the next line is the second one for that frame and is rejected. -/
theorem C10_else_flips_innermost_frame_once_witness :
    RunLoop NoFiles 2 SampleAtElse
        = .error (.Error (At 4) "%else can only be used once per %if")
    ∧ ((⟨2, true, false⟩ : IfContext).ElseWasFound = false →
      ProcessLine NoFiles SampleAtElse =
        .ok { SampleAtElse with ContextStack :=
                [ { ReferenceFolder := ".", FilePath := "main.asm"
                    SourceLines :=
                      [ [⟨At 0, .StartOfFile⟩],
                        [PercentAt 1, IdentifierAt 1 "ifndef", IdentifierAt 1 "Z"],
                        [PercentAt 2, IdentifierAt 2 "ifdef", IdentifierAt 2 "X"],
                        [PercentAt 3, IdentifierAt 3 "else"],
                        [PercentAt 4, IdentifierAt 4 "else"],
                        [PercentAt 5, IdentifierAt 5 "endif"],
                        [PercentAt 6, IdentifierAt 6 "endif"],
                        [⟨At 7, .EndOfFile⟩] ]
                    LinePosition := 3
                    IfStack := [ ⟨2, true, true⟩, ⟨1, true, false⟩ ] } ] }
      ∧ (⟨2, true, true⟩ : IfContext).Evaluates = !(⟨2, true, false⟩ : IfContext).ConditionIsMet)
    ∧ ((⟨2, true, false⟩ : IfContext).ElseWasFound = true →
        ProcessLine NoFiles SampleAtElse
          = .error (.Error (PercentAt 3).Location "%else can only be used once per %if")) :=
  ⟨by decide, C10_else_flips_innermost_frame_once NoFiles SampleAtElse _ [] (PercentAt 3)
    (IdentifierAt 3 "else") ⟨2, true, false⟩ [⟨1, true, false⟩] rfl (by decide) rfl rfl rfl⟩

/-! ## Theorems: flat lines -/

/-- How a state that differs from `Bare` only outside the definitions takes
over the result of a directive that touches definitions and warnings only. -/
theorem ProcessDefine_frame (P : VirconASMPreprocessor) (Line : TokenList) :
    ProcessDefine P Line =
      match ProcessDefine (Bare P.Definitions) Line with
      | .error E => .error E
      | .ok Q => .ok { P with Definitions := Q.Definitions
                              Warnings := P.Warnings ++ Q.Warnings } := by
  unfold ProcessDefine
  simp only [Bare, bind, Except.bind]
  cases Line[2]? with
  | none => cases FrontLocation Line <;> rfl
  | some T =>
    simp only
    cases ExpectIdentifier Line 2 with
    | error E => rfl
    | ok R =>
      simp only
      cases CollectDefinition R.1 (List.drop R.2 Line) [] <;> simp

theorem ProcessUndef_frame (P : VirconASMPreprocessor) (Line : TokenList) :
    ProcessUndef P Line =
      match ProcessUndef (Bare P.Definitions) Line with
      | .error E => .error E
      | .ok Q => .ok { P with Definitions := Q.Definitions
                              Warnings := P.Warnings ++ Q.Warnings } := by
  unfold ProcessUndef
  simp only [Bare, bind, Except.bind]
  cases Line[2]? with
  | none => cases FrontLocation Line <;> rfl
  | some T =>
    simp only
    cases ExpectIdentifier Line 2 with
    | error E => rfl
    | ok R =>
      simp only
      cases ExpectEndOfLine Line R.2 with
      | error E => rfl
      | ok U =>
        simp only
        cases P.Definitions.find R.1 <;> simp

theorem ProcessError_frame (P : VirconASMPreprocessor) (Line : TokenList) (WarningOnly : Bool) :
    ProcessError P Line WarningOnly =
      match ProcessError (Bare P.Definitions) Line WarningOnly with
      | .error E => .error E
      | .ok Q => .ok { P with Definitions := Q.Definitions
                              Warnings := P.Warnings ++ Q.Warnings } := by
  unfold ProcessError
  simp only [Bare, bind, Except.bind]
  cases Line[2]? with
  | none => rfl
  | some T =>
    simp only
    cases T.Data <;> try rfl
    simp only
    cases ExpectEndOfLine Line 3 with
    | error E => rfl
    | ok U =>
      simp only
      cases FrontLocation Line with
      | error E => rfl
      | ok L => cases WarningOnly <;> simp

theorem ProcessDirective_frame (H : Host) (P : VirconASMPreprocessor) (Line : TokenList)
    (Front : Token) (DirectiveName : String)
    (hFlat : (DirectiveName == "include" || IsConditionalName DirectiveName) = false) :
    ProcessDirective H P Line Front DirectiveName =
      match ProcessDirective H (Bare P.Definitions) Line Front DirectiveName with
      | .error E => .error E
      | .ok Q => .ok { P with Definitions := Q.Definitions
                              Warnings := P.Warnings ++ Q.Warnings } := by
  simp only [IsConditionalName, Bool.or_eq_false_iff, beq_eq_false_iff_ne, ne_eq,
    Bool.not_eq_false', Bool.and_eq_true, bne_iff_ne] at hFlat
  obtain ⟨h1, ⟨⟨h2, h3⟩, h4⟩, h5⟩ := hFlat
  unfold ProcessDirective
  simp only [h1, h2, h3, h4, h5, if_false]
  by_cases hd : DirectiveName = "define"
  · simp only [hd, if_true]; exact ProcessDefine_frame P Line
  · by_cases hu : DirectiveName = "undef"
    · simp only [hu, if_true]; exact ProcessUndef_frame P Line
    · by_cases he : DirectiveName = "error"
      · simp only [he, if_true]; exact ProcessError_frame P Line false
      · by_cases hw : DirectiveName = "warning"
        · simp only [hw, if_true]; exact ProcessError_frame P Line true
        · simp only [hd, hu, he, hw, if_false]

theorem Pending_cons {C : ProcessingContext} {Line : TokenList} {Rest : List TokenList}
    (h : C.Pending = Line :: Rest) :
    C.LinePosition < C.SourceLines.length ∧ C.SourceLines[C.LinePosition]? = some Line
      ∧ C.SourceLines.drop (C.LinePosition + 1) = Rest := by
  unfold ProcessingContext.Pending at h
  have hlt : C.LinePosition < C.SourceLines.length := by
    by_contra hge
    rw [List.drop_eq_nil_of_le (by omega)] at h
    cases h
  rw [List.drop_eq_getElem_cons hlt] at h
  injection h with h1 h2
  exact ⟨hlt, by rw [List.getElem?_eq_getElem hlt, h1], h2⟩

theorem GetCurrentLine_of_pending {C : ProcessingContext} {Line : TokenList}
    {Rest : List TokenList} (h : C.Pending = Line :: Rest) :
    C.LinesHaveEnded = false ∧ C.GetCurrentLine = .ok Line := by
  obtain ⟨hlt, hget, -⟩ := Pending_cons h
  have hne : C.SourceLines ≠ [] := by
    intro he; rw [he] at hlt; simp at hlt
  have hE : C.LinesHaveEnded = false := by
    unfold ProcessingContext.LinesHaveEnded
    have : C.LinePosition ≠ C.SourceLines.length := by omega
    simp [hne, this]
  refine ⟨hE, ?_⟩
  unfold ProcessingContext.GetCurrentLine
  simp [hE, hget]

theorem set_current_line {C : ProcessingContext} {Line : TokenList}
    (h : C.SourceLines[C.LinePosition]? = some Line) :
    C.SourceLines.set C.LinePosition Line = C.SourceLines := by
  apply List.ext_getElem?
  intro i
  by_cases hi : C.LinePosition = i
  · subst hi
    rw [List.getElem?_set_self']
    simp [h]
  · rw [List.getElem?_set_ne hi]

theorem ExpectIdentifier_ok {Line : TokenList} {TokenPosition : Nat} {R : String × Nat}
    (h : ExpectIdentifier Line TokenPosition = .ok R) :
    ∃ T, Line[TokenPosition]? = some T ∧ T.Data = .Identifier R.1
      ∧ R.2 = TokenPosition + 1 := by
  unfold ExpectIdentifier at h
  cases hT : Line[TokenPosition]? with
  | none => simp [hT] at h
  | some T =>
    simp only [hT] at h
    by_cases hL : IsLastToken T = true
    · simp only [hL, if_true] at h
      cases TokenPosition with
      | zero => cases h
      | succ n =>
        simp only at h
        cases hP : Line[n]? <;> simp [hP] at h
    · simp only [hL, if_false] at h
      cases hD : T.Data <;> simp only [hD] at h <;> cases h
      exact ⟨T, rfl, hD, rfl⟩

/-- The function `ProcessLine` on a flat line is `FlatLine` installed in the state. -/
theorem ProcessLine_flat (H : Host) {P : VirconASMPreprocessor} {Top : ProcessingContext}
    {Below : List ProcessingContext} {Line : TokenList} {Rest : List TokenList}
    (hStack : P.ContextStack = Top :: Below) (hPending : Top.Pending = Line :: Rest)
    (hFlat : IsFlatLine Line = true) :
    ProcessLine H P =
      match FlatLine H (decide (Below ≠ [])) Top.AreAllIfConditionsMet P.Definitions Line with
      | .error E => .error E
      | .ok O =>
        .ok { ContextStack :=
                { Top with SourceLines := Top.SourceLines.set Top.LinePosition O.Rewritten }
                  :: Below
              Definitions := O.Definitions
              ProcessedTokens := P.ProcessedTokens ++ O.Emitted
              Warnings := P.Warnings ++ O.Warned } := by
  obtain ⟨-, hget, -⟩ := Pending_cons hPending
  obtain ⟨-, hcur⟩ := GetCurrentLine_of_pending hPending
  have hset := set_current_line hget
  have hSame : P = { ContextStack := { Top with SourceLines := Top.SourceLines } :: Below
                     Definitions := P.Definitions
                     ProcessedTokens := P.ProcessedTokens
                     Warnings := P.Warnings } := by
    cases P; simp at hStack; simp [hStack]
  have hNested : decide ((Top :: Below).length > 1) = decide (Below ≠ []) := by
    cases Below <;> simp
  unfold ProcessLine FlatLine
  simp only [hStack, hcur, bind, Except.bind, hNested]
  cases Line with
  | nil => simp [hset]; exact hSame
  | cons Front Tail =>
    simp only
    by_cases hM : (decide (Below ≠ [])
        && (Front.Type == .StartOfFile || Front.Type == .EndOfFile)) = true
    · simp only [hM, if_true, hset, List.append_nil]; exact congrArg _ hSame
    · simp only [hM, if_false]
      by_cases hD : TokenIsThisSymbol Front .Percent = true
      · simp only [hD, Bool.not_true, Bool.false_eq_true, if_false]
        cases Tail with
        | nil => simp [hset]; exact hSame
        | cons Keyword Others =>
          simp only [List.getElem?_cons_succ, List.getElem?_cons_zero]
          cases hE : ExpectIdentifier (Front :: Keyword :: Others) 1 with
          | error E => rfl
          | ok R =>
            simp only
            by_cases hI : (!Top.AreAllIfConditionsMet && !IsConditionalName R.1) = true
            · simp only [hI, if_true, hset, List.append_nil]; exact congrArg _ hSame
            · simp only [hI, if_false]
              have hName : (R.1 == "include" || IsConditionalName R.1) = false := by
                obtain ⟨T, hT, hK, -⟩ := ExpectIdentifier_ok hE
                simp only [List.getElem?_cons_succ, List.getElem?_cons_zero,
                  Option.some.injEq] at hT
                subst hT
                unfold IsFlatLine at hFlat
                simpa [hD, hK] using hFlat
              rw [ProcessDirective_frame H P _ Front R.1 hName]
              cases ProcessDirective H (Bare P.Definitions) (Front :: Keyword :: Others) Front R.1
                <;> simp [hset, hStack]
      · simp only [hD, Bool.not_false, if_true]
        by_cases hA : Top.AreAllIfConditionsMet = true
        · simp only [hA, Bool.not_true, Bool.false_eq_true, if_false, if_true]
          cases ReplaceLoop P.Definitions 10 (Front :: Tail) <;> simp [SetTop, hStack]
        · simp only [hA, Bool.not_false, if_false]
          simp only [Bool.not_eq_true] at hA
          simp [hA, hset]; exact hSame

theorem RunLoop_add (H : Host) (m n : Nat) (P : VirconASMPreprocessor) :
    RunLoop H (m + n) P =
      match RunLoop H m P with
      | .error E => .error E
      | .ok Q => RunLoop H n Q := by
  induction m generalizing P with
  | zero => simp [RunLoop]
  | succ k ih =>
    rw [Nat.succ_add]
    simp only [RunLoop]
    cases LoopStep H P with
    | error E => rfl
    | ok Q => exact ih Q

theorem Pending_after_line (P : VirconASMPreprocessor) {Top : ProcessingContext}
    (Below : List ProcessingContext) (O : LineOutcome) {Line : TokenList}
    {Rest : List TokenList} (hPending : Top.Pending = Line :: Rest) :
    ∃ Next, (AfterLine P Top Below O).ContextStack = Next :: Below ∧ Next.Pending = Rest
      ∧ Next.IfStack = Top.IfStack ∧ Next.ReferenceFolder = Top.ReferenceFolder
      ∧ Next.FilePath = Top.FilePath := by
  obtain ⟨-, -, hdrop⟩ := Pending_cons hPending
  refine ⟨_, rfl, ?_, rfl, rfl, rfl⟩
  simp only [ProcessingContext.Pending]
  rw [List.drop_set_of_lt _ _ (Nat.lt_succ_self _)]
  exact hdrop

/-- One turn of the loop on a flat line. -/
theorem LoopStep_flat (H : Host) {P : VirconASMPreprocessor} {Top : ProcessingContext}
    {Below : List ProcessingContext} {Line : TokenList} {Rest : List TokenList}
    (hStack : P.ContextStack = Top :: Below) (hPending : Top.Pending = Line :: Rest)
    (hFlat : IsFlatLine Line = true) :
    LoopStep H P =
      match FlatLine H (decide (Below ≠ [])) Top.AreAllIfConditionsMet P.Definitions Line with
      | .error E => .error E
      | .ok O => .ok (AfterLine P Top Below O) := by
  obtain ⟨hlt, -, -⟩ := Pending_cons hPending
  obtain ⟨hEnded, -⟩ := GetCurrentLine_of_pending hPending
  unfold LoopStep
  simp only [hStack, hEnded, Bool.false_eq_true, if_false, bind, Except.bind]
  rw [← hStack, ProcessLine_flat H hStack hPending hFlat]
  cases FlatLine H (decide (Below ≠ [])) Top.AreAllIfConditionsMet P.Definitions Line with
  | error E => rfl
  | ok O =>
    have hne : Top.LinePosition ≠ Top.SourceLines.length := by omega
    simp [AdvanceContextBeingProcessed, hStack, ModifyAt, ProcessingContext.Advance, AfterLine,
      hne]

/-- The state that a sequence of flat lines leads to: the outcome of the lines
installed, the context standing after them with its if-stack untouched. -/
theorem RunLoop_flat (H : Host) (A : List TokenList) (P : VirconASMPreprocessor)
    {Top : ProcessingContext} {Below : List ProcessingContext} {Post : List TokenList}
    (hStack : P.ContextStack = Top :: Below) (hPending : Top.Pending = A ++ Post)
    (hFlat : ∀ L ∈ A, IsFlatLine L = true) :
    match FlatLines H (decide (Below ≠ [])) Top.AreAllIfConditionsMet P.Definitions A with
    | .error E => RunLoop H A.length P = .error E
    | .ok O =>
      ∃ Next, RunLoop H A.length P =
          .ok { ContextStack := Next :: Below
                Definitions := O.Definitions
                ProcessedTokens := P.ProcessedTokens ++ O.Emitted
                Warnings := P.Warnings ++ O.Warned }
        ∧ Next.Pending = Post ∧ Next.IfStack = Top.IfStack
        ∧ Next.ReferenceFolder = Top.ReferenceFolder ∧ Next.FilePath = Top.FilePath := by
  induction A generalizing P Top with
  | nil =>
    simp only [List.nil_append] at hPending
    simp only [FlatLines, List.length_nil, RunLoop, List.append_nil]
    refine ⟨Top, ?_, hPending, rfl, rfl, rfl⟩
    cases P; simp at hStack; simp [hStack]
  | cons Line Rest ih =>
    simp only [List.cons_append] at hPending
    have hStep := LoopStep_flat H hStack hPending (hFlat Line (List.mem_cons_self _ _))
    simp only [List.length_cons, RunLoop, FlatLines, hStep]
    cases hO : FlatLine H (decide (Below ≠ [])) Top.AreAllIfConditionsMet P.Definitions Line with
    | error E => rfl
    | ok O =>
      simp only
      obtain ⟨Next, hN, hNP, hNI, hNR, hNF⟩ := Pending_after_line P Below O hPending
      have hAct : Next.AreAllIfConditionsMet = Top.AreAllIfConditionsMet := by
        simp [ProcessingContext.AreAllIfConditionsMet, hNI]
      have := ih _ hN hNP (fun L hL => hFlat L (List.mem_cons_of_mem _ hL))
      rw [hAct, show (AfterLine P Top Below O).Definitions = O.Definitions from rfl] at this
      cases hOs : FlatLines H (decide (Below ≠ [])) Top.AreAllIfConditionsMet O.Definitions Rest with
      | error E =>
        rw [hOs] at this
        exact this
      | ok Others =>
        rw [hOs] at this
        simp only [AfterLine] at this ⊢
        obtain ⟨Last, hRun, hLP, hLI, hLR, hLF⟩ := this
        refine ⟨Last, ?_, hLP, by rw [hLI, hNI], by rw [hLR, hNR], by rw [hLF, hNF]⟩
        simp [hRun, List.append_assoc]

/-- One turn of the loop on a line whose processing keeps the lines and the
position of the current context: the context is advanced by one line. -/
theorem LoopStep_of_ProcessLine (H : Host) {P Q : VirconASMPreprocessor}
    {Top Changed : ProcessingContext} {Below : List ProcessingContext} {Line : TokenList}
    {Rest : List TokenList}
    (hStack : P.ContextStack = Top :: Below) (hPending : Top.Pending = Line :: Rest)
    (hLine : ProcessLine H P = .ok Q) (hAfter : Q.ContextStack = Changed :: Below)
    (hLines : Changed.SourceLines = Top.SourceLines)
    (hPosition : Changed.LinePosition = Top.LinePosition) :
    LoopStep H P =
        .ok { Q with ContextStack :=
                { Changed with LinePosition := Top.LinePosition + 1 } :: Below }
      ∧ ({ Changed with LinePosition := Top.LinePosition + 1 } : ProcessingContext).Pending
          = Rest := by
  obtain ⟨hlt, -, hdrop⟩ := Pending_cons hPending
  obtain ⟨hEnded, -⟩ := GetCurrentLine_of_pending hPending
  constructor
  · unfold LoopStep
    simp only [hStack, hEnded, Bool.false_eq_true, if_false, bind, Except.bind]
    rw [← hStack, hLine]
    have hne : Top.LinePosition ≠ Changed.SourceLines.length := by
      rw [hLines]; omega
    simp [AdvanceContextBeingProcessed, hStack, hAfter, ModifyAt, ProcessingContext.Advance,
      hne, hPosition]
  · simp only [ProcessingContext.Pending, hLines]
    exact hdrop

/-- In an ignored section `ProcessLine` leaves the state as it is on a line
that the section passes over. -/
theorem ProcessLine_skipped (H : Host) {P : VirconASMPreprocessor} {Top : ProcessingContext}
    {Below : List ProcessingContext} {Line : TokenList} {Rest : List TokenList}
    (hStack : P.ContextStack = Top :: Below) (hPending : Top.Pending = Line :: Rest)
    (hIgnored : Top.AreAllIfConditionsMet = false) (hSkipped : IsSkippedLine Line = true) :
    ProcessLine H P = .ok P := by
  obtain ⟨-, hcur⟩ := GetCurrentLine_of_pending hPending
  cases Line with
  | nil => unfold ProcessLine; simp [hStack, hcur, bind, Except.bind]
  | cons Front Tail =>
    by_cases hD : TokenIsThisSymbol Front .Percent = true
    · cases Tail with
      | nil =>
        unfold ProcessLine
        simp only [hStack, hcur, bind, Except.bind, hD]
        split <;> simp
      | cons Keyword Others =>
        unfold IsSkippedLine at hSkipped
        simp only [hD, if_true] at hSkipped
        cases hK : Keyword.Data <;> simp only [hK] at hSkipped <;> try cases hSkipped
        rename_i Name
        rw [ProcessLine_directive H hStack hcur ((TokenIsThisSymbol_iff _ _).mp hD) hK]
        simp only [Bool.not_eq_true'] at hSkipped
        simp [hIgnored, hSkipped]
    · unfold ProcessLine
      simp only [hStack, hcur, bind, Except.bind, hD, hIgnored]
      split <;> simp

/-- A sequence of lines that an ignored section passes over only moves the
current context forward. -/
theorem RunLoop_skipped (H : Host) (B : List TokenList) (P : VirconASMPreprocessor)
    {Top : ProcessingContext} {Below : List ProcessingContext} {Post : List TokenList}
    (hStack : P.ContextStack = Top :: Below) (hPending : Top.Pending = B ++ Post)
    (hIgnored : Top.AreAllIfConditionsMet = false)
    (hSkipped : ∀ L ∈ B, IsSkippedLine L = true) :
    ∃ Next, RunLoop H B.length P = .ok { P with ContextStack := Next :: Below }
      ∧ Next.Pending = Post ∧ Next.IfStack = Top.IfStack
      ∧ Next.ReferenceFolder = Top.ReferenceFolder ∧ Next.FilePath = Top.FilePath := by
  induction B generalizing P Top with
  | nil =>
    simp only [List.nil_append] at hPending
    refine ⟨Top, ?_, hPending, rfl, rfl, rfl⟩
    cases P; simp at hStack; simp [RunLoop, hStack]
  | cons Line Rest ih =>
    simp only [List.cons_append] at hPending
    have hPL := ProcessLine_skipped H hStack hPending hIgnored
      (hSkipped Line (List.mem_cons_self _ _))
    obtain ⟨hStep, hNext⟩ := LoopStep_of_ProcessLine H hStack hPending hPL hStack rfl rfl
    simp only [List.length_cons, RunLoop, hStep]
    obtain ⟨Last, hRun, hLP, hLI, hLR, hLF⟩ :=
      ih { P with ContextStack := { Top with LinePosition := Top.LinePosition + 1 } :: Below }
        rfl hNext (by simpa [ProcessingContext.AreAllIfConditionsMet] using hIgnored)
        (fun L hL => hSkipped L (List.mem_cons_of_mem _ hL))
    exact ⟨Last, by simpa using hRun, hLP, hLI, hLR, hLF⟩

/-! ## Theorems: conditional blocks -/

theorem RunLoop_one (H : Host) (P : VirconASMPreprocessor) : RunLoop H 1 P = LoopStep H P := by
  simp only [RunLoop]
  cases LoopStep H P <;> rfl

theorem IsDirectiveLine_plain {Name : String} {Line : TokenList}
    (h : IsDirectiveLine Name [] Line) :
    ∃ Front Keyword, Line = [Front, Keyword] ∧ Front.Data = .Symbol .Percent
      ∧ Keyword.Data = .Identifier Name := by
  unfold IsDirectiveLine at h
  rcases Line with _ | ⟨Front, _ | ⟨Keyword, _ | ⟨Extra, Others⟩⟩⟩ <;>
    simp only [List.map_cons, List.map_nil, List.cons.injEq, and_true, reduceCtorEq,
      and_false] at h
  exact ⟨Front, Keyword, rfl, h.1, h.2⟩

theorem IsDirectiveLine_argument {Name : String} {Argument : TokenData} {Line : TokenList}
    (h : IsDirectiveLine Name [Argument] Line) :
    ∃ Front Keyword Last, Line = [Front, Keyword, Last] ∧ Front.Data = .Symbol .Percent
      ∧ Keyword.Data = .Identifier Name ∧ Last.Data = Argument := by
  unfold IsDirectiveLine at h
  rcases Line with _ | ⟨Front, _ | ⟨Keyword, _ | ⟨Last, _ | ⟨Extra, Others⟩⟩⟩⟩ <;>
    simp only [List.map_cons, List.map_nil, List.cons.injEq, and_true, reduceCtorEq,
      and_false] at h
  exact ⟨Front, Keyword, Last, rfl, h.1, h.2.1, h.2.2⟩

/-- One turn of the loop on `%ifdef NAME` or `%ifndef NAME`: a frame is pushed
on the if-stack of the current context and the context advances. -/
theorem LoopStep_if (H : Host) (P : VirconASMPreprocessor) {Top : ProcessingContext}
    {Below : List ProcessingContext} {Line : TokenList} {Rest : List TokenList}
    {Keyword Name : String} (IsIfndef : Bool)
    (hStack : P.ContextStack = Top :: Below) (hPending : Top.Pending = Line :: Rest)
    (hKeyword : Keyword = if IsIfndef then "ifndef" else "ifdef")
    (hLine : IsDirectiveLine Keyword [.Identifier Name] Line) :
    ∃ Next StartingLine, LoopStep H P = .ok { P with ContextStack := Next :: Below }
      ∧ Next.Pending = Rest
      ∧ Next.IfStack =
          { StartingLine := StartingLine
            ConditionIsMet := ((P.Definitions.find Name).isSome == !IsIfndef)
            ElseWasFound := false } :: Top.IfStack
      ∧ Next.ReferenceFolder = Top.ReferenceFolder ∧ Next.FilePath = Top.FilePath := by
  obtain ⟨Front, Key, Last, rfl, hF, hK, hN⟩ := IsDirectiveLine_argument hLine
  obtain ⟨-, hcur⟩ := GetCurrentLine_of_pending hPending
  have hPL : ProcessLine H P = ProcessIf P [Front, Key, Last] IsIfndef := by
    rw [ProcessLine_directive H hStack hcur hF hK]
    cases IsIfndef <;> simp [hKeyword, IsConditionalName, ProcessDirective]
  rw [ProcessIf_eq P Top Below Front Key Last Name IsIfndef hStack hN] at hPL
  obtain ⟨hStep, hNext⟩ := LoopStep_of_ProcessLine H hStack hPending hPL rfl rfl rfl
  exact ⟨_, _, hStep, hNext, rfl, rfl, rfl⟩

/-- One turn of the loop on a `%else` that is the first for the innermost
frame: the frame is flipped and the context advances. -/
theorem LoopStep_else (H : Host) (P : VirconASMPreprocessor) {Top : ProcessingContext}
    {Below : List ProcessingContext} {Line : TokenList} {Rest : List TokenList}
    {Frame : IfContext} {Outer : List IfContext}
    (hStack : P.ContextStack = Top :: Below) (hPending : Top.Pending = Line :: Rest)
    (hLine : IsDirectiveLine "else" [] Line) (hFrames : Top.IfStack = Frame :: Outer)
    (hFirst : Frame.ElseWasFound = false) :
    ∃ Next, LoopStep H P = .ok { P with ContextStack := Next :: Below }
      ∧ Next.Pending = Rest
      ∧ Next.IfStack = { Frame with ElseWasFound := true } :: Outer
      ∧ Next.ReferenceFolder = Top.ReferenceFolder ∧ Next.FilePath = Top.FilePath := by
  obtain ⟨Front, Key, rfl, hF, hK⟩ := IsDirectiveLine_plain hLine
  obtain ⟨-, hcur⟩ := GetCurrentLine_of_pending hPending
  have hPL : ProcessLine H P = ProcessElse P [Front, Key] := by
    rw [ProcessLine_directive H hStack hcur hF hK]
    simp [IsConditionalName, ProcessDirective]
  rw [ProcessElse_eq P Top Below Front Key hStack, hFrames] at hPL
  simp only [hFirst, Bool.false_eq_true, if_false] at hPL
  obtain ⟨hStep, hNext⟩ := LoopStep_of_ProcessLine H hStack hPending hPL rfl rfl rfl
  exact ⟨_, hStep, hNext, rfl, rfl, rfl⟩

/-- One turn of the loop on `%endif` with an open frame: the innermost frame
is removed and the context advances. -/
theorem LoopStep_endif (H : Host) (P : VirconASMPreprocessor) {Top : ProcessingContext}
    {Below : List ProcessingContext} {Line : TokenList} {Rest : List TokenList}
    {Frame : IfContext} {Outer : List IfContext}
    (hStack : P.ContextStack = Top :: Below) (hPending : Top.Pending = Line :: Rest)
    (hLine : IsDirectiveLine "endif" [] Line) (hFrames : Top.IfStack = Frame :: Outer) :
    ∃ Next, LoopStep H P = .ok { P with ContextStack := Next :: Below }
      ∧ Next.Pending = Rest ∧ Next.IfStack = Outer
      ∧ Next.ReferenceFolder = Top.ReferenceFolder ∧ Next.FilePath = Top.FilePath := by
  obtain ⟨Front, Key, rfl, hF, hK⟩ := IsDirectiveLine_plain hLine
  obtain ⟨-, hcur⟩ := GetCurrentLine_of_pending hPending
  have hPL : ProcessLine H P = ProcessEndif P [Front, Key] := by
    rw [ProcessLine_directive H hStack hcur hF hK]
    simp [IsConditionalName, ProcessDirective]
  rw [ProcessEndif_eq P Top Below Front Key hStack, hFrames] at hPL
  obtain ⟨hStep, hNext⟩ := LoopStep_of_ProcessLine H hStack hPending hPL rfl rfl rfl
  exact ⟨_, hStep, hNext, rfl, rfl, rfl⟩

/-- One turn of the loop on an accepted `%define` in an active section: the
name is mapped to the tokens after it and the context advances. -/
theorem LoopStep_define (H : Host) (P : VirconASMPreprocessor) {Top : ProcessingContext}
    {Below : List ProcessingContext} {Front Keyword NameToken : Token} {Value : TokenList}
    {Rest : List TokenList} {Name : String}
    (hStack : P.ContextStack = Top :: Below)
    (hPending : Top.Pending = (Front :: Keyword :: NameToken :: Value) :: Rest)
    (hActive : Top.AreAllIfConditionsMet = true)
    (hPercent : Front.Data = .Symbol .Percent) (hKeyword : Keyword.Data = .Identifier "define")
    (hName : NameToken.Data = .Identifier Name)
    (hValue : ¬ DefineIsRejected (NameToken :: Value)) :
    ∃ Next, LoopStep H P =
        .ok { P with ContextStack := Next :: Below
                     Definitions := (P.Definitions.assign Name []).assign Name Value }
      ∧ Next.Pending = Rest ∧ Next.IfStack = Top.IfStack
      ∧ Next.ReferenceFolder = Top.ReferenceFolder ∧ Next.FilePath = Top.FilePath := by
  obtain ⟨-, hcur⟩ := GetCurrentLine_of_pending hPending
  have hAccept : CollectDefinition Name Value [] = .ok Value := by
    have := CollectDefinition_accepts Name Value [] (by
      intro T hT hBad
      apply hValue
      simp only [DefineIsRejected, hName]
      exact ⟨T, hT, hBad⟩)
    simpa using this
  have hLast : IsLastToken NameToken = false := by simp [IsLastToken, Token.Type, hName]
  have hPL : ProcessLine H P =
      .ok { P with Definitions := (P.Definitions.assign Name []).assign Name Value } := by
    rw [ProcessLine_directive H hStack hcur hPercent hKeyword]
    simp only [hActive, Bool.not_true, Bool.false_and, Bool.false_eq_true, if_false]
    simp only [ProcessDirective]
    simp only [String.reduceEq, if_false, if_true]
    rw [ProcessDefine_eq]
    simp [hLast, hName, hAccept]
  obtain ⟨hStep, hNext⟩ := LoopStep_of_ProcessLine H hStack hPending hPL hStack rfl rfl
  exact ⟨_, hStep, hNext, rfl, rfl, rfl⟩

/-- One turn of the loop on `%undef NAME` in an active section: the entry of
the name, if there is one, is removed and the context advances. -/
theorem LoopStep_undef (H : Host) (P : VirconASMPreprocessor) {Top : ProcessingContext}
    {Below : List ProcessingContext} {Line : TokenList} {Rest : List TokenList} {Name : String}
    (hStack : P.ContextStack = Top :: Below) (hPending : Top.Pending = Line :: Rest)
    (hActive : Top.AreAllIfConditionsMet = true)
    (hLine : IsDirectiveLine "undef" [.Identifier Name] Line) :
    ∃ Next, LoopStep H P =
        .ok { P with ContextStack := Next :: Below
                     Definitions :=
                       if (P.Definitions.find Name).isSome then P.Definitions.erase Name
                       else P.Definitions }
      ∧ Next.Pending = Rest ∧ Next.IfStack = Top.IfStack
      ∧ Next.ReferenceFolder = Top.ReferenceFolder ∧ Next.FilePath = Top.FilePath := by
  obtain ⟨Front, Key, Last, rfl, hF, hK, hN⟩ := IsDirectiveLine_argument hLine
  obtain ⟨-, hcur⟩ := GetCurrentLine_of_pending hPending
  have hPL : ProcessLine H P =
      .ok { P with Definitions :=
              if (P.Definitions.find Name).isSome then P.Definitions.erase Name
              else P.Definitions } := by
    rw [ProcessLine_directive H hStack hcur hF hK]
    simp only [hActive, Bool.not_true, Bool.false_and, Bool.false_eq_true, if_false]
    simp only [ProcessDirective]
    simp only [String.reduceEq, if_false, if_true]
    rw [ProcessUndef_eq P Front Key Last Name hN]
    cases P.Definitions.find Name <;> simp
  obtain ⟨hStep, hNext⟩ := LoopStep_of_ProcessLine H hStack hPending hPL hStack rfl rfl
  exact ⟨_, hStep, hNext, rfl, rfl, rfl⟩

/-! ## Theorems: `%ifdef` and `%ifndef` -/

theorem FlatLines_ordinary (H : Host) (Nested : Bool) (D : DefinitionsMap)
    (Body : List TokenList) (hBody : ∀ L ∈ Body, IsOrdinaryLine Nested L = true) :
    match EmitLines D Body with
    | .error E => FlatLines H Nested true D Body = .error E
    | .ok Emitted =>
      ∃ O, FlatLines H Nested true D Body = .ok O ∧ O.Definitions = D
        ∧ O.Emitted = Emitted ∧ O.Warned = [] := by
  induction Body with
  | nil => simp [EmitLines, FlatLines]
  | cons Line Rest ih =>
    have hRest := ih (fun L hL => hBody L (List.mem_cons_of_mem _ hL))
    have hLine := hBody Line (List.mem_cons_self _ _)
    have hFirst : FlatLine H Nested true D Line =
        match ReplaceLoop D 10 Line with
        | .error E => .error E
        | .ok Replaced => .ok ⟨D, Replaced, [], Replaced⟩ := by
      cases Line with
      | nil =>
        have : ReplaceLoop D 10 [] = .ok [] := by
          unfold ReplaceLoop; simp [ReplaceDefinitions]
        simp [FlatLine, this]
      | cons Front Tail =>
        unfold IsOrdinaryLine at hLine
        simp only [Bool.and_eq_true, Bool.not_eq_true'] at hLine
        simp only [FlatLine, hLine.1, hLine.2]
        simp
    simp only [EmitLines, FlatLines, hFirst]
    cases hR : ReplaceLoop D 10 Line with
    | error E => rfl
    | ok Replaced =>
      simp only
      cases hE : EmitLines D Rest with
      | error E =>
        rw [hE] at hRest
        simp [hRest]
      | ok Others =>
        rw [hE] at hRest
        obtain ⟨O, hO, hD, hEm, hW⟩ := hRest
        simp [hO, hD, hEm, hW]

theorem IsSkippedLine_of_ordinary {Nested : Bool} {Line : TokenList}
    (h : IsOrdinaryLine Nested Line = true) : IsSkippedLine Line = true := by
  cases Line with
  | nil => rfl
  | cons Front Tail =>
    unfold IsOrdinaryLine at h
    simp only [Bool.and_eq_true, Bool.not_eq_true'] at h
    cases Tail with
    | nil => rfl
    | cons Keyword Others => simp [IsSkippedLine, h.1]

theorem IsFlatLine_of_ordinary {Nested : Bool} {Line : TokenList}
    (h : IsOrdinaryLine Nested Line = true) : IsFlatLine Line = true := by
  cases Line with
  | nil => rfl
  | cons Front Tail =>
    unfold IsOrdinaryLine at h
    simp only [Bool.and_eq_true, Bool.not_eq_true'] at h
    cases Tail with
    | nil => rfl
    | cons Keyword Others => simp [IsFlatLine, h.1]

/-- Claim C9: `%ifdef NAME` pushes onto the if-stack of the current context a
frame whose condition is met iff `NAME` is a key of the definitions map when
the directive is processed, `%ifndef NAME` one whose condition is met iff it is
not, whether or not the line lies in an ignored section.  Hence, in an active
section, after `%define X …` and `%undef X` the ordinary lines under
`%ifdef X` put nothing on the output, and the ordinary lines under `%ifndef X`
are put on the output as the replacement loop leaves them. -/
theorem C9_ifdef_ifndef_frames (H : Host) (X : String) (IsIfndef : Bool) :
    (∀ (P : VirconASMPreprocessor) (Top : ProcessingContext) (Below : List ProcessingContext)
        (Line : TokenList),
      P.ContextStack = Top :: Below → Top.GetCurrentLine = .ok Line →
      IsDirectiveLine (IfKeyword IsIfndef) [.Identifier X] Line →
      ∃ StartingLine,
        ProcessLine H P =
          .ok { P with ContextStack :=
                  { Top with IfStack :=
                      { StartingLine := StartingLine
                        ConditionIsMet :=
                          if IsIfndef then (P.Definitions.find X).isNone
                          else (P.Definitions.find X).isSome
                        ElseWasFound := false } :: Top.IfStack } :: Below })
    ∧ (∀ (P : VirconASMPreprocessor) (Top : ProcessingContext)
        (Below : List ProcessingContext) (Front Keyword NameToken : Token) (Value : TokenList)
        (UndefLine IfLine : TokenList) (Body Post : List TokenList),
      P.ContextStack = Top :: Below →
      Top.Pending = (Front :: Keyword :: NameToken :: Value) :: UndefLine :: IfLine
        :: (Body ++ Post) →
      Top.AreAllIfConditionsMet = true →
      Front.Data = .Symbol .Percent → Keyword.Data = .Identifier "define" →
      NameToken.Data = .Identifier X → ¬ DefineIsRejected (NameToken :: Value) →
      IsDirectiveLine "undef" [.Identifier X] UndefLine →
      IsDirectiveLine (IfKeyword IsIfndef) [.Identifier X] IfLine →
      (∀ L ∈ Body, IsOrdinaryLine (decide (Below ≠ [])) L = true) →
      (RunLoop H (3 + Body.length) P).map (fun Q => (Q.ProcessedTokens, Q.Definitions.find X))
        = if IsIfndef then
            (EmitLines (((P.Definitions.assign X []).assign X Value).erase X) Body).map
              (fun Emitted => (P.ProcessedTokens ++ Emitted, none))
          else .ok (P.ProcessedTokens, none)) := by
  constructor
  · intro P Top Below Line hStack hLine hIf
    obtain ⟨Front, Key, Last, rfl, hF, hK, hN⟩ := IsDirectiveLine_argument hIf
    have hPL : ProcessLine H P = ProcessIf P [Front, Key, Last] IsIfndef := by
      rw [ProcessLine_directive H hStack hLine hF hK]
      cases IsIfndef <;> simp [IfKeyword, IsConditionalName, ProcessDirective]
    rw [ProcessIf_eq P Top Below Front Key Last X IsIfndef hStack hN] at hPL
    refine ⟨Front.Location.Line, ?_⟩
    rw [hPL]
    cases IsIfndef <;> cases P.Definitions.find X <;> simp
  · intro P Top Below Front Keyword NameToken Value UndefLine IfLine Body Post hStack hPending
      hActive hF hK hN hValue hUndef hIf hBody
    -- the `%define` line
    obtain ⟨T1, hS1, hP1, hI1, hR1, hF1⟩ :=
      LoopStep_define H P hStack hPending hActive hF hK hN hValue
    -- the `%undef` line
    have hAct1 : T1.AreAllIfConditionsMet = true := by
      unfold ProcessingContext.AreAllIfConditionsMet at hActive ⊢
      rw [hI1]; exact hActive
    obtain ⟨T2, hS2, hP2, hI2, hR2, hF2⟩ :=
      LoopStep_undef H
        { P with ContextStack := T1 :: Below
                 Definitions := (P.Definitions.assign X []).assign X Value }
        rfl hP1 hAct1 hUndef
    simp only [DefinitionsMap_find_assign_self, Option.isSome_some, if_true] at hS2
    -- the `%ifdef` or `%ifndef` line
    obtain ⟨T3, StartingLine, hS3, hP3, hI3, hR3, hF3⟩ :=
      LoopStep_if H
        { P with ContextStack := T2 :: Below
                 Definitions := ((P.Definitions.assign X []).assign X Value).erase X }
        IsIfndef rfl hP2 rfl hIf
    simp only [DefinitionsMap_find_erase_self, Option.isSome_none] at hI3
    have hFuel : 3 + Body.length = 1 + (1 + (1 + Body.length)) := by omega
    rw [hFuel, RunLoop_add, RunLoop_one, hS1]
    simp only
    rw [RunLoop_add, RunLoop_one, hS2]
    simp only
    rw [RunLoop_add, RunLoop_one, hS3]
    simp only
    cases IsIfndef with
    | false =>
      -- the section is ignored
      have hIgnored : T3.AreAllIfConditionsMet = false := by
        unfold ProcessingContext.AreAllIfConditionsMet
        simp [hI3, IfContext.Evaluates]
      obtain ⟨T4, hRun4, -⟩ :=
        RunLoop_skipped H Body
          { P with ContextStack := T3 :: Below
                   Definitions := ((P.Definitions.assign X []).assign X Value).erase X }
          rfl hP3 hIgnored (fun L hL => IsSkippedLine_of_ordinary (hBody L hL))
      rw [hRun4]
      simp [Except.map, DefinitionsMap_find_erase_self]
    | true =>
      -- the section is active
      have hAct3 : T3.AreAllIfConditionsMet = true := by
        unfold ProcessingContext.AreAllIfConditionsMet at hActive ⊢
        simp [hI3, hI2, hI1, IfContext.Evaluates, hActive]
      have hRun := RunLoop_flat H Body
          { P with ContextStack := T3 :: Below
                   Definitions := ((P.Definitions.assign X []).assign X Value).erase X }
          rfl hP3 (fun L hL => IsFlatLine_of_ordinary (hBody L hL))
      rw [hAct3] at hRun
      have hFlat := FlatLines_ordinary H (decide (Below ≠ []))
        (((P.Definitions.assign X []).assign X Value).erase X) Body hBody
      cases hE : EmitLines (((P.Definitions.assign X []).assign X Value).erase X) Body with
      | error E =>
        rw [hE] at hFlat
        simp only [hFlat] at hRun
        rw [hRun]
        rfl
      | ok Emitted =>
        rw [hE] at hFlat
        obtain ⟨O, hO, hD, hEm, hW⟩ := hFlat
        simp only [hO] at hRun
        obtain ⟨T4, hRun4, -⟩ := hRun
        rw [hRun4]
        simp [Except.map, hD, hEm, DefinitionsMap_find_erase_self]

/-- On the sample `%define X 1`, `%undef X`, `%ifdef X` (resp. `%ifndef X`),
`MOV R0, X`: under `%ifdef X` the line is not emitted, under `%ifndef X` it is,
with `X` left as it stands since it is no longer defined; and the frame pushed
by `%ifdef X` has its condition not met. -/
theorem C9_ifdef_ifndef_frames_witness :
    (RunLoop NoFiles 4 (SampleAtUndef false 1)).map (fun Q => Q.ProcessedTokens)
        = .ok [⟨At 0, .StartOfFile⟩]
    ∧ (RunLoop NoFiles 4 (SampleAtUndef true 1)).map (fun Q => Q.ProcessedTokens)
        = .ok [⟨At 0, .StartOfFile⟩, ⟨At 4, .Other "MOV"⟩, ⟨At 4, .Other "R0"⟩,
            ⟨At 4, .Symbol .Comma⟩, IdentifierAt 4 "X"]
    ∧ (∃ StartingLine,
        ProcessLine NoFiles (SampleAtUndef false 3) =
          .ok { SampleAtUndef false 3 with ContextStack :=
                  { SampleUndefContext false 3 with IfStack :=
                      { StartingLine := StartingLine
                        ConditionIsMet :=
                          if false = true then
                            ((SampleAtUndef false 3).Definitions.find "X").isNone
                          else ((SampleAtUndef false 3).Definitions.find "X").isSome
                        ElseWasFound := false } :: (SampleUndefContext false 3).IfStack }
                    :: [] })
    ∧ (RunLoop NoFiles
          (3 + [[⟨At 4, .Other "MOV"⟩, ⟨At 4, .Other "R0"⟩, ⟨At 4, .Symbol .Comma⟩,
                  IdentifierAt 4 "X"]].length)
          (SampleAtUndef true 1)).map (fun Q => (Q.ProcessedTokens, Q.Definitions.find "X"))
        = if true = true then
            (EmitLines
                ((((SampleAtUndef true 1).Definitions.assign "X" []).assign "X"
                    [⟨At 1, .LiteralInteger 1⟩]).erase "X")
                [[⟨At 4, .Other "MOV"⟩, ⟨At 4, .Other "R0"⟩, ⟨At 4, .Symbol .Comma⟩,
                  IdentifierAt 4 "X"]]).map
              (fun Emitted => ((SampleAtUndef true 1).ProcessedTokens ++ Emitted, none))
          else .ok ((SampleAtUndef true 1).ProcessedTokens, none) :=
  ⟨by decide!, by decide!,
    (C9_ifdef_ifndef_frames NoFiles "X" false).1 (SampleAtUndef false 3)
      (SampleUndefContext false 3) []
      [PercentAt 3, IdentifierAt 3 "ifdef", IdentifierAt 3 "X"] rfl (by decide)
      (by simp [IsDirectiveLine, IfKeyword, PercentAt, IdentifierAt]),
    (C9_ifdef_ifndef_frames NoFiles "X" true).2 (SampleAtUndef true 1)
      (SampleUndefContext true 1) [] (PercentAt 1) (IdentifierAt 1 "define")
      (IdentifierAt 1 "X") [⟨At 1, .LiteralInteger 1⟩]
      [PercentAt 2, IdentifierAt 2 "undef", IdentifierAt 2 "X"]
      [PercentAt 3, IdentifierAt 3 "ifndef", IdentifierAt 3 "X"]
      _ [[⟨At 5, .EndOfFile⟩]] rfl rfl (by decide) rfl rfl rfl
      (by simp [DefineIsRejected, IdentifierAt])
      (by simp [IsDirectiveLine, PercentAt, IdentifierAt])
      (by simp [IsDirectiveLine, IfKeyword, PercentAt, IdentifierAt]) (by decide)⟩

/-! ## Theorems: what one line can do to the state -/

theorem ProcessIf_shape {P Q : VirconASMPreprocessor} {Line : TokenList} {IsIfndef : Bool}
    (h : ProcessIf P Line IsIfndef = .ok Q) :
    ∃ Top Below Frame, P.ContextStack = Top :: Below
      ∧ Q = { P with ContextStack := { Top with IfStack := Frame :: Top.IfStack } :: Below } := by
  unfold ProcessIf at h
  cases hS : P.ContextStack with
  | nil =>
    simp only [bind, Except.bind, hS] at h
    repeat' split at h
    all_goals cases h
  | cons Top Below =>
    simp only [bind, Except.bind, hS] at h
    repeat' split at h
    all_goals cases h
    exact ⟨Top, Below, _, rfl, by unfold SetTop; rw [hS]; rfl⟩

theorem ProcessElse_shape {P Q : VirconASMPreprocessor} {Line : TokenList}
    (h : ProcessElse P Line = .ok Q) :
    ∃ Top Below Frames, P.ContextStack = Top :: Below
      ∧ Q = { P with ContextStack := { Top with IfStack := Frames } :: Below } := by
  unfold ProcessElse at h
  cases hS : P.ContextStack with
  | nil =>
    simp only [bind, Except.bind, hS] at h
    repeat' split at h
    all_goals cases h
  | cons Top Below =>
    simp only [bind, Except.bind, hS] at h
    repeat' split at h
    all_goals cases h
    exact ⟨Top, Below, _, rfl, by unfold SetTop; rw [hS]; rfl⟩

theorem ProcessEndif_shape {P Q : VirconASMPreprocessor} {Line : TokenList}
    (h : ProcessEndif P Line = .ok Q) :
    ∃ Top Below Frames, P.ContextStack = Top :: Below
      ∧ Q = { P with ContextStack := { Top with IfStack := Frames } :: Below } := by
  unfold ProcessEndif at h
  cases hS : P.ContextStack with
  | nil =>
    simp only [bind, Except.bind, hS] at h
    repeat' split at h
    all_goals cases h
  | cons Top Below =>
    simp only [bind, Except.bind, hS] at h
    repeat' split at h
    all_goals cases h
    exact ⟨Top, Below, _, rfl, by unfold SetTop; rw [hS]; rfl⟩

theorem PushContextLexer_shape {P Q : VirconASMPreprocessor} {Lexer : VirconASMLexer}
    (h : PushContextLexer P Lexer = .ok Q) :
    ∃ New, New.IfStack = [] ∧ New.LinePosition = 0 ∧ New.SourceLines = Lexer.TokenLines
      ∧ New.ReferenceFolder = Lexer.InputDirectory
      ∧ Q = { P with ContextStack := New :: P.ContextStack } := by
  unfold PushContextLexer at h
  split at h
  · injection h with h
    exact ⟨_, rfl, rfl, rfl, rfl, h.symm⟩
  · cases h

theorem ProcessInclude_shape {H : Host} {P Q : VirconASMPreprocessor} {Line : TokenList}
    (h : ProcessInclude H P Line = .ok Q) :
    ∃ New, New.IfStack = [] ∧ New.LinePosition = 0
      ∧ Q = { P with ContextStack := New :: P.ContextStack } := by
  unfold ProcessInclude at h
  simp only [bind, Except.bind, IncludeFile, PushContextFile] at h
  repeat' split at h
  all_goals first
    | cases h
    | (obtain ⟨New, h1, h2, -, -, h3⟩ := PushContextLexer_shape h
       exact ⟨New, h1, h2, h3⟩)

theorem ProcessingContext_eta (Top : ProcessingContext) :
    ({ Top with IfStack := Top.IfStack } : ProcessingContext) = Top := by
  cases Top; rfl

/-- What a directive can do to the state: it never touches the output; it
either leaves the context stack as it is up to the if-stack of the current
context, or it is an `%include` that pushes a fresh context on a stack of at
most 20 contexts. -/
theorem ProcessDirective_shape {H : Host} {P Q : VirconASMPreprocessor}
    {Top : ProcessingContext} {Below : List ProcessingContext} {Line : TokenList}
    {Front : Token} {DirectiveName : String}
    (hStack : P.ContextStack = Top :: Below)
    (h : ProcessDirective H P Line Front DirectiveName = .ok Q) :
    Q.ProcessedTokens = P.ProcessedTokens
    ∧ ((∃ Frames, Q.ContextStack = { Top with IfStack := Frames } :: Below)
      ∨ (DirectiveName = "include" ∧ (Top :: Below).length ≤ 20
          ∧ ∃ New, New.IfStack = [] ∧ New.LinePosition = 0
            ∧ Q.ContextStack = New :: Top :: Below)) := by
  have hKeep : ∀ {R : VirconASMPreprocessor},
      (match (Except.ok R : Except Failure VirconASMPreprocessor) with
        | .error E => (Except.error E : Except Failure VirconASMPreprocessor)
        | .ok B => .ok { P with Definitions := B.Definitions
                                Warnings := P.Warnings ++ B.Warnings }) = .ok Q →
      Q.ProcessedTokens = P.ProcessedTokens
      ∧ ((∃ Frames, Q.ContextStack = { Top with IfStack := Frames } :: Below)
        ∨ (DirectiveName = "include" ∧ (Top :: Below).length ≤ 20
            ∧ ∃ New, New.IfStack = [] ∧ New.LinePosition = 0
              ∧ Q.ContextStack = New :: Top :: Below)) := by
    intro R hR
    simp only [Except.ok.injEq] at hR
    subst hR
    exact ⟨rfl, Or.inl ⟨Top.IfStack, by simp [hStack, ProcessingContext_eta]⟩⟩
  have hFrames : ∀ {Top' Below' Frames},
      P.ContextStack = Top' :: Below' →
      Q = { P with ContextStack := { Top' with IfStack := Frames } :: Below' } →
      Q.ProcessedTokens = P.ProcessedTokens
      ∧ ((∃ Frames, Q.ContextStack = { Top with IfStack := Frames } :: Below)
        ∨ (DirectiveName = "include" ∧ (Top :: Below).length ≤ 20
            ∧ ∃ New, New.IfStack = [] ∧ New.LinePosition = 0
              ∧ Q.ContextStack = New :: Top :: Below)) := by
    intro Top' Below' Frames hS hQ
    rw [hStack] at hS
    injection hS with h1 h2
    subst h1 h2 hQ
    exact ⟨rfl, Or.inl ⟨Frames, rfl⟩⟩
  unfold ProcessDirective at h
  by_cases hi : DirectiveName = "include"
  · simp only [hi, if_true] at h
    split at h
    · cases h
    · rename_i hLen
      obtain ⟨New, h1, h2, h3⟩ := ProcessInclude_shape h
      subst h3
      rw [hStack] at hLen
      exact ⟨rfl, Or.inr ⟨hi, by omega, New, h1, h2, by simp [hStack]⟩⟩
  · simp only [hi, if_false] at h
    by_cases hd : DirectiveName = "define"
    · simp only [hd, if_true] at h
      rw [ProcessDefine_frame] at h
      cases hB : ProcessDefine (Bare P.Definitions) Line with
      | error E => simp [hB] at h
      | ok R => rw [hB] at h; exact hKeep h
    · simp only [hd, if_false] at h
      by_cases hu : DirectiveName = "undef"
      · simp only [hu, if_true] at h
        rw [ProcessUndef_frame] at h
        cases hB : ProcessUndef (Bare P.Definitions) Line with
        | error E => simp [hB] at h
        | ok R => rw [hB] at h; exact hKeep h
      · simp only [hu, if_false] at h
        by_cases h1 : DirectiveName = "ifdef"
        · simp only [h1, if_true] at h
          obtain ⟨T, B, F, hS, hQ⟩ := ProcessIf_shape h
          exact hFrames hS hQ
        · simp only [h1, if_false] at h
          by_cases h2 : DirectiveName = "ifndef"
          · simp only [h2, if_true] at h
            obtain ⟨T, B, F, hS, hQ⟩ := ProcessIf_shape h
            exact hFrames hS hQ
          · simp only [h2, if_false] at h
            by_cases h3 : DirectiveName = "else"
            · simp only [h3, if_true] at h
              obtain ⟨T, B, F, hS, hQ⟩ := ProcessElse_shape h
              exact hFrames hS hQ
            · simp only [h3, if_false] at h
              by_cases h4 : DirectiveName = "endif"
              · simp only [h4, if_true] at h
                obtain ⟨T, B, F, hS, hQ⟩ := ProcessEndif_shape h
                exact hFrames hS hQ
              · simp only [h4, if_false] at h
                by_cases h5 : DirectiveName = "error"
                · simp only [h5, if_true] at h
                  rw [ProcessError_frame] at h
                  cases hB : ProcessError (Bare P.Definitions) Line false with
                  | error E => simp [hB] at h
                  | ok R => rw [hB] at h; exact hKeep h
                · simp only [h5, if_false] at h
                  by_cases h6 : DirectiveName = "warning"
                  · simp only [h6, if_true] at h
                    rw [ProcessError_frame] at h
                    cases hB : ProcessError (Bare P.Definitions) Line true with
                    | error E => simp [hB] at h
                    | ok R => rw [hB] at h; exact hKeep h
                  · simp only [h6, if_false] at h
                    cases h

/-- What `ProcessLine` can do to the state: either the line is one that CASE 3
copies, and the result is the replaced line written back and appended to the
output; or it is not, the output is untouched, and the context stack is the
same up to the if-stack of the current context, or is one `%include` deeper,
which requires an active line and a stack of at most 20 contexts. -/
theorem ProcessLine_cases {H : Host} {P Q : VirconASMPreprocessor}
    (h : ProcessLine H P = .ok Q) :
    ∃ Top Below, P.ContextStack = Top :: Below ∧
      ((∃ Line Replaced, EmitsCurrentLine P Line
          ∧ ReplaceLoop P.Definitions 10 Line = .ok Replaced
          ∧ Q = { ContextStack :=
                    { Top with SourceLines := Top.SourceLines.set Top.LinePosition Replaced }
                      :: Below
                  Definitions := P.Definitions
                  ProcessedTokens := P.ProcessedTokens ++ Replaced
                  Warnings := P.Warnings })
      ∨ ((∀ Line, ¬ EmitsCurrentLine P Line) ∧ Q.ProcessedTokens = P.ProcessedTokens
          ∧ ((∃ Frames, Q.ContextStack = { Top with IfStack := Frames } :: Below)
            ∨ (Top.AreAllIfConditionsMet = true ∧ (Top :: Below).length ≤ 20
                ∧ ∃ New, New.IfStack = [] ∧ New.LinePosition = 0
                  ∧ Q.ContextStack = New :: Top :: Below)))) := by
  cases hS : P.ContextStack with
  | nil => simp [ProcessLine, hS] at h
  | cons Top Below =>
    refine ⟨Top, Below, rfl, ?_⟩
    cases hL : Top.GetCurrentLine with
    | error E => simp [ProcessLine, hS, hL, bind, Except.bind] at h
    | ok Line =>
      by_cases hEm : EmitsCurrentLine P Line
      · left
        obtain ⟨Top', Below', hS', hP⟩ := ProcessLine_emits H hEm
        rw [hS] at hS'
        injection hS' with h1 h2
        subst h1 h2
        rw [hP] at h
        cases hR : ReplaceLoop P.Definitions 10 Line with
        | error E => simp [hR] at h
        | ok Replaced =>
          simp only [hR, Except.ok.injEq] at h
          exact ⟨Line, Replaced, hEm, hR, h.symm⟩
      · right
        have hNone : ∀ Line', ¬ EmitsCurrentLine P Line' := by
          intro Line' hE
          obtain ⟨T, B, F, R, hS', hL', hRest⟩ := hE
          rw [hS] at hS'
          injection hS' with h1 h2
          subst h1 h2
          rw [hL] at hL'
          injection hL' with hL'
          subst hL'
          exact hEm ⟨_, _, F, R, hS, hL, hRest⟩
        refine ⟨hNone, ?_⟩
        have hSame : Q = P → Q.ProcessedTokens = P.ProcessedTokens
            ∧ ((∃ Frames, Q.ContextStack = { Top with IfStack := Frames } :: Below)
              ∨ (Top.AreAllIfConditionsMet = true ∧ (Top :: Below).length ≤ 20
                  ∧ ∃ New, New.IfStack = [] ∧ New.LinePosition = 0
                    ∧ Q.ContextStack = New :: Top :: Below)) := by
          intro hQ
          subst hQ
          exact ⟨rfl, Or.inl ⟨Top.IfStack, by rw [hS, ProcessingContext_eta]⟩⟩
        unfold ProcessLine at h
        simp only [hS, hL, bind, Except.bind] at h
        cases Line with
        | nil => simp only [Except.ok.injEq] at h; exact hSame h.symm
        | cons Front Tail =>
          simp only at h
          split at h
          · simp only [Except.ok.injEq] at h; exact hSame h.symm
          · rename_i hMarker
            by_cases hD : TokenIsThisSymbol Front .Percent = true
            · simp only [hD, Bool.not_true, Bool.false_eq_true, if_false] at h
              cases Tail with
              | nil => simp only [List.getElem?_cons_succ, List.getElem?_nil, Except.ok.injEq] at h
                       exact hSame h.symm
              | cons Keyword Others =>
                simp only [List.getElem?_cons_succ, List.getElem?_cons_zero] at h
                cases hE : ExpectIdentifier (Front :: Keyword :: Others) 1 with
                | error E => simp [hE] at h
                | ok R =>
                  simp only [hE] at h
                  split at h
                  · simp only [Except.ok.injEq] at h; exact hSame h.symm
                  · rename_i hGo
                    obtain ⟨hOut, hShape⟩ := ProcessDirective_shape hS h
                    refine ⟨hOut, ?_⟩
                    rcases hShape with hF | ⟨hInc, hLen, hNew⟩
                    · exact Or.inl hF
                    · right
                      refine ⟨?_, hLen, hNew⟩
                      rw [hInc] at hGo
                      simpa [IsConditionalName] using hGo
            · simp only [hD, Bool.not_false, if_true] at h
              by_cases hA : Top.AreAllIfConditionsMet = true
              · exfalso
                apply hEm
                refine ⟨Top, Below, Front, Tail, hS, hL, rfl, ?_, by simpa using hD, hA⟩
                intro hM
                apply hMarker
                have hB : decide ((Top :: Below).length > 1) = true := by
                  cases Below with
                  | nil => exact absurd rfl hM.1
                  | cons B Bs => simp
                rcases hM.2 with hT | hT <;> (rw [hB, hT]; rfl)
              · simp only [hA, Bool.not_false, if_false] at h
                simp only [Bool.not_eq_true] at hA
                simp only [hA, Bool.not_false, Bool.false_eq_true, if_false,
                  Bool.not_true, Except.ok.injEq] at h
                exact hSame h.symm

/-! ## Theorems: reachable states -/

/-- The three kinds of turn of the loops of `Preprocess`. -/
theorem LoopStep_cases {H : Host} {P Q : VirconASMPreprocessor} (h : LoopStep H P = .ok Q) :
    (P.ContextStack = [] ∧ Q = P)
    ∨ (∃ Top Below, P.ContextStack = Top :: Below ∧ Top.LinesHaveEnded = true
        ∧ Q = PopContext P)
    ∨ (∃ Top Below R, P.ContextStack = Top :: Below ∧ Top.LinesHaveEnded = false
        ∧ ProcessLine H P = .ok R
        ∧ Q = AdvanceContextBeingProcessed P.ContextStack.length R) := by
  unfold LoopStep at h
  cases hS : P.ContextStack with
  | nil =>
    simp only [hS, Except.ok.injEq] at h
    exact Or.inl ⟨rfl, h.symm⟩
  | cons Top Below =>
    simp only [hS] at h
    by_cases hE : Top.LinesHaveEnded = true
    · simp only [hE, if_true, Except.ok.injEq] at h
      exact Or.inr (Or.inl ⟨Top, Below, rfl, hE, h.symm⟩)
    · simp only [hE, if_false, bind, Except.bind, Bool.false_eq_true] at h
      cases hR : ProcessLine H P with
      | error E => simp [hR] at h
      | ok R =>
        simp only [hR, Except.ok.injEq] at h
        simp only [Bool.not_eq_true] at hE
        exact Or.inr (Or.inr ⟨Top, Below, R, rfl, hE, rfl, h.symm⟩)

theorem Advance_IfStack (C : ProcessingContext) : C.Advance.IfStack = C.IfStack := by
  unfold ProcessingContext.Advance
  split <;> rfl

theorem Advance_active (C : ProcessingContext) :
    C.Advance.AreAllIfConditionsMet = C.AreAllIfConditionsMet := by
  simp [ProcessingContext.AreAllIfConditionsMet, Advance_IfStack]

/-- The stack after a turn that processes a line: either the current context
advanced, with some if-stack, over the same contexts below; or a fresh context
above the current one advanced, which then has all its if-conditions met and
lies at most 20 deep. -/
theorem LoopStep_stack {H : Host} {P Q : VirconASMPreprocessor} {Top : ProcessingContext}
    {Below : List ProcessingContext} {R : VirconASMPreprocessor}
    (hStack : P.ContextStack = Top :: Below) (hLine : ProcessLine H P = .ok R)
    (hQ : Q = AdvanceContextBeingProcessed P.ContextStack.length R) :
    Q.ProcessedTokens = R.ProcessedTokens ∧ Q.Definitions = R.Definitions
    ∧ ((∃ Next, Q.ContextStack = Next :: Below)
      ∨ (Top.AreAllIfConditionsMet = true ∧ (Top :: Below).length ≤ 20
          ∧ ∃ New, New.IfStack = [] ∧ Q.ContextStack = New :: Top.Advance :: Below)) := by
  subst hQ
  refine ⟨rfl, rfl, ?_⟩
  obtain ⟨T, B, hS, hCases⟩ := ProcessLine_cases hLine
  rw [hStack] at hS
  injection hS with h1 h2
  subst h1 h2
  rcases hCases with ⟨Line, Replaced, -, -, hR⟩ | ⟨-, -, ⟨Frames, hR⟩ | ⟨hA, hLen, New, hN, -, hR⟩⟩
  · left
    subst hR
    simp [AdvanceContextBeingProcessed, hStack, ModifyAt]
  · left
    simp [AdvanceContextBeingProcessed, hStack, hR, ModifyAt]
  · right
    refine ⟨hA, hLen, New, hN, ?_⟩
    simp [AdvanceContextBeingProcessed, hStack, hR, ModifyAt]

theorem StartState_invariant {Lexer : VirconASMLexer} {P : VirconASMPreprocessor}
    (h : StartState Lexer = .ok P) : StackInvariant P := by
  obtain ⟨New, -, -, -, -, hP⟩ := PushContextLexer_shape h
  subst hP
  simp [StackInvariant]

theorem LoopStep_invariant {H : Host} {P Q : VirconASMPreprocessor}
    (hInv : StackInvariant P) (h : LoopStep H P = .ok Q) : StackInvariant Q := by
  obtain ⟨hLen, hBelow⟩ := hInv
  rcases LoopStep_cases h with ⟨-, hQ⟩ | ⟨Top, Below, hS, -, hQ⟩ | ⟨Top, Below, R, hS, -, hR, hQ⟩
  · subst hQ; exact ⟨hLen, hBelow⟩
  · subst hQ
    rw [hS] at hLen hBelow
    simp only [List.tail_cons, List.length_cons] at hLen hBelow
    refine ⟨by simp [PopContext, hS]; omega, ?_⟩
    intro C hC
    apply hBelow
    simp only [PopContext, hS, List.tail_cons] at hC
    exact List.mem_of_mem_tail hC
  · obtain ⟨-, -, hShape⟩ := LoopStep_stack hS hR hQ
    rw [hS] at hLen hBelow
    simp only [List.tail_cons, List.length_cons] at hLen hBelow
    rcases hShape with ⟨Next, hN⟩ | ⟨hA, hL, New, -, hN⟩
    · refine ⟨by rw [hN]; simpa using hLen, ?_⟩
      rw [hN]
      simpa using hBelow
    · simp only [List.length_cons] at hL
      refine ⟨by rw [hN]; simp; omega, ?_⟩
      rw [hN]
      intro C hC
      simp only [List.tail_cons, List.mem_cons] at hC
      rcases hC with rfl | hC
      · rw [Advance_active]; exact hA
      · exact hBelow C hC

theorem Reachable_invariant {H : Host} {Lexer : VirconASMLexer} {P : VirconASMPreprocessor}
    (h : Reachable H Lexer P) : StackInvariant P := by
  induction h with
  | start hS => exact StartState_invariant hS
  | step _ hStep ih => exact LoopStep_invariant ih hStep

theorem Reachable_RunLoop {H : Host} {Lexer : VirconASMLexer} (Fuel : Nat)
    {P Q : VirconASMPreprocessor} (hP : Reachable H Lexer P)
    (hRun : RunLoop H Fuel P = .ok Q) : Reachable H Lexer Q := by
  induction Fuel generalizing P with
  | zero =>
    simp only [RunLoop, Except.ok.injEq] at hRun
    subst hRun; exact hP
  | succ n ih =>
    simp only [RunLoop] at hRun
    cases hS : LoopStep H P with
    | error E => simp [hS] at hRun
    | ok R =>
      rw [hS] at hRun
      exact ih (Reachable.step hP hS) hRun

theorem Reachable_Preprocess {H : Host} {Lexer : VirconASMLexer} (Fuel : Nat)
    (Previous : VirconASMPreprocessor) {Q : VirconASMPreprocessor}
    (hRun : Preprocess H Fuel Previous Lexer = .ok Q) : Reachable H Lexer Q := by
  unfold Preprocess at hRun
  cases hS : PushContextLexer
      { Previous with ContextStack := [], Definitions := [], ProcessedTokens := [], Warnings := [] }
      Lexer with
  | error E => simp [hS] at hRun
  | ok S =>
    rw [hS] at hRun
    exact Reachable_RunLoop Fuel (Reachable.start hS) hRun

/-- Claim C3: Whenever a turn of the preprocessor appends the tokens of a line
to the output (the output grows, or the current line is one that CASE 3
copies), every if-frame in the if-stack of every context on the context stack,
that of the context being processed and those of all contexts that include it,
evaluates true: its condition is met and no `%else` was found, or its condition
is not met and `%else` was found. -/
theorem C3_emission_requires_all_frames_true (H : Host) (Lexer : VirconASMLexer)
    (P Q : VirconASMPreprocessor) (hReach : Reachable H Lexer P)
    (hStep : LoopStep H P = .ok Q)
    (hEmit : Q.ProcessedTokens ≠ P.ProcessedTokens ∨ ∃ Line, EmitsCurrentLine P Line) :
    ∀ C ∈ P.ContextStack, ∀ F ∈ C.IfStack,
      (F.ConditionIsMet = true ∧ F.ElseWasFound = false)
      ∨ (F.ConditionIsMet = false ∧ F.ElseWasFound = true) := by
  have hEmits : ∃ Line, EmitsCurrentLine P Line := by
    rcases hEmit with hOut | hLine
    · rcases LoopStep_cases hStep with ⟨-, hQ⟩ | ⟨_, _, -, -, hQ⟩ | ⟨Top, Below, R, hS, -, hR, hQ⟩
      · subst hQ; exact absurd rfl hOut
      · subst hQ; exact absurd rfl hOut
      · obtain ⟨hO, -, -⟩ := LoopStep_stack hS hR hQ
        obtain ⟨_, _, -, hCases⟩ := ProcessLine_cases hR
        rcases hCases with ⟨Line, _, hE, -, -⟩ | ⟨-, hSame, -⟩
        · exact ⟨Line, hE⟩
        · rw [hO, hSame] at hOut
          exact absurd rfl hOut
    · exact hLine
  obtain ⟨Line, Top, Below, Front, Rest, hS, -, -, -, -, hA⟩ := hEmits
  obtain ⟨-, hBelow⟩ := Reachable_invariant hReach
  rw [hS] at hBelow
  simp only [List.tail_cons] at hBelow
  intro C hC F hF
  have hActive : C.AreAllIfConditionsMet = true := by
    rw [hS] at hC
    rcases List.mem_cons.mp hC with rfl | hC
    · exact hA
    · exact hBelow C hC
  have hEval : F.Evaluates = true := by
    unfold ProcessingContext.AreAllIfConditionsMet at hActive
    exact List.all_eq_true.mp hActive F hF
  unfold IfContext.Evaluates at hEval
  cases hE : F.ElseWasFound <;> cases hM : F.ConditionIsMet <;> simp [hE, hM] at hEval ⊢

/-- In the run on `SampleMain`, the line `MOV R0, X` of the included file is
reached after six turns and is emitted; the frame of `%ifndef Y` in the
included file and the frame of `%ifdef X` in the including file both evaluate
true. -/
theorem C3_emission_requires_all_frames_true_witness :
    Preprocess SampleFiles 6 Fresh SampleMain = .ok SampleAtIncludedMov
    ∧ LoopStep SampleFiles SampleAtIncludedMov = .ok SampleAfterIncludedMov
    ∧ SampleAfterIncludedMov.ProcessedTokens
        = [⟨At 0, .StartOfFile⟩, ⟨InPart 2, .Other "MOV"⟩, ⟨InPart 2, .Other "R0"⟩,
            ⟨InPart 2, .Symbol .Comma⟩, ⟨InPart 2, .LiteralInteger 5⟩]
    ∧ ∀ C ∈ SampleAtIncludedMov.ContextStack, ∀ F ∈ C.IfStack,
        (F.ConditionIsMet = true ∧ F.ElseWasFound = false)
        ∨ (F.ConditionIsMet = false ∧ F.ElseWasFound = true) :=
  ⟨by decide!, by decide!, by decide!,
    C3_emission_requires_all_frames_true SampleFiles SampleMain SampleAtIncludedMov
      SampleAfterIncludedMov (Reachable_Preprocess 6 Fresh (by decide!)) (by decide!)
      (Or.inl (by decide!))⟩

/-- Claim C8 (counterexample): The context stack can hold 21 contexts: after 40
turns on the file that includes itself, the initial context and 20 nested
includes are on the stack. -/
theorem C8_counterexample_stack_of_21 :
    (Preprocess SampleFiles 40 Fresh SampleLoop).map (fun Q => Q.ContextStack.length)
      = .ok 21 := by
  decide!

/-- Claim C8 (amended): Include nesting is capped at 20 nested includes: in
every state reached while preprocessing, the context stack holds at most 21
processing contexts (the initial file and 20 includes), and an active
`%include` processed while the stack holds more than 20 contexts raises the
error "includes are too deeply nested (possible circular references)" located
at that include directive line. -/
theorem C8_include_nesting_capped (H : Host) (Lexer : VirconASMLexer)
    (P : VirconASMPreprocessor) (hReach : Reachable H Lexer P) :
    P.ContextStack.length ≤ 21
    ∧ ∀ (Top : ProcessingContext) (Below : List ProcessingContext) (Front Keyword : Token)
        (Rest : TokenList),
        P.ContextStack = Top :: Below →
        Top.GetCurrentLine = .ok (Front :: Keyword :: Rest) →
        Front.Data = .Symbol .Percent → Keyword.Data = .Identifier "include" →
        Top.AreAllIfConditionsMet = true → 20 < P.ContextStack.length →
        ProcessLine H P =
          .error (.Error Front.Location
            "includes are too deeply nested (possible circular references)") := by
  refine ⟨(Reachable_invariant hReach).1, ?_⟩
  intro Top Below Front Keyword Rest hS hL hF hK hA hLen
  rw [ProcessLine_directive H hS hL hF hK]
  simp [hA, ProcessDirective, hLen]

/-- The file that includes itself: after 41 turns the stack holds 21 contexts
and the innermost stands on its `%include` line, which raises the error, so
that the run of 42 turns ends in it. -/
theorem C8_include_nesting_capped_witness :
    Preprocess SampleFiles 41 Fresh SampleLoop = .ok SampleAtDeepestInclude
    ∧ SampleAtDeepestInclude.ContextStack.length = 21
    ∧ SampleAtDeepestInclude.ContextStack.length ≤ 21
    ∧ ProcessLine SampleFiles SampleAtDeepestInclude
        = .error (.Error (InLoop 1)
            "includes are too deeply nested (possible circular references)")
    ∧ Preprocess SampleFiles 42 Fresh SampleLoop
        = .error (.Error (InLoop 1)
            "includes are too deeply nested (possible circular references)") :=
  ⟨by decide!, by decide!,
    (C8_include_nesting_capped SampleFiles SampleLoop SampleAtDeepestInclude
      (Reachable_Preprocess 41 Fresh (by decide!))).1,
    (C8_include_nesting_capped SampleFiles SampleLoop SampleAtDeepestInclude
      (Reachable_Preprocess 41 Fresh (by decide!))).2
      (SampleAtDeepestInclude.ContextStack.headD NoContext)
      SampleAtDeepestInclude.ContextStack.tail
      ⟨InLoop 1, .Symbol .Percent⟩ ⟨InLoop 1, .Identifier "include"⟩
      [⟨InLoop 1, .LiteralString "loop.asm"⟩]
      (by decide!) (by decide!) rfl rfl (by decide!) (by decide!),
    by decide!⟩

/-! ## Theorems: the output, line by line -/

theorem EmittedLine_of_emits {P : VirconASMPreprocessor} {Line : TokenList}
    (h : EmitsCurrentLine P Line) : EmittedLine true P = some Line := by
  obtain ⟨Top, Below, Front, Rest, hS, hL, hF, hM, hD, hA⟩ := h
  subst hF
  have hM' : (true && decide (Below ≠ [])
      && (Front.Type == .StartOfFile || Front.Type == .EndOfFile)) = false := by
    by_cases hB : Below = []
    · subst hB; simp
    · have : ¬ (Front.Type = .StartOfFile ∨ Front.Type = .EndOfFile) := fun h => hM ⟨hB, h⟩
      simp only [not_or] at this
      simp [this.1, this.2]
  simp only [EmittedLine, hS, hL]
  rw [if_neg (by rw [hM']; simp)]
  simp [hD, hA]

theorem EmittedLine_none {P : VirconASMPreprocessor}
    (h : ∀ Line, ¬ EmitsCurrentLine P Line) : EmittedLine true P = none := by
  cases hE : EmittedLine true P with
  | none => rfl
  | some Line =>
    exfalso
    apply h Line
    unfold EmittedLine at hE
    cases hS : P.ContextStack with
    | nil => simp [hS] at hE
    | cons Top Below =>
      simp only [hS] at hE
      cases hL : Top.GetCurrentLine with
      | error E => simp [hL] at hE
      | ok Current =>
        cases Current with
        | nil => simp [hL] at hE
        | cons Front Rest =>
          simp only [hL] at hE
          split at hE
          · cases hE
          · rename_i hM
            split at hE
            · rename_i hGo
              injection hE with hE
              subst hE
              simp only [Bool.and_eq_true, Bool.not_eq_true'] at hGo
              refine ⟨Top, Below, Front, Rest, hS, hL, rfl, ?_, hGo.1, hGo.2⟩
              intro hMarker
              apply hM
              have hB : decide (Below ≠ []) = true := by simpa using hMarker.1
              rcases hMarker.2 with hT | hT <;> (rw [hB, hT]; rfl)
            · cases hE

/-- One turn of the loops appends to the output exactly the tokens of the line
it stands on. -/
theorem LoopStep_output {H : Host} {P Q : VirconASMPreprocessor} (h : LoopStep H P = .ok Q) :
    Q.ProcessedTokens = P.ProcessedTokens ++ LineTokens true P := by
  rcases LoopStep_cases h with ⟨hS, hQ⟩ | ⟨Top, Below, hS, hE, hQ⟩ | ⟨Top, Below, R, hS, -, hR, hQ⟩
  · subst hQ
    simp [LineTokens, EmittedLine, hS]
  · subst hQ
    have : Top.GetCurrentLine
        = .error (.Runtime "preprocessing context tried to access more lines than available") := by
      simp [ProcessingContext.GetCurrentLine, hE]
    simp [LineTokens, EmittedLine, hS, this, PopContext]
  · obtain ⟨hO, -, -⟩ := LoopStep_stack hS hR hQ
    obtain ⟨_, _, -, hCases⟩ := ProcessLine_cases hR
    rw [hO]
    rcases hCases with ⟨Line, Replaced, hEm, hRep, hRes⟩ | ⟨hNone, hSame, -⟩
    · subst hRes
      simp [LineTokens, EmittedLine_of_emits hEm, hRep]
    · simp [LineTokens, EmittedLine_none hNone, hSame]

/-- A run appends to the output the tokens of the lines it reaches, in the
order in which it reaches them. -/
theorem RunLoop_output (H : Host) (Fuel : Nat) {P Q : VirconASMPreprocessor}
    (h : RunLoop H Fuel P = .ok Q) :
    Q.ProcessedTokens = P.ProcessedTokens ++ (TokensByTurn true H Fuel P).flatten := by
  induction Fuel generalizing P with
  | zero =>
    simp only [RunLoop, Except.ok.injEq] at h
    subst h
    simp [TokensByTurn]
  | succ n ih =>
    simp only [RunLoop] at h
    cases hS : LoopStep H P with
    | error E => simp [hS] at h
    | ok R =>
      rw [hS] at h
      rw [ih h, LoopStep_output hS]
      simp [TokensByTurn, hS]

/-- Claim C2 (counterexample): In the complete run on `SampleMain`, which
includes `part.asm`, the output holds 6 tokens, while the active non-directive
lines reached hold 1, 1, 4, 1 and 1 tokens after substitution, 8 in all: the
start-of-file and end-of-file lines of the included file are active
non-directive lines that contribute no token. -/
theorem C2_counterexample_markers_of_included_file :
    (Preprocess SampleFiles 13 Fresh SampleMain).map
        (fun Q => (Q.ContextStack.length, Q.ProcessedTokens.length)) = .ok (0, 6)
    ∧ (StartState SampleMain).map
        (fun S => ((TokensByTurn false SampleFiles 13 S).map List.length).sum) = .ok 8 := by
  constructor <;> decide!

/-- Claim C2 (amended): For every input and every run of the preprocessor
that ends without error, the output is the concatenation, in the order in
which the lines are reached, of the tokens after definition substitution of
every line reached that is not a directive line, is active (all if-conditions
of its context met) and is not the start-of-file or end-of-file line of an
included file; so the number of output tokens is the sum of the numbers of
tokens of these lines, and directive lines, inactive lines and the file markers
of included files contribute no tokens. -/
theorem C2_output_is_sum_of_emitted_lines (H : Host) (Fuel : Nat)
    (Previous : VirconASMPreprocessor) (Lexer : VirconASMLexer) (Q : VirconASMPreprocessor)
    (hRun : Preprocess H Fuel Previous Lexer = .ok Q) :
    ∃ Start, StartState Lexer = .ok Start
      ∧ Q.ProcessedTokens = (TokensByTurn true H Fuel Start).flatten
      ∧ Q.ProcessedTokens.length = ((TokensByTurn true H Fuel Start).map List.length).sum := by
  unfold Preprocess at hRun
  have hStart : PushContextLexer
      { Previous with ContextStack := [], Definitions := [], ProcessedTokens := [], Warnings := [] }
      Lexer = StartState Lexer := rfl
  rw [hStart] at hRun
  cases hS : StartState Lexer with
  | error E => simp [hS] at hRun
  | ok Start =>
    rw [hS] at hRun
    have hEmpty : Start.ProcessedTokens = [] := by
      obtain ⟨New, -, -, -, -, hP⟩ := PushContextLexer_shape hS
      rw [hP]
    have hOut := RunLoop_output H Fuel hRun
    rw [hEmpty, List.nil_append] at hOut
    exact ⟨Start, rfl, hOut, by rw [hOut, List.length_flatten]⟩

/-- The run on `SampleMain` is complete after 13 turns; its output holds the 5
tokens of the three lines that count: the start-of-file line of `main.asm`, the
line `MOV R0, X` of `part.asm` after substitution, and the end-of-file line of
`main.asm`. -/
theorem C2_output_is_sum_of_emitted_lines_witness :
    Preprocess SampleFiles 13 Fresh SampleMain = .ok SampleMainDone
    ∧ SampleMainDone.ContextStack = []
    ∧ SampleMainDone.ProcessedTokens
        = [⟨At 0, .StartOfFile⟩, ⟨InPart 2, .Other "MOV"⟩, ⟨InPart 2, .Other "R0"⟩,
            ⟨InPart 2, .Symbol .Comma⟩, ⟨InPart 2, .LiteralInteger 5⟩, ⟨At 5, .EndOfFile⟩]
    ∧ (StartState SampleMain).map
        (fun S => (TokensByTurn true SampleFiles 13 S).map List.length)
      = .ok [1, 0, 0, 0, 0, 0, 4, 0, 0, 0, 0, 1, 0]
    ∧ ∃ Start, StartState SampleMain = .ok Start
      ∧ SampleMainDone.ProcessedTokens = (TokensByTurn true SampleFiles 13 Start).flatten
      ∧ SampleMainDone.ProcessedTokens.length
          = ((TokensByTurn true SampleFiles 13 Start).map List.length).sum :=
  ⟨by decide!, by decide!, by decide!, by decide!,
    C2_output_is_sum_of_emitted_lines SampleFiles 13 Fresh SampleMain SampleMainDone
      (by decide!)⟩

/-! ## Theorems: more on single directives -/

/-- Claim C11: The if-stack is per context.  `%endif` removes exactly the
innermost frame of the if-stack of the current context and leaves its other
frames, and every other context, unchanged; `%endif` or `%else` processed
while the if-stack of the current context is empty raises an error, whatever
frames the including contexts have open. -/
theorem C11_if_stack_is_per_context (H : Host) (P : VirconASMPreprocessor)
    (Top : ProcessingContext) (Below : List ProcessingContext) (Front Keyword : Token)
    (hStack : P.ContextStack = Top :: Below)
    (hLine : Top.GetCurrentLine = .ok [Front, Keyword])
    (hPercent : Front.Data = .Symbol .Percent) :
    (Keyword.Data = .Identifier "endif" → ∀ Frame Outer, Top.IfStack = Frame :: Outer →
      ProcessLine H P = .ok { P with ContextStack := { Top with IfStack := Outer } :: Below })
    ∧ (Keyword.Data = .Identifier "endif" → Top.IfStack = [] →
        ProcessLine H P = .error (.Error Front.Location "#endif with no previous #if"))
    ∧ (Keyword.Data = .Identifier "else" → Top.IfStack = [] →
        ProcessLine H P = .error (.Error Front.Location "%else with no previous %if")) := by
  refine ⟨?_, ?_, ?_⟩
  · intro hK Frame Outer hFrames
    rw [ProcessLine_directive H hStack hLine hPercent hK]
    simp only [IsConditionalName, ProcessDirective]
    simp only [String.reduceEq, if_false, if_true, bne_self_eq_false, Bool.and_false,
      Bool.not_false, Bool.not_true, Bool.and_false, Bool.false_eq_true]
    rw [ProcessEndif_eq P Top Below Front Keyword hStack, hFrames]
  · intro hK hFrames
    rw [ProcessLine_directive H hStack hLine hPercent hK]
    simp only [IsConditionalName, ProcessDirective]
    simp only [String.reduceEq, if_false, if_true, bne_self_eq_false, Bool.and_false,
      Bool.not_false, Bool.not_true, Bool.and_false, Bool.false_eq_true]
    rw [ProcessEndif_eq P Top Below Front Keyword hStack, hFrames]
  · intro hK hFrames
    rw [ProcessLine_directive H hStack hLine hPercent hK]
    simp only [IsConditionalName, ProcessDirective]
    simp only [String.reduceEq, if_false, if_true, bne_self_eq_false, Bool.and_false,
      Bool.not_false, Bool.not_true, Bool.and_false, Bool.false_eq_true]
    rw [ProcessElse_eq P Top Below Front Keyword hStack, hFrames]
    simp

/-- In the sample with two open frames `%endif` removes the frame of
`%ifdef X` and leaves the frame of `%ifndef Z`; in the included file of the
other sample, `%endif` and `%else` are rejected although the including file has
the frame of its `%ifdef X` open. -/
theorem C11_if_stack_is_per_context_witness :
    ProcessLine NoFiles SampleAtEndif =
        .ok { SampleAtEndif with ContextStack :=
                [ { (SampleAtEndif.ContextStack.headD NoContext) with
                      IfStack := [⟨1, true, false⟩] } ] }
    ∧ ProcessLine SampleFiles (SampleAtForeign 1)
        = .error (.Error (InPart 1) "#endif with no previous #if")
    ∧ ProcessLine SampleFiles (SampleAtForeign 2)
        = .error (.Error (InPart 2) "%else with no previous %if") :=
  ⟨(C11_if_stack_is_per_context NoFiles SampleAtEndif
      (SampleAtEndif.ContextStack.headD NoContext) [] (PercentAt 5)
      (IdentifierAt 5 "endif") rfl (by decide) rfl).1 rfl ⟨2, true, true⟩
      [⟨1, true, false⟩] rfl,
   (C11_if_stack_is_per_context SampleFiles (SampleAtForeign 1)
      ((SampleAtForeign 1).ContextStack.headD NoContext) (SampleAtForeign 1).ContextStack.tail
      ⟨InPart 1, .Symbol .Percent⟩ ⟨InPart 1, .Identifier "endif"⟩ rfl (by decide)
      rfl).2.1 rfl rfl,
   (C11_if_stack_is_per_context SampleFiles (SampleAtForeign 2)
      ((SampleAtForeign 2).ContextStack.headD NoContext) (SampleAtForeign 2).ContextStack.tail
      ⟨InPart 2, .Symbol .Percent⟩ ⟨InPart 2, .Identifier "else"⟩ rfl (by decide)
      rfl).2.2 rfl rfl⟩

/-- Claim C14: An active line whose first token is `%` and whose second token
is an identifier other than include, define, undef, ifdef, ifndef, else, endif,
error, warning raises the error "unsupported preprocessor directive" (followed
by the name in quotes), located at the `%`; and a line whose first token is `%`
never contributes tokens to the output, whatever follows the `%`. -/
theorem C14_unsupported_directive (H : Host) (P : VirconASMPreprocessor)
    (Top : ProcessingContext) (Below : List ProcessingContext) (Front : Token)
    (Rest : TokenList)
    (hStack : P.ContextStack = Top :: Below)
    (hLine : Top.GetCurrentLine = .ok (Front :: Rest))
    (hPercent : Front.Data = .Symbol .Percent) :
    (∀ Keyword Others Name, Rest = Keyword :: Others → Keyword.Data = .Identifier Name →
      Top.AreAllIfConditionsMet = true →
      Name ∉ ["include", "define", "undef", "ifdef", "ifndef", "else", "endif", "error",
        "warning"] →
      ProcessLine H P =
        .error (.Error Front.Location
          ("unsupported preprocessor directive \"" ++ Name ++ "\"")))
    ∧ (∀ Q, ProcessLine H P = .ok Q → Q.ProcessedTokens = P.ProcessedTokens)
    ∧ (∀ Q, LoopStep H P = .ok Q → Q.ProcessedTokens = P.ProcessedTokens) := by
  have hNotEmitted : ∀ Line, ¬ EmitsCurrentLine P Line := by
    intro Line hE
    obtain ⟨T, B, F, R, hS, hL, hF, -, hD, -⟩ := hE
    rw [hStack] at hS
    injection hS with h1 h2
    subst h1 h2
    rw [hLine] at hL
    injection hL with hL
    rw [← hL] at hF
    injection hF with h3 h4
    subst h3
    rw [(TokenIsThisSymbol_iff _ _).mpr hPercent] at hD
    cases hD
  have hKeep : ∀ Q, ProcessLine H P = .ok Q → Q.ProcessedTokens = P.ProcessedTokens := by
    intro Q hQ
    obtain ⟨_, _, -, hCases⟩ := ProcessLine_cases hQ
    rcases hCases with ⟨Line, _, hE, -, -⟩ | ⟨-, hSame, -⟩
    · exact absurd hE (hNotEmitted Line)
    · exact hSame
  refine ⟨?_, hKeep, ?_⟩
  · intro Keyword Others Name hRest hK hActive hName
    subst hRest
    simp only [List.mem_cons, List.mem_singleton, List.not_mem_nil, or_false, not_or] at hName
    obtain ⟨h1, h2, h3, h4, h5, h6, h7, h8, h9⟩ := hName
    rw [ProcessLine_directive H hStack hLine hPercent hK]
    simp [hActive, ProcessDirective, h1, h2, h3, h4, h5, h6, h7, h8, h9]
  · intro Q hQ
    rcases LoopStep_cases hQ with ⟨-, hP⟩ | ⟨T, B, hS, hE, -⟩ | ⟨T, B, R, hS, -, hR, hP⟩
    · rw [hP]
    · exfalso
      rw [hStack] at hS
      injection hS with h1 h2
      subst h1
      simp [ProcessingContext.GetCurrentLine, hE] at hLine
    · obtain ⟨hO, -, -⟩ := LoopStep_stack hS hR hP
      rw [hO]
      exact hKeep R hR

/-- The line `%pragma once` of the sample raises the error, and the line
`%define Y X+X` of the sample of definitions leaves the output as it is. -/
theorem C14_unsupported_directive_witness :
    ProcessLine NoFiles SampleAtPragma
        = .error (.Error (At 1) "unsupported preprocessor directive \"pragma\"")
    ∧ (ProcessLine NoFiles SampleAtDefineY).map (fun Q => Q.ProcessedTokens)
        = .ok SampleAtDefineY.ProcessedTokens
    ∧ (∀ Keyword Others Name,
        [IdentifierAt 1 "pragma", IdentifierAt 1 "once"] = Keyword :: Others →
        Keyword.Data = .Identifier Name →
        (SampleAtPragma.ContextStack.headD NoContext).AreAllIfConditionsMet = true →
        Name ∉ ["include", "define", "undef", "ifdef", "ifndef", "else", "endif", "error",
          "warning"] →
        ProcessLine NoFiles SampleAtPragma =
          .error (.Error (PercentAt 1).Location
            ("unsupported preprocessor directive \"" ++ Name ++ "\"")))
    ∧ (∀ Q, ProcessLine NoFiles SampleAtPragma = .ok Q →
        Q.ProcessedTokens = SampleAtPragma.ProcessedTokens)
    ∧ (∀ Q, LoopStep NoFiles SampleAtPragma = .ok Q →
        Q.ProcessedTokens = SampleAtPragma.ProcessedTokens) :=
  ⟨by decide!, by decide!,
    C14_unsupported_directive NoFiles SampleAtPragma
      (SampleAtPragma.ContextStack.headD NoContext) [] (PercentAt 1)
      [IdentifierAt 1 "pragma", IdentifierAt 1 "once"] rfl (by decide) rfl⟩

/-! ## Theorems: the include directive -/

/-- An active line `%include "p"` in a stack of at most 20 contexts opens the
file named by the reference folder of the current context, the path separator
and `p`. -/
theorem ProcessLine_include (H : Host) {P : VirconASMPreprocessor}
    {Top : ProcessingContext} {Below : List ProcessingContext}
    {Front Keyword PathToken : Token} {IncludedFilePath : String}
    (hStack : P.ContextStack = Top :: Below)
    (hLine : Top.GetCurrentLine = .ok [Front, Keyword, PathToken])
    (hPercent : Front.Data = .Symbol .Percent)
    (hKeyword : Keyword.Data = .Identifier "include")
    (hPath : PathToken.Data = .LiteralString IncludedFilePath)
    (hActive : Top.AreAllIfConditionsMet = true)
    (hDepth : P.ContextStack.length ≤ 20) :
    ProcessLine H P =
      match H.TokenizeFile ((Top.ReferenceFolder.push H.PathSeparator) ++ IncludedFilePath) with
      | none =>
        .error (.Error PathToken.Location
          ("cannot open include file \"" ++ IncludedFilePath ++ "\""))
      | some Lexer => PushContextLexer P Lexer := by
  rw [ProcessLine_directive H hStack hLine hPercent hKeyword]
  have hNot : ¬ (P.ContextStack.length > 20) := by omega
  simp only [hActive, Bool.not_true, Bool.false_and, Bool.false_eq_true, if_false,
    ProcessDirective, if_true, hNot]
  simp [ProcessInclude, hPath, ExpectEndOfLine, IncludeFile, PushContextFile, hStack, bind,
    Except.bind]

/-- Claim C16 (counterexample): On the host of the sample tower, the file 20
levels down is reached after 41 turns, in a stack of 21 contexts; its active
line `%include "x/step.asm"` names, from its reference folder, a file that does
not exist; yet the next turn raises the error about nesting, located at the
`%`, and not "cannot open include file". -/
theorem C16_counterexample_missing_file_in_stack_of_21 :
    (Preprocess SampleTower 41 Fresh (TowerStep 0)).map
        (fun Q => (Q.ContextStack.length,
          (Q.ContextStack.headD NoContext).GetCurrentLine,
          (Q.ContextStack.headD NoContext).ReferenceFolder,
          (Q.ContextStack.headD NoContext).AreAllIfConditionsMet))
        = .ok (21,
            .ok [⟨⟨"step.asm", 1⟩, .Symbol .Percent⟩, ⟨⟨"step.asm", 1⟩, .Identifier "include"⟩,
              ⟨⟨"step.asm", 1⟩, .LiteralString "x/step.asm"⟩], TowerFolder 20, true)
    ∧ SampleTower.TokenizeFile (((TowerFolder 20).push SampleTower.PathSeparator)
        ++ "x/step.asm") = none
    ∧ Preprocess SampleTower 42 Fresh (TowerStep 0)
        = .error (.Error ⟨"step.asm", 1⟩
            "includes are too deeply nested (possible circular references)") := by
  refine ⟨by decide!, by decide!, by decide!⟩

/-- Claim C16 (amended): For an active `%include "p"` in a stack of at most 20 contexts,
the file opened is the one named by the reference folder of the current
context, followed by the path separator, followed by `p`.  If the host has no
file of that name, the line (and the turn of the loop that processes it) fails
with the error "cannot open include file" located at the path token, so that no
state with a pushed context results; if it has one, the context of that file is
pushed. -/
theorem C16_include_resolves_against_reference_folder (H : Host)
    (P : VirconASMPreprocessor) (Top : ProcessingContext) (Below : List ProcessingContext)
    (Front Keyword PathToken : Token) (IncludedFilePath : String)
    (hStack : P.ContextStack = Top :: Below)
    (hLine : Top.GetCurrentLine = .ok [Front, Keyword, PathToken])
    (hPercent : Front.Data = .Symbol .Percent)
    (hKeyword : Keyword.Data = .Identifier "include")
    (hPath : PathToken.Data = .LiteralString IncludedFilePath)
    (hActive : Top.AreAllIfConditionsMet = true)
    (hDepth : P.ContextStack.length ≤ 20) :
    (H.TokenizeFile ((Top.ReferenceFolder.push H.PathSeparator) ++ IncludedFilePath) = none →
      ProcessLine H P =
          .error (.Error PathToken.Location
            ("cannot open include file \"" ++ IncludedFilePath ++ "\""))
      ∧ LoopStep H P =
          .error (.Error PathToken.Location
            ("cannot open include file \"" ++ IncludedFilePath ++ "\"")))
    ∧ (∀ Lexer,
        H.TokenizeFile ((Top.ReferenceFolder.push H.PathSeparator) ++ IncludedFilePath)
          = some Lexer →
        ProcessLine H P = PushContextLexer P Lexer) := by
  have hEq := ProcessLine_include H hStack hLine hPercent hKeyword hPath hActive hDepth
  refine ⟨fun hNone => ?_, fun Lexer hSome => ?_⟩
  · rw [hNone] at hEq
    refine ⟨hEq, ?_⟩
    obtain ⟨hEnded, -⟩ := GetCurrentLine_ok hLine
    unfold LoopStep
    simp only [hStack, hEnded, Bool.false_eq_true, if_false, bind, Except.bind]
    rw [← hStack, hEq]
  · rw [hSome] at hEq
    exact hEq

/-- On the host of the sample, the line `%include "part.asm"` of `main.asm`,
whose reference folder is ".", opens "./part.asm" and pushes its context; on a
host without files the same line fails at the path token. -/
theorem C16_include_resolves_against_reference_folder_witness :
    ProcessLine SampleFiles SampleAtInclude = PushContextLexer SampleAtInclude SamplePart
    ∧ LoopStep NoFiles SampleAtInclude
        = .error (.Error (At 3) "cannot open include file \"part.asm\"") :=
  ⟨(C16_include_resolves_against_reference_folder SampleFiles SampleAtInclude
      (SampleAtInclude.ContextStack.headD NoContext) [] (PercentAt 3)
      (IdentifierAt 3 "include") ⟨At 3, .LiteralString "part.asm"⟩ "part.asm" rfl
      (by decide) rfl rfl rfl (by decide) (by decide)).2 SamplePart (by decide),
   ((C16_include_resolves_against_reference_folder NoFiles SampleAtInclude
      (SampleAtInclude.ContextStack.headD NoContext) [] (PercentAt 3)
      (IdentifierAt 3 "include") ⟨At 3, .LiteralString "part.asm"⟩ "part.asm" rfl
      (by decide) rfl rfl rfl (by decide) (by decide)).1 rfl).2⟩

/-! ## Theorems: the GPU ports -/

theorem ToInt32_of_lt {Number : Nat} (h : Number < 2147483648) : ToInt32 Number = Number := by
  unfold ToInt32
  have : Number % 4294967296 = Number := Nat.mod_eq_of_lt (by omega)
  rw [this]
  simp [h]

theorem ToInt32_le (Number : Nat) : ToInt32 Number ≤ Number := by
  unfold ToInt32
  have : Number % 4294967296 ≤ Number := Nat.mod_le _ _
  split <;> omega

theorem set_same_length_map {Texture Changed : GPUTexture} {Textures : List GPUTexture}
    {Index : Nat} (hAt : Textures[Index]? = some Texture)
    (hLength : Changed.Regions.length = Texture.Regions.length) :
    (Textures.set Index Changed).map (fun T => T.Regions.length)
      = Textures.map (fun T => T.Regions.length) := by
  apply List.ext_getElem?
  intro i
  by_cases hi : Index = i
  · subst hi
    simp only [List.getElem?_map, List.getElem?_set_self', hAt, Option.map_some']
    simp [hLength]
  · simp only [List.getElem?_map, List.getElem?_set_ne hi]

/-- An assignment through `PointedRegion` leaves the registers and pointers of
the GPU, the number of textures and the number of regions of each texture as
they are. -/
theorem WritePointedRegion_keeps {GPU Changed : V32GPU} {Change : GPURegion → GPURegion}
    (h : GPU.WritePointedRegion Change = some Changed) :
    Changed.SelectedRegion = GPU.SelectedRegion
    ∧ Changed.SelectedTexture = GPU.SelectedTexture
    ∧ Changed.PointedTexture = GPU.PointedTexture
    ∧ Changed.PointedRegion = GPU.PointedRegion
    ∧ Changed.CartridgeTextures.length = GPU.CartridgeTextures.length
    ∧ Changed.BiosTexture.Regions.length = GPU.BiosTexture.Regions.length
    ∧ Changed.CartridgeTextures.map (fun T => T.Regions.length)
        = GPU.CartridgeTextures.map (fun T => T.Regions.length) := by
  unfold V32GPU.WritePointedRegion at h
  cases hT : GPU.TextureAt GPU.PointedRegion.Texture with
  | none => simp [hT] at h
  | some Texture =>
    simp only [hT] at h
    by_cases hNeg : GPU.PointedRegion.Region < 0
    · simp [hNeg] at h
    · simp only [hNeg, if_false] at h
      cases hR : Texture.Regions[GPU.PointedRegion.Region.toNat]? with
      | none => simp [hR] at h
      | some Region =>
        simp only [hR, Option.some.injEq] at h
        subst h
        unfold V32GPU.TextureAt at hT
        unfold V32GPU.SetTextureAt
        by_cases hB : GPU.PointedRegion.Texture = -1
        · simp only [hB, if_true, Option.some.injEq] at hT
          subst hT
          simp [hB]
        · simp only [hB, if_false] at hT
          rw [if_neg hB]
          by_cases hP : 0 ≤ GPU.PointedRegion.Texture
          · simp only [hP, if_true] at hT
            refine ⟨rfl, rfl, rfl, rfl, by simp, rfl, ?_⟩
            exact set_same_length_map hT (by simp)
          · simp [hP] at hT

/-- With valid pointers an assignment through `PointedRegion` is defined. -/
theorem WritePointedRegion_defined {K : Constants} {GPU : V32GPU}
    (h : GPUPointersValid K GPU) (Change : GPURegion → GPURegion) :
    ∃ Changed, GPU.WritePointedRegion Change = some Changed := by
  obtain ⟨-, hBios, hAll, -, ⟨hLow, hHigh⟩, ⟨hR0, hR1⟩⟩ := h
  have hRegion : ∀ Texture : GPUTexture, (Texture.Regions.length : Int) = K.GPURegionsPerTexture →
      ∃ Region, Texture.Regions[GPU.PointedRegion.Region.toNat]? = some Region := by
    intro Texture hLength
    have : GPU.PointedRegion.Region.toNat < Texture.Regions.length := by omega
    exact ⟨_, List.getElem?_eq_getElem this⟩
  have hNeg : ¬ GPU.PointedRegion.Region < 0 := by omega
  unfold V32GPU.WritePointedRegion V32GPU.TextureAt
  by_cases hB : GPU.PointedRegion.Texture = -1
  · obtain ⟨Region, hRegion⟩ := hRegion GPU.BiosTexture hBios
    simp [hB, hNeg, hRegion]
  · have hP : 0 ≤ GPU.PointedRegion.Texture := by omega
    have hIn : GPU.PointedRegion.Texture.toNat < GPU.CartridgeTextures.length := by omega
    have hMem : GPU.CartridgeTextures[GPU.PointedRegion.Texture.toNat] ∈ GPU.CartridgeTextures :=
      List.getElem_mem hIn
    obtain ⟨Region, hRegion⟩ := hRegion _ (hAll _ hMem)
    simp [hB, hP, hNeg, List.getElem?_eq_getElem hIn, hRegion]

/-- What every write to a GPU port keeps: the number of cartridge textures,
the bounds of the selected region and of the selected texture, and the
validity of the pointers. -/
theorem WriteGPUPort_keeps (K : Constants) (V : IOPortValues) (M : GPUMethods)
    (Port : GPULocalPorts) {S Q : VideoState} (Value : V32Word)
    (h : WriteGPUPort K V M Port S Value = some Q) :
    Q.GPU.CartridgeTextures.length = S.GPU.CartridgeTextures.length
    ∧ ((0 ≤ S.GPU.SelectedRegion ∧ S.GPU.SelectedRegion < K.GPURegionsPerTexture) →
        (0 ≤ Q.GPU.SelectedRegion ∧ Q.GPU.SelectedRegion < K.GPURegionsPerTexture))
    ∧ ((-1 ≤ S.GPU.SelectedTexture ∧ S.GPU.SelectedTexture < S.GPU.CartridgeTextures.length) →
        (-1 ≤ Q.GPU.SelectedTexture ∧ Q.GPU.SelectedTexture < Q.GPU.CartridgeTextures.length))
    ∧ ((0 ≤ S.GPU.SelectedRegion ∧ S.GPU.SelectedRegion < K.GPURegionsPerTexture) →
        GPUPointersValid K S.GPU → GPUPointersValid K Q.GPU) := by
  have hRegionWrite : ∀ Change, S.WritePointedRegion Change = some Q →
      Q.GPU.CartridgeTextures.length = S.GPU.CartridgeTextures.length
      ∧ ((0 ≤ S.GPU.SelectedRegion ∧ S.GPU.SelectedRegion < K.GPURegionsPerTexture) →
          (0 ≤ Q.GPU.SelectedRegion ∧ Q.GPU.SelectedRegion < K.GPURegionsPerTexture))
      ∧ ((-1 ≤ S.GPU.SelectedTexture ∧ S.GPU.SelectedTexture < S.GPU.CartridgeTextures.length) →
          (-1 ≤ Q.GPU.SelectedTexture ∧ Q.GPU.SelectedTexture < Q.GPU.CartridgeTextures.length))
      ∧ ((0 ≤ S.GPU.SelectedRegion ∧ S.GPU.SelectedRegion < K.GPURegionsPerTexture) →
          GPUPointersValid K S.GPU → GPUPointersValid K Q.GPU) := by
    intro Change hW
    unfold VideoState.WritePointedRegion at hW
    cases hG : S.GPU.WritePointedRegion Change with
    | none => simp [hG] at hW
    | some Changed =>
      simp only [hG, Option.map_some', Option.some.injEq] at hW
      subst hW
      obtain ⟨h1, h2, h3, h4, h5, h6, h7⟩ := WritePointedRegion_keeps hG
      refine ⟨h5, ?_, ?_, ?_⟩
      · simp only [h1]; exact id
      · simp only [h2, h5]; exact id
      · intro _ hValid
        obtain ⟨v1, v2, v3, v4, v5, v6⟩ := hValid
        refine ⟨by simp only [h5]; exact v1, by simp only [h6]; exact v2, ?_,
          by simp only [h3, h5]; exact v4, by simp only [h4, h5]; exact v5,
          by simp only [h4]; exact v6⟩
        intro Texture hMem
        have hLen : Texture.Regions.length
            ∈ Changed.CartridgeTextures.map (fun T => T.Regions.length) :=
          List.mem_map_of_mem _ hMem
        rw [h7] at hLen
        obtain ⟨Other, hOther, hSame⟩ := List.mem_map.mp hLen
        rw [← hSame]
        exact v3 Other hOther
  cases Port with
  | Command =>
    simp only [WriteGPUPort, Option.some.injEq] at h
    subst h
    unfold WriteGPUCommand
    repeat' split
    all_goals exact ⟨rfl, id, id, fun _ => id⟩
  | RemainingPixels =>
    simp only [WriteGPUPort, Option.some.injEq] at h
    subst h
    exact ⟨rfl, id, id, fun _ => id⟩
  | ClearColor =>
    simp only [WriteGPUPort, Option.some.injEq] at h
    subst h
    exact ⟨rfl, id, id, fun _ => id⟩
  | MultiplyColor =>
    simp only [WriteGPUPort, Option.some.injEq] at h
    subst h
    exact ⟨rfl, id, id, fun _ => id⟩
  | ActiveBlending =>
    simp only [WriteGPUPort, Option.some.injEq] at h
    subst h
    unfold WriteGPUActiveBlending
    repeat' split
    all_goals exact ⟨rfl, id, id, fun _ => id⟩
  | SelectedTexture =>
    simp only [WriteGPUPort, Option.some.injEq] at h
    subst h
    unfold WriteGPUSelectedTexture
    have hLe := ToInt32_le S.GPU.CartridgeTextures.length
    by_cases hOut : Value.AsInteger < -1
        ∨ Value.AsInteger ≥ ToInt32 S.GPU.CartridgeTextures.length
    · rw [if_pos hOut]
      exact ⟨rfl, id, id, fun _ => id⟩
    · rw [if_neg hOut]
      have hIn : -1 ≤ Value.AsInteger ∧ Value.AsInteger < S.GPU.CartridgeTextures.length := by
        omega
      by_cases hB : Value.AsInteger = -1
      · rw [if_pos hB]
        have hIn1 : (-1 : Int) ≤ -1 ∧ (-1 : Int) < S.GPU.CartridgeTextures.length := by omega
        refine ⟨rfl, id, fun _ => hB ▸ hIn, ?_⟩
        intro hSel ⟨v1, v2, v3, v4, v5, v6⟩
        exact ⟨v1, v2, v3, hIn1, hIn1, hSel⟩
      · rw [if_neg hB]
        refine ⟨rfl, id, fun _ => hIn, ?_⟩
        intro hSel ⟨v1, v2, v3, v4, v5, v6⟩
        exact ⟨v1, v2, v3, hIn, hIn, hSel⟩
  | SelectedRegion =>
    simp only [WriteGPUPort, Option.some.injEq] at h
    subst h
    unfold WriteGPUSelectedRegion
    by_cases hOut : Value.AsInteger < 0 ∨ Value.AsInteger ≥ K.GPURegionsPerTexture
    · rw [if_pos hOut]
      exact ⟨rfl, id, id, fun _ => id⟩
    · rw [if_neg hOut]
      have hIn : 0 ≤ Value.AsInteger ∧ Value.AsInteger < K.GPURegionsPerTexture := by omega
      refine ⟨rfl, fun _ => hIn, id, ?_⟩
      intro _ ⟨v1, v2, v3, v4, v5, v6⟩
      exact ⟨v1, v2, v3, v4, v4, hIn⟩
  | DrawingPointX =>
    simp only [WriteGPUPort, Option.some.injEq] at h
    subst h
    exact ⟨rfl, id, id, fun _ => id⟩
  | DrawingPointY =>
    simp only [WriteGPUPort, Option.some.injEq] at h
    subst h
    exact ⟨rfl, id, id, fun _ => id⟩
  | DrawingScaleX =>
    simp only [WriteGPUPort, Option.some.injEq] at h
    subst h
    unfold WriteGPUDrawingScaleX
    split
    all_goals exact ⟨rfl, id, id, fun _ => id⟩
  | DrawingScaleY =>
    simp only [WriteGPUPort, Option.some.injEq] at h
    subst h
    unfold WriteGPUDrawingScaleY
    split
    all_goals exact ⟨rfl, id, id, fun _ => id⟩
  | DrawingAngle =>
    simp only [WriteGPUPort, Option.some.injEq] at h
    subst h
    unfold WriteGPUDrawingAngle
    split
    all_goals exact ⟨rfl, id, id, fun _ => id⟩
  | RegionMinX => exact hRegionWrite _ h
  | RegionMinY => exact hRegionWrite _ h
  | RegionMaxX => exact hRegionWrite _ h
  | RegionMaxY => exact hRegionWrite _ h
  | RegionHotspotX => exact hRegionWrite _ h
  | RegionHotspotY => exact hRegionWrite _ h

/-- With valid pointers every write to a GPU port is defined. -/
theorem WriteGPUPort_defined (K : Constants) (V : IOPortValues) (M : GPUMethods)
    (Port : GPULocalPorts) {S : VideoState} (Value : V32Word)
    (h : GPUPointersValid K S.GPU) : ∃ Q, WriteGPUPort K V M Port S Value = some Q := by
  have hRegionWrite : ∀ Change, ∃ Q, S.WritePointedRegion Change = some Q := by
    intro Change
    obtain ⟨Changed, hC⟩ := WritePointedRegion_defined h Change
    exact ⟨{ S with GPU := Changed }, by simp [VideoState.WritePointedRegion, hC]⟩
  cases Port
  case RegionMinX => exact hRegionWrite _
  case RegionMinY => exact hRegionWrite _
  case RegionMaxX => exact hRegionWrite _
  case RegionMaxY => exact hRegionWrite _
  case RegionHotspotX => exact hRegionWrite _
  case RegionHotspotY => exact hRegionWrite _
  all_goals exact ⟨_, rfl⟩

/-- What every sequence of writes to GPU ports keeps. -/
theorem WriteGPUPorts_keeps (K : Constants) (V : IOPortValues) (M : GPUMethods)
    (Writes : List (GPULocalPorts × V32Word)) {S Q : VideoState}
    (h : WriteGPUPorts K V M Writes S = some Q) :
    Q.GPU.CartridgeTextures.length = S.GPU.CartridgeTextures.length
    ∧ ((0 ≤ S.GPU.SelectedRegion ∧ S.GPU.SelectedRegion < K.GPURegionsPerTexture) →
        (0 ≤ Q.GPU.SelectedRegion ∧ Q.GPU.SelectedRegion < K.GPURegionsPerTexture))
    ∧ ((-1 ≤ S.GPU.SelectedTexture ∧ S.GPU.SelectedTexture < S.GPU.CartridgeTextures.length) →
        (-1 ≤ Q.GPU.SelectedTexture ∧ Q.GPU.SelectedTexture < Q.GPU.CartridgeTextures.length)) := by
  induction Writes generalizing S with
  | nil =>
    simp only [WriteGPUPorts, Option.some.injEq] at h
    subst h
    exact ⟨rfl, id, id⟩
  | cons Write Rest ih =>
    obtain ⟨Port, Value⟩ := Write
    simp only [WriteGPUPorts] at h
    cases hW : WriteGPUPort K V M Port S Value with
    | none => simp [hW] at h
    | some R =>
      rw [hW] at h
      obtain ⟨a1, a2, a3, -⟩ := WriteGPUPort_keeps K V M Port Value hW
      obtain ⟨b1, b2, b3⟩ := ih h
      exact ⟨b1.trans a1, fun x => b2 (a2 x), fun x => b3 (a3 x)⟩

/-- From a state with valid pointers and a selected region within bounds,
every sequence of writes to GPU ports is defined. -/
theorem WriteGPUPorts_defined (K : Constants) (V : IOPortValues) (M : GPUMethods)
    (Writes : List (GPULocalPorts × V32Word)) {S : VideoState}
    (hRange : 0 ≤ S.GPU.SelectedRegion ∧ S.GPU.SelectedRegion < K.GPURegionsPerTexture)
    (hValid : GPUPointersValid K S.GPU) : ∃ Q, WriteGPUPorts K V M Writes S = some Q := by
  induction Writes generalizing S with
  | nil => exact ⟨S, rfl⟩
  | cons Write Rest ih =>
    obtain ⟨Port, Value⟩ := Write
    obtain ⟨R, hW⟩ := WriteGPUPort_defined K V M Port Value hValid
    obtain ⟨-, a2, -, a4⟩ := WriteGPUPort_keeps K V M Port Value hW
    obtain ⟨Q, hQ⟩ := ih (a2 hRange) (a4 hRange hValid)
    exact ⟨Q, by simp only [WriteGPUPorts, hW, hQ]⟩

/-- Claim C17: Starting from a GPU state with
0 ≤ selected region < `GPURegionsPerTexture`, the bound still holds after every
sequence of writes to GPU ports with arbitrary values (and, when the pointers of
the GPU designate objects, every such sequence is defined); a write to the
selected-region port of a value outside the range leaves the GPU, and the host,
unchanged. -/
theorem C17_selected_region_stays_in_range (K : Constants) (V : IOPortValues)
    (M : GPUMethods) (S : VideoState)
    (hRange : 0 ≤ S.GPU.SelectedRegion ∧ S.GPU.SelectedRegion < K.GPURegionsPerTexture) :
    (∀ Writes Q, WriteGPUPorts K V M Writes S = some Q →
      0 ≤ Q.GPU.SelectedRegion ∧ Q.GPU.SelectedRegion < K.GPURegionsPerTexture)
    ∧ (GPUPointersValid K S.GPU → ∀ Writes, ∃ Q, WriteGPUPorts K V M Writes S = some Q)
    ∧ (∀ Value : V32Word,
        (Value.AsInteger < 0 ∨ K.GPURegionsPerTexture ≤ Value.AsInteger) →
        WriteGPUPort K V M .SelectedRegion S Value = some S) := by
  refine ⟨fun Writes Q hQ => (WriteGPUPorts_keeps K V M Writes hQ).2.1 hRange,
    fun hValid Writes => WriteGPUPorts_defined K V M Writes hRange hValid, ?_⟩
  intro Value hOut
  have hOut2 : Value.AsInteger < 0 ∨ Value.AsInteger ≥ K.GPURegionsPerTexture := by omega
  simp only [WriteGPUPort, WriteGPUSelectedRegion]
  rw [if_pos hOut2]

/-- On the sample console, whose textures have 4 regions and where region 2 is
selected: the writes of 7 and of −1 to the selected-region port are ignored,
the write of 3 is stored, and a region write in between does not move the
selection. -/
theorem C17_selected_region_stays_in_range_witness :
    (WriteGPUPorts SampleConstants SampleValues SampleGPUMethods
        [(.SelectedRegion, V32Word.OfInteger 7), (.SelectedRegion, V32Word.OfInteger (-1))]
        SampleVideo = some SampleVideo)
    ∧ (WriteGPUPorts SampleConstants SampleValues SampleGPUMethods
        [(.SelectedRegion, V32Word.OfInteger 3), (.RegionMinX, V32Word.OfInteger 5000),
          (.Command, V32Word.OfInteger 17), (.SelectedRegion, V32Word.OfInteger 4)]
        SampleVideo).map (fun Q => Q.GPU.SelectedRegion) = some 3
    ∧ (∀ Writes Q,
        WriteGPUPorts SampleConstants SampleValues SampleGPUMethods Writes SampleVideo = some Q →
        0 ≤ Q.GPU.SelectedRegion ∧ Q.GPU.SelectedRegion < SampleConstants.GPURegionsPerTexture)
    ∧ (GPUPointersValid SampleConstants SampleVideo.GPU → ∀ Writes, ∃ Q,
        WriteGPUPorts SampleConstants SampleValues SampleGPUMethods Writes SampleVideo = some Q)
    ∧ (∀ Value : V32Word,
        (Value.AsInteger < 0 ∨ SampleConstants.GPURegionsPerTexture ≤ Value.AsInteger) →
        WriteGPUPort SampleConstants SampleValues SampleGPUMethods .SelectedRegion SampleVideo
          Value = some SampleVideo) :=
  ⟨by decide!, by decide!,
    C17_selected_region_stays_in_range SampleConstants SampleValues SampleGPUMethods SampleVideo
      (by decide)⟩

/-- Claim C19: A write of v to the selected-texture port of a GPU whose
cartridge textures can be counted in an `int32_t`: if v = −1, the selected
texture becomes −1 and the pointed texture is the BIOS texture; if
0 ≤ v < number of cartridge textures, the selected texture becomes v and the
pointed texture is cartridge texture v; for every other v the state is
unchanged.  Hence −1 ≤ selected texture < number of cartridge textures is
preserved by every sequence of writes to GPU ports. -/
theorem C19_selected_texture_write (K : Constants) (V : IOPortValues) (M : GPUMethods)
    (S : VideoState) (Value : V32Word)
    (hCount : S.GPU.CartridgeTextures.length < 2147483648) :
    (Value.AsInteger = -1 →
      (WriteGPUSelectedTexture S Value).GPU.SelectedTexture = -1
      ∧ (WriteGPUSelectedTexture S Value).GPU.TextureAt
          (WriteGPUSelectedTexture S Value).GPU.PointedTexture = some S.GPU.BiosTexture)
    ∧ (0 ≤ Value.AsInteger ∧ Value.AsInteger < S.GPU.CartridgeTextures.length →
      (WriteGPUSelectedTexture S Value).GPU.SelectedTexture = Value.AsInteger
      ∧ ∃ Texture, S.GPU.CartridgeTextures[Value.AsInteger.toNat]? = some Texture
          ∧ (WriteGPUSelectedTexture S Value).GPU.TextureAt
              (WriteGPUSelectedTexture S Value).GPU.PointedTexture = some Texture)
    ∧ ((Value.AsInteger < -1 ∨ (S.GPU.CartridgeTextures.length : Int) ≤ Value.AsInteger) →
        WriteGPUPort K V M .SelectedTexture S Value = some S)
    ∧ ((-1 ≤ S.GPU.SelectedTexture ∧ S.GPU.SelectedTexture < S.GPU.CartridgeTextures.length) →
        ∀ Writes Q, WriteGPUPorts K V M Writes S = some Q →
          Q.GPU.CartridgeTextures.length = S.GPU.CartridgeTextures.length
          ∧ -1 ≤ Q.GPU.SelectedTexture
          ∧ Q.GPU.SelectedTexture < Q.GPU.CartridgeTextures.length) := by
  have hCast := ToInt32_of_lt hCount
  refine ⟨?_, ?_, ?_, ?_⟩
  · intro hB
    have hIn : ¬ (Value.AsInteger < -1
        ∨ Value.AsInteger ≥ ToInt32 S.GPU.CartridgeTextures.length) := by
      rw [hCast]; omega
    unfold WriteGPUSelectedTexture
    rw [if_neg hIn, if_pos hB]
    exact ⟨hB, by simp [V32GPU.TextureAt]⟩
  · intro hV
    have hIn : ¬ (Value.AsInteger < -1
        ∨ Value.AsInteger ≥ ToInt32 S.GPU.CartridgeTextures.length) := by
      rw [hCast]; omega
    have hB : ¬ Value.AsInteger = -1 := by omega
    have hLt : Value.AsInteger.toNat < S.GPU.CartridgeTextures.length := by omega
    unfold WriteGPUSelectedTexture
    rw [if_neg hIn, if_neg hB]
    refine ⟨rfl, _, List.getElem?_eq_getElem hLt, ?_⟩
    simp [V32GPU.TextureAt, hB, hV.1, List.getElem?_eq_getElem hLt]
  · intro hOut
    have hOut2 : Value.AsInteger < -1
        ∨ Value.AsInteger ≥ ToInt32 S.GPU.CartridgeTextures.length := by
      rw [hCast]; omega
    simp only [WriteGPUPort, WriteGPUSelectedTexture]
    rw [if_pos hOut2]
  · intro hRange Writes Q hQ
    obtain ⟨h1, -, h3⟩ := WriteGPUPorts_keeps K V M Writes hQ
    exact ⟨h1, h3 hRange⟩

/-- On the sample console, which has two cartridge textures and where texture 1
is selected: the write of −1 selects the BIOS texture, the write of 0 selects
cartridge texture 0, and the writes of 2 and of −2 are ignored. -/
theorem C19_selected_texture_write_witness :
    (WriteGPUPorts SampleConstants SampleValues SampleGPUMethods
        [(.SelectedTexture, V32Word.OfInteger (-1))] SampleVideo).map
          (fun Q => (Q.GPU.SelectedTexture, Q.GPU.PointedTexture, Q.GPU.PointedRegion))
        = some (-1, -1, ⟨-1, 2⟩)
    ∧ (WriteGPUPorts SampleConstants SampleValues SampleGPUMethods
        [(.SelectedTexture, V32Word.OfInteger 0)] SampleVideo).map
          (fun Q => (Q.GPU.SelectedTexture, Q.GPU.PointedTexture, Q.GPU.PointedRegion))
        = some (0, 0, ⟨0, 2⟩)
    ∧ WriteGPUPorts SampleConstants SampleValues SampleGPUMethods
        [(.SelectedTexture, V32Word.OfInteger 2), (.SelectedTexture, V32Word.OfInteger (-2))]
        SampleVideo = some SampleVideo
    ∧ ((WriteGPUSelectedTexture SampleVideo (V32Word.OfInteger (-1))).GPU.SelectedTexture = -1
        ∧ (WriteGPUSelectedTexture SampleVideo (V32Word.OfInteger (-1))).GPU.TextureAt
            (WriteGPUSelectedTexture SampleVideo (V32Word.OfInteger (-1))).GPU.PointedTexture
              = some SampleVideo.GPU.BiosTexture)
    ∧ (WriteGPUSelectedTexture SampleVideo (V32Word.OfInteger 0)).GPU.SelectedTexture
        = (V32Word.OfInteger 0).AsInteger :=
  ⟨by decide!, by decide!, by decide!,
    (C19_selected_texture_write SampleConstants SampleValues SampleGPUMethods SampleVideo
      (V32Word.OfInteger (-1)) (by decide)).1 (by decide),
    ((C19_selected_texture_write SampleConstants SampleValues SampleGPUMethods SampleVideo
      (V32Word.OfInteger 0) (by decide)).2.1 (by decide)).1⟩

/-! ## Theorems: the SPU ports -/

/-- An assignment through `PointedSound` leaves the registers, pointers and
channels of the SPU and the number of sounds as they are, and the sound read
back through the pointer is the changed one. -/
theorem WritePointedSound_keeps {SPU Q : V32SPU} {Change : SPUSound → SPUSound}
    (h : SPU.WritePointedSound Change = some Q) :
    Q.SelectedChannel = SPU.SelectedChannel
    ∧ Q.SelectedSound = SPU.SelectedSound
    ∧ Q.PointedSound = SPU.PointedSound
    ∧ Q.PointedChannel = SPU.PointedChannel
    ∧ Q.Channels = SPU.Channels
    ∧ Q.CartridgeSounds.length = SPU.CartridgeSounds.length
    ∧ ∃ Sound, SPU.SoundAt SPU.PointedSound = some Sound
        ∧ Q.SoundAt Q.PointedSound = some (Change Sound) := by
  unfold V32SPU.WritePointedSound at h
  cases hS : SPU.SoundAt SPU.PointedSound with
  | none => simp [hS] at h
  | some Sound =>
    simp only [hS, Option.some.injEq] at h
    subst h
    unfold V32SPU.SoundAt at hS
    unfold V32SPU.SetSoundAt
    by_cases hB : SPU.PointedSound = -1
    · rw [if_pos hB]
      exact ⟨rfl, rfl, rfl, rfl, rfl, rfl, Sound, rfl, by simp [V32SPU.SoundAt, hB]⟩
    · rw [if_neg hB]
      simp only [hB, if_false] at hS
      by_cases hP : 0 ≤ SPU.PointedSound
      · simp only [hP, if_true] at hS
        have hLt : SPU.PointedSound.toNat < SPU.CartridgeSounds.length := by
          by_contra hge
          rw [List.getElem?_eq_none (by omega)] at hS
          cases hS
        refine ⟨rfl, rfl, rfl, rfl, rfl, by simp, Sound, rfl, ?_⟩
        simp [V32SPU.SoundAt, hB, hP, List.getElem?_set_self', List.getElem?_eq_getElem hLt]
      · simp [hP] at hS

/-- An assignment through `PointedChannel` leaves the registers, pointers and
sounds of the SPU and the number of channels as they are, and every channel is
either an old one or the change of an old one. -/
theorem WritePointedChannel_keeps {SPU Q : V32SPU} {Change : SPUChannel → SPUChannel}
    (h : SPU.WritePointedChannel Change = some Q) :
    Q.SelectedChannel = SPU.SelectedChannel
    ∧ Q.SelectedSound = SPU.SelectedSound
    ∧ Q.PointedSound = SPU.PointedSound
    ∧ Q.PointedChannel = SPU.PointedChannel
    ∧ Q.CartridgeSounds = SPU.CartridgeSounds
    ∧ Q.BiosSound = SPU.BiosSound
    ∧ Q.Channels.length = SPU.Channels.length
    ∧ ∀ Channel ∈ Q.Channels,
        Channel ∈ SPU.Channels ∨ ∃ Old ∈ SPU.Channels, Channel = Change Old := by
  unfold V32SPU.WritePointedChannel at h
  cases hC : SPU.ChannelAt SPU.PointedChannel with
  | none => simp [hC] at h
  | some Pointed =>
    simp only [hC, Option.some.injEq] at h
    subst h
    refine ⟨rfl, rfl, rfl, rfl, rfl, rfl, by simp, ?_⟩
    intro Channel hMem
    unfold V32SPU.ChannelAt at hC
    by_cases hNeg : SPU.PointedChannel < 0
    · simp [hNeg] at hC
    · simp only [hNeg, if_false] at hC
      rcases List.mem_or_eq_of_mem_set hMem with hOld | hNew
      · exact Or.inl hOld
      · exact Or.inr ⟨Pointed, List.getElem?_mem hC, hNew⟩

/-- With a valid channel pointer an assignment through `PointedChannel` is
defined. -/
theorem WritePointedChannel_defined {SPU : V32SPU} (h : SPUPointersValid SPU)
    (Change : SPUChannel → SPUChannel) : ∃ Q, SPU.WritePointedChannel Change = some Q := by
  obtain ⟨-, hLength, -, ⟨h0, h1⟩, -⟩ := h
  unfold SPUSoundChannels at hLength h1
  have hLt : SPU.PointedChannel.toNat < SPU.Channels.length := by omega
  have hNeg : ¬ SPU.PointedChannel < 0 := by omega
  simp [V32SPU.WritePointedChannel, V32SPU.ChannelAt, hNeg, List.getElem?_eq_getElem hLt]

/-- With a valid sound pointer an assignment through `PointedSound` is
defined. -/
theorem WritePointedSound_defined {SPU : V32SPU} (h : SPUPointersValid SPU)
    (Change : SPUSound → SPUSound) : ∃ Q, SPU.WritePointedSound Change = some Q := by
  obtain ⟨-, -, ⟨h0, h1⟩, -, -⟩ := h
  unfold V32SPU.WritePointedSound V32SPU.SoundAt
  by_cases hB : SPU.PointedSound = -1
  · simp [hB]
  · have hP : 0 ≤ SPU.PointedSound := by omega
    have hLt : SPU.PointedSound.toNat < SPU.CartridgeSounds.length := by omega
    simp [hB, hP, List.getElem?_eq_getElem hLt]

theorem SPUWriteKeeps_same (SPU : V32SPU) : SPUWriteKeeps SPU SPU := ⟨rfl, id, id⟩

theorem SPUWriteKeeps_then {SPU R Q : V32SPU} (h1 : SPUWriteKeeps SPU R)
    (h2 : SPUWriteKeeps R Q) : SPUWriteKeeps SPU Q :=
  ⟨h2.1.trans h1.1, fun x => h2.2.1 (h1.2.1 x), fun x => h2.2.2 (h1.2.2 x)⟩

/-- An assignment through `PointedChannel` that gives the channel a current
sound that exists keeps the invariants. -/
theorem SPUWriteKeeps_channel {SPU Q : V32SPU} {Change : SPUChannel → SPUChannel}
    (h : SPU.WritePointedChannel Change = some Q)
    (hChange : ∀ Old,
      (-1 ≤ Old.CurrentSound ∧ Old.CurrentSound < (SPU.CartridgeSounds.length : Int)) →
      (-1 ≤ (Change Old).CurrentSound
        ∧ (Change Old).CurrentSound < (SPU.CartridgeSounds.length : Int))) :
    SPUWriteKeeps SPU Q := by
  obtain ⟨h1, h2, h3, h4, h5, h6, h7, h8⟩ := WritePointedChannel_keeps h
  refine ⟨by rw [h5], by rw [h1]; exact id, ?_⟩
  intro ⟨v1, v2, v3, v4, v5⟩
  refine ⟨by rw [h5]; exact v1, by rw [h7]; exact v2, by rw [h3, h5]; exact v3,
    by rw [h4]; exact v4, ?_⟩
  intro Channel hMem
  rw [h5]
  rcases h8 Channel hMem with hOld | ⟨Old, hOld, hNew⟩
  · exact v5 Channel hOld
  · rw [hNew]
    exact hChange Old (v5 Old hOld)

/-- An assignment through `PointedSound` keeps the invariants. -/
theorem SPUWriteKeeps_sound {SPU Q : V32SPU} {Change : SPUSound → SPUSound}
    (h : SPU.WritePointedSound Change = some Q) : SPUWriteKeeps SPU Q := by
  obtain ⟨h1, h2, h3, h4, h5, h6, -⟩ := WritePointedSound_keeps h
  refine ⟨h6, by rw [h1]; exact id, ?_⟩
  intro ⟨v1, v2, v3, v4, v5⟩
  exact ⟨by rw [h6]; exact v1, by rw [h5]; exact v2, by rw [h3, h6]; exact v3,
    by rw [h4]; exact v4, by rw [h5, h6]; exact v5⟩

/-- A method applied to every channel keeps the invariants. -/
theorem SPUWriteKeeps_all (SPU : V32SPU) (Method : SPUChannel → ChannelPlayback) :
    SPUWriteKeeps SPU
      { SPU with Channels := SPU.Channels.map (fun Channel => Channel.After (Method Channel)) } := by
  refine ⟨rfl, id, ?_⟩
  intro ⟨v1, v2, v3, v4, v5⟩
  refine ⟨v1, by simpa using v2, v3, v4, ?_⟩
  intro Channel hMem
  obtain ⟨Old, hOld, hNew⟩ := List.mem_map.mp hMem
  rw [← hNew]
  exact v5 Old hOld

/-- Every write to an SPU port keeps the invariants. -/
theorem WriteSPUPort_keeps (V : IOPortValues) (M : SPUMethods) (Port : SPULocalPorts)
    {SPU Q : V32SPU} (Value : V32Word) (h : WriteSPUPort V M Port SPU Value = some Q) :
    SPUWriteKeeps SPU Q := by
  cases Port with
  | Command =>
    simp only [WriteSPUPort, WriteSPUCommand] at h
    repeat' split at h
    · exact SPUWriteKeeps_channel h (fun _ x => x)
    · exact SPUWriteKeeps_channel h (fun _ x => x)
    · exact SPUWriteKeeps_channel h (fun _ x => x)
    · cases h; exact SPUWriteKeeps_all SPU _
    · cases h; exact SPUWriteKeeps_all SPU _
    · cases h; exact SPUWriteKeeps_all SPU _
    · cases h; exact SPUWriteKeeps_same SPU
  | GlobalVolume =>
    simp only [WriteSPUPort, WriteSPUGlobalVolume, Option.some.injEq] at h
    subst h
    split
    · exact SPUWriteKeeps_same SPU
    · exact ⟨rfl, id, id⟩
  | SelectedSound =>
    simp only [WriteSPUPort, Option.some.injEq] at h
    subst h
    unfold WriteSPUSelectedSound
    have hLe := ToInt32_le SPU.CartridgeSounds.length
    by_cases hOut : Value.AsInteger < -1 ∨ Value.AsInteger ≥ ToInt32 SPU.CartridgeSounds.length
    · rw [if_pos hOut]
      exact SPUWriteKeeps_same SPU
    · rw [if_neg hOut]
      have hIn : -1 ≤ Value.AsInteger ∧ Value.AsInteger < SPU.CartridgeSounds.length := by omega
      by_cases hB : Value.AsInteger = -1
      · rw [if_pos hB]
        have hIn1 : (-1 : Int) ≤ -1 ∧ (-1 : Int) < SPU.CartridgeSounds.length := by omega
        exact ⟨rfl, id, fun ⟨v1, v2, v3, v4, v5⟩ => ⟨v1, v2, hIn1, v4, v5⟩⟩
      · rw [if_neg hB]
        exact ⟨rfl, id, fun ⟨v1, v2, v3, v4, v5⟩ => ⟨v1, v2, hIn, v4, v5⟩⟩
  | SelectedChannel =>
    simp only [WriteSPUPort, Option.some.injEq] at h
    subst h
    unfold WriteSPUSelectedChannel
    by_cases hOut : Value.AsInteger < 0 ∨ Value.AsInteger ≥ SPUSoundChannels
    · rw [if_pos hOut]
      exact SPUWriteKeeps_same SPU
    · rw [if_neg hOut]
      have hIn : 0 ≤ Value.AsInteger ∧ Value.AsInteger < SPUSoundChannels := by omega
      exact ⟨rfl, fun _ => hIn, fun ⟨v1, v2, v3, v4, v5⟩ => ⟨v1, v2, v3, hIn, v5⟩⟩
  | SoundLength =>
    simp only [WriteSPUPort, WriteSPUSoundLength, Option.some.injEq] at h
    subst h
    exact SPUWriteKeeps_same SPU
  | SoundPlayWithLoop => exact SPUWriteKeeps_sound h
  | SoundLoopStart => exact SPUWriteKeeps_sound h
  | SoundLoopEnd => exact SPUWriteKeeps_sound h
  | ChannelState =>
    simp only [WriteSPUPort, WriteSPUChannelState, Option.some.injEq] at h
    subst h
    exact SPUWriteKeeps_same SPU
  | ChannelAssignedSound =>
    simp only [WriteSPUPort, WriteSPUChannelAssignedSound] at h
    have hLe := ToInt32_le SPU.CartridgeSounds.length
    by_cases hOut : Value.AsInteger < -1 ∨ Value.AsInteger ≥ ToInt32 SPU.CartridgeSounds.length
    · rw [if_pos hOut] at h
      cases h
      exact SPUWriteKeeps_same SPU
    · rw [if_neg hOut] at h
      have hIn : -1 ≤ Value.AsInteger ∧ Value.AsInteger < SPU.CartridgeSounds.length := by omega
      have hIn1 : (-1 : Int) ≤ -1 ∧ (-1 : Int) < SPU.CartridgeSounds.length := by omega
      repeat' split at h
      · cases h
      · cases h; exact SPUWriteKeeps_same SPU
      · exact SPUWriteKeeps_channel h (fun _ _ => hIn1)
      · exact SPUWriteKeeps_channel h (fun _ _ => hIn)
  | ChannelVolume =>
    simp only [WriteSPUPort, WriteSPUChannelVolume] at h
    split at h
    · cases h; exact SPUWriteKeeps_same SPU
    · exact SPUWriteKeeps_channel h (fun _ x => x)
  | ChannelSpeed =>
    simp only [WriteSPUPort, WriteSPUChannelSpeed] at h
    split at h
    · cases h; exact SPUWriteKeeps_same SPU
    · exact SPUWriteKeeps_channel h (fun _ x => x)
  | ChannelLoopEnabled => exact SPUWriteKeeps_channel h (fun _ x => x)
  | ChannelPosition =>
    simp only [WriteSPUPort, WriteSPUChannelPosition] at h
    repeat' split at h
    · cases h
    · cases h
    · exact SPUWriteKeeps_channel h (fun _ x => x)

/-- With valid pointers every write to an SPU port is defined. -/
theorem WriteSPUPort_defined (V : IOPortValues) (M : SPUMethods) (Port : SPULocalPorts)
    {SPU : V32SPU} (Value : V32Word) (h : SPUPointersValid SPU) :
    ∃ Q, WriteSPUPort V M Port SPU Value = some Q := by
  have hChannel := fun Change => WritePointedChannel_defined h Change
  have hSound := fun Change => WritePointedSound_defined h Change
  have hPointed : ∃ Pointed, SPU.ChannelAt SPU.PointedChannel = some Pointed
      ∧ ∃ Sound, SPU.SoundAt Pointed.CurrentSound = some Sound := by
    obtain ⟨-, hLength, -, ⟨h0, h1⟩, hAll⟩ := h
    unfold SPUSoundChannels at hLength h1
    have hLt : SPU.PointedChannel.toNat < SPU.Channels.length := by omega
    have hNeg : ¬ SPU.PointedChannel < 0 := by omega
    refine ⟨SPU.Channels[SPU.PointedChannel.toNat], by
      simp [V32SPU.ChannelAt, hNeg, List.getElem?_eq_getElem hLt], ?_⟩
    obtain ⟨c0, c1⟩ := hAll _ (List.getElem_mem hLt)
    unfold V32SPU.SoundAt
    by_cases hB : (SPU.Channels[SPU.PointedChannel.toNat]).CurrentSound = -1
    · simp [hB]
    · have hP : 0 ≤ (SPU.Channels[SPU.PointedChannel.toNat]).CurrentSound := by omega
      have hIn : (SPU.Channels[SPU.PointedChannel.toNat]).CurrentSound.toNat
          < SPU.CartridgeSounds.length := by omega
      simp [hB, hP, List.getElem?_eq_getElem hIn]
  obtain ⟨Pointed, hPointed, Sound, hCurrent⟩ := hPointed
  cases Port with
  | Command =>
    simp only [WriteSPUPort, WriteSPUCommand]
    repeat' split
    · exact hChannel _
    · exact hChannel _
    · exact hChannel _
    · exact ⟨_, rfl⟩
    · exact ⟨_, rfl⟩
    · exact ⟨_, rfl⟩
    · exact ⟨_, rfl⟩
  | GlobalVolume => exact ⟨_, rfl⟩
  | SelectedSound => exact ⟨_, rfl⟩
  | SelectedChannel => exact ⟨_, rfl⟩
  | SoundLength => exact ⟨_, rfl⟩
  | SoundPlayWithLoop => exact hSound _
  | SoundLoopStart => exact hSound _
  | SoundLoopEnd => exact hSound _
  | ChannelState => exact ⟨_, rfl⟩
  | ChannelAssignedSound =>
    simp only [WriteSPUPort, WriteSPUChannelAssignedSound, hPointed]
    repeat' split
    · exact ⟨_, rfl⟩
    · exact ⟨_, rfl⟩
    · exact hChannel _
    · exact hChannel _
  | ChannelVolume =>
    simp only [WriteSPUPort, WriteSPUChannelVolume]
    split
    · exact ⟨_, rfl⟩
    · exact hChannel _
  | ChannelSpeed =>
    simp only [WriteSPUPort, WriteSPUChannelSpeed]
    split
    · exact ⟨_, rfl⟩
    · exact hChannel _
  | ChannelLoopEnabled => exact hChannel _
  | ChannelPosition =>
    simp only [WriteSPUPort, WriteSPUChannelPosition, hPointed, hCurrent]
    exact hChannel _

/-- Every sequence of writes to SPU ports keeps the invariants. -/
theorem WriteSPUPorts_keeps (V : IOPortValues) (M : SPUMethods)
    (Writes : List (SPULocalPorts × V32Word)) {SPU Q : V32SPU}
    (h : WriteSPUPorts V M Writes SPU = some Q) : SPUWriteKeeps SPU Q := by
  induction Writes generalizing SPU with
  | nil =>
    simp only [WriteSPUPorts, Option.some.injEq] at h
    subst h
    exact SPUWriteKeeps_same SPU
  | cons Write Rest ih =>
    obtain ⟨Port, Value⟩ := Write
    simp only [WriteSPUPorts] at h
    cases hW : WriteSPUPort V M Port SPU Value with
    | none => simp [hW] at h
    | some R =>
      rw [hW] at h
      exact SPUWriteKeeps_then (WriteSPUPort_keeps V M Port Value hW) (ih h)

/-- From a state with valid pointers every sequence of writes to SPU ports is
defined. -/
theorem WriteSPUPorts_defined (V : IOPortValues) (M : SPUMethods)
    (Writes : List (SPULocalPorts × V32Word)) {SPU : V32SPU} (hValid : SPUPointersValid SPU) :
    ∃ Q, WriteSPUPorts V M Writes SPU = some Q := by
  induction Writes generalizing SPU with
  | nil => exact ⟨SPU, rfl⟩
  | cons Write Rest ih =>
    obtain ⟨Port, Value⟩ := Write
    obtain ⟨R, hW⟩ := WriteSPUPort_defined V M Port Value hValid
    obtain ⟨Q, hQ⟩ := ih ((WriteSPUPort_keeps V M Port Value hW).2.2 hValid)
    exact ⟨Q, by simp only [WriteSPUPorts, hW, hQ]⟩

/-- Claim C18: Starting from an SPU state with 0 ≤ selected channel < 16, the
bound still holds after every sequence of writes to SPU ports with arbitrary
values (and, when the pointers of the SPU designate objects, every such
sequence is defined); a write to the selected-channel port of a value outside
the range leaves the SPU unchanged. -/
theorem C18_selected_channel_stays_in_range (V : IOPortValues) (M : SPUMethods)
    (SPU : V32SPU) (hRange : 0 ≤ SPU.SelectedChannel ∧ SPU.SelectedChannel < 16) :
    (∀ Writes Q, WriteSPUPorts V M Writes SPU = some Q →
      0 ≤ Q.SelectedChannel ∧ Q.SelectedChannel < 16)
    ∧ (SPUPointersValid SPU → ∀ Writes, ∃ Q, WriteSPUPorts V M Writes SPU = some Q)
    ∧ (∀ Value : V32Word, (Value.AsInteger < 0 ∨ 16 ≤ Value.AsInteger) →
        WriteSPUPort V M .SelectedChannel SPU Value = some SPU) := by
  refine ⟨fun Writes Q hQ => (WriteSPUPorts_keeps V M Writes hQ).2.1 hRange,
    fun hValid Writes => WriteSPUPorts_defined V M Writes hValid, ?_⟩
  intro Value hOut
  have hOut2 : Value.AsInteger < 0 ∨ Value.AsInteger ≥ SPUSoundChannels := by
    unfold SPUSoundChannels; omega
  simp only [WriteSPUPort, WriteSPUSelectedChannel]
  rw [if_pos hOut2]

/-- On the sample console, where channel 5 is selected: the writes of 16 and of
−1 to the selected-channel port are ignored, the write of 15 is stored, and
commands and channel writes in between do not move the selection. -/
theorem C18_selected_channel_stays_in_range_witness :
    (WriteSPUPorts SampleValues SampleSPUMethods
        [(.SelectedChannel, V32Word.OfInteger 16), (.SelectedChannel, V32Word.OfInteger (-1))]
        SampleSPU = some SampleSPU)
    ∧ (WriteSPUPorts SampleValues SampleSPUMethods
        [(.SelectedChannel, V32Word.OfInteger 15), (.Command, V32Word.OfInteger 48),
          (.ChannelPosition, V32Word.OfInteger 7), (.SelectedChannel, V32Word.OfInteger 99)]
        SampleSPU).map (fun Q => (Q.SelectedChannel, Q.PointedChannel)) = some (15, 15)
    ∧ (∀ Writes Q, WriteSPUPorts SampleValues SampleSPUMethods Writes SampleSPU = some Q →
        0 ≤ Q.SelectedChannel ∧ Q.SelectedChannel < 16)
    ∧ (SPUPointersValid SampleSPU → ∀ Writes, ∃ Q,
        WriteSPUPorts SampleValues SampleSPUMethods Writes SampleSPU = some Q)
    ∧ (∀ Value : V32Word, (Value.AsInteger < 0 ∨ 16 ≤ Value.AsInteger) →
        WriteSPUPort SampleValues SampleSPUMethods .SelectedChannel SampleSPU Value
          = some SampleSPU) :=
  ⟨by decide!, by decide!,
    C18_selected_channel_stays_in_range SampleValues SampleSPUMethods SampleSPU (by decide)⟩

/-- Claim C20: For every value v, a write of v to the loop-start or to the
loop-end port of the SPU, the sound pointer designating a sound, is defined and
leaves that sound with loop end ≥ loop start: the loop-start write keeps the
loop end and stores the smaller of the clamped v and the loop end, the loop-end
write keeps the loop start and stores the larger of the clamped v and the loop
start.  For a sound whose loop bounds lie in [0, length − 1], as the data model
requires, writing a loop start above the current loop end stores the loop end,
and writing a loop end below the current loop start stores the loop start. -/
theorem C20_loop_bounds_snap (SPU : V32SPU) (Value : V32Word) (Sound : SPUSound)
    (hPointed : SPU.SoundAt SPU.PointedSound = some Sound) :
    (∃ Q Changed, WriteSPUSoundLoopStart SPU Value = some Q
      ∧ Q.SoundAt Q.PointedSound = some Changed
      ∧ Changed.LoopEnd ≥ Changed.LoopStart
      ∧ Changed.LoopEnd = Sound.LoopEnd
      ∧ Changed.LoopStart = min (Clamp Value.AsInteger 0 (Sound.Length - 1)) Sound.LoopEnd
      ∧ (Sound.LoopEnd ≤ Sound.Length - 1 → Value.AsInteger > Sound.LoopEnd →
          Changed.LoopStart = Sound.LoopEnd))
    ∧ (∃ Q Changed, WriteSPUSoundLoopEnd SPU Value = some Q
      ∧ Q.SoundAt Q.PointedSound = some Changed
      ∧ Changed.LoopEnd ≥ Changed.LoopStart
      ∧ Changed.LoopStart = Sound.LoopStart
      ∧ Changed.LoopEnd = max (Clamp Value.AsInteger 0 (Sound.Length - 1)) Sound.LoopStart
      ∧ (0 ≤ Sound.LoopStart → Value.AsInteger < Sound.LoopStart →
          Changed.LoopEnd = Sound.LoopStart)) := by
  constructor
  · have hDefined : ∃ Q, WriteSPUSoundLoopStart SPU Value = some Q := by
      simp [WriteSPUSoundLoopStart, V32SPU.WritePointedSound, hPointed]
    obtain ⟨Q, hQ⟩ := hDefined
    obtain ⟨-, -, -, -, -, -, Old, hOld, hNew⟩ := WritePointedSound_keeps hQ
    rw [hPointed] at hOld
    injection hOld with hOld
    subst hOld
    refine ⟨Q, _, hQ, hNew, ?_, rfl, rfl, ?_⟩
    · exact Int.min_le_right _ _
    · intro hEnd hAbove
      show min (Clamp Value.AsInteger 0 (Sound.Length - 1)) Sound.LoopEnd = Sound.LoopEnd
      apply Int.min_eq_right
      unfold Clamp
      split
      · omega
      · split <;> omega
  · have hDefined : ∃ Q, WriteSPUSoundLoopEnd SPU Value = some Q := by
      simp [WriteSPUSoundLoopEnd, V32SPU.WritePointedSound, hPointed]
    obtain ⟨Q, hQ⟩ := hDefined
    obtain ⟨-, -, -, -, -, -, Old, hOld, hNew⟩ := WritePointedSound_keeps hQ
    rw [hPointed] at hOld
    injection hOld with hOld
    subst hOld
    refine ⟨Q, _, hQ, hNew, ?_, rfl, rfl, ?_⟩
    · exact Int.le_max_right _ _
    · intro hStart hBelow
      show max (Clamp Value.AsInteger 0 (Sound.Length - 1)) Sound.LoopStart = Sound.LoopStart
      apply Int.max_eq_right
      unfold Clamp
      split
      · omega
      · split <;> omega

/-- On the sample console, whose BIOS sound has 100 samples and the loop from
20 to 60: writing the loop start 70 stores 60, writing the loop end 10 stores
20, and writing the loop start 30 and then the loop end 90 stores both. -/
theorem C20_loop_bounds_snap_witness :
    (WriteSPUPorts SampleValues SampleSPUMethods [(.SoundLoopStart, V32Word.OfInteger 70)]
        SampleSPU).map (fun Q => (Q.BiosSound.LoopStart, Q.BiosSound.LoopEnd)) = some (60, 60)
    ∧ (WriteSPUPorts SampleValues SampleSPUMethods [(.SoundLoopEnd, V32Word.OfInteger 10)]
        SampleSPU).map (fun Q => (Q.BiosSound.LoopStart, Q.BiosSound.LoopEnd)) = some (20, 20)
    ∧ (WriteSPUPorts SampleValues SampleSPUMethods
        [(.SoundLoopStart, V32Word.OfInteger 30), (.SoundLoopEnd, V32Word.OfInteger 90)]
        SampleSPU).map (fun Q => (Q.BiosSound.LoopStart, Q.BiosSound.LoopEnd)) = some (30, 90)
    ∧ (∃ Q Changed, WriteSPUSoundLoopStart SampleSPU (V32Word.OfInteger 70) = some Q
      ∧ Q.SoundAt Q.PointedSound = some Changed
      ∧ Changed.LoopEnd ≥ Changed.LoopStart
      ∧ Changed.LoopEnd = SampleSPU.BiosSound.LoopEnd
      ∧ Changed.LoopStart
          = min (Clamp (V32Word.OfInteger 70).AsInteger 0 (SampleSPU.BiosSound.Length - 1))
              SampleSPU.BiosSound.LoopEnd
      ∧ (SampleSPU.BiosSound.LoopEnd ≤ SampleSPU.BiosSound.Length - 1 →
          (V32Word.OfInteger 70).AsInteger > SampleSPU.BiosSound.LoopEnd →
          Changed.LoopStart = SampleSPU.BiosSound.LoopEnd)) :=
  ⟨by decide!, by decide!, by decide!,
    (C20_loop_bounds_snap SampleSPU (V32Word.OfInteger 70) SampleSPU.BiosSound rfl).1⟩

/-! ## Theorems: runs through an included file -/

theorem PushContextLexer_included {P : VirconASMPreprocessor} {Lexer : VirconASMLexer}
    {First : Token} {Others : TokenList} {Lines : List TokenList}
    (h : Lexer.TokenLines = (First :: Others) :: Lines) :
    PushContextLexer P Lexer
      = .ok { P with ContextStack := IncludedContext Lexer :: P.ContextStack } := by
  simp [PushContextLexer, IncludedContext, h]

/-- One turn of the loop on an active `%include "p"` whose file exists, in a
stack of at most 20 contexts: the context of the file is pushed, the includer
is advanced to its next line, and nothing else changes. -/
theorem LoopStep_include (H : Host) (P : VirconASMPreprocessor) {Top : ProcessingContext}
    {Below : List ProcessingContext} {Front Keyword PathToken : Token}
    {IncludedFilePath : String} {Lexer : VirconASMLexer}
    {First : Token} {Others : TokenList} {Lines : List TokenList}
    (hStack : P.ContextStack = Top :: Below)
    (hLine : Top.GetCurrentLine = .ok [Front, Keyword, PathToken])
    (hPercent : Front.Data = .Symbol .Percent)
    (hKeyword : Keyword.Data = .Identifier "include")
    (hPath : PathToken.Data = .LiteralString IncludedFilePath)
    (hActive : Top.AreAllIfConditionsMet = true)
    (hDepth : P.ContextStack.length ≤ 20)
    (hFile : H.TokenizeFile ((Top.ReferenceFolder.push H.PathSeparator) ++ IncludedFilePath)
      = some Lexer)
    (hLexer : Lexer.TokenLines = (First :: Others) :: Lines) :
    LoopStep H P =
      .ok { P with ContextStack :=
              IncludedContext Lexer
                :: { Top with LinePosition := Top.LinePosition + 1 } :: Below } := by
  have hPL := ProcessLine_include H hStack hLine hPercent hKeyword hPath hActive hDepth
  rw [hFile] at hPL
  simp only [PushContextLexer_included hLexer] at hPL
  obtain ⟨hEnded, hGet⟩ := GetCurrentLine_ok hLine
  have hlt : Top.LinePosition < Top.SourceLines.length := by
    by_contra hge
    rw [List.getElem?_eq_none (by omega)] at hGet
    cases hGet
  have hne : Top.LinePosition ≠ Top.SourceLines.length := by omega
  unfold LoopStep
  simp only [hStack, hEnded, Bool.false_eq_true, if_false, bind, Except.bind]
  rw [← hStack, hPL]
  simp [AdvanceContextBeingProcessed, hStack, ModifyAt, ProcessingContext.Advance, hne]

/-- The stack after a turn that processes a line, in detail: the current
context has a line left; and either it stands one line further, with the same
number of lines, folder and file, over the same contexts below, or, in a stack
of at most 20 contexts, a fresh context lies above it, while it stands one line
further and is otherwise unchanged. -/
theorem LoopStep_line {H : Host} {P Q : VirconASMPreprocessor} {Top : ProcessingContext}
    {Below : List ProcessingContext}
    (hStack : P.ContextStack = Top :: Below) (hEnded : Top.LinesHaveEnded = false)
    (h : LoopStep H P = .ok Q) :
    Top.LinePosition < Top.SourceLines.length
    ∧ ((∃ Next, Q.ContextStack = Next :: Below
          ∧ Next.SourceLines.length = Top.SourceLines.length
          ∧ Next.LinePosition = Top.LinePosition + 1
          ∧ Next.ReferenceFolder = Top.ReferenceFolder ∧ Next.FilePath = Top.FilePath)
      ∨ (P.ContextStack.length ≤ 20 ∧ Top.AreAllIfConditionsMet = true
          ∧ ∃ New, New.IfStack = [] ∧ New.LinePosition = 0
            ∧ Q.ContextStack = New :: { Top with LinePosition := Top.LinePosition + 1 } :: Below)) := by
  unfold LoopStep at h
  simp only [hStack, hEnded, Bool.false_eq_true, if_false, bind, Except.bind] at h
  cases hR : ProcessLine H P with
  | error E => rw [← hStack, hR] at h; cases h
  | ok R =>
    rw [← hStack, hR] at h
    simp only [Except.ok.injEq] at h
    subst h
    have hlt : Top.LinePosition < Top.SourceLines.length := by
      have hCur : ∃ Line, Top.GetCurrentLine = .ok Line := by
        cases hL : Top.GetCurrentLine with
        | ok Line => exact ⟨Line, rfl⟩
        | error E => simp [ProcessLine, hStack, hL, bind, Except.bind] at hR
      obtain ⟨Line, hL⟩ := hCur
      obtain ⟨-, hGet⟩ := GetCurrentLine_ok hL
      by_contra hge
      rw [List.getElem?_eq_none (by omega)] at hGet
      cases hGet
    have hne : Top.LinePosition ≠ Top.SourceLines.length := by omega
    refine ⟨hlt, ?_⟩
    obtain ⟨T, B, hS, hCases⟩ := ProcessLine_cases hR
    rw [hStack] at hS
    injection hS with h1 h2
    subst h1 h2
    rcases hCases with ⟨Line, Replaced, -, -, hQ⟩ | ⟨-, -, ⟨Frames, hQ⟩ | ⟨hA, hLen, New, hN, hZ, hQ⟩⟩
    · left
      subst hQ
      refine ⟨_, by
        simp only [AdvanceContextBeingProcessed, hStack, List.length_cons, Nat.sub_self, ModifyAt]
        rfl, ?_⟩
      simp [ProcessingContext.Advance, hne]
    · left
      refine ⟨_, by
        simp only [AdvanceContextBeingProcessed, hStack, hQ, List.length_cons, Nat.sub_self,
          ModifyAt]
        rfl, ?_⟩
      simp [ProcessingContext.Advance, hne]
    · right
      refine ⟨by rw [hStack]; exact hLen, hA, New, hN, hZ, ?_⟩
      simp [AdvanceContextBeingProcessed, hStack, hQ, ModifyAt, ProcessingContext.Advance, hne]

theorem RunLoop_succ (H : Host) (Fuel : Nat) {P Q : VirconASMPreprocessor}
    (h : LoopStep H P = .ok Q) : RunLoop H (Fuel + 1) P = RunLoop H Fuel Q := by
  simp only [RunLoop, h]

theorem RunLoop_then (H : Host) {m : Nat} (n : Nat) {P Q : VirconASMPreprocessor}
    (h : RunLoop H m P = .ok Q) : RunLoop H (m + n) P = RunLoop H n Q := by
  rw [RunLoop_add, h]

theorem RunLoop_failed (H : Host) {m : Nat} (n : Nat) {P : VirconASMPreprocessor} {E : Failure}
    (h : RunLoop H m P = .error E) : RunLoop H (m + n) P = .error E := by
  rw [RunLoop_add, h]

/-- A turn on a context whose lines have ended pops it. -/
theorem LoopStep_pop (H : Host) {P : VirconASMPreprocessor} {Top : ProcessingContext}
    {Rest : List ProcessingContext} (hStack : P.ContextStack = Top :: Rest)
    (hEnded : Top.LinesHaveEnded = true) : LoopStep H P = .ok (PopContext P) := by
  simp [LoopStep, hStack, hEnded]

/-- The run after one successful turn finishes the context if the run from the
next state does. -/
theorem FinishesContext_after {H : Host} {P Q : VirconASMPreprocessor}
    {Top Next : ProcessingContext} {Rest : List ProcessingContext}
    (hStep : LoopStep H P = .ok Q) (hFolder : Next.ReferenceFolder = Top.ReferenceFolder)
    (hFile : Next.FilePath = Top.FilePath)
    (hLines : Next.SourceLines.length = Top.SourceLines.length)
    (h : FinishesContext H Q Next Rest) : FinishesContext H P Top Rest := by
  obtain ⟨Turns, hT⟩ := h
  refine ⟨Turns + 1, ?_⟩
  rw [RunLoop_succ H Turns hStep]
  rcases hT with ⟨E, hE⟩ | ⟨R, Last, hR, hS, hEnd, h1, h2, h3⟩
  · exact Or.inl ⟨E, hE⟩
  · exact Or.inr ⟨R, Last, hR, hS, hEnd, h1.trans hFolder, h2.trans hFile, h3.trans hLines⟩

/-- The inner induction of `RunLoop_finishes`, on the number of lines left in
the context on top, given that contexts pushed above it come to an end. -/
theorem FinishesContext_lines (H : Host) (Bound : Nat)
    (hOuter : ∀ (P : VirconASMPreprocessor) (Top : ProcessingContext)
      (Rest : List ProcessingContext), P.ContextStack = Top :: Rest →
      Bound + 1 ≤ Rest.length + 1 → Rest.length ≤ 20 → FinishesContext H P Top Rest) :
    ∀ (Left : Nat) (P : VirconASMPreprocessor) (Top : ProcessingContext)
      (Rest : List ProcessingContext), P.ContextStack = Top :: Rest →
      Bound ≤ Rest.length + 1 → Top.LinesLeft ≤ Left → FinishesContext H P Top Rest := by
  intro Left
  induction Left with
  | zero =>
    intro P Top Rest hStack _ hLeft
    by_cases hEnded : Top.LinesHaveEnded = true
    · exact ⟨0, Or.inr ⟨P, Top, rfl, hStack, hEnded, rfl, rfl, rfl⟩⟩
    · simp only [Bool.not_eq_true] at hEnded
      refine ⟨1, Or.inl ?_⟩
      rw [RunLoop_one]
      cases hL : LoopStep H P with
      | error E => exact ⟨E, rfl⟩
      | ok Q =>
        exfalso
        obtain ⟨hlt, -⟩ := LoopStep_line hStack hEnded hL
        unfold ProcessingContext.LinesLeft at hLeft
        omega
  | succ k ih =>
    intro P Top Rest hStack hBound hLeft
    by_cases hEnded : Top.LinesHaveEnded = true
    · exact ⟨0, Or.inr ⟨P, Top, rfl, hStack, hEnded, rfl, rfl, rfl⟩⟩
    · simp only [Bool.not_eq_true] at hEnded
      cases hL : LoopStep H P with
      | error E => exact ⟨1, Or.inl ⟨E, by rw [RunLoop_one, hL]⟩⟩
      | ok Q =>
        obtain ⟨hlt, hShape⟩ := LoopStep_line hStack hEnded hL
        unfold ProcessingContext.LinesLeft at hLeft
        rcases hShape with ⟨Next, hQ, n1, n2, n3, n4⟩ | ⟨hLen, -, New, -, -, hQ⟩
        · apply FinishesContext_after hL n3 n4 n1
          exact ih Q Next Rest hQ hBound (by unfold ProcessingContext.LinesLeft; omega)
        · rw [hStack] at hLen
          simp only [List.length_cons] at hLen
          have hInner := hOuter Q New
            ({ Top with LinePosition := Top.LinePosition + 1 } :: Rest) hQ
            (by simp only [List.length_cons]; omega) (by simp only [List.length_cons]; omega)
          obtain ⟨Turns, hT⟩ := hInner
          rcases hT with ⟨E, hE⟩ | ⟨R, Last, hR, hS, hEnd, -, -, -⟩
          · exact ⟨Turns + 1, Or.inl ⟨E, by rw [RunLoop_succ H Turns hL, hE]⟩⟩
          · have hPop := LoopStep_pop H hS hEnd
            have hPopped : (PopContext R).ContextStack
                = { Top with LinePosition := Top.LinePosition + 1 } :: Rest := by
              simp [PopContext, hS]
            have hRest := ih (PopContext R) { Top with LinePosition := Top.LinePosition + 1 } Rest
              hPopped hBound (by unfold ProcessingContext.LinesLeft; simp only; omega)
            obtain ⟨Turns2, hT2⟩ := hRest
            have hRun : RunLoop H (Turns + 1) Q = .ok (PopContext R) := by
              rw [RunLoop_then H 1 hR, RunLoop_one, hPop]
            refine ⟨(Turns + 1 + Turns2) + 1, ?_⟩
            rw [RunLoop_succ H _ hL, RunLoop_then H Turns2 hRun]
            rcases hT2 with ⟨E, hE⟩ | ⟨R2, Last2, hR2, hS2, hEnd2, f1, f2, f3⟩
            · exact Or.inl ⟨E, hE⟩
            · exact Or.inr ⟨R2, Last2, hR2, hS2, hEnd2, f1, f2, f3⟩

/-- Every run comes to an end of the context on top of the stack: includes
nest at most 20 deep, and every file has finitely many lines. -/
theorem RunLoop_finishes (H : Host) (P : VirconASMPreprocessor) (Top : ProcessingContext)
    (Rest : List ProcessingContext) (hStack : P.ContextStack = Top :: Rest) :
    FinishesContext H P Top Rest := by
  have hAll : ∀ (Depth : Nat) (P : VirconASMPreprocessor) (Top : ProcessingContext)
      (Rest : List ProcessingContext), P.ContextStack = Top :: Rest →
      21 - Depth ≤ Rest.length + 1 → FinishesContext H P Top Rest := by
    intro Depth
    induction Depth with
    | zero =>
      intro P Top Rest hS hB
      exact FinishesContext_lines H 21 (fun _ _ _ _ h1 h2 => by omega) Top.LinesLeft P Top Rest
        hS hB (Nat.le_refl _)
    | succ d ih =>
      intro P Top Rest hS hB
      exact FinishesContext_lines H (21 - (d + 1))
        (fun P2 Top2 Rest2 hS2 h1 _ => ih P2 Top2 Rest2 hS2 (by omega))
        Top.LinesLeft P Top Rest hS hB (Nat.le_refl _)
  exact hAll 21 P Top Rest hStack (by omega)

/-- A turn in a stack that stands above `Below` leaves `Below` alone: either
the stack still stands above `Below`, or the turn has popped the one context
above `Below`, whose lines had ended. -/
theorem LoopStep_above {H : Host} {P Q : VirconASMPreprocessor}
    {Below : List ProcessingContext} (hAbove : StandsAbove Below P)
    (h : LoopStep H P = .ok Q) :
    StandsAbove Below Q
    ∨ (∃ Last, P.ContextStack = Last :: Below ∧ Last.LinesHaveEnded = true
        ∧ Q = PopContext P) := by
  obtain ⟨Upper, hNonempty, hStack⟩ := hAbove
  cases Upper with
  | nil => exact absurd rfl hNonempty
  | cons Top Others =>
    rcases LoopStep_cases h with ⟨hS, -⟩ | ⟨T, B, hS, hE, hQ⟩ | ⟨T, B, R, hS, -, hR, hQ⟩
    · rw [hStack] at hS
      cases hS
    · rw [hStack] at hS
      simp only [List.cons_append, List.cons.injEq] at hS
      obtain ⟨h1, h2⟩ := hS
      subst h1
      cases Others with
      | nil => exact Or.inr ⟨Top, by simpa using hStack, hE, hQ⟩
      | cons Second More =>
        left
        refine ⟨Second :: More, by simp, ?_⟩
        rw [hQ]
        simp [PopContext, hStack]
    · left
      obtain ⟨-, -, hShape⟩ := LoopStep_stack hS hR hQ
      rw [hStack] at hS
      simp only [List.cons_append, List.cons.injEq] at hS
      obtain ⟨h1, h2⟩ := hS
      subst h1 h2
      rcases hShape with ⟨Next, hN⟩ | ⟨-, -, New, -, hN⟩
      · exact ⟨Next :: Others, by simp, by rw [hN]; simp⟩
      · exact ⟨New :: Top.Advance :: Others, by simp, by rw [hN]; simp⟩

/-- A run in a stack that stands above `Below` leaves `Below` alone until the
one context above it is popped because its lines have ended. -/
theorem RunLoop_above (H : Host) {Below : List ProcessingContext} (n : Nat)
    {P Q : VirconASMPreprocessor} (hAbove : StandsAbove Below P)
    (h : RunLoop H n P = .ok Q) :
    StandsAbove Below Q
    ∨ ∃ m R Last, m < n ∧ RunLoop H m P = .ok R ∧ R.ContextStack = Last :: Below
        ∧ Last.LinesHaveEnded = true
        ∧ RunLoop H n P = RunLoop H (n - (m + 1)) (PopContext R)
        ∧ ∀ k, k ≤ m → ∃ Qk, RunLoop H k P = .ok Qk ∧ StandsAbove Below Qk := by
  induction n generalizing P with
  | zero =>
    simp only [RunLoop, Except.ok.injEq] at h
    subst h
    exact Or.inl hAbove
  | succ n ih =>
    cases hL : LoopStep H P with
    | error E => simp [RunLoop, hL] at h
    | ok Next =>
      rw [RunLoop_succ H n hL] at h
      rcases LoopStep_above hAbove hL with hNext | ⟨Last, hS, hE, hQ⟩
      · rcases ih hNext h with hLeft | ⟨m, R, Last, hm, hR, hS, hE, hRun, hAll⟩
        · exact Or.inl hLeft
        · right
          refine ⟨m + 1, R, Last, by omega, by rw [RunLoop_succ H m hL]; exact hR, hS, hE, ?_, ?_⟩
          · rw [RunLoop_succ H n hL, hRun]
            congr 1
            omega
          · intro k hk
            cases k with
            | zero => exact ⟨P, rfl, hAbove⟩
            | succ j =>
              obtain ⟨Qj, hQj, hAj⟩ := hAll j (by omega)
              exact ⟨Qj, by rw [RunLoop_succ H j hL]; exact hQj, hAj⟩
      · right
        refine ⟨0, P, Last, by omega, rfl, hS, hE, ?_, ?_⟩
        · rw [RunLoop_succ H n hL, hQ]
          rfl
        · intro k hk
          have : k = 0 := by omega
          subst this
          exact ⟨P, rfl, hAbove⟩

/-- Claim C12 (counterexample): On the host of the sample, the file `loop.asm`
exists and includes itself.  After 41 turns the stack holds 21 contexts and the
innermost one stands on its active line `%include "loop.asm"`; the next turn
pushes no context for the file but aborts the run. -/
theorem C12_counterexample_include_in_stack_of_21 :
    SampleFiles.TokenizeFile "./loop.asm" = some SampleLoop
    ∧ (Preprocess SampleFiles 41 Fresh SampleLoop).map
        (fun Q => (Q.ContextStack.length,
          (Q.ContextStack.headD NoContext).GetCurrentLine,
          (Q.ContextStack.headD NoContext).ReferenceFolder,
          (Q.ContextStack.headD NoContext).AreAllIfConditionsMet))
        = .ok (21,
            .ok [⟨InLoop 1, .Symbol .Percent⟩, ⟨InLoop 1, .Identifier "include"⟩,
              ⟨InLoop 1, .LiteralString "loop.asm"⟩], ".", true)
    ∧ Preprocess SampleFiles 42 Fresh SampleLoop
        = .error (.Error (InLoop 1)
            "includes are too deeply nested (possible circular references)") := by
  refine ⟨by decide, by decide!, by decide!⟩

/-- Claim C12 (amended): For every active `%include "f"` whose file exists,
processed in a stack of at most 20 contexts: the turn pushes a new context for
f, emits nothing and advances the includer to the line following the include.
The run from there comes to an end of that context: after some number of turns
it has failed, or the lines of f have ended, and then the next turn pops the
context, which leaves the includer on top at the line following the include,
with the output being the tokens emitted before the include line followed by
the tokens emitted for the lines reached meanwhile (none for the start-of-file
and end-of-file marker lines of included files).  Until that pop the includer
and the contexts below it lie untouched under the stack; and the output of
every longer run is that output followed by the tokens emitted for the lines
reached after the pop. -/
theorem C12_include_runs_file_then_resumes (H : Host) (P : VirconASMPreprocessor)
    (Top : ProcessingContext) (Below : List ProcessingContext)
    (Front Keyword PathToken : Token) (IncludedFilePath : String) (Lexer : VirconASMLexer)
    (First : Token) (Others : TokenList) (Lines : List TokenList)
    (hStack : P.ContextStack = Top :: Below)
    (hLine : Top.GetCurrentLine = .ok [Front, Keyword, PathToken])
    (hPercent : Front.Data = .Symbol .Percent)
    (hKeyword : Keyword.Data = .Identifier "include")
    (hPath : PathToken.Data = .LiteralString IncludedFilePath)
    (hActive : Top.AreAllIfConditionsMet = true)
    (hDepth : P.ContextStack.length ≤ 20)
    (hFile : H.TokenizeFile ((Top.ReferenceFolder.push H.PathSeparator) ++ IncludedFilePath)
      = some Lexer)
    (hLexer : Lexer.TokenLines = (First :: Others) :: Lines) :
    ∃ Pushed Resumed,
      Resumed = { Top with LinePosition := Top.LinePosition + 1 }
      ∧ Pushed = { P with ContextStack := IncludedContext Lexer :: Resumed :: Below }
      ∧ LoopStep H P = .ok Pushed
      ∧ (∃ Turns,
          (∃ E, RunLoop H Turns Pushed = .error E)
          ∨ (∃ R Last, RunLoop H Turns Pushed = .ok R
              ∧ R.ContextStack = Last :: Resumed :: Below
              ∧ Last.LinesHaveEnded = true
              ∧ Last.FilePath = (IncludedContext Lexer).FilePath
              ∧ Last.SourceLines.length = Lexer.TokenLines.length
              ∧ RunLoop H (Turns + 1) Pushed = .ok (PopContext R)
              ∧ (PopContext R).ContextStack = Resumed :: Below
              ∧ (PopContext R).ProcessedTokens
                  = P.ProcessedTokens ++ (TokensByTurn true H Turns Pushed).flatten))
      ∧ (∀ n Q, RunLoop H n Pushed = .ok Q →
          StandsAbove (Resumed :: Below) Q
          ∨ ∃ m R Last, m < n ∧ RunLoop H m Pushed = .ok R
              ∧ R.ContextStack = Last :: Resumed :: Below
              ∧ Last.LinesHaveEnded = true
              ∧ (PopContext R).ContextStack = Resumed :: Below
              ∧ RunLoop H (n - (m + 1)) (PopContext R) = .ok Q
              ∧ Q.ProcessedTokens
                  = P.ProcessedTokens ++ (TokensByTurn true H m Pushed).flatten
                    ++ (TokensByTurn true H (n - (m + 1)) (PopContext R)).flatten) := by
  refine ⟨_, _, rfl, rfl,
    LoopStep_include H P hStack hLine hPercent hKeyword hPath hActive hDepth hFile hLexer, ?_, ?_⟩
  · obtain ⟨Turns, hT⟩ := RunLoop_finishes H
      { P with ContextStack :=
          IncludedContext Lexer :: { Top with LinePosition := Top.LinePosition + 1 } :: Below }
      (IncludedContext Lexer) ({ Top with LinePosition := Top.LinePosition + 1 } :: Below) rfl
    refine ⟨Turns, ?_⟩
    rcases hT with ⟨E, hE⟩ | ⟨R, Last, hR, hS, hEnd, -, f2, f3⟩
    · exact Or.inl ⟨E, hE⟩
    · refine Or.inr ⟨R, Last, hR, hS, hEnd, f2, f3, ?_, by simp [PopContext, hS], ?_⟩
      · rw [RunLoop_then H 1 hR, RunLoop_one, LoopStep_pop H hS hEnd]
      · show R.ProcessedTokens = _
        rw [RunLoop_output H Turns hR]
  · intro n Q hQ
    have hAbove : StandsAbove ({ Top with LinePosition := Top.LinePosition + 1 } :: Below)
        { P with ContextStack :=
            IncludedContext Lexer
              :: { Top with LinePosition := Top.LinePosition + 1 } :: Below } :=
      ⟨[IncludedContext Lexer], by simp, rfl⟩
    rcases RunLoop_above H n hAbove hQ with hLeft | ⟨m, R, Last, hm, hR, hS, hE, hRun, -⟩
    · exact Or.inl hLeft
    · right
      rw [hQ] at hRun
      refine ⟨m, R, Last, hm, hR, hS, hE, by simp [PopContext, hS], hRun.symm, ?_⟩
      rw [RunLoop_output H _ hRun.symm]
      show R.ProcessedTokens ++ _ = _
      rw [RunLoop_output H m hR]

/-- On the host of the sample, the line `%include "part.asm"` of `main.asm`
pushes the context of `part.asm` over the includer, which stands on its next
line; the run from there either fails or pops that context again; and the
complete run puts the line of `part.asm` between the tokens of `main.asm`,
without the markers of `part.asm`. -/
theorem C12_include_runs_file_then_resumes_witness :
    (Preprocess SampleFiles 13 Fresh SampleMain).map
        (fun Q => (Q.ContextStack.length, Q.ProcessedTokens))
      = .ok (0, [⟨At 0, .StartOfFile⟩, ⟨InPart 2, .Other "MOV"⟩, ⟨InPart 2, .Other "R0"⟩,
          ⟨InPart 2, .Symbol .Comma⟩, ⟨InPart 2, .LiteralInteger 5⟩, ⟨At 5, .EndOfFile⟩])
    ∧ ∃ Pushed, LoopStep SampleFiles SampleAtInclude = .ok Pushed
        ∧ Pushed.ContextStack
            = [ IncludedContext SamplePart,
                { (SampleAtInclude.ContextStack.headD NoContext) with LinePosition := 4 } ]
        ∧ Pushed.ProcessedTokens = SampleAtInclude.ProcessedTokens
        ∧ ∃ Turns, (∃ E, RunLoop SampleFiles Turns Pushed = .error E)
            ∨ ∃ R, RunLoop SampleFiles (Turns + 1) Pushed = .ok R
                ∧ R.ContextStack
                  = [ { (SampleAtInclude.ContextStack.headD NoContext) with
                          LinePosition := 4 } ] := by
  refine ⟨by decide!, ?_⟩
  obtain ⟨Pushed, Resumed, hResumed, hPushed, hStep, ⟨Turns, hTurns⟩, -⟩ :=
    C12_include_runs_file_then_resumes SampleFiles SampleAtInclude
      (SampleAtInclude.ContextStack.headD NoContext) [] (PercentAt 3)
      (IdentifierAt 3 "include") ⟨At 3, .LiteralString "part.asm"⟩ "part.asm" SamplePart
      ⟨InPart 0, .StartOfFile⟩ [] SamplePart.TokenLines.tail rfl (by decide) rfl rfl rfl
      (by decide) (by decide) (by decide) rfl
  subst hResumed
  refine ⟨Pushed, hStep, by rw [hPushed]; rfl, by rw [hPushed], Turns, ?_⟩
  rcases hTurns with hE | ⟨R, Last, -, -, -, -, -, hRun, hStack, -⟩
  · exact Or.inl hE
  · exact Or.inr ⟨PopContext R, hRun, hStack⟩

/-! ## Theorems: a run depends only on what the loops can see -/

theorem Sight_advanced {C : ProcessingContext} {Line : TokenList} {Rest : List TokenList}
    (hPending : C.Pending = Line :: Rest) (Lines : List TokenList) (Frames : List IfContext)
    (hLength : Lines.length = C.SourceLines.length)
    (hDrop : Lines.drop (C.LinePosition + 1) = Rest) :
    ({ C with SourceLines := Lines, IfStack := Frames, LinePosition := C.LinePosition + 1 }
        : ProcessingContext).Sight
      = (⟨C.ReferenceFolder, C.FilePath, Frames, Rest⟩, Rest.isEmpty) := by
  obtain ⟨hlt, -, -⟩ := Pending_cons hPending
  have hne : Lines ≠ [] := by
    intro he; rw [he] at hLength; simp at hLength; omega
  have hEnded : (Lines.isEmpty || decide (C.LinePosition + 1 = Lines.length)) = Rest.isEmpty := by
    rw [← hDrop]
    have h1 : Lines.isEmpty = false := by simp [hne]
    rw [h1, Bool.false_or]
    by_cases hEq : C.LinePosition + 1 = Lines.length
    · simp [hEq]
    · have : C.LinePosition + 1 < Lines.length := by omega
      simp [hEq, this]
  simp only [ProcessingContext.Sight, ProcessingContext.View, ProcessingContext.Pending,
    ProcessingContext.LinesHaveEnded, hDrop, hEnded]

/-- A turn on a context that has not ended but has no line left fails. -/
theorem LoopStep_nothing_pending (H : Host) {P : VirconASMPreprocessor}
    {Top : ProcessingContext} {Below : List ProcessingContext}
    (hStack : P.ContextStack = Top :: Below) (hEnded : Top.LinesHaveEnded = false)
    (hPending : Top.Pending = []) : LoopStep H P = .error .Undefined := by
  have hNone : Top.SourceLines[Top.LinePosition]? = none := by
    unfold ProcessingContext.Pending at hPending
    rw [List.drop_eq_nil_iff] at hPending
    exact List.getElem?_eq_none hPending
  simp [LoopStep, hStack, hEnded, ProcessLine, ProcessingContext.GetCurrentLine, hNone, bind,
    Except.bind]

/-- A line that is not flat is a directive line named `include` or by one of
the four conditional directives. -/
theorem not_flat_line {Line : TokenList} (h : IsFlatLine Line = false) :
    ∃ Front Keyword Others Name, Line = Front :: Keyword :: Others
      ∧ Front.Data = .Symbol .Percent ∧ Keyword.Data = .Identifier Name
      ∧ (Name = "include" ∨ Name = "ifdef" ∨ Name = "ifndef" ∨ Name = "else"
          ∨ Name = "endif") := by
  unfold IsFlatLine at h
  rcases Line with _ | ⟨Front, _ | ⟨Keyword, Others⟩⟩
  · cases h
  · cases h
  · simp only at h
    by_cases hD : TokenIsThisSymbol Front .Percent = true
    · simp only [hD, if_true] at h
      cases hK : Keyword.Data <;> simp only [hK] at h <;> try cases h
      rename_i Name
      refine ⟨Front, Keyword, Others, Name, rfl, (TokenIsThisSymbol_iff _ _).mp hD, hK, ?_⟩
      simp only [IsConditionalName, Bool.not_eq_false', Bool.or_eq_true, beq_iff_eq,
        Bool.not_eq_true', Bool.and_eq_false_iff, bne_eq_false_iff_eq] at h
      tauto
    · simp [hD] at h

theorem SameEffect_unchanged {P Q : VirconASMPreprocessor} {T T' : ProcessingContext}
    {B B' : List ProcessingContext} (hP : P.ContextStack = T :: B)
    (hQ : Q.ContextStack = T' :: B') (hFrames : T.IfStack = T'.IfStack) :
    SameEffect P Q T T' B B' (.ok P) (.ok Q) := by
  refine Or.inr (Or.inl ⟨T.IfStack, ?_, ?_⟩)
  · rw [ProcessingContext_eta, ← hP]
  · rw [hFrames, ProcessingContext_eta, ← hQ]

theorem ProcessIf_effect {P Q : VirconASMPreprocessor} {T T' : ProcessingContext}
    {B B' : List ProcessingContext} (Line : TokenList) (IsIfndef : Bool)
    (hP : P.ContextStack = T :: B) (hQ : Q.ContextStack = T' :: B')
    (hD : P.Definitions = Q.Definitions) (hFrames : T.IfStack = T'.IfStack) :
    SameEffect P Q T T' B B' (ProcessIf P Line IsIfndef) (ProcessIf Q Line IsIfndef) := by
  have hFind : ∀ Name, Q.Definitions.find Name = P.Definitions.find Name := fun Name => by
    rw [hD]
  unfold ProcessIf
  simp only [bind, Except.bind, hP, hQ, SetTop, List.tail_cons, hFind, ← hFrames]
  cases Line[2]? with
  | none =>
    simp only
    cases FrontLocation Line with
    | error E => exact Or.inl ⟨E, rfl, rfl⟩
    | ok L => exact Or.inl ⟨_, rfl, rfl⟩
  | some Third =>
    simp only
    cases ExpectIdentifier Line 2 with
    | error E => exact Or.inl ⟨E, rfl, rfl⟩
    | ok R =>
      simp only
      cases ExpectEndOfLine Line R.2 with
      | error E => exact Or.inl ⟨E, rfl, rfl⟩
      | ok U =>
        simp only
        cases FrontLocation Line with
        | error E => exact Or.inl ⟨E, rfl, rfl⟩
        | ok L => exact Or.inr (Or.inl ⟨_, rfl, rfl⟩)

theorem ProcessElse_effect {P Q : VirconASMPreprocessor} {T T' : ProcessingContext}
    {B B' : List ProcessingContext} (Line : TokenList)
    (hP : P.ContextStack = T :: B) (hQ : Q.ContextStack = T' :: B')
    (hFrames : T.IfStack = T'.IfStack) :
    SameEffect P Q T T' B B' (ProcessElse P Line) (ProcessElse Q Line) := by
  unfold ProcessElse
  simp only [bind, Except.bind, hP, hQ, SetTop, List.tail_cons, ← hFrames]
  cases ExpectEndOfLine Line 2 with
  | error E => exact Or.inl ⟨E, rfl, rfl⟩
  | ok U =>
    simp only
    cases FrontLocation Line with
    | error E => exact Or.inl ⟨E, rfl, rfl⟩
    | ok L =>
      simp only
      cases T.IfStack with
      | nil => exact Or.inl ⟨_, rfl, rfl⟩
      | cons Frame Outer =>
        simp only
        by_cases hE : Frame.ElseWasFound = true
        · simp only [hE, if_true]
          exact Or.inl ⟨_, rfl, rfl⟩
        · simp only [hE, if_false]
          exact Or.inr (Or.inl ⟨_, rfl, rfl⟩)

theorem ProcessEndif_effect {P Q : VirconASMPreprocessor} {T T' : ProcessingContext}
    {B B' : List ProcessingContext} (Line : TokenList)
    (hP : P.ContextStack = T :: B) (hQ : Q.ContextStack = T' :: B')
    (hFrames : T.IfStack = T'.IfStack) :
    SameEffect P Q T T' B B' (ProcessEndif P Line) (ProcessEndif Q Line) := by
  unfold ProcessEndif
  simp only [bind, Except.bind, hP, hQ, SetTop, List.tail_cons, ← hFrames]
  cases ExpectEndOfLine Line 2 with
  | error E => exact Or.inl ⟨E, rfl, rfl⟩
  | ok U =>
    simp only
    cases FrontLocation Line with
    | error E => exact Or.inl ⟨E, rfl, rfl⟩
    | ok L =>
      simp only
      cases T.IfStack with
      | nil => exact Or.inl ⟨_, rfl, rfl⟩
      | cons Frame Outer => exact Or.inr (Or.inl ⟨_, rfl, rfl⟩)

theorem ProcessInclude_effect (H : Host) {P Q : VirconASMPreprocessor}
    {T T' : ProcessingContext} {B B' : List ProcessingContext} (Line : TokenList)
    (hP : P.ContextStack = T :: B) (hQ : Q.ContextStack = T' :: B')
    (hFolder : T.ReferenceFolder = T'.ReferenceFolder) :
    SameEffect P Q T T' B B' (ProcessInclude H P Line) (ProcessInclude H Q Line) := by
  unfold ProcessInclude
  simp only [bind, Except.bind, IncludeFile, PushContextFile, PushContextLexer, hP, hQ,
    ← hFolder]
  cases Line[2]? with
  | none =>
    simp only
    cases FrontLocation Line with
    | error E => exact Or.inl ⟨E, rfl, rfl⟩
    | ok L => exact Or.inl ⟨_, rfl, rfl⟩
  | some PathToken =>
    simp only
    cases PathToken.Data with
    | LiteralString IncludedFilePath =>
      simp only
      cases ExpectEndOfLine Line 3 with
      | error E => exact Or.inl ⟨E, rfl, rfl⟩
      | ok U =>
        simp only
        cases H.TokenizeFile ((T.ReferenceFolder.push H.PathSeparator) ++ IncludedFilePath) with
        | none => exact Or.inl ⟨_, rfl, rfl⟩
        | some Lexer =>
          simp only
          rcases hL : Lexer.TokenLines with _ | ⟨_ | ⟨First, Others⟩, Lines⟩
          · exact Or.inl ⟨_, rfl, rfl⟩
          · exact Or.inl ⟨_, rfl, rfl⟩
          · exact Or.inr (Or.inr ⟨_, rfl, rfl⟩)
    | _ => exact Or.inl ⟨_, rfl, rfl⟩

/-- Processing a line that is not flat has the same effect in two states that
agree on the definitions, on the number of contexts and on the folder and
if-stack of the current context. -/
theorem ProcessLine_effect (H : Host) {P Q : VirconASMPreprocessor}
    {T T' : ProcessingContext} {B B' : List ProcessingContext} {Line : TokenList}
    (hP : P.ContextStack = T :: B) (hQ : Q.ContextStack = T' :: B')
    (hLineP : T.GetCurrentLine = .ok Line) (hLineQ : T'.GetCurrentLine = .ok Line)
    (hD : P.Definitions = Q.Definitions) (hLength : B.length = B'.length)
    (hFolder : T.ReferenceFolder = T'.ReferenceFolder) (hFrames : T.IfStack = T'.IfStack)
    (hFlat : IsFlatLine Line = false) :
    SameEffect P Q T T' B B' (ProcessLine H P) (ProcessLine H Q) := by
  obtain ⟨Front, Keyword, Others, Name, rfl, hF, hK, hName⟩ := not_flat_line hFlat
  rw [ProcessLine_directive H hP hLineP hF hK, ProcessLine_directive H hQ hLineQ hF hK]
  have hActive : T'.AreAllIfConditionsMet = T.AreAllIfConditionsMet := by
    simp [ProcessingContext.AreAllIfConditionsMet, hFrames]
  rw [hActive]
  by_cases hSkip : (!T.AreAllIfConditionsMet && !IsConditionalName Name) = true
  · rw [if_pos hSkip, if_pos hSkip]
    exact SameEffect_unchanged hP hQ hFrames
  · rw [if_neg hSkip, if_neg hSkip]
    rcases hName with h | h | h | h | h
    · subst h
      have hLen : Q.ContextStack.length = P.ContextStack.length := by
        rw [hP, hQ]; simp [hLength]
      simp only [ProcessDirective, if_true, hLen]
      by_cases hDeep : P.ContextStack.length > 20
      · rw [if_pos hDeep, if_pos hDeep]
        exact Or.inl ⟨_, rfl, rfl⟩
      · rw [if_neg hDeep, if_neg hDeep]
        exact ProcessInclude_effect H _ hP hQ hFolder
    · subst h
      simp only [ProcessDirective, String.reduceEq, if_false, if_true]
      exact ProcessIf_effect _ false hP hQ hD hFrames
    · subst h
      simp only [ProcessDirective, String.reduceEq, if_false, if_true]
      exact ProcessIf_effect _ true hP hQ hD hFrames
    · subst h
      simp only [ProcessDirective, String.reduceEq, if_false, if_true]
      exact ProcessElse_effect _ hP hQ hFrames
    · subst h
      simp only [ProcessDirective, String.reduceEq, if_false, if_true]
      exact ProcessEndif_effect _ hP hQ hFrames

theorem LoopStep_of_error (H : Host) {P : VirconASMPreprocessor} {Top : ProcessingContext}
    {Below : List ProcessingContext} {E : Failure}
    (hStack : P.ContextStack = Top :: Below) (hEnded : Top.LinesHaveEnded = false)
    (hLine : ProcessLine H P = .error E) : LoopStep H P = .error E := by
  unfold LoopStep
  simp only [hStack, hEnded, Bool.false_eq_true, if_false, bind, Except.bind]
  rw [← hStack, hLine]

theorem LoopStep_of_frames (H : Host) {P : VirconASMPreprocessor} {Top : ProcessingContext}
    {Below : List ProcessingContext} {Line : TokenList} {Rest : List TokenList}
    {Frames : List IfContext}
    (hStack : P.ContextStack = Top :: Below) (hPending : Top.Pending = Line :: Rest)
    (hLine : ProcessLine H P
      = .ok { P with ContextStack := { Top with IfStack := Frames } :: Below }) :
    LoopStep H P =
      .ok { P with ContextStack :=
              { Top with SourceLines := Top.SourceLines, IfStack := Frames
                         LinePosition := Top.LinePosition + 1 } :: Below } :=
  (LoopStep_of_ProcessLine H hStack hPending hLine rfl rfl rfl).1

theorem LoopStep_of_push (H : Host) {P : VirconASMPreprocessor} {Top New : ProcessingContext}
    {Below : List ProcessingContext} {Line : TokenList} {Rest : List TokenList}
    (hStack : P.ContextStack = Top :: Below) (hPending : Top.Pending = Line :: Rest)
    (hLine : ProcessLine H P = .ok { P with ContextStack := New :: Top :: Below }) :
    LoopStep H P =
      .ok { P with ContextStack :=
              New :: { Top with SourceLines := Top.SourceLines, IfStack := Top.IfStack
                                LinePosition := Top.LinePosition + 1 } :: Below } := by
  obtain ⟨hlt, -, -⟩ := Pending_cons hPending
  obtain ⟨hEnded, -⟩ := GetCurrentLine_of_pending hPending
  have hne : Top.LinePosition ≠ Top.SourceLines.length := by omega
  unfold LoopStep
  simp only [hStack, hEnded, Bool.false_eq_true, if_false, bind, Except.bind]
  rw [← hStack, hLine]
  simp [AdvanceContextBeingProcessed, hStack, ModifyAt, ProcessingContext.Advance, hne]

/-- One turn of the loop cannot tell similar states apart: from similar states
it fails with the same failure or leads to similar states. -/
theorem LoopStep_similar (H : Host) {P Q : VirconASMPreprocessor} (h : Similar P Q) :
    SimilarResults (LoopStep H P) (LoopStep H Q) := by
  obtain ⟨hD, hO, hS⟩ := h
  cases hP : P.ContextStack with
  | nil =>
    cases hQ : Q.ContextStack with
    | nil =>
      simp only [LoopStep, hP, hQ, SimilarResults]
      exact ⟨hD, hO, by rw [hP, hQ]⟩
    | cons T' B' => rw [hP, hQ] at hS; cases hS
  | cons T B =>
    cases hQ : Q.ContextStack with
    | nil => rw [hP, hQ] at hS; cases hS
    | cons T' B' =>
      rw [hP, hQ] at hS
      simp only [List.map_cons, List.cons.injEq] at hS
      obtain ⟨hTop, hBelow⟩ := hS
      have hView : T.View = T'.View := congrArg Prod.fst hTop
      have hEnd : T.LinesHaveEnded = T'.LinesHaveEnded := congrArg Prod.snd hTop
      have hFolder : T.ReferenceFolder = T'.ReferenceFolder :=
        congrArg ContextView.ReferenceFolder hView
      have hFile : T.FilePath = T'.FilePath := congrArg ContextView.FilePath hView
      have hFrames : T.IfStack = T'.IfStack := congrArg ContextView.IfStack hView
      have hPend : T.Pending = T'.Pending := congrArg ContextView.Pending hView
      have hLength : B.length = B'.length := by
        have := congrArg List.length hBelow
        simpa using this
      by_cases hEnded : T.LinesHaveEnded = true
      · rw [LoopStep_pop H hP hEnded, LoopStep_pop H hQ (hEnd ▸ hEnded)]
        exact ⟨hD, hO, by simp [PopContext, hP, hQ, hBelow]⟩
      · simp only [Bool.not_eq_true] at hEnded
        have hEnded' : T'.LinesHaveEnded = false := hEnd ▸ hEnded
        cases hPending : T.Pending with
        | nil =>
          rw [LoopStep_nothing_pending H hP hEnded hPending,
            LoopStep_nothing_pending H hQ hEnded' (hPend ▸ hPending)]
          rfl
        | cons Line Rest =>
          have hPending' : T'.Pending = Line :: Rest := hPend ▸ hPending
          obtain ⟨-, -, hDrop⟩ := Pending_cons hPending
          obtain ⟨-, -, hDrop'⟩ := Pending_cons hPending'
          have hTops : ∀ (Lines Lines' : List TokenList) (Frames : List IfContext),
              Lines.length = T.SourceLines.length → Lines'.length = T'.SourceLines.length →
              Lines.drop (T.LinePosition + 1) = Rest →
              Lines'.drop (T'.LinePosition + 1) = Rest →
              ({ T with SourceLines := Lines, IfStack := Frames
                        LinePosition := T.LinePosition + 1 } : ProcessingContext).Sight
                = ({ T' with SourceLines := Lines', IfStack := Frames
                             LinePosition := T'.LinePosition + 1 } : ProcessingContext).Sight := by
            intro Lines Lines' Frames h1 h2 h3 h4
            rw [Sight_advanced hPending Lines Frames h1 h3,
              Sight_advanced hPending' Lines' Frames h2 h4, hFolder, hFile]
          by_cases hFlat : IsFlatLine Line = true
          · rw [LoopStep_flat H hP hPending hFlat, LoopStep_flat H hQ hPending' hFlat]
            have hNested : decide (B' ≠ []) = decide (B ≠ []) := by
              cases B <;> cases B' <;> simp at hLength <;> simp
            have hActive : T'.AreAllIfConditionsMet = T.AreAllIfConditionsMet := by
              simp [ProcessingContext.AreAllIfConditionsMet, hFrames]
            rw [hNested, hActive, ← hD]
            cases FlatLine H (decide (B ≠ [])) T.AreAllIfConditionsMet P.Definitions Line with
            | error E => rfl
            | ok Outcome =>
              refine ⟨rfl, by simp [AfterLine, hO], ?_⟩
              simp only [AfterLine, List.map_cons, List.cons.injEq]
              refine ⟨?_, hBelow⟩
              rw [← hFrames]
              exact hTops (T.SourceLines.set T.LinePosition Outcome.Rewritten)
                (T'.SourceLines.set T'.LinePosition Outcome.Rewritten) T.IfStack
                (by simp) (by simp)
                (by rw [List.drop_set_of_lt _ _ (by omega)]; exact hDrop)
                (by rw [List.drop_set_of_lt _ _ (by omega)]; exact hDrop')
          · simp only [Bool.not_eq_true] at hFlat
            obtain ⟨-, hLineP⟩ := GetCurrentLine_of_pending hPending
            obtain ⟨-, hLineQ⟩ := GetCurrentLine_of_pending hPending'
            have hEffect := ProcessLine_effect H hP hQ hLineP hLineQ hD hLength hFolder
              hFrames hFlat
            rcases hEffect with ⟨E, h1, h2⟩ | ⟨Frames, h1, h2⟩ | ⟨New, h1, h2⟩
            · rw [LoopStep_of_error H hP hEnded h1, LoopStep_of_error H hQ hEnded' h2]
              rfl
            · rw [LoopStep_of_frames H hP hPending h1, LoopStep_of_frames H hQ hPending' h2]
              refine ⟨hD, hO, ?_⟩
              simp only [List.map_cons, List.cons.injEq]
              exact ⟨hTops _ _ Frames rfl rfl hDrop hDrop', hBelow⟩
            · rw [LoopStep_of_push H hP hPending h1, LoopStep_of_push H hQ hPending' h2]
              refine ⟨hD, hO, ?_⟩
              simp only [List.map_cons, List.cons.injEq]
              refine ⟨trivial, ?_, hBelow⟩
              rw [← hFrames]
              exact hTops _ _ T.IfStack rfl rfl hDrop hDrop'

/-- A run cannot tell similar states apart. -/
theorem RunLoop_similar (H : Host) (Fuel : Nat) {P Q : VirconASMPreprocessor}
    (h : Similar P Q) : SimilarResults (RunLoop H Fuel P) (RunLoop H Fuel Q) := by
  induction Fuel generalizing P Q with
  | zero => exact h
  | succ n ih =>
    have hStep := LoopStep_similar H h
    simp only [RunLoop]
    cases hP : LoopStep H P with
    | error E =>
      cases hQ : LoopStep H Q with
      | error F => rw [hP, hQ] at hStep; exact hStep
      | ok Q1 => rw [hP, hQ] at hStep; exact hStep.elim
    | ok P1 =>
      cases hQ : LoopStep H Q with
      | error F => rw [hP, hQ] at hStep; exact hStep.elim
      | ok Q1 =>
        rw [hP, hQ] at hStep
        exact ih hStep

/-! ## Theorems: errors and warnings -/

theorem Pending_of_GetCurrentLine {C : ProcessingContext} {Line : TokenList}
    (h : C.GetCurrentLine = .ok Line) :
    C.Pending = Line :: C.SourceLines.drop (C.LinePosition + 1) := by
  obtain ⟨-, hGet⟩ := GetCurrentLine_ok h
  have hlt : C.LinePosition < C.SourceLines.length := by
    by_contra hge
    rw [List.getElem?_eq_none (by omega)] at hGet
    cases hGet
  rw [List.getElem?_eq_getElem hlt] at hGet
  injection hGet with hGet
  unfold ProcessingContext.Pending
  rw [List.drop_eq_getElem_cons hlt, hGet]

/-- The context that stands on a line, and the same context with that line
erased, look the same to the loops once the first has passed the line. -/
theorem Sight_erased {C : ProcessingContext} {Line : TokenList} {Rest : List TokenList}
    (hPending : C.Pending = Line :: Rest) :
    ({ C with SourceLines := C.SourceLines.eraseIdx C.LinePosition } : ProcessingContext).Sight
      = (⟨C.ReferenceFolder, C.FilePath, C.IfStack, Rest⟩, Rest.isEmpty) := by
  obtain ⟨hlt, -, hDrop⟩ := Pending_cons hPending
  have hErase : C.SourceLines.eraseIdx C.LinePosition
      = C.SourceLines.take C.LinePosition ++ C.SourceLines.drop (C.LinePosition + 1) :=
    List.eraseIdx_eq_take_drop_succ _ _
  have hTake : (C.SourceLines.take C.LinePosition).length = C.LinePosition := by
    rw [List.length_take]; omega
  have hPend : (C.SourceLines.eraseIdx C.LinePosition).drop C.LinePosition = Rest := by
    rw [hErase, List.drop_append_of_le_length (by omega), List.drop_of_length_le (by omega),
      List.nil_append, hDrop]
  have hLen : (C.SourceLines.eraseIdx C.LinePosition).length = C.SourceLines.length - 1 := by
    rw [List.length_eraseIdx]; simp [hlt]
  have hRest : Rest.length = C.SourceLines.length - (C.LinePosition + 1) := by
    rw [← hDrop, List.length_drop]
  have hEnded : ((C.SourceLines.eraseIdx C.LinePosition).isEmpty
      || decide (C.LinePosition = (C.SourceLines.eraseIdx C.LinePosition).length))
        = Rest.isEmpty := by
    rw [hLen]
    by_cases hLast : C.LinePosition + 1 = C.SourceLines.length
    · have h1 : Rest = [] := List.eq_nil_of_length_eq_zero (by omega)
      have h2 : C.LinePosition = C.SourceLines.length - 1 := by omega
      simp [h1, h2]
    · have h1 : Rest ≠ [] := by
        intro he; rw [he] at hRest; simp at hRest; omega
      have h2 : C.LinePosition ≠ C.SourceLines.length - 1 := by omega
      have h3 : C.SourceLines.eraseIdx C.LinePosition ≠ [] := by
        intro he; rw [he] at hLen; simp at hLen; omega
      have h4 : (C.SourceLines.eraseIdx C.LinePosition).isEmpty = false := by
        cases hL : C.SourceLines.eraseIdx C.LinePosition with
        | nil => exact absurd hL h3
        | cons _ _ => rfl
      have h5 : Rest.isEmpty = false := by
        cases Rest with
        | nil => exact absurd rfl h1
        | cons _ _ => rfl
      rw [h4, h5]
      simp [h2]
  simp only [ProcessingContext.Sight, ProcessingContext.View, ProcessingContext.Pending,
    ProcessingContext.LinesHaveEnded, hPend, hEnded]

/-- A turn that only moves the current context to its next line, and possibly
prints warnings, leads to a state similar to the one in which the line is
absent. -/
theorem Similar_without_line {P : VirconASMPreprocessor} {Top : ProcessingContext}
    {Below : List ProcessingContext} {Line : TokenList} {Rest : List TokenList}
    (hStack : P.ContextStack = Top :: Below) (hPending : Top.Pending = Line :: Rest)
    (Warnings : List (SourceLocation × String)) :
    Similar
      { P with ContextStack :=
                { Top with SourceLines := Top.SourceLines, IfStack := Top.IfStack
                           LinePosition := Top.LinePosition + 1 } :: Below
               Warnings := Warnings }
      (WithoutCurrentLine P) := by
  obtain ⟨-, -, hDrop⟩ := Pending_cons hPending
  refine ⟨by simp [WithoutCurrentLine, hStack], by simp [WithoutCurrentLine, hStack], ?_⟩
  simp only [WithoutCurrentLine, hStack, List.map_cons, List.cons.injEq, and_true]
  rw [Sight_advanced hPending Top.SourceLines Top.IfStack rfl hDrop, Sight_erased hPending]

/-- Claim C15: On a line `%error "msg"` or `%warning "msg"`: an active `%error`
aborts, with an error that carries the location of the directive line and msg;
an active `%warning` records the warning and moves the context to its next
line, leaving definitions, contexts below, if-stacks and output unchanged; an
inactive `%error` or `%warning` only moves the context to its next line; and in
the cases that do not abort, every run that goes on from there fails with the
same failure as, or leads to a state similar to (equal definitions, output,
if-stacks and pending lines of all contexts), the run from the state in which
the line is absent from the file. -/
theorem C15_error_aborts_warning_continues (H : Host) (P : VirconASMPreprocessor)
    (Top : ProcessingContext) (Below : List ProcessingContext)
    (Front Keyword MessageToken : Token) (Message : String)
    (hStack : P.ContextStack = Top :: Below)
    (hLine : Top.GetCurrentLine = .ok [Front, Keyword, MessageToken])
    (hPercent : Front.Data = .Symbol .Percent)
    (hMessage : MessageToken.Data = .LiteralString Message) :
    (Keyword.Data = .Identifier "error" → Top.AreAllIfConditionsMet = true →
      ProcessLine H P = .error (.Error Front.Location Message)
      ∧ LoopStep H P = .error (.Error Front.Location Message))
    ∧ (Keyword.Data = .Identifier "warning" → Top.AreAllIfConditionsMet = true →
      LoopStep H P =
        .ok { P with ContextStack := { Top with LinePosition := Top.LinePosition + 1 } :: Below
                     Warnings := P.Warnings ++ [(Front.Location, Message)] })
    ∧ ((Keyword.Data = .Identifier "error" ∨ Keyword.Data = .Identifier "warning") →
      Top.AreAllIfConditionsMet = false →
      LoopStep H P =
        .ok { P with ContextStack := { Top with LinePosition := Top.LinePosition + 1 } :: Below })
    ∧ ((Keyword.Data = .Identifier "warning"
        ∨ (Keyword.Data = .Identifier "error" ∧ Top.AreAllIfConditionsMet = false)) →
      ∀ Fuel, SimilarResults (RunLoop H (Fuel + 1) P) (RunLoop H Fuel (WithoutCurrentLine P))) := by
  have hPending := Pending_of_GetCurrentLine hLine
  obtain ⟨hEnded, -⟩ := GetCurrentLine_ok hLine
  have hError : Keyword.Data = .Identifier "error" → Top.AreAllIfConditionsMet = true →
      ProcessLine H P = .error (.Error Front.Location Message) := by
    intro hK hA
    rw [ProcessLine_directive H hStack hLine hPercent hK]
    simp [hA, ProcessDirective, ProcessError, hMessage, ExpectEndOfLine, FrontLocation, bind,
      Except.bind]
  have hWarning : Keyword.Data = .Identifier "warning" → Top.AreAllIfConditionsMet = true →
      LoopStep H P =
        .ok { P with ContextStack := { Top with LinePosition := Top.LinePosition + 1 } :: Below
                     Warnings := P.Warnings ++ [(Front.Location, Message)] } := by
    intro hK hA
    have hPL : ProcessLine H P
        = .ok { P with Warnings := P.Warnings ++ [(Front.Location, Message)] } := by
      rw [ProcessLine_directive H hStack hLine hPercent hK]
      simp [hA, ProcessDirective, ProcessError, hMessage, ExpectEndOfLine, FrontLocation, bind,
        Except.bind]
    exact (LoopStep_of_ProcessLine H hStack hPending hPL hStack rfl rfl).1
  have hInactive : (Keyword.Data = .Identifier "error" ∨ Keyword.Data = .Identifier "warning") →
      Top.AreAllIfConditionsMet = false →
      LoopStep H P =
        .ok { P with ContextStack :=
                { Top with LinePosition := Top.LinePosition + 1 } :: Below } := by
    intro hK hA
    have hPL : ProcessLine H P = .ok P := by
      rcases hK with hK | hK
      · rw [ProcessLine_directive H hStack hLine hPercent hK]
        simp [hA, IsConditionalName]
      · rw [ProcessLine_directive H hStack hLine hPercent hK]
        simp [hA, IsConditionalName]
    exact (LoopStep_of_ProcessLine H hStack hPending hPL hStack rfl rfl).1
  refine ⟨fun hK hA => ⟨hError hK hA, LoopStep_of_error H hStack hEnded (hError hK hA)⟩,
    hWarning, hInactive, ?_⟩
  intro hCase Fuel
  have hStep : ∃ Warnings, LoopStep H P =
      .ok { P with ContextStack :=
                    { Top with SourceLines := Top.SourceLines, IfStack := Top.IfStack
                               LinePosition := Top.LinePosition + 1 } :: Below
                   Warnings := Warnings } := by
    by_cases hA : Top.AreAllIfConditionsMet = true
    · rcases hCase with hK | ⟨-, hN⟩
      · exact ⟨_, hWarning hK hA⟩
      · rw [hA] at hN; cases hN
    · simp only [Bool.not_eq_true] at hA
      rcases hCase with hK | ⟨hK, -⟩
      · exact ⟨P.Warnings, hInactive (Or.inr hK) hA⟩
      · exact ⟨P.Warnings, hInactive (Or.inl hK) hA⟩
  obtain ⟨Warnings, hStep⟩ := hStep
  rw [RunLoop_succ H Fuel hStep]
  exact RunLoop_similar H Fuel (Similar_without_line hStack hPending Warnings)

/-- On the sample file with messages: the complete run prints the warning of
line 2, emits line 3 under the definition of line 1, passes over the inactive
`%error "stop"` and aborts at `%error "halt"`; and the run from the warning
line goes on as the run from the state without that line. -/
theorem C15_error_aborts_warning_continues_witness :
    Preprocess NoFiles 8 Fresh SampleMessages = .error (.Error (At 7) "halt")
    ∧ (Preprocess NoFiles 7 Fresh SampleMessages).map (fun Q => (Q.Warnings, Q.ProcessedTokens))
        = .ok ([(At 2, "careful")],
            [⟨At 0, .StartOfFile⟩, ⟨At 3, .Other "MOV"⟩, ⟨At 3, .Other "R0"⟩,
              ⟨At 3, .Symbol .Comma⟩, ⟨At 3, .LiteralInteger 5⟩])
    ∧ LoopStep NoFiles (SampleAtMessage 7 [] [⟨At 0, .StartOfFile⟩])
        = .error (.Error (PercentAt 7).Location "halt")
    ∧ LoopStep NoFiles (SampleAtMessage 2 [] [⟨At 0, .StartOfFile⟩])
        = .ok { (SampleAtMessage 2 [] [⟨At 0, .StartOfFile⟩]) with
                  ContextStack :=
                    [ { ((SampleAtMessage 2 [] [⟨At 0, .StartOfFile⟩]).ContextStack.headD
                          NoContext) with LinePosition := 2 + 1 } ]
                  Warnings := [] ++ [((PercentAt 2).Location, "careful")] }
    ∧ LoopStep NoFiles (SampleAtMessage 5 [⟨4, false, false⟩] [⟨At 0, .StartOfFile⟩])
        = .ok { (SampleAtMessage 5 [⟨4, false, false⟩] [⟨At 0, .StartOfFile⟩]) with
                  ContextStack :=
                    [ { ((SampleAtMessage 5 [⟨4, false, false⟩]
                          [⟨At 0, .StartOfFile⟩]).ContextStack.headD NoContext) with
                          LinePosition := 5 + 1 } ] }
    ∧ SimilarResults
        (RunLoop NoFiles (3 + 1) (SampleAtMessage 2 [] [⟨At 0, .StartOfFile⟩]))
        (RunLoop NoFiles 3 (WithoutCurrentLine (SampleAtMessage 2 [] [⟨At 0, .StartOfFile⟩]))) :=
  ⟨by decide!, by decide!,
    ((C15_error_aborts_warning_continues NoFiles (SampleAtMessage 7 [] [⟨At 0, .StartOfFile⟩])
      ((SampleAtMessage 7 [] [⟨At 0, .StartOfFile⟩]).ContextStack.headD NoContext) []
      (PercentAt 7) (IdentifierAt 7 "error") ⟨At 7, .LiteralString "halt"⟩ "halt"
      rfl (by decide) rfl rfl).1 rfl (by decide)).2,
    (C15_error_aborts_warning_continues NoFiles (SampleAtMessage 2 [] [⟨At 0, .StartOfFile⟩])
      ((SampleAtMessage 2 [] [⟨At 0, .StartOfFile⟩]).ContextStack.headD NoContext) []
      (PercentAt 2) (IdentifierAt 2 "warning") ⟨At 2, .LiteralString "careful"⟩ "careful"
      rfl (by decide) rfl rfl).2.1 rfl (by decide),
    (C15_error_aborts_warning_continues NoFiles
      (SampleAtMessage 5 [⟨4, false, false⟩] [⟨At 0, .StartOfFile⟩])
      ((SampleAtMessage 5 [⟨4, false, false⟩] [⟨At 0, .StartOfFile⟩]).ContextStack.headD
        NoContext) []
      (PercentAt 5) (IdentifierAt 5 "error") ⟨At 5, .LiteralString "stop"⟩ "stop"
      rfl (by decide) rfl rfl).2.2.1 (Or.inl rfl) (by decide),
    (C15_error_aborts_warning_continues NoFiles (SampleAtMessage 2 [] [⟨At 0, .StartOfFile⟩])
      ((SampleAtMessage 2 [] [⟨At 0, .StartOfFile⟩]).ContextStack.headD NoContext) []
      (PercentAt 2) (IdentifierAt 2 "warning") ⟨At 2, .LiteralString "careful"⟩ "careful"
      rfl (by decide) rfl rfl).2.2.2 (Or.inl rfl) 3⟩

/-! ## Theorems: definitions across files -/

/-- A turn that changes the number of contexts leaves definitions and output
as they are. -/
theorem LoopStep_resize_keeps {H : Host} {P Q : VirconASMPreprocessor}
    (h : LoopStep H P = .ok Q) (hSize : Q.ContextStack.length ≠ P.ContextStack.length) :
    Q.Definitions = P.Definitions ∧ Q.ProcessedTokens = P.ProcessedTokens := by
  rcases LoopStep_cases h with ⟨-, hQ⟩ | ⟨T, B, -, -, hQ⟩ | ⟨T, B, R, hS, hE, hR, -⟩
  · subst hQ; exact absurd rfl hSize
  · subst hQ; exact ⟨rfl, rfl⟩
  · have hCur : ∃ Line, T.GetCurrentLine = .ok Line := by
      cases hL : T.GetCurrentLine with
      | ok Line => exact ⟨Line, rfl⟩
      | error E => simp [ProcessLine, hS, hL, bind, Except.bind] at hR
    obtain ⟨Line, hLine⟩ := hCur
    have hPending := Pending_of_GetCurrentLine hLine
    by_cases hFlat : IsFlatLine Line = true
    · exfalso
      rw [LoopStep_flat H hS hPending hFlat] at h
      cases hO : FlatLine H (decide (B ≠ [])) T.AreAllIfConditionsMet P.Definitions Line with
      | error E => rw [hO] at h; cases h
      | ok O =>
        rw [hO] at h
        simp only [Except.ok.injEq] at h
        apply hSize
        rw [← h, hS]
        simp [AfterLine]
    · simp only [Bool.not_eq_true] at hFlat
      rcases ProcessLine_effect H hS hS hLine hLine rfl rfl rfl rfl hFlat with
        ⟨E, h1, -⟩ | ⟨Frames, h1, -⟩ | ⟨New, h1, -⟩
      · rw [h1] at hR; cases hR
      · exfalso
        rw [LoopStep_of_frames H hS hPending h1] at h
        simp only [Except.ok.injEq] at h
        apply hSize
        rw [← h, hS]
        simp
      · rw [LoopStep_of_push H hS hPending h1] at h
        simp only [Except.ok.injEq] at h
        rw [← h]
        exact ⟨rfl, rfl⟩

/-- The run through a context whose pending lines are all flat, up to and
including the turn that pops it. -/
theorem RunLoop_flat_file (H : Host) (A : List TokenList) (P : VirconASMPreprocessor)
    {Top : ProcessingContext} {Below : List ProcessingContext}
    (hStack : P.ContextStack = Top :: Below) (hPending : Top.Pending = A)
    (hEnded : Top.LinesHaveEnded = A.isEmpty)
    (hFlat : ∀ L ∈ A, IsFlatLine L = true) :
    match FlatLines H (decide (Below ≠ [])) Top.AreAllIfConditionsMet P.Definitions A with
    | .error E => RunLoop H (A.length + 1) P = .error E
    | .ok O =>
      RunLoop H (A.length + 1) P =
        .ok { ContextStack := Below
              Definitions := O.Definitions
              ProcessedTokens := P.ProcessedTokens ++ O.Emitted
              Warnings := P.Warnings ++ O.Warned } := by
  induction A generalizing P Top with
  | nil =>
    simp only [FlatLines, List.length_nil, Nat.zero_add, List.append_nil]
    rw [RunLoop_one, LoopStep_pop H hStack (by simpa using hEnded)]
    simp [PopContext, hStack]
  | cons Line Rest ih =>
    have hStep := LoopStep_flat H hStack hPending (hFlat Line (List.mem_cons_self _ _))
    simp only [List.length_cons, FlatLines]
    cases hO : FlatLine H (decide (Below ≠ [])) Top.AreAllIfConditionsMet P.Definitions Line with
    | error E =>
      rw [hO] at hStep
      simp only
      simp only [RunLoop, hStep]
    | ok O =>
      rw [hO] at hStep
      simp only
      rw [RunLoop_succ H _ hStep]
      obtain ⟨-, -, hDrop⟩ := Pending_cons hPending
      have hSight := Sight_advanced hPending
        (Top.SourceLines.set Top.LinePosition O.Rewritten) Top.IfStack (by simp)
        (by rw [List.drop_set_of_lt _ _ (by omega)]; exact hDrop)
      have hNext := @ih (AfterLine P Top Below O)
        { Top with SourceLines := Top.SourceLines.set Top.LinePosition O.Rewritten
                   IfStack := Top.IfStack, LinePosition := Top.LinePosition + 1 } rfl
        (congrArg (fun S => S.1.Pending) hSight) (congrArg Prod.snd hSight)
        (fun L hL => hFlat L (List.mem_cons_of_mem _ hL))
      have hAct : ({ Top with SourceLines := Top.SourceLines.set Top.LinePosition O.Rewritten
                              IfStack := Top.IfStack, LinePosition := Top.LinePosition + 1 }
          : ProcessingContext).AreAllIfConditionsMet = Top.AreAllIfConditionsMet := rfl
      rw [hAct, show (AfterLine P Top Below O).Definitions = O.Definitions from rfl] at hNext
      cases hOs : FlatLines H (decide (Below ≠ [])) Top.AreAllIfConditionsMet O.Definitions
          Rest with
      | error E =>
        rw [hOs] at hNext
        exact hNext
      | ok Others =>
        rw [hOs] at hNext
        simp only [AfterLine] at hNext ⊢
        rw [hNext]
        simp [List.append_assoc]

/-- Claim C13: The definitions map is one map for all contexts.  Pushing a
context and popping a context leave it as it is, and so does every turn of the
loop that changes the number of contexts.  For an active `%include` of an
existing file whose lines are neither `%include` nor conditional directives,
the lines of the file are processed starting from the definitions map as it
stands at the include line, and when the context of the file has been popped
the includer goes on, at its next line, with the map as the file has left
it. -/
theorem C13_definitions_shared_by_all_contexts (H : Host) (P : VirconASMPreprocessor) :
    (∀ Lexer Q, PushContextLexer P Lexer = .ok Q → Q.Definitions = P.Definitions)
    ∧ (PopContext P).Definitions = P.Definitions
    ∧ (∀ Q, LoopStep H P = .ok Q → Q.ContextStack.length ≠ P.ContextStack.length →
        Q.Definitions = P.Definitions)
    ∧ (∀ (Top : ProcessingContext) (Below : List ProcessingContext)
        (Front Keyword PathToken : Token) (IncludedFilePath : String) (Lexer : VirconASMLexer)
        (First : Token) (Others : TokenList) (Lines : List TokenList),
        P.ContextStack = Top :: Below →
        Top.GetCurrentLine = .ok [Front, Keyword, PathToken] →
        Front.Data = .Symbol .Percent → Keyword.Data = .Identifier "include" →
        PathToken.Data = .LiteralString IncludedFilePath →
        Top.AreAllIfConditionsMet = true → P.ContextStack.length ≤ 20 →
        H.TokenizeFile ((Top.ReferenceFolder.push H.PathSeparator) ++ IncludedFilePath)
          = some Lexer →
        Lexer.TokenLines = (First :: Others) :: Lines →
        (∀ L ∈ Lexer.TokenLines, IsFlatLine L = true) →
        match FlatLines H true true P.Definitions Lexer.TokenLines with
        | .error E => RunLoop H (Lexer.TokenLines.length + 2) P = .error E
        | .ok O =>
          RunLoop H (Lexer.TokenLines.length + 2) P =
            .ok { ContextStack := { Top with LinePosition := Top.LinePosition + 1 } :: Below
                  Definitions := O.Definitions
                  ProcessedTokens := P.ProcessedTokens ++ O.Emitted
                  Warnings := P.Warnings ++ O.Warned }) := by
  refine ⟨?_, rfl, fun Q hQ hSize => (LoopStep_resize_keeps hQ hSize).1, ?_⟩
  · intro Lexer Q hQ
    obtain ⟨New, -, -, -, -, hEq⟩ := PushContextLexer_shape hQ
    rw [hEq]
  · intro Top Below Front Keyword PathToken IncludedFilePath Lexer First Others Lines
      hStack hLine hPercent hKeyword hPath hActive hDepth hFile hLexer hFlat
    have hStep := LoopStep_include H P hStack hLine hPercent hKeyword hPath hActive hDepth
      hFile hLexer
    have hRun := @RunLoop_flat_file H Lexer.TokenLines
      { P with ContextStack :=
          IncludedContext Lexer :: { Top with LinePosition := Top.LinePosition + 1 } :: Below }
      (IncludedContext Lexer) ({ Top with LinePosition := Top.LinePosition + 1 } :: Below)
      rfl rfl
      (by simp [ProcessingContext.LinesHaveEnded, IncludedContext, hLexer]) hFlat
    have hNested : decide (({ Top with LinePosition := Top.LinePosition + 1 } :: Below) ≠ [])
        = true := by simp
    have hAct : (IncludedContext Lexer).AreAllIfConditionsMet = true := rfl
    rw [hNested, hAct] at hRun
    rw [RunLoop_succ H _ hStep]
    exact hRun

/-- On the host with `defs.asm`: the complete run on the sample emits the line
of `defs.asm` under the definition of X made by the includer, and the line of
the includer after the include under the definition of Y made, and without the
definition of X removed, by `defs.asm`; and 7 turns from the include line lead
to the includer at its next line with the map that `defs.asm` has left. -/
theorem C13_definitions_shared_by_all_contexts_witness :
    (Preprocess SampleShared 12 Fresh SampleSharing).map
        (fun Q => (Q.ContextStack.length, Q.Definitions, Q.ProcessedTokens))
      = .ok (0, [("Y", [⟨InDefs 2, .LiteralInteger 7⟩])],
          [⟨At 0, .StartOfFile⟩,
            ⟨InDefs 1, .Other "MOV"⟩, ⟨InDefs 1, .Other "R1"⟩, ⟨InDefs 1, .Symbol .Comma⟩,
            ⟨InDefs 1, .LiteralInteger 5⟩,
            ⟨At 3, .Other "MOV"⟩, ⟨At 3, .Other "R0"⟩, ⟨At 3, .Symbol .Comma⟩,
            ⟨At 3, .LiteralInteger 7⟩, ⟨At 3, .Symbol .Comma⟩, IdentifierAt 3 "X",
            ⟨At 4, .EndOfFile⟩])
    ∧ (PopContext SampleAtSharedInclude).Definitions = SampleAtSharedInclude.Definitions
    ∧ (RunLoop SampleShared (SampleDefs.TokenLines.length + 2) SampleAtSharedInclude).map
        (fun Q => (Q.ContextStack.map (fun C => (C.FilePath, C.LinePosition)), Q.Definitions))
      = .ok ([("main.asm", 3)], [("Y", [⟨InDefs 2, .LiteralInteger 7⟩])]) := by
  have hAll := C13_definitions_shared_by_all_contexts SampleShared SampleAtSharedInclude
  have hRun := hAll.2.2.2 (SampleAtSharedInclude.ContextStack.headD NoContext) []
    (PercentAt 2) (IdentifierAt 2 "include") ⟨At 2, .LiteralString "defs.asm"⟩ "defs.asm"
    SampleDefs ⟨InDefs 0, .StartOfFile⟩ [] SampleDefs.TokenLines.tail rfl (by decide) rfl rfl
    rfl (by decide) (by decide) (by decide) rfl (by decide)
  refine ⟨by decide!, hAll.2.1, ?_⟩
  have hLines : FlatLines SampleShared true true SampleAtSharedInclude.Definitions
      SampleDefs.TokenLines
      = .ok ⟨[("Y", [⟨InDefs 2, .LiteralInteger 7⟩])],
          [⟨InDefs 1, .Other "MOV"⟩, ⟨InDefs 1, .Other "R1"⟩, ⟨InDefs 1, .Symbol .Comma⟩,
            ⟨InDefs 1, .LiteralInteger 5⟩], [],
          SampleDefs.TokenLines.set 1
            [⟨InDefs 1, .Other "MOV"⟩, ⟨InDefs 1, .Other "R1"⟩, ⟨InDefs 1, .Symbol .Comma⟩,
              ⟨InDefs 1, .LiteralInteger 5⟩]⟩ := by
    decide!
  rw [hLines] at hRun
  rw [hRun]
  rfl

/-! ## Theorems: ignored writes -/

/-- Claim C28: A write to the GPU command port of a value other than the five
command codes is ignored: the GPU state and the state of the host are the ones
before the write, so that no clear and no draw has been performed and every
register is unchanged. -/
theorem C28_unknown_gpu_command_ignored (K : Constants) (V : IOPortValues) (M : GPUMethods)
    (S : VideoState) (Value : V32Word)
    (hUnknown : Value.AsInteger ≠ V.GPUCommand_ClearScreen
      ∧ Value.AsInteger ≠ V.GPUCommand_DrawRegion
      ∧ Value.AsInteger ≠ V.GPUCommand_DrawRegionZoomed
      ∧ Value.AsInteger ≠ V.GPUCommand_DrawRegionRotated
      ∧ Value.AsInteger ≠ V.GPUCommand_DrawRegionRotozoomed) :
    WriteGPUCommand V M S Value = S
    ∧ WriteGPUPort K V M .Command S Value = some S := by
  obtain ⟨h1, h2, h3, h4, h5⟩ := hUnknown
  have h : WriteGPUCommand V M S Value = S := by
    simp [WriteGPUCommand, h1, h2, h3, h4, h5]
  exact ⟨h, by simp [WriteGPUPort, h]⟩

/-- On the sample console, whose command codes are 16 to 20: the write of 99
to the command port changes nothing, while the write of 16 forwards a clear to
the host. -/
theorem C28_unknown_gpu_command_ignored_witness :
    WriteGPUPort SampleConstants SampleValues SampleGPUMethods .Command SampleVideo
        (V32Word.OfInteger 99) = some SampleVideo
    ∧ (WriteGPUPort SampleConstants SampleValues SampleGPUMethods .Command SampleVideo
        (V32Word.OfInteger 16)).map (fun Q => Q.OpenGL2D.Calls)
        = some [.ClearScreen ⟨0⟩] :=
  ⟨(C28_unknown_gpu_command_ignored SampleConstants SampleValues SampleGPUMethods SampleVideo
      (V32Word.OfInteger 99) (by decide)).2, by decide!⟩

/-- Claim C29: A write of any value to a read-only port (the remaining pixels
of the GPU, the sound length and the channel state of the SPU) leaves the
whole state of the controller unchanged. -/
theorem C29_read_only_ports_ignore_writes (K : Constants) (V : IOPortValues) (M : GPUMethods)
    (N : SPUMethods) (S : VideoState) (SPU : V32SPU) (Value : V32Word) :
    WriteGPURemainingPixels S Value = S
    ∧ WriteGPUPort K V M .RemainingPixels S Value = some S
    ∧ WriteSPUSoundLength SPU Value = SPU
    ∧ WriteSPUPort V N .SoundLength SPU Value = some SPU
    ∧ WriteSPUChannelState SPU Value = SPU
    ∧ WriteSPUPort V N .ChannelState SPU Value = some SPU :=
  ⟨rfl, rfl, rfl, rfl, rfl, rfl⟩

/-- An assignment through `PointedRegion` changes textures only: every
register and pointer of the GPU is left as it is. -/
theorem WritePointedRegion_registers {GPU Changed : V32GPU} {Change : GPURegion → GPURegion}
    (h : GPU.WritePointedRegion Change = some Changed) :
    Changed = { GPU with BiosTexture := Changed.BiosTexture
                         CartridgeTextures := Changed.CartridgeTextures } := by
  unfold V32GPU.WritePointedRegion at h
  cases hT : GPU.TextureAt GPU.PointedRegion.Texture with
  | none => simp [hT] at h
  | some Texture =>
    simp only [hT] at h
    by_cases hNeg : GPU.PointedRegion.Region < 0
    · simp [hNeg] at h
    · simp only [hNeg, if_false] at h
      cases hR : Texture.Regions[GPU.PointedRegion.Region.toNat]? with
      | none => simp [hR] at h
      | some Region =>
        simp only [hR, Option.some.injEq] at h
        subst h
        unfold V32GPU.SetTextureAt
        split <;> rfl

/-- A write to a GPU port other than the blending port leaves the blending
mode as it is. -/
theorem WriteGPUPort_blending (K : Constants) (V : IOPortValues) (M : GPUMethods)
    (Port : GPULocalPorts) {S Q : VideoState} (Value : V32Word)
    (h : WriteGPUPort K V M Port S Value = some Q) :
    BlendingIsValid V S.GPU → BlendingIsValid V Q.GPU := by
  have hRegionWrite : ∀ Change, S.WritePointedRegion Change = some Q →
      Q.GPU.ActiveBlending = S.GPU.ActiveBlending := by
    intro Change hW
    unfold VideoState.WritePointedRegion at hW
    cases hG : S.GPU.WritePointedRegion Change with
    | none => simp [hG] at hW
    | some Changed =>
      simp only [hG, Option.map_some', Option.some.injEq] at hW
      subst hW
      have := WritePointedRegion_registers hG
      show Changed.ActiveBlending = _
      rw [this]
  have hSame : Q.GPU.ActiveBlending = S.GPU.ActiveBlending →
      BlendingIsValid V S.GPU → BlendingIsValid V Q.GPU := by
    intro hEq hValid
    unfold BlendingIsValid at hValid ⊢
    rw [hEq]
    exact hValid
  cases Port with
  | Command =>
    simp only [WriteGPUPort, Option.some.injEq] at h
    subst h
    apply hSame
    unfold WriteGPUCommand
    repeat' split
    all_goals rfl
  | RemainingPixels => simp only [WriteGPUPort, Option.some.injEq] at h; subst h; exact id
  | ClearColor => simp only [WriteGPUPort, Option.some.injEq] at h; subst h; exact hSame rfl
  | MultiplyColor => simp only [WriteGPUPort, Option.some.injEq] at h; subst h; exact hSame rfl
  | ActiveBlending =>
    simp only [WriteGPUPort, Option.some.injEq] at h
    subst h
    intro hValid
    unfold WriteGPUActiveBlending
    by_cases h1 : Value.AsInteger = V.GPUBlendingMode_Alpha
    · rw [if_pos h1]; exact Or.inl h1
    · rw [if_neg h1]
      by_cases h2 : Value.AsInteger = V.GPUBlendingMode_Add
      · rw [if_pos h2]; exact Or.inr (Or.inl h2)
      · rw [if_neg h2]
        by_cases h3 : Value.AsInteger = V.GPUBlendingMode_Subtract
        · rw [if_pos h3]; exact Or.inr (Or.inr h3)
        · rw [if_neg h3]; exact hValid
  | SelectedTexture =>
    simp only [WriteGPUPort, Option.some.injEq] at h
    subst h
    apply hSame
    unfold WriteGPUSelectedTexture
    repeat' split
    all_goals rfl
  | SelectedRegion =>
    simp only [WriteGPUPort, Option.some.injEq] at h
    subst h
    apply hSame
    unfold WriteGPUSelectedRegion
    split <;> rfl
  | DrawingPointX => simp only [WriteGPUPort, Option.some.injEq] at h; subst h; exact hSame rfl
  | DrawingPointY => simp only [WriteGPUPort, Option.some.injEq] at h; subst h; exact hSame rfl
  | DrawingScaleX =>
    simp only [WriteGPUPort, Option.some.injEq] at h
    subst h
    apply hSame
    unfold WriteGPUDrawingScaleX
    split <;> rfl
  | DrawingScaleY =>
    simp only [WriteGPUPort, Option.some.injEq] at h
    subst h
    apply hSame
    unfold WriteGPUDrawingScaleY
    split <;> rfl
  | DrawingAngle =>
    simp only [WriteGPUPort, Option.some.injEq] at h
    subst h
    apply hSame
    unfold WriteGPUDrawingAngle
    split <;> rfl
  | RegionMinX => exact hSame (hRegionWrite _ h)
  | RegionMinY => exact hSame (hRegionWrite _ h)
  | RegionMaxX => exact hSame (hRegionWrite _ h)
  | RegionMaxY => exact hSame (hRegionWrite _ h)
  | RegionHotspotX => exact hSame (hRegionWrite _ h)
  | RegionHotspotY => exact hSame (hRegionWrite _ h)

/-- Claim C30: A write to the blending port of a value that is not one of the
three blending modes has no effect: the state of the GPU and of the host are
the ones before the write, so the stored mode is unchanged and nothing is
forwarded.  A write of one of the three modes stores it and forwards the same
mode to the host, changing nothing else.  Hence a blending mode among the three
is still among them after every sequence of writes to GPU ports. -/
theorem C30_blending_mode_stays_valid (K : Constants) (V : IOPortValues) (M : GPUMethods)
    (S : VideoState) (Value : V32Word) :
    ((Value.AsInteger ≠ V.GPUBlendingMode_Alpha ∧ Value.AsInteger ≠ V.GPUBlendingMode_Add
        ∧ Value.AsInteger ≠ V.GPUBlendingMode_Subtract) →
      WriteGPUPort K V M .ActiveBlending S Value = some S)
    ∧ ((Value.AsInteger = V.GPUBlendingMode_Alpha ∨ Value.AsInteger = V.GPUBlendingMode_Add
        ∨ Value.AsInteger = V.GPUBlendingMode_Subtract) →
      WriteGPUPort K V M .ActiveBlending S Value =
        some { GPU := { S.GPU with ActiveBlending := Value.AsInteger }
               OpenGL2D :=
                 { S.OpenGL2D with
                     Calls := S.OpenGL2D.Calls ++ [.SetBlendingMode Value.AsInteger] } })
    ∧ (BlendingIsValid V S.GPU → ∀ Writes Q, WriteGPUPorts K V M Writes S = some Q →
        BlendingIsValid V Q.GPU) := by
  refine ⟨?_, ?_, ?_⟩
  · intro ⟨h1, h2, h3⟩
    simp [WriteGPUPort, WriteGPUActiveBlending, h1, h2, h3]
  · intro hMode
    simp only [WriteGPUPort, WriteGPUActiveBlending, Option.some.injEq]
    by_cases h1 : Value.AsInteger = V.GPUBlendingMode_Alpha
    · rw [if_pos h1]; simp only [SetActiveBlending, ← h1]
    · rw [if_neg h1]
      by_cases h2 : Value.AsInteger = V.GPUBlendingMode_Add
      · rw [if_pos h2]; simp only [SetActiveBlending, ← h2]
      · rw [if_neg h2]
        by_cases h3 : Value.AsInteger = V.GPUBlendingMode_Subtract
        · rw [if_pos h3]; simp only [SetActiveBlending, ← h3]
        · rcases hMode with h | h | h <;> contradiction
  · intro hValid Writes
    induction Writes generalizing S with
    | nil =>
      intro Q hQ
      simp only [WriteGPUPorts, Option.some.injEq] at hQ
      subst hQ
      exact hValid
    | cons Write Rest ih =>
      intro Q hQ
      obtain ⟨Port, Word⟩ := Write
      simp only [WriteGPUPorts] at hQ
      cases hW : WriteGPUPort K V M Port S Word with
      | none => simp [hW] at hQ
      | some R =>
        rw [hW] at hQ
        exact ih R (WriteGPUPort_blending K V M Port Word hW hValid) Q hQ

/-- On the sample console, whose blending modes are 32, 33 and 34 and where
mode 32 is active: the write of 35 changes nothing, the write of 34 stores 34
and forwards it, and the mode is among the three after a sequence of writes. -/
theorem C30_blending_mode_stays_valid_witness :
    WriteGPUPort SampleConstants SampleValues SampleGPUMethods .ActiveBlending SampleVideo
        (V32Word.OfInteger 35) = some SampleVideo
    ∧ (WriteGPUPort SampleConstants SampleValues SampleGPUMethods .ActiveBlending SampleVideo
        (V32Word.OfInteger 34)).map (fun Q => (Q.GPU.ActiveBlending, Q.OpenGL2D.Calls))
        = some (34, [.SetBlendingMode 34])
    ∧ (WriteGPUPorts SampleConstants SampleValues SampleGPUMethods
        [(.ActiveBlending, V32Word.OfInteger 33), (.ActiveBlending, V32Word.OfInteger 0),
          (.Command, V32Word.OfInteger 17), (.RegionMaxX, V32Word.OfInteger 9)]
        SampleVideo).map (fun Q => Q.GPU.ActiveBlending) = some 33
    ∧ ∀ Writes Q,
        WriteGPUPorts SampleConstants SampleValues SampleGPUMethods Writes SampleVideo = some Q →
        BlendingIsValid SampleValues Q.GPU :=
  ⟨(C30_blending_mode_stays_valid SampleConstants SampleValues SampleGPUMethods SampleVideo
      (V32Word.OfInteger 35)).1 (by decide),
   by decide!, by decide!,
   (C30_blending_mode_stays_valid SampleConstants SampleValues SampleGPUMethods SampleVideo
      (V32Word.OfInteger 35)).2.2 (Or.inl rfl)⟩

/-- Claim C23: For every float port (drawing scale X, drawing scale Y and
drawing angle of the GPU; global volume, channel volume and channel speed of
the SPU), a write whose value is a NaN or an infinity leaves the whole state of
the controller identical to the state before the write. -/
theorem C23_non_finite_float_writes_discarded (K : Constants) (V : IOPortValues)
    (M : GPUMethods) (N : SPUMethods) (S : VideoState) (SPU : V32SPU) (Value : V32Word)
    (hNonFinite : Value.AsFloat.isnan = true ∨ Value.AsFloat.isinf = true) :
    WriteGPUPort K V M .DrawingScaleX S Value = some S
    ∧ WriteGPUPort K V M .DrawingScaleY S Value = some S
    ∧ WriteGPUPort K V M .DrawingAngle S Value = some S
    ∧ WriteSPUPort V N .GlobalVolume SPU Value = some SPU
    ∧ WriteSPUPort V N .ChannelVolume SPU Value = some SPU
    ∧ WriteSPUPort V N .ChannelSpeed SPU Value = some SPU := by
  have h : (Value.AsFloat.isnan || Value.AsFloat.isinf) = true := by
    rcases hNonFinite with h | h <;> simp [h]
  refine ⟨?_, ?_, ?_, ?_, ?_, ?_⟩
  · simp only [WriteGPUPort, WriteGPUDrawingScaleX, h, if_true]
  · simp only [WriteGPUPort, WriteGPUDrawingScaleY, h, if_true]
  · simp only [WriteGPUPort, WriteGPUDrawingAngle, h, if_true]
  · simp only [WriteSPUPort, WriteSPUGlobalVolume, h, if_true]
  · simp only [WriteSPUPort, WriteSPUChannelVolume, h, if_true]
  · simp only [WriteSPUPort, WriteSPUChannelSpeed, h, if_true]

/-- On the sample console: the words 0x7F800000 (+Inf), 0xFF800000 (−Inf) and
0x7FC00000 (a NaN) are an infinity, an infinity and a NaN, and writing them to
the drawing angle, the global volume and the channel speed changes nothing;
the word 0x40000000 (2.0) is neither, and is stored as the global volume. -/
theorem C23_non_finite_float_writes_discarded_witness :
    ((⟨2139095040⟩ : V32Word).AsFloat.isinf = true
      ∧ (⟨4286578688⟩ : V32Word).AsFloat.isinf = true
      ∧ (⟨2143289344⟩ : V32Word).AsFloat.isnan = true
      ∧ (⟨1073741824⟩ : V32Word).AsFloat.IsFinite = true)
    ∧ WriteGPUPort SampleConstants SampleValues SampleGPUMethods .DrawingAngle SampleVideo
        ⟨2139095040⟩ = some SampleVideo
    ∧ WriteSPUPort SampleValues SampleSPUMethods .GlobalVolume SampleSPU ⟨4286578688⟩
        = some SampleSPU
    ∧ WriteSPUPort SampleValues SampleSPUMethods .ChannelSpeed SampleSPU ⟨2143289344⟩
        = some SampleSPU
    ∧ (WriteSPUPort SampleValues SampleSPUMethods .GlobalVolume SampleSPU ⟨1073741824⟩).map
        (fun Q => Q.GlobalVolume) = some ⟨1073741824⟩ :=
  ⟨by decide,
   (C23_non_finite_float_writes_discarded SampleConstants SampleValues SampleGPUMethods
      SampleSPUMethods SampleVideo SampleSPU ⟨2139095040⟩ (Or.inr (by decide))).2.2.1,
   (C23_non_finite_float_writes_discarded SampleConstants SampleValues SampleGPUMethods
      SampleSPUMethods SampleVideo SampleSPU ⟨4286578688⟩ (Or.inr (by decide))).2.2.2.1,
   (C23_non_finite_float_writes_discarded SampleConstants SampleValues SampleGPUMethods
      SampleSPUMethods SampleVideo SampleSPU ⟨2143289344⟩ (Or.inl (by decide))).2.2.2.2.2,
   by decide!⟩

/-- Claim C22: A write to the assigned-sound port of the SPU, the channel
pointer designating a channel.  While the state of that channel is not
"stopped", the write leaves the whole SPU, and so the assigned sound and the
current sound of the channel, unchanged for every value.  When the channel is
stopped and the cartridge sounds can be counted in an `int32_t`, a value v with
−1 ≤ v < number of cartridge sounds becomes the assigned sound, and the current
sound becomes the sound of that index (the BIOS sound for −1), every other
member of the channel and of the SPU being kept; any other value leaves the
SPU unchanged. -/
theorem C22_assigned_sound_needs_stopped_channel (V : IOPortValues) (SPU : V32SPU)
    (Value : V32Word) (Pointed : SPUChannel)
    (hPointed : SPU.ChannelAt SPU.PointedChannel = some Pointed) :
    (Pointed.State ≠ V.SPUChannelState_Stopped →
      WriteSPUChannelAssignedSound V SPU Value = some SPU)
    ∧ (Pointed.State = V.SPUChannelState_Stopped →
        SPU.CartridgeSounds.length < 2147483648 →
        -1 ≤ Value.AsInteger → Value.AsInteger < SPU.CartridgeSounds.length →
        WriteSPUChannelAssignedSound V SPU Value =
            some { SPU with
                     Channels :=
                       SPU.Channels.set SPU.PointedChannel.toNat
                         { Pointed with AssignedSound := Value.AsInteger
                                        CurrentSound := Value.AsInteger } }
        ∧ ∃ Sound, SPU.SoundAt Value.AsInteger = some Sound
            ∧ (Value.AsInteger = -1 → Sound = SPU.BiosSound))
    ∧ ((Value.AsInteger < -1 ∨ (SPU.CartridgeSounds.length : Int) ≤ Value.AsInteger) →
        WriteSPUChannelAssignedSound V SPU Value = some SPU) := by
  have hLe := ToInt32_le SPU.CartridgeSounds.length
  refine ⟨?_, ?_, ?_⟩
  · intro hState
    unfold WriteSPUChannelAssignedSound
    split
    · rfl
    · simp only [hPointed]
      rw [if_pos hState]
  · intro hState hCount hLow hHigh
    have hCast := ToInt32_of_lt hCount
    have hIn : ¬ (Value.AsInteger < -1
        ∨ Value.AsInteger ≥ ToInt32 SPU.CartridgeSounds.length) := by
      rw [hCast]; omega
    have hStopped : ¬ Pointed.State ≠ V.SPUChannelState_Stopped := fun h => h hState
    constructor
    · unfold WriteSPUChannelAssignedSound
      rw [if_neg hIn]
      simp only [hPointed]
      rw [if_neg hStopped]
      by_cases hB : Value.AsInteger = -1
      · rw [if_pos hB]
        simp only [V32SPU.WritePointedChannel, hPointed, hB]
      · rw [if_neg hB]
        simp only [V32SPU.WritePointedChannel, hPointed]
    · unfold V32SPU.SoundAt
      by_cases hB : Value.AsInteger = -1
      · exact ⟨SPU.BiosSound, by simp [hB], fun _ => rfl⟩
      · have hP : 0 ≤ Value.AsInteger := by omega
        have hLt : Value.AsInteger.toNat < SPU.CartridgeSounds.length := by omega
        exact ⟨SPU.CartridgeSounds[Value.AsInteger.toNat],
          by simp [hB, hP, List.getElem?_eq_getElem hLt], fun h => absurd h hB⟩
  · intro hOut
    have hOut2 : Value.AsInteger < -1
        ∨ Value.AsInteger ≥ ToInt32 SPU.CartridgeSounds.length := by omega
    unfold WriteSPUChannelAssignedSound
    rw [if_pos hOut2]

/-- On the sample console, which has one cartridge sound: while channel 5 is
playing the write of 0 changes nothing; while it is stopped the write of 0
assigns cartridge sound 0, and the write of 1 changes nothing. -/
theorem C22_assigned_sound_needs_stopped_channel_witness :
    WriteSPUChannelAssignedSound SampleValues SamplePlaying (V32Word.OfInteger 0)
        = some SamplePlaying
    ∧ WriteSPUChannelAssignedSound SampleValues SampleSPU (V32Word.OfInteger 0) =
        some { SampleSPU with
                 Channels :=
                   SampleSPU.Channels.set SampleSPU.PointedChannel.toNat
                     { SampleChannel with AssignedSound := (V32Word.OfInteger 0).AsInteger
                                          CurrentSound := (V32Word.OfInteger 0).AsInteger } }
    ∧ WriteSPUChannelAssignedSound SampleValues SampleSPU (V32Word.OfInteger 1)
        = some SampleSPU
    ∧ (WriteSPUPorts SampleValues SampleSPUMethods
        [(.Command, V32Word.OfInteger 48), (.ChannelAssignedSound, V32Word.OfInteger 0),
          (.Command, V32Word.OfInteger 50), (.ChannelAssignedSound, V32Word.OfInteger 0)]
        SampleSPU).map (fun Q => Q.Channels.map (fun C => (C.AssignedSound, C.CurrentSound)))
        = some ((List.replicate 16 (-1, -1)).set 5 (0, 0)) :=
  ⟨(C22_assigned_sound_needs_stopped_channel SampleValues SamplePlaying (V32Word.OfInteger 0)
      { SampleChannel with State := 65 } (by decide!)).1 (by decide),
   ((C22_assigned_sound_needs_stopped_channel SampleValues SampleSPU (V32Word.OfInteger 0)
      SampleChannel (by decide!)).2.1 (by decide) (by decide) (by decide) (by decide)).1,
   (C22_assigned_sound_needs_stopped_channel SampleValues SampleSPU (V32Word.OfInteger 1)
      SampleChannel (by decide!)).2.2 (by decide),
   by decide!⟩

/-! ## Theorems: clamped integer writes -/

/-- On a range that is not empty `Clamp` yields the value moved into the
range: the larger of the lower bound and the smaller of value and upper
bound. -/
theorem Clamp_eq_max_min {Variable Minimum Maximum : Int} (h : Minimum ≤ Maximum) :
    Clamp Variable Minimum Maximum = max Minimum (min Variable Maximum) := by
  unfold Clamp
  split
  · omega
  · split <;> omega

theorem Clamp_range {Variable Minimum Maximum : Int} (h : Minimum ≤ Maximum) :
    Minimum ≤ Clamp Variable Minimum Maximum ∧ Clamp Variable Minimum Maximum ≤ Maximum := by
  rw [Clamp_eq_max_min h]
  omega

/-- Claim C25: For every 32-bit integer v, a write of v to the drawing point X
of the GPU stores v clamped to [−1000, screen width + 1000], and a write to the
drawing point Y stores v clamped to [−1000, screen height + 1000] (the ranges
not being empty): the value itself inside the range, the nearer bound outside
it.  The write is never rejected, and changes nothing else. -/
theorem C25_drawing_point_clamped (K : Constants) (V : IOPortValues) (M : GPUMethods)
    (S : VideoState) (Value : V32Word)
    (hWidth : -1000 ≤ K.ScreenWidth + 1000) (hHeight : -1000 ≤ K.ScreenHeight + 1000) :
    WriteGPUPort K V M .DrawingPointX S Value =
        some { S with GPU :=
                 { S.GPU with
                     DrawingPointX := max (-1000) (min Value.AsInteger (K.ScreenWidth + 1000)) } }
    ∧ WriteGPUPort K V M .DrawingPointY S Value =
        some { S with GPU :=
                 { S.GPU with
                     DrawingPointY := max (-1000) (min Value.AsInteger (K.ScreenHeight + 1000)) } }
    ∧ (-2147483648 ≤ Value.AsInteger ∧ Value.AsInteger < 2147483648) := by
  refine ⟨?_, ?_, ?_⟩
  · simp only [WriteGPUPort, WriteGPUDrawingPointX, Clamp_eq_max_min hWidth]
  · simp only [WriteGPUPort, WriteGPUDrawingPointY, Clamp_eq_max_min hHeight]
  · unfold V32Word.AsInteger ToInt32
    split <;> omega

/-- On the sample console, whose screen is 640 by 360: the writes of 5000 and
of −5000 to the drawing point X store 1640 and −1000, the write of 123 stores
123, and the write of 5000 to the drawing point Y stores 1360. -/
theorem C25_drawing_point_clamped_witness :
    (WriteGPUPort SampleConstants SampleValues SampleGPUMethods .DrawingPointX SampleVideo
        (V32Word.OfInteger 5000)).map (fun Q => Q.GPU.DrawingPointX) = some 1640
    ∧ (WriteGPUPort SampleConstants SampleValues SampleGPUMethods .DrawingPointX SampleVideo
        (V32Word.OfInteger (-5000))).map (fun Q => Q.GPU.DrawingPointX) = some (-1000)
    ∧ (WriteGPUPort SampleConstants SampleValues SampleGPUMethods .DrawingPointX SampleVideo
        (V32Word.OfInteger 123)).map (fun Q => Q.GPU.DrawingPointX) = some 123
    ∧ (WriteGPUPort SampleConstants SampleValues SampleGPUMethods .DrawingPointY SampleVideo
        (V32Word.OfInteger 5000)).map (fun Q => Q.GPU.DrawingPointY) = some 1360
    ∧ WriteGPUPort SampleConstants SampleValues SampleGPUMethods .DrawingPointX SampleVideo
        (V32Word.OfInteger 5000) =
        some { SampleVideo with GPU :=
                 { SampleVideo.GPU with
                     DrawingPointX :=
                       max (-1000) (min (V32Word.OfInteger 5000).AsInteger
                         (SampleConstants.ScreenWidth + 1000)) } } :=
  ⟨by decide!, by decide!, by decide!, by decide!,
    (C25_drawing_point_clamped SampleConstants SampleValues SampleGPUMethods SampleVideo
      (V32Word.OfInteger 5000) (by decide) (by decide)).1⟩

/-- With a region pointer that designates a region, an assignment through
`PointedRegion` is defined, leaves the pointer as it is, and the region read
back through the pointer is the changed one. -/
theorem WritePointedRegion_reads {GPU : V32GPU} {Region : GPURegion}
    (hPointed : GPU.RegionAt GPU.PointedRegion = some Region)
    (Change : GPURegion → GPURegion) :
    ∃ Changed, GPU.WritePointedRegion Change = some Changed
      ∧ Changed.PointedRegion = GPU.PointedRegion
      ∧ Changed.RegionAt Changed.PointedRegion = some (Change Region) := by
  unfold V32GPU.RegionAt at hPointed
  cases hT : GPU.TextureAt GPU.PointedRegion.Texture with
  | none => simp [hT] at hPointed
  | some Texture =>
    simp only [hT] at hPointed
    by_cases hNeg : GPU.PointedRegion.Region < 0
    · simp [hNeg] at hPointed
    · simp only [hNeg, if_false] at hPointed
      have hLt : GPU.PointedRegion.Region.toNat < Texture.Regions.length := by
        by_contra hge
        rw [List.getElem?_eq_none (by omega)] at hPointed
        cases hPointed
      have hW : GPU.WritePointedRegion Change
          = some (GPU.SetTextureAt GPU.PointedRegion.Texture
              { Texture with
                  Regions := Texture.Regions.set GPU.PointedRegion.Region.toNat
                    (Change Region) }) := by
        simp only [V32GPU.WritePointedRegion, hT, hNeg, if_false, hPointed]
      refine ⟨_, hW, ?_⟩
      unfold V32GPU.TextureAt at hT
      unfold V32GPU.SetTextureAt
      by_cases hB : GPU.PointedRegion.Texture = -1
      · rw [if_pos hB]
        refine ⟨rfl, ?_⟩
        simp [V32GPU.RegionAt, V32GPU.TextureAt, hB, hNeg, List.getElem?_set_self', hLt,
          List.getElem?_eq_getElem hLt]
      · rw [if_neg hB]
        simp only [hB, if_false] at hT
        by_cases hP : 0 ≤ GPU.PointedRegion.Texture
        · simp only [hP, if_true] at hT
          have hIn : GPU.PointedRegion.Texture.toNat < GPU.CartridgeTextures.length := by
            by_contra hge
            rw [List.getElem?_eq_none (by omega)] at hT
            cases hT
          refine ⟨rfl, ?_⟩
          simp [V32GPU.RegionAt, V32GPU.TextureAt, hB, hP, hNeg, List.getElem?_set_self', hLt,
            hIn, List.getElem?_eq_getElem hLt]
        · simp [hP] at hT

theorem VideoWritePointedRegion_reads {S : VideoState} {Region : GPURegion}
    (hPointed : S.GPU.RegionAt S.GPU.PointedRegion = some Region)
    (Change : GPURegion → GPURegion) :
    ∃ Q, S.WritePointedRegion Change = some Q
      ∧ Q.OpenGL2D = S.OpenGL2D
      ∧ Q.GPU.PointedRegion = S.GPU.PointedRegion
      ∧ Q.GPU.RegionAt Q.GPU.PointedRegion = some (Change Region) := by
  obtain ⟨Changed, hW, hP, hR⟩ := WritePointedRegion_reads hPointed Change
  exact ⟨{ S with GPU := Changed }, by simp [VideoState.WritePointedRegion, hW], rfl, hP, hR⟩

/-- Claim C26: For every 32-bit integer v, a write of v to the region ports
min X, min Y, max X or max Y of the GPU, the region pointer designating a
region and the texture size being at least 1, is defined and stores in that
field of that region the value v clamped to [0, texture size − 1]; the other
fields of the region are kept. -/
theorem C26_region_bounds_clamped (K : Constants) (V : IOPortValues) (M : GPUMethods)
    (S : VideoState) (Value : V32Word) (Region : GPURegion)
    (hPointed : S.GPU.RegionAt S.GPU.PointedRegion = some Region)
    (hSize : 1 ≤ K.GPUTextureSize) :
    (∃ Q, WriteGPUPort K V M .RegionMinX S Value = some Q
      ∧ Q.GPU.PointedRegion = S.GPU.PointedRegion
      ∧ Q.GPU.RegionAt Q.GPU.PointedRegion
          = some { Region with MinX := max 0 (min Value.AsInteger (K.GPUTextureSize - 1)) })
    ∧ (∃ Q, WriteGPUPort K V M .RegionMinY S Value = some Q
      ∧ Q.GPU.PointedRegion = S.GPU.PointedRegion
      ∧ Q.GPU.RegionAt Q.GPU.PointedRegion
          = some { Region with MinY := max 0 (min Value.AsInteger (K.GPUTextureSize - 1)) })
    ∧ (∃ Q, WriteGPUPort K V M .RegionMaxX S Value = some Q
      ∧ Q.GPU.PointedRegion = S.GPU.PointedRegion
      ∧ Q.GPU.RegionAt Q.GPU.PointedRegion
          = some { Region with MaxX := max 0 (min Value.AsInteger (K.GPUTextureSize - 1)) })
    ∧ (∃ Q, WriteGPUPort K V M .RegionMaxY S Value = some Q
      ∧ Q.GPU.PointedRegion = S.GPU.PointedRegion
      ∧ Q.GPU.RegionAt Q.GPU.PointedRegion
          = some { Region with MaxY := max 0 (min Value.AsInteger (K.GPUTextureSize - 1)) }) := by
  have hRange : (0 : Int) ≤ K.GPUTextureSize - 1 := by omega
  have hClamp := @Clamp_eq_max_min Value.AsInteger 0 (K.GPUTextureSize - 1) hRange
  refine ⟨?_, ?_, ?_, ?_⟩
  · obtain ⟨Q, hQ, -, hP, hR⟩ := VideoWritePointedRegion_reads hPointed
      (fun Region => { Region with MinX := Clamp Value.AsInteger 0 (K.GPUTextureSize - 1) })
    exact ⟨Q, hQ, hP, by rw [hR, hClamp]⟩
  · obtain ⟨Q, hQ, -, hP, hR⟩ := VideoWritePointedRegion_reads hPointed
      (fun Region => { Region with MinY := Clamp Value.AsInteger 0 (K.GPUTextureSize - 1) })
    exact ⟨Q, hQ, hP, by rw [hR, hClamp]⟩
  · obtain ⟨Q, hQ, -, hP, hR⟩ := VideoWritePointedRegion_reads hPointed
      (fun Region => { Region with MaxX := Clamp Value.AsInteger 0 (K.GPUTextureSize - 1) })
    exact ⟨Q, hQ, hP, by rw [hR, hClamp]⟩
  · obtain ⟨Q, hQ, -, hP, hR⟩ := VideoWritePointedRegion_reads hPointed
      (fun Region => { Region with MaxY := Clamp Value.AsInteger 0 (K.GPUTextureSize - 1) })
    exact ⟨Q, hQ, hP, by rw [hR, hClamp]⟩

/-- On the sample console, whose textures measure 1024 and where region 2 of
cartridge texture 1 is pointed at: the writes of 5000, −7 and 100 to the region
ports store 1023, 0 and 100 in region 2 of cartridge texture 1. -/
theorem C26_region_bounds_clamped_witness :
    (WriteGPUPorts SampleConstants SampleValues SampleGPUMethods
        [(.RegionMaxX, V32Word.OfInteger 5000), (.RegionMinX, V32Word.OfInteger (-7)),
          (.RegionMaxY, V32Word.OfInteger 100)] SampleVideo).map
        (fun Q => Q.GPU.RegionAt ⟨1, 2⟩) = some (some ⟨0, 0, 1023, 100, 0, 0⟩)
    ∧ ∃ Q, WriteGPUPort SampleConstants SampleValues SampleGPUMethods .RegionMaxX SampleVideo
          (V32Word.OfInteger 5000) = some Q
        ∧ Q.GPU.PointedRegion = SampleVideo.GPU.PointedRegion
        ∧ Q.GPU.RegionAt Q.GPU.PointedRegion
          = some { (⟨0, 0, 0, 0, 0, 0⟩ : GPURegion) with
                     MaxX := max 0 (min (V32Word.OfInteger 5000).AsInteger
                       (SampleConstants.GPUTextureSize - 1)) } :=
  ⟨by decide!,
    (C26_region_bounds_clamped SampleConstants SampleValues SampleGPUMethods SampleVideo
      (V32Word.OfInteger 5000) ⟨0, 0, 0, 0, 0, 0⟩ (by decide) (by decide)).2.2.1⟩

/-- Claim C27: For every 32-bit integer v, a write of v to the region ports
hotspot X or hotspot Y of the GPU, the region pointer designating a region and
the texture size being at least 1, is defined and stores in that field of that
region the value v clamped to [−texture size, 2·texture size − 1]; so a value
below 0 or above texture size − 1, but within that range, is stored as it is:
a hotspot may lie outside the texture. -/
theorem C27_region_hotspot_clamped (K : Constants) (V : IOPortValues) (M : GPUMethods)
    (S : VideoState) (Value : V32Word) (Region : GPURegion)
    (hPointed : S.GPU.RegionAt S.GPU.PointedRegion = some Region)
    (hSize : 1 ≤ K.GPUTextureSize) :
    (∃ Q, WriteGPUPort K V M .RegionHotspotX S Value = some Q
      ∧ Q.GPU.PointedRegion = S.GPU.PointedRegion
      ∧ Q.GPU.RegionAt Q.GPU.PointedRegion
          = some { Region with
                     HotspotX := max (-K.GPUTextureSize)
                       (min Value.AsInteger (2 * K.GPUTextureSize - 1)) })
    ∧ (∃ Q, WriteGPUPort K V M .RegionHotspotY S Value = some Q
      ∧ Q.GPU.PointedRegion = S.GPU.PointedRegion
      ∧ Q.GPU.RegionAt Q.GPU.PointedRegion
          = some { Region with
                     HotspotY := max (-K.GPUTextureSize)
                       (min Value.AsInteger (2 * K.GPUTextureSize - 1)) })
    ∧ (-K.GPUTextureSize ≤ Value.AsInteger → Value.AsInteger ≤ 2 * K.GPUTextureSize - 1 →
        max (-K.GPUTextureSize) (min Value.AsInteger (2 * K.GPUTextureSize - 1))
          = Value.AsInteger) := by
  have hRange : -K.GPUTextureSize ≤ 2 * K.GPUTextureSize - 1 := by omega
  have hClamp := @Clamp_eq_max_min Value.AsInteger (-K.GPUTextureSize)
    (2 * K.GPUTextureSize - 1) hRange
  refine ⟨?_, ?_, fun h1 h2 => by omega⟩
  · obtain ⟨Q, hQ, -, hP, hR⟩ := VideoWritePointedRegion_reads hPointed
      (fun Region =>
        { Region with
            HotspotX := Clamp Value.AsInteger (-K.GPUTextureSize) (2 * K.GPUTextureSize - 1) })
    exact ⟨Q, hQ, hP, by rw [hR, hClamp]⟩
  · obtain ⟨Q, hQ, -, hP, hR⟩ := VideoWritePointedRegion_reads hPointed
      (fun Region =>
        { Region with
            HotspotY := Clamp Value.AsInteger (-K.GPUTextureSize) (2 * K.GPUTextureSize - 1) })
    exact ⟨Q, hQ, hP, by rw [hR, hClamp]⟩

/-- On the sample console, whose textures measure 1024: the writes of −5 and of
1500 to the hotspot ports are stored as they are, outside the texture, and the
writes of −5000 and of 5000 store −1024 and 2047. -/
theorem C27_region_hotspot_clamped_witness :
    (WriteGPUPorts SampleConstants SampleValues SampleGPUMethods
        [(.RegionHotspotX, V32Word.OfInteger (-5)), (.RegionHotspotY, V32Word.OfInteger 1500)]
        SampleVideo).map (fun Q => Q.GPU.RegionAt ⟨1, 2⟩)
      = some (some ⟨0, 0, 0, 0, -5, 1500⟩)
    ∧ (WriteGPUPorts SampleConstants SampleValues SampleGPUMethods
        [(.RegionHotspotX, V32Word.OfInteger (-5000)), (.RegionHotspotY, V32Word.OfInteger 5000)]
        SampleVideo).map (fun Q => Q.GPU.RegionAt ⟨1, 2⟩)
      = some (some ⟨0, 0, 0, 0, -1024, 2047⟩)
    ∧ ∃ Q, WriteGPUPort SampleConstants SampleValues SampleGPUMethods .RegionHotspotX
          SampleVideo (V32Word.OfInteger (-5)) = some Q
        ∧ Q.GPU.PointedRegion = SampleVideo.GPU.PointedRegion
        ∧ Q.GPU.RegionAt Q.GPU.PointedRegion
          = some { (⟨0, 0, 0, 0, 0, 0⟩ : GPURegion) with
                     HotspotX := max (-SampleConstants.GPUTextureSize)
                       (min (V32Word.OfInteger (-5)).AsInteger
                         (2 * SampleConstants.GPUTextureSize - 1)) } :=
  ⟨by decide!, by decide!,
    (C27_region_hotspot_clamped SampleConstants SampleValues SampleGPUMethods SampleVideo
      (V32Word.OfInteger (-5)) ⟨0, 0, 0, 0, 0, 0⟩ (by decide) (by decide)).1⟩

/-- After an assignment through `PointedSound`, every sound is an old one or
the change of the old sound under the pointer, with its length kept when the
change keeps lengths. -/
theorem WritePointedSound_sounds {SPU Q : V32SPU} {Change : SPUSound → SPUSound}
    (h : SPU.WritePointedSound Change = some Q) (Index : Int) (Sound : SPUSound)
    (hSound : Q.SoundAt Index = some Sound) :
    SPU.SoundAt Index = some Sound
    ∨ ∃ Old, SPU.SoundAt SPU.PointedSound = some Old ∧ Sound = Change Old := by
  unfold V32SPU.WritePointedSound at h
  cases hS : SPU.SoundAt SPU.PointedSound with
  | none => simp [hS] at h
  | some Old =>
    simp only [hS, Option.some.injEq] at h
    subst h
    unfold V32SPU.SetSoundAt at hSound
    by_cases hB : SPU.PointedSound = -1
    · rw [if_pos hB] at hSound
      unfold V32SPU.SoundAt at hSound ⊢
      by_cases hI : Index = -1
      · right
        simp only [hI, if_true, Option.some.injEq] at hSound
        exact ⟨Old, rfl, hSound.symm⟩
      · left
        simp only [hI, if_false] at hSound ⊢
        exact hSound
    · rw [if_neg hB] at hSound
      unfold V32SPU.SoundAt at hSound ⊢
      by_cases hI : Index = -1
      · left
        simp only [hI, if_true] at hSound ⊢
        exact hSound
      · simp only [hI, if_false] at hSound ⊢
        by_cases hP : 0 ≤ Index
        · simp only [hP, if_true] at hSound ⊢
          by_cases hEq : SPU.PointedSound.toNat = Index.toNat
          · right
            rw [hEq] at hSound
            have hMem := List.getElem?_mem hSound
            rw [List.getElem?_set_self'] at hSound
            cases hGet : SPU.CartridgeSounds[Index.toNat]? with
            | none => simp [hGet] at hSound
            | some Other =>
              simp [hGet] at hSound
              exact ⟨Old, rfl, hSound.symm⟩
          · left
            rw [List.getElem?_set_ne hEq] at hSound
            exact hSound
        · simp [hP] at hSound

/-- An assignment through `PointedSound` whose change keeps the invariant of
the data model keeps it for every sound. -/
theorem SoundsAreValid_sound {SPU Q : V32SPU} {Change : SPUSound → SPUSound}
    (h : SPU.WritePointedSound Change = some Q)
    (hChange : ∀ Old, (1 ≤ Old.Length → SoundIsValid Old) →
      1 ≤ (Change Old).Length → SoundIsValid (Change Old))
    (hValid : SoundsAreValid SPU) : SoundsAreValid Q := by
  intro Index Sound hSound hLength
  rcases WritePointedSound_sounds h Index Sound hSound with hOld | ⟨Old, hOld, hNew⟩
  · exact hValid Index Sound hOld hLength
  · subst hNew
    exact hChange Old (hValid _ Old hOld) hLength

/-- A write that leaves the sounds as they are keeps the invariant. -/
theorem SoundsAreValid_same {SPU Q : V32SPU} (hBios : Q.BiosSound = SPU.BiosSound)
    (hCartridge : Q.CartridgeSounds = SPU.CartridgeSounds) (hValid : SoundsAreValid SPU) :
    SoundsAreValid Q := by
  intro Index Sound hSound hLength
  apply hValid Index Sound _ hLength
  unfold V32SPU.SoundAt at hSound ⊢
  rw [hBios, hCartridge] at hSound
  exact hSound

theorem SoundsAreValid_channel {SPU Q : V32SPU} {Change : SPUChannel → SPUChannel}
    (h : SPU.WritePointedChannel Change = some Q) (hValid : SoundsAreValid SPU) :
    SoundsAreValid Q := by
  obtain ⟨-, -, -, -, h5, h6, -, -⟩ := WritePointedChannel_keeps h
  exact SoundsAreValid_same h6 h5 hValid

/-- Every write to an SPU port keeps the invariant of the data model for the
loop bounds of every sound. -/
theorem WriteSPUPort_sounds (V : IOPortValues) (M : SPUMethods) (Port : SPULocalPorts)
    {SPU Q : V32SPU} (Value : V32Word) (h : WriteSPUPort V M Port SPU Value = some Q)
    (hValid : SoundsAreValid SPU) : SoundsAreValid Q := by
  cases Port with
  | Command =>
    simp only [WriteSPUPort, WriteSPUCommand] at h
    repeat' split at h
    · exact SoundsAreValid_channel h hValid
    · exact SoundsAreValid_channel h hValid
    · exact SoundsAreValid_channel h hValid
    · cases h; exact SoundsAreValid_same rfl rfl hValid
    · cases h; exact SoundsAreValid_same rfl rfl hValid
    · cases h; exact SoundsAreValid_same rfl rfl hValid
    · cases h; exact hValid
  | GlobalVolume =>
    simp only [WriteSPUPort, WriteSPUGlobalVolume, Option.some.injEq] at h
    subst h
    split
    · exact hValid
    · exact SoundsAreValid_same rfl rfl hValid
  | SelectedSound =>
    simp only [WriteSPUPort, WriteSPUSelectedSound, Option.some.injEq] at h
    subst h
    repeat' split
    · exact hValid
    · exact SoundsAreValid_same rfl rfl hValid
    · exact SoundsAreValid_same rfl rfl hValid
  | SelectedChannel =>
    simp only [WriteSPUPort, WriteSPUSelectedChannel, Option.some.injEq] at h
    subst h
    split
    · exact hValid
    · exact SoundsAreValid_same rfl rfl hValid
  | SoundLength =>
    simp only [WriteSPUPort, WriteSPUSoundLength, Option.some.injEq] at h
    subst h
    exact hValid
  | SoundPlayWithLoop =>
    exact SoundsAreValid_sound h (fun Old hOld hLength => hOld hLength) hValid
  | SoundLoopStart =>
    refine SoundsAreValid_sound h ?_ hValid
    intro Old hOld hLength
    obtain ⟨v1, v2, v3⟩ := hOld hLength
    have hRange := @Clamp_range Value.AsInteger 0 (Old.Length - 1)
      (by have : 1 ≤ Old.Length := hLength; omega)
    refine ⟨?_, ?_, v3⟩
    · show 0 ≤ min (Clamp Value.AsInteger 0 (Old.Length - 1)) Old.LoopEnd
      omega
    · show min (Clamp Value.AsInteger 0 (Old.Length - 1)) Old.LoopEnd ≤ Old.LoopEnd
      omega
  | SoundLoopEnd =>
    refine SoundsAreValid_sound h ?_ hValid
    intro Old hOld hLength
    obtain ⟨v1, v2, v3⟩ := hOld hLength
    have hRange := @Clamp_range Value.AsInteger 0 (Old.Length - 1)
      (by have : 1 ≤ Old.Length := hLength; omega)
    refine ⟨v1, ?_, ?_⟩
    · show Old.LoopStart ≤ max (Clamp Value.AsInteger 0 (Old.Length - 1)) Old.LoopStart
      omega
    · show max (Clamp Value.AsInteger 0 (Old.Length - 1)) Old.LoopStart ≤ Old.Length - 1
      omega
  | ChannelState =>
    simp only [WriteSPUPort, WriteSPUChannelState, Option.some.injEq] at h
    subst h
    exact hValid
  | ChannelAssignedSound =>
    simp only [WriteSPUPort, WriteSPUChannelAssignedSound] at h
    repeat' split at h
    · cases h; exact hValid
    · cases h
    · cases h; exact hValid
    · exact SoundsAreValid_channel h hValid
    · exact SoundsAreValid_channel h hValid
  | ChannelVolume =>
    simp only [WriteSPUPort, WriteSPUChannelVolume] at h
    split at h
    · cases h; exact hValid
    · exact SoundsAreValid_channel h hValid
  | ChannelSpeed =>
    simp only [WriteSPUPort, WriteSPUChannelSpeed] at h
    split at h
    · cases h; exact hValid
    · exact SoundsAreValid_channel h hValid
  | ChannelLoopEnabled => exact SoundsAreValid_channel h hValid
  | ChannelPosition =>
    simp only [WriteSPUPort, WriteSPUChannelPosition] at h
    repeat' split at h
    · cases h
    · cases h
    · exact SoundsAreValid_channel h hValid

/-- Every sequence of writes to SPU ports keeps the invariant of the data
model for the loop bounds of every sound. -/
theorem WriteSPUPorts_sounds (V : IOPortValues) (M : SPUMethods)
    (Writes : List (SPULocalPorts × V32Word)) {SPU Q : V32SPU}
    (h : WriteSPUPorts V M Writes SPU = some Q) (hValid : SoundsAreValid SPU) :
    SoundsAreValid Q := by
  induction Writes generalizing SPU with
  | nil =>
    simp only [WriteSPUPorts, Option.some.injEq] at h
    subst h
    exact hValid
  | cons Write Rest ih =>
    obtain ⟨Port, Value⟩ := Write
    simp only [WriteSPUPorts] at h
    cases hW : WriteSPUPort V M Port SPU Value with
    | none => simp [hW] at h
    | some R =>
      rw [hW] at h
      exact ih h (WriteSPUPort_sounds V M Port Value hW hValid)

/-- With a channel pointer that designates a channel, an assignment through
`PointedChannel` is defined, and the channel read back through the pointer is
the changed one. -/
theorem WritePointedChannel_reads {SPU : V32SPU} {Pointed : SPUChannel}
    (hPointed : SPU.ChannelAt SPU.PointedChannel = some Pointed)
    (Change : SPUChannel → SPUChannel) :
    ∃ Q, SPU.WritePointedChannel Change = some Q
      ∧ Q.PointedChannel = SPU.PointedChannel
      ∧ Q.ChannelAt Q.PointedChannel = some (Change Pointed) := by
  have hW : SPU.WritePointedChannel Change
      = some { SPU with
                 Channels := SPU.Channels.set SPU.PointedChannel.toNat (Change Pointed) } := by
    simp only [V32SPU.WritePointedChannel, hPointed]
  refine ⟨_, hW, rfl, ?_⟩
  unfold V32SPU.ChannelAt at hPointed ⊢
  by_cases hNeg : SPU.PointedChannel < 0
  · simp [hNeg] at hPointed
  · simp only [hNeg, if_false] at hPointed ⊢
    have hLt : SPU.PointedChannel.toNat < SPU.Channels.length := by
      by_contra hge
      rw [List.getElem?_eq_none (by omega)] at hPointed
      cases hPointed
    simp [List.getElem?_set_self', hLt]

/-- Claim C21: For a sound of length ≥ 1 whose loop bounds satisfy the
invariant of the data model, after a write of any 32-bit integer to the
loop-start or the loop-end port of the SPU the stored value lies in
[0, length − 1], and the invariant holds again; and for a channel whose current
sound has length ≥ 1, after a write of any 32-bit integer to the position port
the stored position is an integer (its fractional part is zero), namely the
value clamped to [0, length − 1].  The invariant of the data model, once it
holds for every sound, holds after every sequence of writes to SPU ports. -/
theorem C21_loop_bounds_and_position_in_range (V : IOPortValues) (M : SPUMethods)
    (SPU : V32SPU) (Value : V32Word) :
    (∀ Sound, SPU.SoundAt SPU.PointedSound = some Sound → 1 ≤ Sound.Length →
      SoundIsValid Sound →
      (∃ Q Changed, WriteSPUSoundLoopStart SPU Value = some Q
        ∧ Q.SoundAt Q.PointedSound = some Changed ∧ Changed.Length = Sound.Length
        ∧ 0 ≤ Changed.LoopStart ∧ Changed.LoopStart ≤ Sound.Length - 1
        ∧ SoundIsValid Changed)
      ∧ (∃ Q Changed, WriteSPUSoundLoopEnd SPU Value = some Q
        ∧ Q.SoundAt Q.PointedSound = some Changed ∧ Changed.Length = Sound.Length
        ∧ 0 ≤ Changed.LoopEnd ∧ Changed.LoopEnd ≤ Sound.Length - 1
        ∧ SoundIsValid Changed))
    ∧ (∀ Pointed Current, SPU.ChannelAt SPU.PointedChannel = some Pointed →
        SPU.SoundAt Pointed.CurrentSound = some Current → 1 ≤ Current.Length →
        ∃ Q Channel Stored, WriteSPUChannelPosition SPU Value = some Q
          ∧ Q.ChannelAt Q.PointedChannel = some Channel
          ∧ Channel.Position = ((Stored : Int) : ℚ)
          ∧ Stored = max 0 (min Value.AsInteger (Current.Length - 1))
          ∧ 0 ≤ Stored ∧ Stored ≤ Current.Length - 1)
    ∧ (SoundsAreValid SPU → ∀ Writes Q, WriteSPUPorts V M Writes SPU = some Q →
        SoundsAreValid Q) := by
  refine ⟨?_, ?_, fun hValid Writes Q hQ => WriteSPUPorts_sounds V M Writes hQ hValid⟩
  · intro Sound hPointed hLength ⟨v1, v2, v3⟩
    have hRange := @Clamp_range Value.AsInteger 0 (Sound.Length - 1) (by omega)
    constructor
    · have hDefined : ∃ Q, WriteSPUSoundLoopStart SPU Value = some Q := by
        simp [WriteSPUSoundLoopStart, V32SPU.WritePointedSound, hPointed]
      obtain ⟨Q, hQ⟩ := hDefined
      obtain ⟨-, -, -, -, -, -, Old, hOld, hNew⟩ := WritePointedSound_keeps hQ
      rw [hPointed] at hOld
      injection hOld with hOld
      subst hOld
      have hStored : min (Clamp Value.AsInteger 0 (Sound.Length - 1)) Sound.LoopEnd ≥ 0
          ∧ min (Clamp Value.AsInteger 0 (Sound.Length - 1)) Sound.LoopEnd
              ≤ Sound.Length - 1
          ∧ min (Clamp Value.AsInteger 0 (Sound.Length - 1)) Sound.LoopEnd ≤ Sound.LoopEnd := by
        omega
      exact ⟨Q, _, hQ, hNew, rfl, hStored.1, hStored.2.1, hStored.1, hStored.2.2, v3⟩
    · have hDefined : ∃ Q, WriteSPUSoundLoopEnd SPU Value = some Q := by
        simp [WriteSPUSoundLoopEnd, V32SPU.WritePointedSound, hPointed]
      obtain ⟨Q, hQ⟩ := hDefined
      obtain ⟨-, -, -, -, -, -, Old, hOld, hNew⟩ := WritePointedSound_keeps hQ
      rw [hPointed] at hOld
      injection hOld with hOld
      subst hOld
      have hStored : max (Clamp Value.AsInteger 0 (Sound.Length - 1)) Sound.LoopStart ≥ 0
          ∧ max (Clamp Value.AsInteger 0 (Sound.Length - 1)) Sound.LoopStart
              ≤ Sound.Length - 1
          ∧ Sound.LoopStart ≤ max (Clamp Value.AsInteger 0 (Sound.Length - 1)) Sound.LoopStart := by
        omega
      exact ⟨Q, _, hQ, hNew, rfl, hStored.1, hStored.2.1, v1, hStored.2.2, hStored.2.1⟩
  · intro Pointed Current hPointed hCurrent hLength
    have hRange : (0 : Int) ≤ Current.Length - 1 := by omega
    obtain ⟨Q, hQ, hP, hR⟩ := WritePointedChannel_reads hPointed
      (fun Channel =>
        { Channel with
            Position := ((Clamp Value.AsInteger 0 (Current.Length - 1) : Int) : ℚ) })
    refine ⟨Q, _, Clamp Value.AsInteger 0 (Current.Length - 1), ?_, hR, rfl,
      Clamp_eq_max_min hRange, (Clamp_range hRange).1, (Clamp_range hRange).2⟩
    simp only [WriteSPUChannelPosition, hPointed, hCurrent]
    exact hQ

/-- On the sample console, whose BIOS sound has 100 samples and the loop from
20 to 60, and whose channel 5 plays the BIOS sound: the writes of 500 to the
loop end, of −3 to the loop start and of 500 and −3 to the position store 99,
0, 99 and 0. -/
theorem C21_loop_bounds_and_position_in_range_witness :
    (WriteSPUPorts SampleValues SampleSPUMethods
        [(.SoundLoopEnd, V32Word.OfInteger 500), (.SoundLoopStart, V32Word.OfInteger (-3))]
        SampleSPU).map (fun Q => (Q.BiosSound.LoopStart, Q.BiosSound.LoopEnd)) = some (0, 99)
    ∧ (WriteSPUPorts SampleValues SampleSPUMethods [(.ChannelPosition, V32Word.OfInteger 500)]
        SampleSPU).map (fun Q => Q.Channels.map (fun C => C.Position))
        = some ((List.replicate 16 (0 : ℚ)).set 5 99)
    ∧ (WriteSPUPorts SampleValues SampleSPUMethods [(.ChannelPosition, V32Word.OfInteger (-3))]
        SamplePlaying).map (fun Q => Q.Channels.map (fun C => C.Position))
        = some (List.replicate 16 (0 : ℚ))
    ∧ (∃ Q Changed, WriteSPUSoundLoopStart SampleSPU (V32Word.OfInteger (-3)) = some Q
        ∧ Q.SoundAt Q.PointedSound = some Changed
        ∧ Changed.Length = SampleSPU.BiosSound.Length
        ∧ 0 ≤ Changed.LoopStart ∧ Changed.LoopStart ≤ SampleSPU.BiosSound.Length - 1
        ∧ SoundIsValid Changed) :=
  ⟨by decide!, by decide!, by decide!,
    ((C21_loop_bounds_and_position_in_range SampleValues SampleSPUMethods SampleSPU
      (V32Word.OfInteger (-3))).1
      SampleSPU.BiosSound rfl (by decide) (by unfold SoundIsValid; decide)).1⟩

/-! ## Theorems: clamped float writes -/

theorem MagnitudeOfBits_succ (Bits : Nat) : MagnitudeOfBits Bits < MagnitudeOfBits (Bits + 1) := by
  unfold MagnitudeOfBits
  by_cases hCarry : Bits % 8388608 + 1 = 8388608
  · have hDiv : (Bits + 1) / 8388608 = Bits / 8388608 + 1 := by omega
    have hMod : (Bits + 1) % 8388608 = 0 := by omega
    have hNext : ¬ (Bits / 8388608 + 1 = 0) := by omega
    rw [hDiv, hMod, if_neg hNext]
    simp only [Nat.add_sub_cancel, Nat.add_zero]
    by_cases hE : Bits / 8388608 = 0
    · rw [if_pos hE, hE]
      simp only [Nat.pow_zero]
      omega
    · rw [if_neg hE]
      have hPow : 2 ^ (Bits / 8388608) = 2 * 2 ^ (Bits / 8388608 - 1) := by
        rw [← Nat.pow_succ']
        congr 1
        omega
      have hPos : 0 < 2 ^ (Bits / 8388608 - 1) := Nat.pow_pos (by omega)
      rw [hPow]
      nlinarith
  · have hDiv : (Bits + 1) / 8388608 = Bits / 8388608 := by omega
    have hMod : (Bits + 1) % 8388608 = Bits % 8388608 + 1 := by omega
    rw [hDiv, hMod]
    by_cases hE : Bits / 8388608 = 0
    · rw [if_pos hE, if_pos hE]
      omega
    · rw [if_neg hE, if_neg hE]
      have hPos : 0 < 2 ^ (Bits / 8388608 - 1) := Nat.pow_pos (by omega)
      nlinarith

theorem MagnitudeOfBits_strictMono : StrictMono MagnitudeOfBits :=
  strictMono_nat_of_lt_succ MagnitudeOfBits_succ

theorem MagnitudeOfBits_zero : MagnitudeOfBits 0 = 0 := by decide

/-- The order of the keys is the order of the values in units of 2^−149. -/
theorem Key_lt_iff_Scaled_lt (F G : Float32) : F.Key < G.Key ↔ F.Scaled < G.Scaled := by
  have hLt : ∀ a b : Nat, MagnitudeOfBits a < MagnitudeOfBits b ↔ a < b :=
    fun a b => MagnitudeOfBits_strictMono.lt_iff_lt
  have hZero : ∀ a : Nat, MagnitudeOfBits a = 0 ↔ a = 0 := by
    intro a
    constructor
    · intro h
      by_contra hne
      have := (hLt 0 a).mpr (by omega)
      rw [MagnitudeOfBits_zero] at this
      omega
    · intro h; rw [h, MagnitudeOfBits_zero]
  unfold Float32.Key Float32.Scaled Float32.Magnitude
  have h1 := hLt (F.Bits % 2147483648) (G.Bits % 2147483648)
  have h2 := hLt (G.Bits % 2147483648) (F.Bits % 2147483648)
  have h3 := hZero (F.Bits % 2147483648)
  have h4 := hZero (G.Bits % 2147483648)
  by_cases hF : F.Sign = true <;> by_cases hG : G.Sign = true <;>
    simp only [hF, hG, if_true, if_false, Bool.false_eq_true] <;> omega

/-- The order of the values is the order of the values in units of 2^−149. -/
theorem Value_lt_iff_Scaled_lt (F G : Float32) : F.Value < G.Value ↔ F.Scaled < G.Scaled := by
  unfold Float32.Value
  rw [div_lt_div_iff_of_pos_right (by positivity)]
  exact Int.cast_lt

/-- The comparison of two numbers that are not NaNs is the comparison of their
values. -/
theorem Less_iff_Value_lt {F G : Float32} (hF : F.isnan = false) (hG : G.isnan = false) :
    F.Less G = true ↔ F.Value < G.Value := by
  rw [Value_lt_iff_Scaled_lt, ← Key_lt_iff_Scaled_lt]
  simp [Float32.Less, hF, hG]

/-- The clamp of a number that is not a NaN between two bounds that convert
exactly: the number itself inside the range, the nearer bound outside. -/
theorem ClampFloat_stores {Written : Float32} {Minimum Maximum : Int}
    (hWritten : Written.isnan = false)
    (hMinimum : (Float32.OfInt Minimum).isnan = false)
    (hMaximum : (Float32.OfInt Maximum).isnan = false)
    (hMinimumValue : (Float32.OfInt Minimum).Value = (Minimum : ℚ))
    (hMaximumValue : (Float32.OfInt Maximum).Value = (Maximum : ℚ))
    (hRange : Minimum ≤ Maximum) :
    StoresClamped Written (ClampFloat Written Minimum Maximum) Minimum Maximum := by
  have hLow := Less_iff_Value_lt hWritten hMinimum
  have hHigh := Less_iff_Value_lt hMaximum hWritten
  rw [hMinimumValue] at hLow
  rw [hMaximumValue] at hHigh
  have hRangeQ : (Minimum : ℚ) ≤ (Maximum : ℚ) := Int.cast_le.mpr hRange
  unfold StoresClamped ClampFloat
  by_cases hL : Written.Less (Float32.OfInt Minimum) = true
  · have hLt := hLow.mp hL
    rw [if_pos hL]
    refine ⟨fun h => absurd hLt (not_lt.mpr h.1), fun _ => rfl,
      fun h => absurd (lt_of_le_of_lt hRangeQ h) (not_lt.mpr (le_of_lt hLt))⟩
  · have hGe : ¬ Written.Value < (Minimum : ℚ) := fun h => hL (hLow.mpr h)
    rw [if_neg hL]
    by_cases hH : (Float32.OfInt Maximum).Less Written = true
    · have hGt := hHigh.mp hH
      rw [if_pos hH]
      exact ⟨fun h => absurd hGt (not_lt.mpr h.2), fun h => absurd h hGe, fun _ => rfl⟩
    · have hLe : ¬ (Maximum : ℚ) < Written.Value := fun h => hH (hHigh.mpr h)
      rw [if_neg hH]
      exact ⟨fun _ => rfl, fun h => absurd h hGe, fun h => absurd h hLe⟩

/-- A number whose value in units of 2^−149 is n · 2^149 has the value n. -/
theorem Value_of_Scaled {F : Float32} {Number : Int} (h : F.Scaled = Number * 2 ^ 149) :
    F.Value = (Number : ℚ) := by
  unfold Float32.Value
  rw [h, Int.cast_mul, Int.cast_pow, Int.cast_ofNat]
  exact mul_div_cancel_right₀ _ (by positivity)

theorem log2_1024 : Nat.log2 1024 = 10 := by
  rw [Nat.log2_eq_log_two]
  exact (Nat.log_eq_iff (Or.inl (by norm_num))).mpr (by norm_num)

/-- The single-precision number 1024.0 is the word 0x44800000. -/
theorem OfInt_1024 : Float32.OfInt 1024 = ⟨1149239296⟩ := by
  have hAbs : (1024 : Int).natAbs = 1024 := rfl
  unfold Float32.OfInt
  rw [if_neg (by norm_num)]
  simp only [hAbs, log2_1024]
  norm_num

/-- The single-precision number −1024.0 is the word 0xC4800000. -/
theorem OfInt_minus_1024 : Float32.OfInt (-1024) = ⟨3296722944⟩ := by
  have hAbs : (-1024 : Int).natAbs = 1024 := rfl
  unfold Float32.OfInt
  rw [if_neg (by norm_num)]
  simp only [hAbs, log2_1024]
  norm_num

/-- The bound −1024 converts to single precision exactly, and not to a NaN. -/
theorem OfInt_low :
    (Float32.OfInt (-1024)).Value = ((-1024 : Int) : ℚ) ∧ (Float32.OfInt (-1024)).isnan = false := by
  rw [OfInt_minus_1024]
  have h : (⟨3296722944⟩ : Float32).Scaled = -1024 * 2 ^ 149 := by decide!
  exact ⟨Value_of_Scaled h, by decide!⟩

/-- The bound 1024 converts to single precision exactly, and not to a NaN. -/
theorem OfInt_high :
    (Float32.OfInt 1024).Value = ((1024 : Int) : ℚ) ∧ (Float32.OfInt 1024).isnan = false := by
  rw [OfInt_1024]
  have h : (⟨1149239296⟩ : Float32).Scaled = 1024 * 2 ^ 149 := by decide!
  exact ⟨Value_of_Scaled h, by decide!⟩

/-- The bound 0 converts to single precision exactly, and not to a NaN. -/
theorem OfInt_zero :
    (Float32.OfInt 0).Value = ((0 : Int) : ℚ) ∧ (Float32.OfInt 0).isnan = false := by
  have h0 : (Float32.OfInt 0).Scaled = 0 := by decide!
  have h : (Float32.OfInt 0).Scaled = 0 * 2 ^ 149 := by rw [h0]; norm_num
  exact ⟨Value_of_Scaled h, by decide!⟩

/-- The bound 2 converts to single precision exactly, and not to a NaN. -/
theorem OfInt_two :
    (Float32.OfInt 2).Value = ((2 : Int) : ℚ) ∧ (Float32.OfInt 2).isnan = false := by
  have h : (Float32.OfInt 2).Scaled = 2 * 2 ^ 149 := by decide!
  exact ⟨Value_of_Scaled h, by decide!⟩

/-- The bound 8 converts to single precision exactly, and not to a NaN. -/
theorem OfInt_eight :
    (Float32.OfInt 8).Value = ((8 : Int) : ℚ) ∧ (Float32.OfInt 8).isnan = false := by
  have h : (Float32.OfInt 8).Scaled = 8 * 2 ^ 149 := by decide!
  exact ⟨Value_of_Scaled h, by decide!⟩

/-- The bound 128 converts to single precision exactly, and not to a NaN. -/
theorem OfInt_top :
    (Float32.OfInt 128).Value = ((128 : Int) : ℚ) ∧ (Float32.OfInt 128).isnan = false := by
  have h : (Float32.OfInt 128).Scaled = 128 * 2 ^ 149 := by decide!
  exact ⟨Value_of_Scaled h, by decide!⟩

/-- Claim C24: For every finite float v (a word that is neither a NaN nor an
infinity), a write of v to a clamped float port is carried out and stores v
clamped to the range of the port: [−1024, 1024] for the drawing scale X, the
drawing scale Y and the drawing angle of the GPU, [0, 2] for the global volume
of the SPU, and, the channel pointer designating a channel, [0, 8] for the
volume and [0, 128] for the speed of that channel.  The stored number is v
itself when the value of v lies in the range, the lower bound when it lies
below and the upper bound when it lies above; every other member of the
controller, and of the channel, is kept; and the six bounds are stored as
single-precision numbers of exactly their value. -/
theorem C24_finite_float_writes_clamped (K : Constants) (V : IOPortValues)
    (M : GPUMethods) (N : SPUMethods) (S : VideoState) (SPU : V32SPU) (Value : V32Word)
    (hFinite : Value.AsFloat.IsFinite = true) :
    (∃ Stored, WriteGPUPort K V M .DrawingScaleX S Value
          = some { S with GPU := { S.GPU with DrawingScaleX := Stored } }
        ∧ StoresClamped Value.AsFloat Stored (-1024) 1024)
    ∧ (∃ Stored, WriteGPUPort K V M .DrawingScaleY S Value
          = some { S with GPU := { S.GPU with DrawingScaleY := Stored } }
        ∧ StoresClamped Value.AsFloat Stored (-1024) 1024)
    ∧ (∃ Stored, WriteGPUPort K V M .DrawingAngle S Value
          = some { S with GPU := { S.GPU with DrawingAngle := Stored } }
        ∧ StoresClamped Value.AsFloat Stored (-1024) 1024)
    ∧ (∃ Stored, WriteSPUPort V N .GlobalVolume SPU Value
          = some { SPU with GlobalVolume := Stored }
        ∧ StoresClamped Value.AsFloat Stored 0 2)
    ∧ (∀ Pointed, SPU.ChannelAt SPU.PointedChannel = some Pointed →
        ∃ Q Stored, WriteSPUPort V N .ChannelVolume SPU Value = some Q
          ∧ Q.PointedChannel = SPU.PointedChannel
          ∧ Q.ChannelAt Q.PointedChannel = some { Pointed with Volume := Stored }
          ∧ StoresClamped Value.AsFloat Stored 0 8)
    ∧ (∀ Pointed, SPU.ChannelAt SPU.PointedChannel = some Pointed →
        ∃ Q Stored, WriteSPUPort V N .ChannelSpeed SPU Value = some Q
          ∧ Q.PointedChannel = SPU.PointedChannel
          ∧ Q.ChannelAt Q.PointedChannel = some { Pointed with Speed := Stored }
          ∧ StoresClamped Value.AsFloat Stored 0 128)
    ∧ ((Float32.OfInt (-1024)).Value = ((-1024 : Int) : ℚ)
        ∧ (Float32.OfInt 1024).Value = ((1024 : Int) : ℚ)
        ∧ (Float32.OfInt 0).Value = ((0 : Int) : ℚ)
        ∧ (Float32.OfInt 2).Value = ((2 : Int) : ℚ)
        ∧ (Float32.OfInt 8).Value = ((8 : Int) : ℚ)
        ∧ (Float32.OfInt 128).Value = ((128 : Int) : ℚ)) := by
  have hNan : Value.AsFloat.isnan = false := by
    unfold Float32.IsFinite at hFinite
    cases h : Value.AsFloat.isnan
    · rfl
    · rw [h] at hFinite; simp at hFinite
  have hInf : Value.AsFloat.isinf = false := by
    unfold Float32.IsFinite at hFinite
    cases h : Value.AsFloat.isinf
    · rfl
    · rw [h] at hFinite; simp at hFinite
  have hNot : (Value.AsFloat.isnan || Value.AsFloat.isinf) = false := by rw [hNan, hInf]; rfl
  have hScale : StoresClamped Value.AsFloat (ClampFloat Value.AsFloat (-1024) 1024) (-1024) 1024 :=
    ClampFloat_stores hNan OfInt_low.2 OfInt_high.2 OfInt_low.1 OfInt_high.1 (by norm_num)
  have hGlobal : StoresClamped Value.AsFloat (ClampFloat Value.AsFloat 0 2) 0 2 :=
    ClampFloat_stores hNan OfInt_zero.2 OfInt_two.2 OfInt_zero.1 OfInt_two.1 (by norm_num)
  have hVolume : StoresClamped Value.AsFloat (ClampFloat Value.AsFloat 0 8) 0 8 :=
    ClampFloat_stores hNan OfInt_zero.2 OfInt_eight.2 OfInt_zero.1 OfInt_eight.1 (by norm_num)
  have hSpeed : StoresClamped Value.AsFloat (ClampFloat Value.AsFloat 0 128) 0 128 :=
    ClampFloat_stores hNan OfInt_zero.2 OfInt_top.2 OfInt_zero.1 OfInt_top.1 (by norm_num)
  refine ⟨⟨ClampFloat Value.AsFloat (-1024) 1024, ?_, hScale⟩,
    ⟨ClampFloat Value.AsFloat (-1024) 1024, ?_, hScale⟩,
    ⟨ClampFloat Value.AsFloat (-1024) 1024, ?_, hScale⟩,
    ⟨ClampFloat Value.AsFloat 0 2, ?_, hGlobal⟩, ?_, ?_,
    OfInt_low.1, OfInt_high.1, OfInt_zero.1, OfInt_two.1, OfInt_eight.1, OfInt_top.1⟩
  · simp only [WriteGPUPort, WriteGPUDrawingScaleX, hNot]
    rfl
  · simp only [WriteGPUPort, WriteGPUDrawingScaleY, hNot]
    rfl
  · simp only [WriteGPUPort, WriteGPUDrawingAngle, hNot]
    rfl
  · simp only [WriteSPUPort, WriteSPUGlobalVolume, hNot]
    rfl
  · intro Pointed hPointed
    obtain ⟨Q, hQ, hP, hR⟩ := WritePointedChannel_reads hPointed
      (fun Channel => { Channel with Volume := ClampFloat Value.AsFloat 0 8 })
    refine ⟨Q, ClampFloat Value.AsFloat 0 8, ?_, hP, hR, hVolume⟩
    simp only [WriteSPUPort, WriteSPUChannelVolume, hNot]
    exact hQ
  · intro Pointed hPointed
    obtain ⟨Q, hQ, hP, hR⟩ := WritePointedChannel_reads hPointed
      (fun Channel => { Channel with Speed := ClampFloat Value.AsFloat 0 128 })
    refine ⟨Q, ClampFloat Value.AsFloat 0 128, ?_, hP, hR, hSpeed⟩
    simp only [WriteSPUPort, WriteSPUChannelSpeed, hNot]
    exact hQ

/-- On the sample console: the words 0x44FA0000 (2000.0), 0xC0400000 (−3.0)
and 0x3F000000 (0.5) are finite floats; writing 2000.0 to the drawing scale X
stores 1024.0 (the word 0x44800000), writing −3.0 to the volume of the pointed
channel stores 0.0, and writing 0.5 to the global volume stores 0.5. -/
theorem C24_finite_float_writes_clamped_witness :
    ((⟨1157234688⟩ : V32Word).AsFloat.IsFinite = true
      ∧ (⟨3225419776⟩ : V32Word).AsFloat.IsFinite = true
      ∧ (⟨1056964608⟩ : V32Word).AsFloat.IsFinite = true)
    ∧ ((⟨1157234688⟩ : V32Word).AsFloat.Value = 2000
      ∧ (⟨3225419776⟩ : V32Word).AsFloat.Value = -3
      ∧ (⟨1056964608⟩ : V32Word).AsFloat.Value = 1 / 2)
    ∧ (WriteGPUPort SampleConstants SampleValues SampleGPUMethods .DrawingScaleX SampleVideo
          ⟨1157234688⟩).map (fun Q => Q.GPU.DrawingScaleX) = some ⟨1149239296⟩
    ∧ (∃ Q, WriteSPUPort SampleValues SampleSPUMethods .ChannelVolume SampleSPU ⟨3225419776⟩
          = some Q
        ∧ (Q.ChannelAt Q.PointedChannel).map (fun Channel => Channel.Volume) = some ⟨0⟩)
    ∧ (WriteSPUPort SampleValues SampleSPUMethods .GlobalVolume SampleSPU ⟨1056964608⟩).map
        (fun Q => Q.GlobalVolume) = some ⟨1056964608⟩ := by
  have hLarge : (⟨1157234688⟩ : V32Word).AsFloat.Value = ((2000 : Int) : ℚ) :=
    Value_of_Scaled (by decide!)
  have hNegative : (⟨3225419776⟩ : V32Word).AsFloat.Value = ((-3 : Int) : ℚ) :=
    Value_of_Scaled (by decide!)
  have hHalf : (⟨1056964608⟩ : V32Word).AsFloat.Value = 1 / 2 := by
    have h : (⟨1056964608⟩ : V32Word).AsFloat.Scaled = 2 ^ 148 := by decide!
    unfold Float32.Value
    rw [h, Int.cast_pow, Int.cast_ofNat]
    norm_num
  refine ⟨by decide, ⟨by rw [hLarge]; norm_num, by rw [hNegative]; norm_num, hHalf⟩, ?_, ?_, ?_⟩
  · obtain ⟨Stored, hWrite, hStored⟩ :=
      (C24_finite_float_writes_clamped SampleConstants SampleValues SampleGPUMethods
        SampleSPUMethods SampleVideo SampleSPU ⟨1157234688⟩ (by decide)).1
    have hBound : Stored = Float32.OfInt 1024 := hStored.2.2 (by rw [hLarge]; norm_num)
    rw [hWrite, hBound, OfInt_1024]
    rfl
  · obtain ⟨Q, Stored, hWrite, _, hRead, hStored⟩ :=
      (C24_finite_float_writes_clamped SampleConstants SampleValues SampleGPUMethods
        SampleSPUMethods SampleVideo SampleSPU ⟨3225419776⟩ (by decide)).2.2.2.2.1
        SampleChannel (by decide!)
    have hBound : Stored = Float32.OfInt 0 := hStored.2.1 (by rw [hNegative]; norm_num)
    refine ⟨Q, hWrite, ?_⟩
    rw [hRead, hBound]
    rfl
  · obtain ⟨Stored, hWrite, hStored⟩ :=
      (C24_finite_float_writes_clamped SampleConstants SampleValues SampleGPUMethods
        SampleSPUMethods SampleVideo SampleSPU ⟨1056964608⟩ (by decide)).2.2.2.1
    have hInside : Stored = (⟨1056964608⟩ : V32Word).AsFloat :=
      hStored.1 ⟨by rw [hHalf]; norm_num, by rw [hHalf]; norm_num⟩
    rw [hWrite, hInside]
    rfl

/-! ## Theorems: file paths -/

/-- No position is found exactly when the character does not occur. -/
theorem rfind_eq_none {Text : List Char} {c : Char} : rfind Text c = none ↔ c ∉ Text := by
  induction Text with
  | nil => simp [rfind]
  | cons First Rest ih =>
    cases h : rfind Rest c with
    | some Position =>
      have hIn : ¬ c ∉ Rest := fun hNot => by rw [ih.mpr hNot] at h; cases h
      simp only [rfind, h, List.mem_cons, not_or]
      constructor
      · intro hFalse; cases hFalse
      · intro hNot; exact absurd hNot.2 hIn
    | none =>
      have hNot := ih.mp h
      by_cases hc : First = c
      · simp [rfind, h, hc]
      · simp only [rfind, h, if_neg hc, List.mem_cons, not_or, true_iff]
        exact ⟨fun hEq => hc hEq.symm, hNot⟩

/-- The position found is that of an occurrence after which the character
does not occur again. -/
theorem rfind_eq_some {Text : List Char} {c : Char} {Position : Nat}
    (h : rfind Text c = some Position) :
    Position < Text.length
    ∧ Text = Text.take Position ++ c :: Text.drop (Position + 1)
    ∧ c ∉ Text.drop (Position + 1) := by
  induction Text generalizing Position with
  | nil => simp [rfind] at h
  | cons First Rest ih =>
    cases hRest : rfind Rest c with
    | some Inner =>
      simp only [rfind, hRest, Option.some.injEq] at h
      subst h
      obtain ⟨h1, h2, h3⟩ := ih hRest
      refine ⟨by simp only [List.length_cons]; omega, ?_, by simpa using h3⟩
      simp only [List.take_succ_cons, List.drop_succ_cons, List.cons_append, List.cons.injEq,
        true_and]
      exact h2
    | none =>
      by_cases hc : First = c
      · simp only [rfind, hRest, if_pos hc, Option.some.injEq] at h
        subst h
        subst hc
        refine ⟨by simp, by simp, ?_⟩
        simpa using rfind_eq_none.mp hRest
      · simp [rfind, hRest, hc] at h

/-- The last occurrence in a text that ends with the character followed by
characters other than it. -/
theorem rfind_append {Before After : List Char} {c : Char} (h : c ∉ After) :
    rfind (Before ++ c :: After) c = some Before.length := by
  induction Before with
  | nil => simp [rfind, rfind_eq_none.mpr h]
  | cons First Rest ih => simp [rfind, ih]

/-- The characters up to and including the one at which a text is split. -/
theorem take_succ_of_split {Text : List Char} {c : Char} {Position : Nat}
    (hLt : Position < Text.length)
    (hSplit : Text = Text.take Position ++ c :: Text.drop (Position + 1)) :
    Text.take (Position + 1) = Text.take Position ++ [c] := by
  have hAt : Text[Position]? = some c := by
    have hLength : (Text.take Position).length = Position := by
      simp [List.length_take, Nat.min_eq_left (Nat.le_of_lt hLt)]
    rw [hSplit, List.getElem?_append_right (by omega), hLength]
    simp
  rw [List.take_succ, hAt]
  rfl

/-- The concatenation of two strings, on their characters. -/
theorem String_append_mk (First Second : List Char) :
    (⟨First⟩ : String) ++ (⟨Second⟩ : String) = ⟨First ++ Second⟩ := rfl

/-- Claim C38: For every path p that contains a dot and every extension e that
contains no dot, the extension of `ReplaceFileExtension( p, e )` is e and its
part without extension is the part without extension of p; and for every path
p, replacing the extension of p by the extension of p gives p. -/
theorem C38_replace_extension_round_trip (FilePath NewExtension : String) :
    ('.' ∈ FilePath.data → '.' ∉ NewExtension.data →
      GetFileExtension (ReplaceFileExtension FilePath NewExtension) = NewExtension
      ∧ GetFileWithoutExtension (ReplaceFileExtension FilePath NewExtension)
          = GetFileWithoutExtension FilePath)
    ∧ ReplaceFileExtension FilePath (GetFileExtension FilePath) = FilePath := by
  obtain ⟨Text⟩ := FilePath
  obtain ⟨Extension⟩ := NewExtension
  cases hFind : rfind Text '.' with
  | none =>
    have hNot := rfind_eq_none.mp hFind
    refine ⟨fun hIn => absurd hIn hNot, ?_⟩
    simp [ReplaceFileExtension, GetFileExtension, hFind, substr, String_append_mk]
  | some DotPosition =>
    obtain ⟨hLt, hSplit, hAfter⟩ := rfind_eq_some hFind
    have hTake : Text.take (DotPosition + 1) = Text.take DotPosition ++ ['.'] := by
      exact take_succ_of_split hLt hSplit
    have hLength : (Text.take DotPosition).length = DotPosition := by
      simp [List.length_take, Nat.min_eq_left (Nat.le_of_lt hLt)]
    have hReplace : ∀ New : List Char,
        ReplaceFileExtension ⟨Text⟩ ⟨New⟩ = ⟨Text.take DotPosition ++ '.' :: New⟩ := by
      intro New
      have hCut : Text.length - (Text.length - (DotPosition + 1)) = DotPosition + 1 := by omega
      simp [ReplaceFileExtension, GetFileExtension, hFind, substr, substrFrom,
        String_append_mk, hCut, hTake]
    refine ⟨fun _ hNew => ?_, ?_⟩
    · have hNewFind : rfind (Text.take DotPosition ++ '.' :: Extension) '.'
          = some DotPosition := by
        rw [rfind_append hNew, hLength]
      rw [hReplace]
      constructor
      · simp only [GetFileExtension, hNewFind, substrFrom]
        congr 1
        rw [List.drop_append_eq_append_drop]
        simp [hLength]
      · simp only [GetFileWithoutExtension, hNewFind, hFind, substr, List.drop_zero]
        congr 1
        rw [List.take_append_eq_append_take]
        simp [hLength]
    · have hExt : GetFileExtension ⟨Text⟩ = ⟨Text.drop (DotPosition + 1)⟩ := by
        simp [GetFileExtension, hFind, substrFrom]
      rw [hExt, hReplace]
      congr 1
      exact hSplit.symm

/-- On the path `src/main.asm` and the extension `vbin`: the path has a dot,
the extension has none, the replaced path is `src/main.vbin`, its extension is
`vbin` and its part without extension `src/main`; for the path `a.tar.gz` the
part without extension is `a.tar`. -/
theorem C38_replace_extension_round_trip_witness :
    ('.' ∈ ("src/main.asm" : String).data ∧ '.' ∉ ("vbin" : String).data)
    ∧ ReplaceFileExtension "src/main.asm" "vbin" = "src/main.vbin"
    ∧ (GetFileExtension (ReplaceFileExtension "src/main.asm" "vbin") = "vbin"
      ∧ GetFileWithoutExtension (ReplaceFileExtension "src/main.asm" "vbin")
          = GetFileWithoutExtension "src/main.asm")
    ∧ GetFileWithoutExtension "src/main.asm" = "src/main"
    ∧ GetFileWithoutExtension "a.tar.gz" = "a.tar" :=
  ⟨by decide, by decide,
   (C38_replace_extension_round_trip "src/main.asm" "vbin").1 (by decide) (by decide),
   by decide, by decide⟩

/-- A normalized path holds no separator of the other kind. -/
theorem NormalizePathSeparators_other (Windows : Bool) (Text : List Char) :
    (if Windows then '/' else '\\') ∉ Text.map (NormalizeSeparator Windows) := by
  intro hIn
  obtain ⟨c, -, hc⟩ := List.mem_map.mp hIn
  cases Windows with
  | false =>
    simp only [NormalizeSeparator, Bool.false_eq_true, if_false] at hc
    by_cases h : c = '\\'
    · rw [if_pos h] at hc
      exact absurd hc (by decide)
    · rw [if_neg h] at hc
      exact h hc
  | true =>
    simp only [NormalizeSeparator, if_true] at hc
    by_cases h : c = '/'
    · rw [if_pos h] at hc
      exact absurd hc (by decide)
    · rw [if_neg h] at hc
      exact h hc

/-- A path with a separator of either kind has, once normalized, the separator
of the platform. -/
theorem NormalizePathSeparators_has (Windows : Bool) {Text : List Char}
    (h : '/' ∈ Text ∨ '\\' ∈ Text) :
    PathSeparator Windows ∈ Text.map (NormalizeSeparator Windows) := by
  cases Windows with
  | false =>
    rcases h with h | h
    · exact List.mem_map.mpr ⟨'/', h, by decide⟩
    · exact List.mem_map.mpr ⟨'\\', h, by decide⟩
  | true =>
    rcases h with h | h
    · exact List.mem_map.mpr ⟨'/', h, by decide⟩
    · exact List.mem_map.mpr ⟨'\\', h, by decide⟩

/-- A path without separators is its own normalized path. -/
theorem NormalizePathSeparators_none (Windows : Bool) {Text : List Char}
    (h : ¬ ('/' ∈ Text ∨ '\\' ∈ Text)) : Text.map (NormalizeSeparator Windows) = Text := by
  have hAll : ∀ c ∈ Text, NormalizeSeparator Windows c = c := by
    intro c hc
    have h1 : c ≠ '/' := fun hEq => h (Or.inl (hEq ▸ hc))
    have h2 : c ≠ '\\' := fun hEq => h (Or.inr (hEq ▸ hc))
    cases Windows <;> simp [NormalizeSeparator, h1, h2]
  calc Text.map (NormalizeSeparator Windows) = Text.map id := List.map_congr_left hAll
    _ = Text := List.map_id Text

/-- Claim C37: For every path p that contains a path separator (`/` or `\`),
`GetPathDirectory( p )` followed by `GetPathFileName( p )` is
`NormalizePathSeparators( p )`, the directory part ends with the separator of
the platform and the file-name part contains no separator of either kind; for
a path with no separator, `GetPathDirectory` returns `.` followed by the
separator of the platform and `GetPathFileName` returns p.  This holds on both
platforms. -/
theorem C37_directory_and_file_name_split_path (Windows : Bool) (FilePath : String) :
    (HasSeparator FilePath →
      GetPathDirectory Windows FilePath ++ GetPathFileName Windows FilePath
        = NormalizePathSeparators Windows FilePath
      ∧ (GetPathDirectory Windows FilePath).data.getLast? = some (PathSeparator Windows)
      ∧ '/' ∉ (GetPathFileName Windows FilePath).data
      ∧ '\\' ∉ (GetPathFileName Windows FilePath).data)
    ∧ (¬ HasSeparator FilePath →
      GetPathDirectory Windows FilePath = "." ++ String.singleton (PathSeparator Windows)
      ∧ GetPathFileName Windows FilePath = FilePath) := by
  obtain ⟨Text⟩ := FilePath
  constructor
  · intro hHas
    have hIn := NormalizePathSeparators_has Windows hHas
    have hOther := NormalizePathSeparators_other Windows Text
    cases hFind : rfind (Text.map (NormalizeSeparator Windows)) (PathSeparator Windows) with
    | none => exact absurd hIn (rfind_eq_none.mp hFind)
    | some SlashPosition =>
      obtain ⟨hLt, hSplit, hAfter⟩ := rfind_eq_some hFind
      have hDirectory : GetPathDirectory Windows ⟨Text⟩
          = ⟨(Text.map (NormalizeSeparator Windows)).take (SlashPosition + 1)⟩ := by
        simp [GetPathDirectory, NormalizePathSeparators, hFind, substr]
      have hName : GetPathFileName Windows ⟨Text⟩
          = ⟨(Text.map (NormalizeSeparator Windows)).drop (SlashPosition + 1)⟩ := by
        simp only [GetPathFileName, NormalizePathSeparators, hFind, substr]
        by_cases hShort : (Text.map (NormalizeSeparator Windows)).length < SlashPosition + 2
        · rw [if_pos hShort]
          have : (Text.map (NormalizeSeparator Windows)).drop (SlashPosition + 1) = [] :=
            List.drop_eq_nil_of_le (by omega)
          rw [this]
        · rw [if_neg hShort]
          congr 1
          exact List.take_of_length_le (by simp only [List.length_drop]; omega)
      have hTake : (Text.map (NormalizeSeparator Windows)).take (SlashPosition + 1)
          = (Text.map (NormalizeSeparator Windows)).take SlashPosition
            ++ [PathSeparator Windows] := by
        exact take_succ_of_split hLt hSplit
      have hSub : ∀ c, c ∈ (Text.map (NormalizeSeparator Windows)).drop (SlashPosition + 1) →
          c ∈ Text.map (NormalizeSeparator Windows) := fun c hc => List.mem_of_mem_drop hc
      rw [hDirectory, hName]
      refine ⟨?_, ?_, ?_, ?_⟩
      · rw [String_append_mk, List.take_append_drop]
        rfl
      · simp [hTake]
      · cases Windows with
        | false => exact hAfter
        | true => exact fun hc => hOther (hSub _ hc)
      · cases Windows with
        | false => exact fun hc => hOther (hSub _ hc)
        | true => exact hAfter
  · intro hNone
    have hSame := NormalizePathSeparators_none Windows hNone
    have hNot : PathSeparator Windows ∉ Text.map (NormalizeSeparator Windows) := by
      rw [hSame]
      cases Windows with
      | false => exact fun h => hNone (Or.inl h)
      | true => exact fun h => hNone (Or.inr h)
    have hFind := rfind_eq_none.mpr hNot
    simp [GetPathDirectory, GetPathFileName, NormalizePathSeparators, hFind]

/-- On the path `lib\io/file.asm`, which holds both kinds of separator: on a
platform with forward slashes the directory is `lib/io/` and the file name
`file.asm`; on a platform with backslashes the directory is `lib\io\`; and the
path `file.asm` without separator has the directory `./` and itself as file
name. -/
theorem C37_directory_and_file_name_split_path_witness :
    HasSeparator "lib\\io/file.asm"
    ∧ (GetPathDirectory false "lib\\io/file.asm" ++ GetPathFileName false "lib\\io/file.asm"
        = NormalizePathSeparators false "lib\\io/file.asm"
      ∧ (GetPathDirectory false "lib\\io/file.asm").data.getLast? = some (PathSeparator false)
      ∧ '/' ∉ (GetPathFileName false "lib\\io/file.asm").data
      ∧ '\\' ∉ (GetPathFileName false "lib\\io/file.asm").data)
    ∧ GetPathDirectory false "lib\\io/file.asm" = "lib/io/"
    ∧ GetPathFileName false "lib\\io/file.asm" = "file.asm"
    ∧ GetPathDirectory true "lib\\io/file.asm" = "lib\\io\\"
    ∧ ¬ HasSeparator "file.asm"
    ∧ (GetPathDirectory false "file.asm" = "./" ∧ GetPathFileName false "file.asm" = "file.asm") :=
  ⟨Or.inl (by decide),
   (C37_directory_and_file_name_split_path false "lib\\io/file.asm").1 (Or.inl (by decide)),
   by decide, by decide, by decide, by unfold HasSeparator; decide,
   (C37_directory_and_file_name_split_path false "file.asm").2 (by unfold HasSeparator; decide)⟩

/-! ## Theorems: redefinition and removal of a name -/

/-- Claim C35: On an active directive line whose third token is the identifier
NAME.  A `%define NAME …` that is accepted (no use of NAME itself and no `%`
among the tokens after the name) maps NAME to exactly the tokens after the
name, whatever NAME was mapped to before, so that every later use of NAME is
replaced by these tokens; it changes the entry of no other name, and nothing
else of the state.  A `%undef NAME` with nothing after the name raises no
error, leaves NAME without entry, changes the entry of no other name and
nothing else of the state, and leaves the whole state as it is when NAME had
no entry. -/
theorem C35_redefine_replaces_and_undef_removes (H : Host) (P : VirconASMPreprocessor)
    (Top : ProcessingContext) (Below : List ProcessingContext)
    (Front Keyword NameToken : Token) (Name : String) (Value : TokenList)
    (hStack : P.ContextStack = Top :: Below)
    (hLine : Top.GetCurrentLine = .ok (Front :: Keyword :: NameToken :: Value))
    (hPercent : Front.Data = .Symbol .Percent)
    (hName : NameToken.Data = .Identifier Name)
    (hActive : Top.AreAllIfConditionsMet = true) :
    (Keyword.Data = .Identifier "define" → ¬ DefineIsRejected (NameToken :: Value) →
      ∃ Q, ProcessLine H P = .ok Q
        ∧ Q.Definitions.find Name = some Value
        ∧ (∀ Other, Other ≠ Name → Q.Definitions.find Other = P.Definitions.find Other)
        ∧ (∀ Use : Token, Use.Data = .Identifier Name →
            ReplaceToken Q.Definitions Use
              = Value.map (fun ValueToken => { ValueToken with Location := Use.Location }))
        ∧ Q.ContextStack = P.ContextStack ∧ Q.ProcessedTokens = P.ProcessedTokens
        ∧ Q.Warnings = P.Warnings)
    ∧ (Keyword.Data = .Identifier "undef" → Value = [] →
      ∃ Q, ProcessLine H P = .ok Q
        ∧ Q.Definitions.find Name = none
        ∧ (∀ Other, Other ≠ Name → Q.Definitions.find Other = P.Definitions.find Other)
        ∧ (∀ Use : Token, Use.Data = .Identifier Name → ReplaceToken Q.Definitions Use = [Use])
        ∧ (P.Definitions.find Name = none → Q = P)
        ∧ Q.ContextStack = P.ContextStack ∧ Q.ProcessedTokens = P.ProcessedTokens
        ∧ Q.Warnings = P.Warnings) := by
  constructor
  · intro hKeyword hAccepted
    have hPL : ProcessLine H P = ProcessDefine P (Front :: Keyword :: NameToken :: Value) := by
      rw [ProcessLine_directive H hStack hLine hPercent hKeyword]
      simp [hActive, ProcessDirective]
    have hLast : IsLastToken NameToken = false := by simp [IsLastToken, Token.Type, hName]
    have hCollect : CollectDefinition Name Value [] = .ok Value := by
      have := CollectDefinition_accepts Name Value [] (by
        intro T hT hBad
        apply hAccepted
        simp only [DefineIsRejected, hName]
        exact ⟨T, hT, hBad⟩)
      simpa using this
    rw [hPL, ProcessDefine_eq]
    simp only [hLast, hName, hCollect, Bool.false_eq_true, if_false]
    refine ⟨_, rfl, DefinitionsMap_find_assign_self _ _ _, ?_, ?_, rfl, rfl, rfl⟩
    · intro Other hOther
      show ((P.Definitions.assign Name []).assign Name Value).find Other = _
      rw [DefinitionsMap_find_assign_other _ _ hOther, DefinitionsMap_find_assign_other _ _ hOther]
    · intro Use hUse
      show ReplaceToken ((P.Definitions.assign Name []).assign Name Value) Use = _
      simp only [ReplaceToken, hUse, DefinitionsMap_find_assign_self]
  · intro hKeyword hValue
    subst hValue
    have hPL : ProcessLine H P = ProcessUndef P [Front, Keyword, NameToken] := by
      rw [ProcessLine_directive H hStack hLine hPercent hKeyword]
      simp [hActive, ProcessDirective]
    rw [hPL, ProcessUndef_eq P Front Keyword NameToken Name hName]
    cases hFind : P.Definitions.find Name with
    | none =>
      refine ⟨P, rfl, hFind, fun _ _ => rfl, ?_, fun _ => rfl, rfl, rfl, rfl⟩
      intro Use hUse
      simp only [ReplaceToken, hUse, hFind]
    | some Previous =>
      refine ⟨_, rfl, DefinitionsMap_find_erase_self _ _, ?_, ?_, ?_, rfl, rfl, rfl⟩
      · intro Other hOther
        exact DefinitionsMap_find_erase_other _ hOther
      · intro Use hUse
        show ReplaceToken (P.Definitions.erase Name) Use = _
        simp only [ReplaceToken, hUse, DefinitionsMap_find_erase_self]
      · intro hNone
        cases hNone

/-- On the sample program, in a state where `X` is mapped to 5 and `Y` to `X`:
the line `%define X 7` maps `X` to 7 and leaves `Y` alone; a `%undef X` in a
state with no entry changes nothing; and the run of the whole program emits
`MOV R0, 7` for the first use of `X` and `MOV R0, X` for the use after the
removal. -/
theorem C35_redefine_replaces_and_undef_removes_witness :
    (∃ Q, ProcessLine NoFiles
          (SampleAtRedefine 2 [("X", [⟨At 1, .LiteralInteger 5⟩]), ("Y", [IdentifierAt 9 "X"])])
          = .ok Q
        ∧ Q.Definitions.find "X" = some [⟨At 2, .LiteralInteger 7⟩]
        ∧ Q.Definitions.find "Y" = some [IdentifierAt 9 "X"])
    ∧ (∃ Q, ProcessLine NoFiles (SampleAtRedefine 5 []) = .ok Q ∧ Q = SampleAtRedefine 5 [])
    ∧ (Preprocess NoFiles 9 Fresh SampleRedefines).map (fun Q => (Q.ProcessedTokens, Q.Definitions))
        = .ok ([⟨At 0, .StartOfFile⟩,
                ⟨At 3, .Other "MOV"⟩, ⟨At 3, .Other "R0"⟩, ⟨At 3, .Symbol .Comma⟩,
                ⟨At 3, .LiteralInteger 7⟩,
                ⟨At 6, .Other "MOV"⟩, ⟨At 6, .Other "R0"⟩, ⟨At 6, .Symbol .Comma⟩,
                IdentifierAt 6 "X",
                ⟨At 7, .EndOfFile⟩], []) := by
  refine ⟨?_, ?_, by decide!⟩
  · obtain ⟨Q, hQ, hX, hOther, -⟩ :=
      (C35_redefine_replaces_and_undef_removes NoFiles
        (SampleAtRedefine 2 [("X", [⟨At 1, .LiteralInteger 5⟩]), ("Y", [IdentifierAt 9 "X"])])
        _ [] (PercentAt 2) (IdentifierAt 2 "define") (IdentifierAt 2 "X") "X"
        [⟨At 2, .LiteralInteger 7⟩] rfl (by decide) rfl rfl (by decide)).1 rfl
        (by simp [DefineIsRejected, IdentifierAt])
    exact ⟨Q, hQ, hX, by rw [hOther "Y" (by decide)]; decide⟩
  · obtain ⟨Q, hQ, -, -, -, hSame, -⟩ :=
      (C35_redefine_replaces_and_undef_removes NoFiles (SampleAtRedefine 5 [])
        _ [] (PercentAt 5) (IdentifierAt 5 "undef") (IdentifierAt 5 "X") "X" []
        rfl (by decide) rfl rfl (by decide)).2 rfl rfl
    exact ⟨Q, hQ, hSame (by decide)⟩

/-! ## Theorems: directives inside an inactive section -/

/-- Claim C34: On a directive line with at least two tokens, inside an inactive
section (some open if-frame of the context evaluates false).  When the second
token is an identifier other than `ifdef`, `ifndef`, `else` and `endif` (so for
`include`, `define`, `undef`, `error`, `warning` and every unsupported name)
the line is discarded: the state is returned as it is, whatever follows the
name, and no error is raised.  The four conditional directives are processed
as in an active section: a well-formed `%ifdef`/`%ifndef` pushes a frame and a
well-formed `%endif` pops the innermost one.  But the name is read before
the activity of the section is considered: when the second token is neither an
identifier nor the end-of-file marker (as in `% 5`) the line raises
"expected identifier". -/
theorem C34_inactive_section_directives (H : Host) (P : VirconASMPreprocessor)
    (Top : ProcessingContext) (Below : List ProcessingContext) (Front Second : Token)
    (Rest : TokenList)
    (hStack : P.ContextStack = Top :: Below)
    (hLine : Top.GetCurrentLine = .ok (Front :: Second :: Rest))
    (hPercent : Front.Data = .Symbol .Percent)
    (hInactive : Top.AreAllIfConditionsMet = false) :
    (∀ Name, Second.Data = .Identifier Name →
        Name ≠ "ifdef" → Name ≠ "ifndef" → Name ≠ "else" → Name ≠ "endif" →
        ProcessLine H P = .ok P)
    ∧ (Second.Data = .Identifier "ifdef" →
        ProcessLine H P = ProcessIf P (Front :: Second :: Rest) false)
    ∧ (Second.Data = .Identifier "ifndef" →
        ProcessLine H P = ProcessIf P (Front :: Second :: Rest) true)
    ∧ (Second.Data = .Identifier "else" →
        ProcessLine H P = ProcessElse P (Front :: Second :: Rest))
    ∧ (Second.Data = .Identifier "endif" →
        ProcessLine H P = ProcessEndif P (Front :: Second :: Rest))
    ∧ (∀ NameToken Name, Rest = [NameToken] → NameToken.Data = .Identifier Name →
        Second.Data = .Identifier "ifdef" ∨ Second.Data = .Identifier "ifndef" →
        ∃ Frame, ProcessLine H P
          = .ok { P with ContextStack := { Top with IfStack := Frame :: Top.IfStack } :: Below })
    ∧ (∀ Frame Outer, Rest = [] → Second.Data = .Identifier "endif" →
        Top.IfStack = Frame :: Outer →
        ProcessLine H P = .ok { P with ContextStack := { Top with IfStack := Outer } :: Below })
    ∧ (IsLastToken Second = false → (∀ Name, Second.Data ≠ .Identifier Name) →
        ProcessLine H P = .error (.Error Second.Location "expected identifier")) := by
  have hDispatch : ∀ Name, Second.Data = .Identifier Name → IsConditionalName Name = true →
      ProcessLine H P = ProcessDirective H P (Front :: Second :: Rest) Front Name := by
    intro Name hName hConditional
    rw [ProcessLine_directive H hStack hLine hPercent hName]
    simp [hConditional]
  have hIfdef : Second.Data = .Identifier "ifdef" →
      ProcessLine H P = ProcessIf P (Front :: Second :: Rest) false := by
    intro hName
    rw [hDispatch "ifdef" hName (by decide)]
    simp [ProcessDirective]
  have hIfndef : Second.Data = .Identifier "ifndef" →
      ProcessLine H P = ProcessIf P (Front :: Second :: Rest) true := by
    intro hName
    rw [hDispatch "ifndef" hName (by decide)]
    simp [ProcessDirective]
  have hEndif : Second.Data = .Identifier "endif" →
      ProcessLine H P = ProcessEndif P (Front :: Second :: Rest) := by
    intro hName
    rw [hDispatch "endif" hName (by decide)]
    simp [ProcessDirective]
  refine ⟨?_, hIfdef, hIfndef, ?_, hEndif, ?_, ?_, ?_⟩
  · intro Name hName h1 h2 h3 h4
    rw [ProcessLine_directive H hStack hLine hPercent hName]
    simp [hInactive, IsConditionalName, h1, h2, h3, h4]
  · intro hName
    rw [hDispatch "else" hName (by decide)]
    simp [ProcessDirective]
  · intro NameToken Name hRest hArgument hKeyword
    subst hRest
    rcases hKeyword with hName | hName
    · rw [hIfdef hName, ProcessIf_eq P Top Below Front Second NameToken Name false hStack hArgument]
      exact ⟨_, rfl⟩
    · rw [hIfndef hName, ProcessIf_eq P Top Below Front Second NameToken Name true hStack hArgument]
      exact ⟨_, rfl⟩
  · intro Frame Outer hRest hName hFrames
    subst hRest
    rw [hEndif hName, ProcessEndif_eq P Top Below Front Second hStack, hFrames]
  · intro hLast hOther
    have hT : Front.Type = .Symbol := by simp [Token.Type, hPercent]
    have hD : TokenIsThisSymbol Front .Percent = true := (TokenIsThisSymbol_iff _ _).mpr hPercent
    unfold ProcessLine
    simp only [hStack, hLine, bind, Except.bind, hT, hD, ExpectIdentifier]
    simp only [List.getElem?_cons_succ, List.getElem?_cons_zero, hLast]
    cases hData : Second.Data with
    | Identifier Name => exact absurd hData (hOther Name)
    | _ => simp

/-- On the sample state, whose current line lies in the inactive section of an
`%ifdef X` with `X` undefined: the line `% 5` raises "expected identifier";
the lines `%include "missing.asm"`, `%error "stop"`, `%define X %` and
`%pragma` return the state as it is; the line `%ifdef Y` pushes a second frame
and the line `%endif` pops the open one. -/
theorem C34_inactive_section_directives_witness :
    ProcessLine NoFiles (SampleInactive [PercentAt 2, ⟨At 2, .LiteralInteger 5⟩] [])
        = .error (.Error (At 2) "expected identifier")
    ∧ ProcessLine NoFiles
        (SampleInactive [PercentAt 2, IdentifierAt 2 "include",
          ⟨At 2, .LiteralString "missing.asm"⟩] [])
        = .ok (SampleInactive [PercentAt 2, IdentifierAt 2 "include",
          ⟨At 2, .LiteralString "missing.asm"⟩] [])
    ∧ ProcessLine NoFiles
        (SampleInactive [PercentAt 2, IdentifierAt 2 "error", ⟨At 2, .LiteralString "stop"⟩] [])
        = .ok (SampleInactive [PercentAt 2, IdentifierAt 2 "error",
          ⟨At 2, .LiteralString "stop"⟩] [])
    ∧ ProcessLine NoFiles
        (SampleInactive [PercentAt 2, IdentifierAt 2 "define", IdentifierAt 2 "X",
          PercentAt 2] [])
        = .ok (SampleInactive [PercentAt 2, IdentifierAt 2 "define", IdentifierAt 2 "X",
          PercentAt 2] [])
    ∧ ProcessLine NoFiles (SampleInactive [PercentAt 2, IdentifierAt 2 "pragma"] [])
        = .ok (SampleInactive [PercentAt 2, IdentifierAt 2 "pragma"] [])
    ∧ (ProcessLine NoFiles
        (SampleInactive [PercentAt 2, IdentifierAt 2 "ifdef", IdentifierAt 2 "Y"] [])).map
          (fun Q => Q.ContextStack.map (fun Context => Context.IfStack))
        = .ok [[⟨2, false, false⟩, ⟨1, false, false⟩]]
    ∧ (ProcessLine NoFiles (SampleInactive [PercentAt 2, IdentifierAt 2 "endif"] [])).map
          (fun Q => Q.ContextStack.map (fun Context => Context.IfStack))
        = .ok [[]] :=
  ⟨(C34_inactive_section_directives NoFiles
      (SampleInactive [PercentAt 2, ⟨At 2, .LiteralInteger 5⟩] []) _ [] (PercentAt 2)
      ⟨At 2, .LiteralInteger 5⟩ [] rfl (by decide) rfl (by decide)).2.2.2.2.2.2.2
      (by decide) (by intro Name h; cases h),
   (C34_inactive_section_directives NoFiles
      (SampleInactive [PercentAt 2, IdentifierAt 2 "include",
        ⟨At 2, .LiteralString "missing.asm"⟩] []) _ [] (PercentAt 2)
      (IdentifierAt 2 "include") [⟨At 2, .LiteralString "missing.asm"⟩] rfl (by decide) rfl
      (by decide)).1 "include" rfl (by decide) (by decide) (by decide) (by decide),
   (C34_inactive_section_directives NoFiles
      (SampleInactive [PercentAt 2, IdentifierAt 2 "error", ⟨At 2, .LiteralString "stop"⟩] [])
      _ [] (PercentAt 2) (IdentifierAt 2 "error") [⟨At 2, .LiteralString "stop"⟩] rfl
      (by decide) rfl (by decide)).1 "error" rfl (by decide) (by decide) (by decide) (by decide),
   (C34_inactive_section_directives NoFiles
      (SampleInactive [PercentAt 2, IdentifierAt 2 "define", IdentifierAt 2 "X", PercentAt 2] [])
      _ [] (PercentAt 2) (IdentifierAt 2 "define") [IdentifierAt 2 "X", PercentAt 2] rfl
      (by decide) rfl (by decide)).1 "define" rfl (by decide) (by decide) (by decide) (by decide),
   (C34_inactive_section_directives NoFiles
      (SampleInactive [PercentAt 2, IdentifierAt 2 "pragma"] [])
      _ [] (PercentAt 2) (IdentifierAt 2 "pragma") [] rfl
      (by decide) rfl (by decide)).1 "pragma" rfl (by decide) (by decide) (by decide) (by decide),
   by decide, by decide⟩

/-! ## Theorems: the whole run -/

/-- With no context left the loops are over: further turns change nothing. -/
theorem RunLoop_of_empty (H : Host) (Turns : Nat) {P : VirconASMPreprocessor}
    (hStack : P.ContextStack = []) : RunLoop H Turns P = .ok P := by
  induction Turns with
  | zero => rfl
  | succ n ih =>
    have hStep : LoopStep H P = .ok P := by simp [LoopStep, hStack]
    rw [RunLoop_succ H n hStep, ih]

/-- Every run comes to an end: after some number of turns it has failed or
emptied the context stack. -/
theorem RunLoop_empties (H : Host) (P : VirconASMPreprocessor) :
    ∃ Turns, (∃ E, RunLoop H Turns P = .error E)
      ∨ (∃ R, RunLoop H Turns P = .ok R ∧ R.ContextStack = []) := by
  have hAll : ∀ (Size : Nat) (P : VirconASMPreprocessor), P.ContextStack.length = Size →
      ∃ Turns, (∃ E, RunLoop H Turns P = .error E)
        ∨ (∃ R, RunLoop H Turns P = .ok R ∧ R.ContextStack = []) := by
    intro Size
    induction Size with
    | zero =>
      intro P hSize
      exact ⟨0, Or.inr ⟨P, rfl, List.length_eq_zero.mp hSize⟩⟩
    | succ n ih =>
      intro P hSize
      cases hStack : P.ContextStack with
      | nil => rw [hStack] at hSize; cases hSize
      | cons Top Rest =>
        obtain ⟨Turns, hTurns⟩ := RunLoop_finishes H P Top Rest hStack
        rcases hTurns with ⟨E, hE⟩ | ⟨R, Last, hR, hS, hEnded, -, -, -⟩
        · exact ⟨Turns, Or.inl ⟨E, hE⟩⟩
        · have hPop := LoopStep_pop H hS hEnded
          have hRest : (PopContext R).ContextStack.length = n := by
            rw [hStack] at hSize
            simp only [List.length_cons] at hSize
            simp only [PopContext, hS, List.tail_cons]
            omega
          obtain ⟨More, hMore⟩ := ih (PopContext R) hRest
          refine ⟨Turns + (1 + More), ?_⟩
          have hRun : RunLoop H (Turns + (1 + More)) P = RunLoop H More (PopContext R) := by
            rw [RunLoop_then H (1 + More) hR, Nat.add_comm 1 More, RunLoop_succ H More hPop]
          rw [hRun]
          exact hMore
  exact hAll _ P rfl

/-- The run of `Preprocess` on any preprocessor object: the loops, entered in
the state in which the context of the lexer has been pushed on an object with
nothing in it. -/
theorem Preprocess_eq (H : Host) (Fuel : Nat) (Previous : VirconASMPreprocessor)
    (Lexer : VirconASMLexer) :
    Preprocess H Fuel Previous Lexer =
      match PushContextLexer Fresh Lexer with
      | .error E => .error E
      | .ok P => RunLoop H Fuel P := rfl

/-- Claim C36: `Preprocess` starts from a clean state.  For every preprocessor
object left by earlier runs (any context stack, definitions, processed tokens),
every host and every lexer input, the run of `Preprocess` is, turn by turn, the
run from an object before its first use.  The run comes to an end: after some
number of turns it has either failed, and stays failed, or left the loops with
an empty context stack, and then further turns change nothing; so the outcome
is well defined and the same from both objects, and after a run without error
the context stack is empty. -/
theorem C36_preprocess_starts_clean (H : Host) (Previous : VirconASMPreprocessor)
    (Lexer : VirconASMLexer) :
    (∀ Fuel, Preprocess H Fuel Previous Lexer = Preprocess H Fuel Fresh Lexer)
    ∧ (∃ Fuel,
        (∃ E, ∀ More, Preprocess H (Fuel + More) Previous Lexer = .error E
            ∧ Preprocess H (Fuel + More) Fresh Lexer = .error E)
        ∨ (∃ Q, Q.ContextStack = []
            ∧ ∀ More, Preprocess H (Fuel + More) Previous Lexer = .ok Q
                ∧ Preprocess H (Fuel + More) Fresh Lexer = .ok Q))
    ∧ (∀ Fuel Q, Preprocess H Fuel Previous Lexer = .ok Q → Q.ContextStack = [] →
        ∀ More, Preprocess H (Fuel + More) Previous Lexer = .ok Q) := by
  have hSame : ∀ Fuel, Preprocess H Fuel Previous Lexer = Preprocess H Fuel Fresh Lexer :=
    fun _ => rfl
  refine ⟨hSame, ?_, ?_⟩
  · cases hStart : PushContextLexer Fresh Lexer with
    | error E =>
      refine ⟨0, Or.inl ⟨E, fun More => ?_⟩⟩
      have : Preprocess H (0 + More) Fresh Lexer = .error E := by
        rw [Preprocess_eq, hStart]
      exact ⟨(hSame _).trans this, this⟩
    | ok P =>
      have hRun : ∀ Fuel, Preprocess H Fuel Fresh Lexer = RunLoop H Fuel P := by
        intro Fuel
        rw [Preprocess_eq, hStart]
      obtain ⟨Turns, hTurns⟩ := RunLoop_empties H P
      refine ⟨Turns, ?_⟩
      rcases hTurns with ⟨E, hE⟩ | ⟨R, hR, hEmpty⟩
      · refine Or.inl ⟨E, fun More => ?_⟩
        have : Preprocess H (Turns + More) Fresh Lexer = .error E := by
          rw [hRun, RunLoop_failed H More hE]
        exact ⟨(hSame _).trans this, this⟩
      · refine Or.inr ⟨R, hEmpty, fun More => ?_⟩
        have : Preprocess H (Turns + More) Fresh Lexer = .ok R := by
          rw [hRun, RunLoop_then H More hR, RunLoop_of_empty H More hEmpty]
        exact ⟨(hSame _).trans this, this⟩
  · intro Fuel Q hQ hEmpty More
    rw [Preprocess_eq] at hQ ⊢
    cases hStart : PushContextLexer Fresh Lexer with
    | error E => rw [hStart] at hQ; cases hQ
    | ok P =>
      rw [hStart] at hQ
      show RunLoop H (Fuel + More) P = .ok Q
      rw [RunLoop_then H More hQ, RunLoop_of_empty H More hEmpty]

/-- On the sample program with the redefinitions, run on the object that an
earlier run of another program has left at its third line (two definitions
and a start-of-file token in it): after 9 turns the run has left the loops
with an empty context stack, none of the earlier definitions and the same
output as from an object before its first use, and 100 turns more change
nothing. -/
theorem C36_preprocess_starts_clean_witness :
    SampleAtMov.Definitions ≠ [] ∧ SampleAtMov.ContextStack ≠ []
    ∧ Preprocess NoFiles 9 SampleAtMov SampleRedefines
        = Preprocess NoFiles 9 Fresh SampleRedefines
    ∧ Preprocess NoFiles 9 SampleAtMov SampleRedefines
        = .ok { ContextStack := [], Definitions := []
                ProcessedTokens :=
                  [⟨At 0, .StartOfFile⟩,
                   ⟨At 3, .Other "MOV"⟩, ⟨At 3, .Other "R0"⟩, ⟨At 3, .Symbol .Comma⟩,
                   ⟨At 3, .LiteralInteger 7⟩,
                   ⟨At 6, .Other "MOV"⟩, ⟨At 6, .Other "R0"⟩, ⟨At 6, .Symbol .Comma⟩,
                   IdentifierAt 6 "X",
                   ⟨At 7, .EndOfFile⟩]
                Warnings := [] }
    ∧ Preprocess NoFiles (9 + 100) SampleAtMov SampleRedefines
        = .ok { ContextStack := [], Definitions := []
                ProcessedTokens :=
                  [⟨At 0, .StartOfFile⟩,
                   ⟨At 3, .Other "MOV"⟩, ⟨At 3, .Other "R0"⟩, ⟨At 3, .Symbol .Comma⟩,
                   ⟨At 3, .LiteralInteger 7⟩,
                   ⟨At 6, .Other "MOV"⟩, ⟨At 6, .Other "R0"⟩, ⟨At 6, .Symbol .Comma⟩,
                   IdentifierAt 6 "X",
                   ⟨At 7, .EndOfFile⟩]
                Warnings := [] } :=
  ⟨by decide, by decide,
   (C36_preprocess_starts_clean NoFiles SampleAtMov SampleRedefines).1 9,
   by decide!,
   (C36_preprocess_starts_clean NoFiles SampleAtMov SampleRedefines).2.2 9 _ (by decide!) rfl 100⟩

/-! ## Theorems: the if-stack of an including context -/

/-- Claim C33: For every active `%include "f"` whose file exists, processed in
a stack of at most 20 contexts: the turn pushes the context of f over the
includer, whose if-stack it does not change.  The run from there comes to an
end of the context of f (it fails, or the lines of f end); until that context
is popped the includer lies untouched below it, and the pop leaves the
includer on top with exactly the if-stack that it had when the directive was
processed, whatever if-frames the context of f still holds.  And in every
state, a turn on a context whose lines have ended pops that context without
error, whatever if-frames it holds: the frames go with the context, and the
contexts below, the definitions and the output are left as they are. -/
theorem C33_include_keeps_if_stack (H : Host) (P : VirconASMPreprocessor)
    (Top : ProcessingContext) (Below : List ProcessingContext)
    (Front Keyword PathToken : Token) (IncludedFilePath : String) (Lexer : VirconASMLexer)
    (First : Token) (Others : TokenList) (Lines : List TokenList)
    (hStack : P.ContextStack = Top :: Below)
    (hLine : Top.GetCurrentLine = .ok [Front, Keyword, PathToken])
    (hPercent : Front.Data = .Symbol .Percent)
    (hKeyword : Keyword.Data = .Identifier "include")
    (hPath : PathToken.Data = .LiteralString IncludedFilePath)
    (hActive : Top.AreAllIfConditionsMet = true)
    (hDepth : P.ContextStack.length ≤ 20)
    (hFile : H.TokenizeFile ((Top.ReferenceFolder.push H.PathSeparator) ++ IncludedFilePath)
      = some Lexer)
    (hLexer : Lexer.TokenLines = (First :: Others) :: Lines) :
    (∃ Pushed Resumed,
      LoopStep H P = .ok Pushed
      ∧ Pushed.ContextStack = IncludedContext Lexer :: Resumed :: Below
      ∧ Resumed.IfStack = Top.IfStack
      ∧ (∃ Turns,
          (∃ E, RunLoop H Turns Pushed = .error E)
          ∨ (∃ R Last, RunLoop H Turns Pushed = .ok R
              ∧ R.ContextStack = Last :: Resumed :: Below
              ∧ Last.LinesHaveEnded = true
              ∧ RunLoop H (Turns + 1) Pushed = .ok (PopContext R)
              ∧ (PopContext R).ContextStack = Resumed :: Below))
      ∧ (∀ n Q, RunLoop H n Pushed = .ok Q →
          StandsAbove (Resumed :: Below) Q
          ∨ ∃ m R Last, m < n ∧ RunLoop H m Pushed = .ok R
              ∧ R.ContextStack = Last :: Resumed :: Below
              ∧ Last.LinesHaveEnded = true
              ∧ RunLoop H (m + 1) Pushed = .ok (PopContext R)
              ∧ (PopContext R).ContextStack = Resumed :: Below))
    ∧ (∀ (R : VirconASMPreprocessor) (Last : ProcessingContext)
        (Rest : List ProcessingContext),
        R.ContextStack = Last :: Rest → Last.LinesHaveEnded = true →
        LoopStep H R = .ok { R with ContextStack := Rest }) := by
  constructor
  · refine ⟨_, { Top with LinePosition := Top.LinePosition + 1 },
      LoopStep_include H P hStack hLine hPercent hKeyword hPath hActive hDepth hFile hLexer,
      rfl, rfl, ?_, ?_⟩
    · obtain ⟨Turns, hT⟩ := RunLoop_finishes H
        { P with ContextStack :=
            IncludedContext Lexer :: { Top with LinePosition := Top.LinePosition + 1 } :: Below }
        (IncludedContext Lexer) ({ Top with LinePosition := Top.LinePosition + 1 } :: Below) rfl
      refine ⟨Turns, ?_⟩
      rcases hT with ⟨E, hE⟩ | ⟨R, Last, hR, hS, hEnd, -, -, -⟩
      · exact Or.inl ⟨E, hE⟩
      · refine Or.inr ⟨R, Last, hR, hS, hEnd, ?_, by simp [PopContext, hS]⟩
        rw [RunLoop_then H 1 hR, RunLoop_one, LoopStep_pop H hS hEnd]
    · intro n Q hQ
      have hAbove : StandsAbove ({ Top with LinePosition := Top.LinePosition + 1 } :: Below)
          { P with ContextStack :=
              IncludedContext Lexer
                :: { Top with LinePosition := Top.LinePosition + 1 } :: Below } :=
        ⟨[IncludedContext Lexer], by simp, rfl⟩
      rcases RunLoop_above H n hAbove hQ with hLeft | ⟨m, R, Last, hm, hR, hS, hE, -, -⟩
      · exact Or.inl hLeft
      · right
        refine ⟨m, R, Last, hm, hR, hS, hE, ?_, by simp [PopContext, hS]⟩
        rw [RunLoop_then H 1 hR, RunLoop_one, LoopStep_pop H hS hE]
  · intro R Last Rest hS hEnded
    rw [LoopStep_pop H hS hEnded]
    simp [PopContext, hS]

/-- On the sample host: the line `%include "open.asm"` of `main.asm`, which
lies inside the section of `%ifdef X`, pushes the context of `open.asm`; after
6 turns the lines of `open.asm` have ended with its two if-frames still open;
the next turn pops the context without error and leaves `main.asm` on its next
line with its one if-frame; and the complete run closes that frame with
`%endif` and ends without error. -/
theorem C33_include_keeps_if_stack_witness :
    (∃ Pushed Resumed,
      LoopStep SampleOpenHost SampleAtOpenInclude = .ok Pushed
      ∧ Pushed.ContextStack = [IncludedContext SampleOpen, Resumed]
      ∧ Resumed.IfStack = [⟨2, true, false⟩])
    ∧ (RunLoop SampleOpenHost 6 SampleAtOpenInclude).map
        (fun Q => Q.ContextStack.map
          (fun Context => (Context.FilePath, Context.IfStack, Context.LinesHaveEnded)))
        = .ok [("open.asm", [⟨2, true, false⟩, ⟨1, true, false⟩], true),
               ("main.asm", [⟨2, true, false⟩], false)]
    ∧ (RunLoop SampleOpenHost 7 SampleAtOpenInclude).map (fun Q => Q.ContextStack)
        = .ok [SampleOpenContext 4]
    ∧ (Preprocess SampleOpenHost 14 Fresh SampleOpenMain).map
        (fun Q => (Q.ContextStack.length, Q.ProcessedTokens))
        = .ok (0, [⟨At 0, .StartOfFile⟩, ⟨InOpen 3, .Other "NOP"⟩, ⟨At 4, .Other "MOV"⟩,
            ⟨At 6, .EndOfFile⟩]) := by
  refine ⟨?_, by decide!, by decide!, by decide!⟩
  obtain ⟨⟨Pushed, Resumed, hStep, hPushed, hFrames, -⟩, -⟩ :=
    C33_include_keeps_if_stack SampleOpenHost SampleAtOpenInclude (SampleOpenContext 3) []
      (PercentAt 3) (IdentifierAt 3 "include") ⟨At 3, .LiteralString "open.asm"⟩ "open.asm"
      SampleOpen ⟨InOpen 0, .StartOfFile⟩ [] SampleOpen.TokenLines.tail rfl (by decide) rfl rfl
      rfl (by decide) (by decide) (by decide) rfl
  exact ⟨Pushed, Resumed, hStep, hPushed, hFrames⟩

/-! ## Theorems: the pointed region -/

/-- An assignment through `PointedRegion` keeps the number of cartridge
textures and every region that another pointer designates. -/
theorem WritePointedRegion_others {GPU Changed : V32GPU} {Change : GPURegion → GPURegion}
    (h : GPU.WritePointedRegion Change = some Changed) :
    Changed.CartridgeTextures.length = GPU.CartridgeTextures.length
    ∧ ∀ Other : RegionPointer, Other ≠ GPU.PointedRegion →
        Changed.RegionAt Other = GPU.RegionAt Other := by
  unfold V32GPU.WritePointedRegion at h
  cases hT : GPU.TextureAt GPU.PointedRegion.Texture with
  | none => simp [hT] at h
  | some Texture =>
    simp only [hT] at h
    by_cases hNeg : GPU.PointedRegion.Region < 0
    · simp [hNeg] at h
    · simp only [hNeg, if_false] at h
      cases hR : Texture.Regions[GPU.PointedRegion.Region.toNat]? with
      | none => simp [hR] at h
      | some Region =>
        simp only [hR, Option.some.injEq] at h
        subst h
        unfold V32GPU.TextureAt at hT
        unfold V32GPU.SetTextureAt
        by_cases hB : GPU.PointedRegion.Texture = -1
        · rw [if_pos hB]
          simp only [hB, if_true, Option.some.injEq] at hT
          refine ⟨rfl, fun Other hOther => ?_⟩
          unfold V32GPU.RegionAt V32GPU.TextureAt
          by_cases hO : Other.Texture = -1
          · simp only [hO, if_true]
            by_cases hON : Other.Region < 0
            · simp [hON]
            · have hDiffer : GPU.PointedRegion.Region.toNat ≠ Other.Region.toNat := by
                intro hEq
                apply hOther
                cases Other with
                | mk OtherTexture OtherRegion =>
                  cases hP : GPU.PointedRegion with
                  | mk PointedTexture PointedRegion =>
                    simp only [hP] at hEq hB hNeg
                    simp only at hO hON
                    simp only [RegionPointer.mk.injEq]
                    omega
              simp only [hON, if_false, ← hT]
              exact List.getElem?_set_ne hDiffer
          · simp only [hO, if_false]
        · rw [if_neg hB]
          simp only [hB, if_false] at hT
          by_cases hP : 0 ≤ GPU.PointedRegion.Texture
          · simp only [hP, if_true] at hT
            refine ⟨by simp, fun Other hOther => ?_⟩
            unfold V32GPU.RegionAt V32GPU.TextureAt
            by_cases hO : Other.Texture = -1
            · simp only [hO, if_true]
            · simp only [hO, if_false]
              by_cases hOP : 0 ≤ Other.Texture
              · simp only [hOP, if_true]
                by_cases hSame : GPU.PointedRegion.Texture.toNat = Other.Texture.toNat
                · have hIn : Other.Texture.toNat < GPU.CartridgeTextures.length := by
                    by_contra hge
                    rw [hSame, List.getElem?_eq_none (by omega)] at hT
                    cases hT
                  rw [hSame] at hT ⊢
                  rw [List.getElem?_set_self hIn, hT]
                  by_cases hON : Other.Region < 0
                  · simp [hON]
                  · have hDiffer : GPU.PointedRegion.Region.toNat ≠ Other.Region.toNat := by
                      intro hEq
                      apply hOther
                      cases Other with
                      | mk OtherTexture OtherRegion =>
                        cases hPR : GPU.PointedRegion with
                        | mk PointedTexture PointedRegion =>
                          simp only [hPR] at hEq hP hNeg hSame
                          simp only at hOP hON
                          simp only [RegionPointer.mk.injEq]
                          omega
                    simp only [hON, if_false]
                    exact List.getElem?_set_ne hDiffer
                · rw [List.getElem?_set_ne hSame]
              · simp only [hOP, if_false]
          · simp [hP] at hT

/-- The state after an assignment through `PointedRegion`: only the region
that the pointer designates has changed. -/
theorem VideoWritePointedRegion_only {S Q : VideoState} {Change : GPURegion → GPURegion}
    (h : S.WritePointedRegion Change = some Q) : OnlyRegionChanged S Q S.GPU.PointedRegion := by
  unfold VideoState.WritePointedRegion at h
  cases hG : S.GPU.WritePointedRegion Change with
  | none => simp [hG] at h
  | some Changed =>
    simp only [hG, Option.map_some', Option.some.injEq] at h
    subst h
    obtain ⟨hLength, hOthers⟩ := WritePointedRegion_others hG
    exact ⟨rfl, WritePointedRegion_registers hG, hLength, hOthers⟩

/-- A write to a GPU port keeps the pointers on the selection. -/
theorem WriteGPUPort_follows (K : Constants) (V : IOPortValues) (M : GPUMethods)
    (Port : GPULocalPorts) {S Q : VideoState} (Value : V32Word)
    (h : WriteGPUPort K V M Port S Value = some Q)
    (hFollows : PointersFollowSelection S.GPU) : PointersFollowSelection Q.GPU := by
  have hRegionWrite : ∀ Change, S.WritePointedRegion Change = some Q →
      PointersFollowSelection Q.GPU := by
    intro Change hW
    obtain ⟨-, hRegisters, -, -⟩ := VideoWritePointedRegion_only hW
    unfold PointersFollowSelection at hFollows ⊢
    rw [hRegisters]
    exact hFollows
  cases Port with
  | Command =>
    simp only [WriteGPUPort, Option.some.injEq] at h
    subst h
    unfold WriteGPUCommand
    repeat' split
    all_goals exact hFollows
  | RemainingPixels => simp only [WriteGPUPort, Option.some.injEq] at h; subst h; exact hFollows
  | ClearColor => simp only [WriteGPUPort, Option.some.injEq] at h; subst h; exact hFollows
  | MultiplyColor => simp only [WriteGPUPort, Option.some.injEq] at h; subst h; exact hFollows
  | ActiveBlending =>
    simp only [WriteGPUPort, Option.some.injEq] at h
    subst h
    unfold WriteGPUActiveBlending
    repeat' split
    all_goals exact hFollows
  | SelectedTexture =>
    simp only [WriteGPUPort, Option.some.injEq] at h
    subst h
    unfold WriteGPUSelectedTexture
    split
    · exact hFollows
    · split
      · rename_i hMinus
        exact ⟨hMinus.symm, by simp [hMinus]⟩
      · exact ⟨rfl, rfl⟩
  | SelectedRegion =>
    simp only [WriteGPUPort, Option.some.injEq] at h
    subst h
    unfold WriteGPUSelectedRegion
    split
    · exact hFollows
    · exact ⟨hFollows.1, by simp [hFollows.1]⟩
  | DrawingPointX => simp only [WriteGPUPort, Option.some.injEq] at h; subst h; exact hFollows
  | DrawingPointY => simp only [WriteGPUPort, Option.some.injEq] at h; subst h; exact hFollows
  | DrawingScaleX =>
    simp only [WriteGPUPort, Option.some.injEq] at h
    subst h
    unfold WriteGPUDrawingScaleX
    split <;> exact hFollows
  | DrawingScaleY =>
    simp only [WriteGPUPort, Option.some.injEq] at h
    subst h
    unfold WriteGPUDrawingScaleY
    split <;> exact hFollows
  | DrawingAngle =>
    simp only [WriteGPUPort, Option.some.injEq] at h
    subst h
    unfold WriteGPUDrawingAngle
    split <;> exact hFollows
  | RegionMinX => exact hRegionWrite _ h
  | RegionMinY => exact hRegionWrite _ h
  | RegionMaxX => exact hRegionWrite _ h
  | RegionMaxY => exact hRegionWrite _ h
  | RegionHotspotX => exact hRegionWrite _ h
  | RegionHotspotY => exact hRegionWrite _ h

/-- A sequence of writes to GPU ports keeps the pointers on the selection. -/
theorem WriteGPUPorts_follows (K : Constants) (V : IOPortValues) (M : GPUMethods)
    (Writes : List (GPULocalPorts × V32Word)) {S Q : VideoState}
    (h : WriteGPUPorts K V M Writes S = some Q)
    (hFollows : PointersFollowSelection S.GPU) : PointersFollowSelection Q.GPU := by
  induction Writes generalizing S with
  | nil =>
    simp only [WriteGPUPorts, Option.some.injEq] at h
    subst h
    exact hFollows
  | cons Write Rest ih =>
    obtain ⟨Port, Value⟩ := Write
    simp only [WriteGPUPorts] at h
    cases hW : WriteGPUPort K V M Port S Value with
    | none => simp [hW] at h
    | some Next =>
      rw [hW] at h
      exact ih h (WriteGPUPort_follows K V M Port Value hW hFollows)

/-- Claim C32: From a state of the GPU whose pointers follow the selection
(the pointed region is region number `SelectedRegion` of texture number
`SelectedTexture`, the BIOS texture for −1), every state reached by a sequence
of writes to GPU ports is such a state again; and an accepted write to the
selected-texture port makes the pointers follow the selection whatever they
were.  Therefore, in such a state whose selection designates a region, a write
of any value to a region port (min, max or hotspot, X or Y) is carried out and
changes only that one field of that one region: every other field of it, every
region designated by another pair of texture and region number, every register
and pointer of the GPU, the number of cartridge textures and the host object
are left as they are. -/
theorem C32_region_write_changes_one_field (K : Constants) (V : IOPortValues)
    (M : GPUMethods) (S : VideoState) (Value : V32Word)
    (hFollows : PointersFollowSelection S.GPU) :
    (∀ Writes Q, WriteGPUPorts K V M Writes S = some Q → PointersFollowSelection Q.GPU)
    ∧ (∀ Any : VideoState,
        ¬ (Value.AsInteger < -1 ∨ Value.AsInteger ≥ ToInt32 Any.GPU.CartridgeTextures.length) →
        PointersFollowSelection (WriteGPUSelectedTexture Any Value).GPU)
    ∧ (∀ Region,
        S.GPU.RegionAt ⟨S.GPU.SelectedTexture, S.GPU.SelectedRegion⟩ = some Region →
        (∃ Q Stored, WriteGPUPort K V M .RegionMinX S Value = some Q
          ∧ OnlyRegionChanged S Q ⟨S.GPU.SelectedTexture, S.GPU.SelectedRegion⟩
          ∧ Q.GPU.RegionAt ⟨S.GPU.SelectedTexture, S.GPU.SelectedRegion⟩
              = some { Region with MinX := Stored })
        ∧ (∃ Q Stored, WriteGPUPort K V M .RegionMinY S Value = some Q
          ∧ OnlyRegionChanged S Q ⟨S.GPU.SelectedTexture, S.GPU.SelectedRegion⟩
          ∧ Q.GPU.RegionAt ⟨S.GPU.SelectedTexture, S.GPU.SelectedRegion⟩
              = some { Region with MinY := Stored })
        ∧ (∃ Q Stored, WriteGPUPort K V M .RegionMaxX S Value = some Q
          ∧ OnlyRegionChanged S Q ⟨S.GPU.SelectedTexture, S.GPU.SelectedRegion⟩
          ∧ Q.GPU.RegionAt ⟨S.GPU.SelectedTexture, S.GPU.SelectedRegion⟩
              = some { Region with MaxX := Stored })
        ∧ (∃ Q Stored, WriteGPUPort K V M .RegionMaxY S Value = some Q
          ∧ OnlyRegionChanged S Q ⟨S.GPU.SelectedTexture, S.GPU.SelectedRegion⟩
          ∧ Q.GPU.RegionAt ⟨S.GPU.SelectedTexture, S.GPU.SelectedRegion⟩
              = some { Region with MaxY := Stored })
        ∧ (∃ Q Stored, WriteGPUPort K V M .RegionHotspotX S Value = some Q
          ∧ OnlyRegionChanged S Q ⟨S.GPU.SelectedTexture, S.GPU.SelectedRegion⟩
          ∧ Q.GPU.RegionAt ⟨S.GPU.SelectedTexture, S.GPU.SelectedRegion⟩
              = some { Region with HotspotX := Stored })
        ∧ (∃ Q Stored, WriteGPUPort K V M .RegionHotspotY S Value = some Q
          ∧ OnlyRegionChanged S Q ⟨S.GPU.SelectedTexture, S.GPU.SelectedRegion⟩
          ∧ Q.GPU.RegionAt ⟨S.GPU.SelectedTexture, S.GPU.SelectedRegion⟩
              = some { Region with HotspotY := Stored })) := by
  refine ⟨fun Writes Q h => WriteGPUPorts_follows K V M Writes h hFollows, ?_, ?_⟩
  · intro Any hAccepted
    unfold WriteGPUSelectedTexture
    rw [if_neg hAccepted]
    split
    · rename_i hMinus
      exact ⟨hMinus.symm, by simp [hMinus]⟩
    · exact ⟨rfl, rfl⟩
  · intro Region hRegion
    have hPointer : S.GPU.PointedRegion = ⟨S.GPU.SelectedTexture, S.GPU.SelectedRegion⟩ :=
      hFollows.2
    rw [← hPointer] at hRegion ⊢
    have hWrite : ∀ Change : GPURegion → GPURegion,
        ∃ Q, S.WritePointedRegion Change = some Q
          ∧ OnlyRegionChanged S Q S.GPU.PointedRegion
          ∧ Q.GPU.RegionAt S.GPU.PointedRegion = some (Change Region) := by
      intro Change
      obtain ⟨Q, hQ, -, hP, hR⟩ := VideoWritePointedRegion_reads hRegion Change
      rw [hP] at hR
      exact ⟨Q, hQ, VideoWritePointedRegion_only hQ, hR⟩
    refine ⟨?_, ?_, ?_, ?_, ?_, ?_⟩
    · obtain ⟨Q, hQ, hOnly, hR⟩ := hWrite
        (fun Region => { Region with MinX := Clamp Value.AsInteger 0 (K.GPUTextureSize - 1) })
      exact ⟨Q, _, hQ, hOnly, hR⟩
    · obtain ⟨Q, hQ, hOnly, hR⟩ := hWrite
        (fun Region => { Region with MinY := Clamp Value.AsInteger 0 (K.GPUTextureSize - 1) })
      exact ⟨Q, _, hQ, hOnly, hR⟩
    · obtain ⟨Q, hQ, hOnly, hR⟩ := hWrite
        (fun Region => { Region with MaxX := Clamp Value.AsInteger 0 (K.GPUTextureSize - 1) })
      exact ⟨Q, _, hQ, hOnly, hR⟩
    · obtain ⟨Q, hQ, hOnly, hR⟩ := hWrite
        (fun Region => { Region with MaxY := Clamp Value.AsInteger 0 (K.GPUTextureSize - 1) })
      exact ⟨Q, _, hQ, hOnly, hR⟩
    · obtain ⟨Q, hQ, hOnly, hR⟩ := hWrite
        (fun Region =>
          { Region with
              HotspotX := Clamp Value.AsInteger (-K.GPUTextureSize) (2 * K.GPUTextureSize - 1) })
      exact ⟨Q, _, hQ, hOnly, hR⟩
    · obtain ⟨Q, hQ, hOnly, hR⟩ := hWrite
        (fun Region =>
          { Region with
              HotspotY := Clamp Value.AsInteger (-K.GPUTextureSize) (2 * K.GPUTextureSize - 1) })
      exact ⟨Q, _, hQ, hOnly, hR⟩

/-- On the sample console, where region 2 of cartridge texture 1 is selected
and pointed at: a write of 5000 to the region port max X changes only the
field max X of that region; and the writes of −1 to the selected texture, of 3
to the selected region and of 5000 to max X leave the pointer on region 3 of
the BIOS texture, store 1023 in the field max X of that region, and leave the
two cartridge textures as they were. -/
theorem C32_region_write_changes_one_field_witness :
    PointersFollowSelection SampleVideo.GPU
    ∧ (∃ Q Stored,
        WriteGPUPort SampleConstants SampleValues SampleGPUMethods .RegionMaxX SampleVideo
            (V32Word.OfInteger 5000) = some Q
        ∧ OnlyRegionChanged SampleVideo Q
            ⟨SampleVideo.GPU.SelectedTexture, SampleVideo.GPU.SelectedRegion⟩
        ∧ Q.GPU.RegionAt ⟨SampleVideo.GPU.SelectedTexture, SampleVideo.GPU.SelectedRegion⟩
            = some { (⟨0, 0, 0, 0, 0, 0⟩ : GPURegion) with MaxX := Stored })
    ∧ (WriteGPUPorts SampleConstants SampleValues SampleGPUMethods
          [(.SelectedTexture, V32Word.OfInteger (-1)), (.SelectedRegion, V32Word.OfInteger 3),
           (.RegionMaxX, V32Word.OfInteger 5000)] SampleVideo).map
        (fun Q => (Q.GPU.SelectedTexture, Q.GPU.SelectedRegion, Q.GPU.PointedRegion,
          Q.GPU.BiosTexture.Regions, Q.GPU.CartridgeTextures))
        = some (-1, 3, ⟨-1, 3⟩,
            [⟨0, 0, 0, 0, 0, 0⟩, ⟨0, 0, 0, 0, 0, 0⟩, ⟨0, 0, 0, 0, 0, 0⟩, ⟨0, 0, 1023, 0, 0, 0⟩],
            [SampleTexture, SampleTexture]) :=
  ⟨⟨rfl, rfl⟩,
   ((C32_region_write_changes_one_field SampleConstants SampleValues SampleGPUMethods
      SampleVideo (V32Word.OfInteger 5000) ⟨rfl, rfl⟩).2.2 ⟨0, 0, 0, 0, 0, 0⟩
      (by decide!)).2.2.1,
   by decide!⟩

/-! ## Theorems: reads after writes -/

/-- The word that holds the integer read from a word has the bits of that
word. -/
theorem OfInteger_AsInteger (Value : V32Word) :
    (V32Word.OfInteger Value.AsInteger).AsBinary = Value.AsBinary := by
  unfold V32Word.OfInteger V32Word.AsInteger V32Word.AsBinary ToInt32
  simp only
  split <;> omega

/-- The word that holds the color read from a word has the bits of that word. -/
theorem OfColor_AsColor (Value : V32Word) :
    (⟨Value.AsColor.Bits⟩ : V32Word).AsBinary = Value.AsBinary := by
  simp [V32Word.AsColor, V32Word.AsBinary]

/-- The integer part of an integer is the integer. -/
theorem Truncate_intCast (Number : Int) : Truncate (Number : ℚ) = Number := by
  simp [Truncate]

/-- A read that returns the word written, after a write that is not ignored. -/
theorem AmendedRead_value {Ignored : Prop} {Value Old New : V32Word} {WriteOnly : Bool}
    {IntegerRange FloatRange : Option (Int × Int)} {IsFlag : Bool} {OtherBound : Option Int}
    (hNot : ¬ Ignored) (h : New.AsBinary = Value.AsBinary) :
    AmendedRead Ignored Value Old New WriteOnly IntegerRange FloatRange IsFlag OtherBound :=
  Or.inr ⟨hNot, Or.inl (Or.inl h)⟩

/-- A read that returns the word read before the write, after a write that is
ignored. -/
theorem AmendedRead_old {Ignored : Prop} {Value Old : V32Word} {WriteOnly : Bool}
    {IntegerRange FloatRange : Option (Int × Int)} {IsFlag : Bool} {OtherBound : Option Int}
    (hIgnored : Ignored) :
    AmendedRead Ignored Value Old Old WriteOnly IntegerRange FloatRange IsFlag OtherBound :=
  Or.inl ⟨hIgnored, rfl⟩

/-- A read that returns the integer written, clamped to the range of the port. -/
theorem AmendedRead_clamped {Ignored : Prop} {Value Old : V32Word} {WriteOnly : Bool}
    {FloatRange : Option (Int × Int)} {IsFlag : Bool} {OtherBound : Option Int}
    (hNot : ¬ Ignored) (Minimum Maximum : Int) :
    AmendedRead Ignored Value Old (V32Word.OfInteger (Clamp Value.AsInteger Minimum Maximum))
      WriteOnly (some (Minimum, Maximum)) FloatRange IsFlag OtherBound :=
  Or.inr ⟨hNot, Or.inl (Or.inr (Or.inl ⟨Minimum, Maximum, rfl, rfl⟩))⟩

/-- A read that returns the float written, clamped to the range of the port. -/
theorem AmendedRead_float {Ignored : Prop} {Value Old : V32Word} {WriteOnly : Bool}
    {IntegerRange : Option (Int × Int)} {IsFlag : Bool} {OtherBound : Option Int}
    (hNot : ¬ Ignored) (Minimum Maximum : Int) :
    AmendedRead Ignored Value Old ⟨(ClampFloat Value.AsFloat Minimum Maximum).Bits⟩ WriteOnly
      IntegerRange (some (Minimum, Maximum)) IsFlag OtherBound :=
  Or.inr ⟨hNot, Or.inl (Or.inr (Or.inr (Or.inl ⟨Minimum, Maximum, rfl, rfl⟩)))⟩

/-- A NaN or an infinity, as the writers test for it. -/
theorem NonFinite_iff (F : Float32) :
    (F.isnan || F.isinf) = true ↔ (F.isnan = true ∨ F.isinf = true) := by
  simp

/-- The read of a GPU port after a write to it. -/
theorem ReadGPUPort_after_write (K : Constants) (V : IOPortValues) (M : GPUMethods)
    (Port : GPULocalPorts) {S Q : VideoState} (Value : V32Word) {Old : V32Word}
    (hWrite : WriteGPUPort K V M Port S Value = some Q)
    (hOld : ReadGPUPort Port S.GPU = some Old) :
    (∃ New, ReadGPUPort Port Q.GPU = some New
      ∧ AmendedRead (GPUWriteIsIgnored K V Port S.GPU Value) Value Old New
          (decide (Port = .Command)) (GPUIntegerRange K Port) (GPUFloatRange Port) false none)
    ∧ (GPUWriteIsIgnored K V Port S.GPU Value → Q = S) := by
  have hRegion : ∀ (Change : GPURegion → GPURegion) (Field : GPURegion → Int),
      S.WritePointedRegion Change = some Q →
      (S.GPU.RegionAt S.GPU.PointedRegion).map (fun Region => V32Word.OfInteger (Field Region))
        = some Old →
      ∃ Region, S.GPU.RegionAt S.GPU.PointedRegion = some Region
        ∧ (Q.GPU.RegionAt Q.GPU.PointedRegion).map
            (fun Region => V32Word.OfInteger (Field Region))
          = some (V32Word.OfInteger (Field (Change Region))) := by
    intro Change Field hW hRead
    cases hR : S.GPU.RegionAt S.GPU.PointedRegion with
    | none => simp [hR] at hRead
    | some Region =>
      obtain ⟨Q2, hQ2, -, -, hBack⟩ := VideoWritePointedRegion_reads hR Change
      rw [hW] at hQ2
      cases hQ2
      exact ⟨Region, rfl, by rw [hBack]; rfl⟩
  cases Port with
  | Command =>
    exact ⟨⟨⟨0⟩, rfl, Or.inr ⟨fun h => h, Or.inl (Or.inr (Or.inr (Or.inr ⟨rfl, rfl⟩)))⟩⟩,
      fun h => h.elim⟩
  | RemainingPixels =>
    simp only [WriteGPUPort, WriteGPURemainingPixels, Option.some.injEq] at hWrite
    subst hWrite
    exact ⟨⟨Old, hOld, AmendedRead_old trivial⟩, fun _ => rfl⟩
  | ClearColor =>
    simp only [WriteGPUPort, Option.some.injEq] at hWrite
    subst hWrite
    exact ⟨⟨⟨Value.AsColor.Bits⟩, rfl, AmendedRead_value (fun h => h) (OfColor_AsColor Value)⟩,
      fun h => h.elim⟩
  | MultiplyColor =>
    simp only [WriteGPUPort, Option.some.injEq] at hWrite
    subst hWrite
    exact ⟨⟨⟨Value.AsColor.Bits⟩, rfl, AmendedRead_value (fun h => h) (OfColor_AsColor Value)⟩,
      fun h => h.elim⟩
  | ActiveBlending =>
    simp only [WriteGPUPort, Option.some.injEq] at hWrite
    subst hWrite
    unfold WriteGPUActiveBlending
    by_cases h1 : Value.AsInteger = V.GPUBlendingMode_Alpha
    · have hNot : ¬ GPUWriteIsIgnored K V .ActiveBlending S.GPU Value := fun h => h.1 h1
      rw [if_pos h1]
      exact ⟨⟨_, rfl, AmendedRead_value hNot (OfInteger_AsInteger Value)⟩, fun h => absurd h hNot⟩
    · rw [if_neg h1]
      by_cases h2 : Value.AsInteger = V.GPUBlendingMode_Add
      · have hNot : ¬ GPUWriteIsIgnored K V .ActiveBlending S.GPU Value := fun h => h.2.1 h2
        rw [if_pos h2]
        exact ⟨⟨_, rfl, AmendedRead_value hNot (OfInteger_AsInteger Value)⟩,
          fun h => absurd h hNot⟩
      · rw [if_neg h2]
        by_cases h3 : Value.AsInteger = V.GPUBlendingMode_Subtract
        · have hNot : ¬ GPUWriteIsIgnored K V .ActiveBlending S.GPU Value := fun h => h.2.2 h3
          rw [if_pos h3]
          exact ⟨⟨_, rfl, AmendedRead_value hNot (OfInteger_AsInteger Value)⟩,
            fun h => absurd h hNot⟩
        · rw [if_neg h3]
          exact ⟨⟨Old, hOld, AmendedRead_old ⟨h1, h2, h3⟩⟩, fun _ => rfl⟩
  | SelectedTexture =>
    simp only [WriteGPUPort, Option.some.injEq] at hWrite
    subst hWrite
    unfold WriteGPUSelectedTexture
    by_cases h1 : Value.AsInteger < -1 ∨ Value.AsInteger ≥ ToInt32 S.GPU.CartridgeTextures.length
    · rw [if_pos h1]
      exact ⟨⟨Old, hOld, AmendedRead_old h1⟩, fun _ => rfl⟩
    · rw [if_neg h1]
      by_cases h2 : Value.AsInteger = -1
      · rw [if_pos h2]
        exact ⟨⟨_, rfl, AmendedRead_value h1 (OfInteger_AsInteger Value)⟩, fun h => absurd h h1⟩
      · rw [if_neg h2]
        exact ⟨⟨_, rfl, AmendedRead_value h1 (OfInteger_AsInteger Value)⟩, fun h => absurd h h1⟩
  | SelectedRegion =>
    simp only [WriteGPUPort, Option.some.injEq] at hWrite
    subst hWrite
    unfold WriteGPUSelectedRegion
    by_cases h1 : Value.AsInteger < 0 ∨ Value.AsInteger ≥ K.GPURegionsPerTexture
    · rw [if_pos h1]
      exact ⟨⟨Old, hOld, AmendedRead_old h1⟩, fun _ => rfl⟩
    · rw [if_neg h1]
      exact ⟨⟨_, rfl, AmendedRead_value h1 (OfInteger_AsInteger Value)⟩, fun h => absurd h h1⟩
  | DrawingPointX =>
    simp only [WriteGPUPort, Option.some.injEq] at hWrite
    subst hWrite
    exact ⟨⟨_, rfl, AmendedRead_clamped (fun h => h) _ _⟩, fun h => h.elim⟩
  | DrawingPointY =>
    simp only [WriteGPUPort, Option.some.injEq] at hWrite
    subst hWrite
    exact ⟨⟨_, rfl, AmendedRead_clamped (fun h => h) _ _⟩, fun h => h.elim⟩
  | DrawingScaleX =>
    simp only [WriteGPUPort, Option.some.injEq] at hWrite
    subst hWrite
    unfold WriteGPUDrawingScaleX
    by_cases h1 : (Value.AsFloat.isnan || Value.AsFloat.isinf) = true
    · rw [if_pos h1]
      exact ⟨⟨Old, hOld, AmendedRead_old ((NonFinite_iff _).mp h1)⟩, fun _ => rfl⟩
    · have hNot : ¬ GPUWriteIsIgnored K V .DrawingScaleX S.GPU Value :=
        fun h => h1 ((NonFinite_iff _).mpr h)
      rw [if_neg h1]
      exact ⟨⟨_, rfl, AmendedRead_float hNot _ _⟩, fun h => absurd h hNot⟩
  | DrawingScaleY =>
    simp only [WriteGPUPort, Option.some.injEq] at hWrite
    subst hWrite
    unfold WriteGPUDrawingScaleY
    by_cases h1 : (Value.AsFloat.isnan || Value.AsFloat.isinf) = true
    · rw [if_pos h1]
      exact ⟨⟨Old, hOld, AmendedRead_old ((NonFinite_iff _).mp h1)⟩, fun _ => rfl⟩
    · have hNot : ¬ GPUWriteIsIgnored K V .DrawingScaleY S.GPU Value :=
        fun h => h1 ((NonFinite_iff _).mpr h)
      rw [if_neg h1]
      exact ⟨⟨_, rfl, AmendedRead_float hNot _ _⟩, fun h => absurd h hNot⟩
  | DrawingAngle =>
    simp only [WriteGPUPort, Option.some.injEq] at hWrite
    subst hWrite
    unfold WriteGPUDrawingAngle
    by_cases h1 : (Value.AsFloat.isnan || Value.AsFloat.isinf) = true
    · rw [if_pos h1]
      exact ⟨⟨Old, hOld, AmendedRead_old ((NonFinite_iff _).mp h1)⟩, fun _ => rfl⟩
    · have hNot : ¬ GPUWriteIsIgnored K V .DrawingAngle S.GPU Value :=
        fun h => h1 ((NonFinite_iff _).mpr h)
      rw [if_neg h1]
      exact ⟨⟨_, rfl, AmendedRead_float hNot _ _⟩, fun h => absurd h hNot⟩
  | RegionMinX =>
    obtain ⟨Region, -, hBack⟩ := hRegion _ (fun Region => Region.MinX) hWrite hOld
    exact ⟨⟨_, hBack, AmendedRead_clamped (fun h => h) _ _⟩, fun h => h.elim⟩
  | RegionMinY =>
    obtain ⟨Region, -, hBack⟩ := hRegion _ (fun Region => Region.MinY) hWrite hOld
    exact ⟨⟨_, hBack, AmendedRead_clamped (fun h => h) _ _⟩, fun h => h.elim⟩
  | RegionMaxX =>
    obtain ⟨Region, -, hBack⟩ := hRegion _ (fun Region => Region.MaxX) hWrite hOld
    exact ⟨⟨_, hBack, AmendedRead_clamped (fun h => h) _ _⟩, fun h => h.elim⟩
  | RegionMaxY =>
    obtain ⟨Region, -, hBack⟩ := hRegion _ (fun Region => Region.MaxY) hWrite hOld
    exact ⟨⟨_, hBack, AmendedRead_clamped (fun h => h) _ _⟩, fun h => h.elim⟩
  | RegionHotspotX =>
    obtain ⟨Region, -, hBack⟩ := hRegion _ (fun Region => Region.HotspotX) hWrite hOld
    exact ⟨⟨_, hBack, AmendedRead_clamped (fun h => h) _ _⟩, fun h => h.elim⟩
  | RegionHotspotY =>
    obtain ⟨Region, -, hBack⟩ := hRegion _ (fun Region => Region.HotspotY) hWrite hOld
    exact ⟨⟨_, hBack, AmendedRead_clamped (fun h => h) _ _⟩, fun h => h.elim⟩

/-- A flag written "as a boolean" is the unsigned value clamped to [0, 1]. -/
theorem Flag_eq_Clamp (Value : V32Word) :
    (if Value.AsBinary ≠ 0 then (1 : Int) else 0) = Clamp (Value.AsBinary : Int) 0 1 := by
  unfold Clamp
  by_cases h : Value.AsBinary = 0
  · simp [h]
  · have : (0 : Int) < (Value.AsBinary : Int) := by omega
    simp only [ne_eq, h, not_false_eq_true, if_true]
    split
    · omega
    · split
      · rfl
      · omega

/-- The read of an SPU port after a write to it. -/
theorem ReadSPUPort_after_write (V : IOPortValues) (M : SPUMethods) (Port : SPULocalPorts)
    {SPU R : V32SPU} (Value : V32Word) {Old : V32Word}
    (hWrite : WriteSPUPort V M Port SPU Value = some R)
    (hOld : ReadSPUPort Port SPU = some Old) :
    (∃ New, ReadSPUPort Port R = some New
      ∧ AmendedRead (SPUWriteIsIgnored V Port SPU Value) Value Old New
          (decide (Port = .Command)) (SPUIntegerRange SPU Port) (SPUFloatRange Port)
          (SPUFlagPort Port) (SPUOtherLoopBound SPU Port))
    ∧ (SPUWriteIsIgnored V Port SPU Value → R = SPU) := by
  have hSoundWrite : ∀ (Change : SPUSound → SPUSound) (Field : SPUSound → V32Word),
      SPU.WritePointedSound Change = some R →
      ∃ Sound, SPU.SoundAt SPU.PointedSound = some Sound
        ∧ (R.SoundAt R.PointedSound).map Field = some (Field (Change Sound)) := by
    intro Change Field hW
    obtain ⟨-, -, -, -, -, -, Sound, hSound, hBack⟩ := WritePointedSound_keeps hW
    exact ⟨Sound, hSound, by rw [hBack]; rfl⟩
  have hChannelWrite : ∀ (Change : SPUChannel → SPUChannel) (Field : SPUChannel → V32Word),
      SPU.WritePointedChannel Change = some R →
      ∃ Pointed, SPU.ChannelAt SPU.PointedChannel = some Pointed
        ∧ (R.ChannelAt R.PointedChannel).map Field = some (Field (Change Pointed)) := by
    intro Change Field hW
    cases hC : SPU.ChannelAt SPU.PointedChannel with
    | none => simp [V32SPU.WritePointedChannel, hC] at hW
    | some Pointed =>
      obtain ⟨Q, hQ, -, hBack⟩ := WritePointedChannel_reads hC Change
      rw [hW] at hQ
      cases hQ
      exact ⟨Pointed, rfl, by rw [hBack]; rfl⟩
  cases Port with
  | Command =>
    exact ⟨⟨⟨0⟩, rfl, Or.inr ⟨fun h => h, Or.inl (Or.inr (Or.inr (Or.inr ⟨rfl, rfl⟩)))⟩⟩,
      fun h => h.elim⟩
  | GlobalVolume =>
    simp only [WriteSPUPort, Option.some.injEq] at hWrite
    subst hWrite
    unfold WriteSPUGlobalVolume
    by_cases h1 : (Value.AsFloat.isnan || Value.AsFloat.isinf) = true
    · rw [if_pos h1]
      exact ⟨⟨Old, hOld, AmendedRead_old ((NonFinite_iff _).mp h1)⟩, fun _ => rfl⟩
    · have hNot : ¬ SPUWriteIsIgnored V .GlobalVolume SPU Value :=
        fun h => h1 ((NonFinite_iff _).mpr h)
      rw [if_neg h1]
      exact ⟨⟨_, rfl, AmendedRead_float hNot _ _⟩, fun h => absurd h hNot⟩
  | SelectedSound =>
    simp only [WriteSPUPort, Option.some.injEq] at hWrite
    subst hWrite
    unfold WriteSPUSelectedSound
    by_cases h1 : Value.AsInteger < -1 ∨ Value.AsInteger ≥ ToInt32 SPU.CartridgeSounds.length
    · rw [if_pos h1]
      exact ⟨⟨Old, hOld, AmendedRead_old h1⟩, fun _ => rfl⟩
    · rw [if_neg h1]
      by_cases h2 : Value.AsInteger = -1
      · rw [if_pos h2]
        exact ⟨⟨_, rfl, AmendedRead_value h1 (OfInteger_AsInteger Value)⟩, fun h => absurd h h1⟩
      · rw [if_neg h2]
        exact ⟨⟨_, rfl, AmendedRead_value h1 (OfInteger_AsInteger Value)⟩, fun h => absurd h h1⟩
  | SelectedChannel =>
    simp only [WriteSPUPort, Option.some.injEq] at hWrite
    subst hWrite
    unfold WriteSPUSelectedChannel
    by_cases h1 : Value.AsInteger < 0 ∨ Value.AsInteger ≥ SPUSoundChannels
    · rw [if_pos h1]
      exact ⟨⟨Old, hOld, AmendedRead_old h1⟩, fun _ => rfl⟩
    · rw [if_neg h1]
      exact ⟨⟨_, rfl, AmendedRead_value h1 (OfInteger_AsInteger Value)⟩, fun h => absurd h h1⟩
  | SoundLength =>
    simp only [WriteSPUPort, WriteSPUSoundLength, Option.some.injEq] at hWrite
    subst hWrite
    exact ⟨⟨Old, hOld, AmendedRead_old trivial⟩, fun _ => rfl⟩
  | SoundPlayWithLoop =>
    obtain ⟨Sound, -, hBack⟩ :=
      hSoundWrite _ (fun Sound => V32Word.OfInteger Sound.PlayWithLoop) hWrite
    refine ⟨⟨_, hBack, Or.inr ⟨fun h => h, Or.inr (Or.inl ⟨rfl, ?_⟩)⟩⟩, fun h => h.elim⟩
    show V32Word.OfInteger (if Value.AsBinary ≠ 0 then 1 else 0) = _
    rw [Flag_eq_Clamp]
  | SoundLoopStart =>
    obtain ⟨Sound, hSound, hBack⟩ :=
      hSoundWrite _ (fun Sound => V32Word.OfInteger Sound.LoopStart) hWrite
    refine ⟨⟨_, hBack, ?_⟩, fun h => h.elim⟩
    show AmendedRead False Value Old
      (V32Word.OfInteger (min (Clamp Value.AsInteger 0 (Sound.Length - 1)) Sound.LoopEnd)) _ _ _ _ _
    simp only [SPUIntegerRange, SPUOtherLoopBound, hSound, Option.map_some']
    rcases le_total (Clamp Value.AsInteger 0 (Sound.Length - 1)) Sound.LoopEnd with hLe | hLe
    · rw [min_eq_left hLe]
      exact AmendedRead_clamped (fun h => h) _ _
    · rw [min_eq_right hLe]
      exact Or.inr ⟨fun h => h, Or.inr (Or.inr ⟨_, rfl, rfl⟩)⟩
  | SoundLoopEnd =>
    obtain ⟨Sound, hSound, hBack⟩ :=
      hSoundWrite _ (fun Sound => V32Word.OfInteger Sound.LoopEnd) hWrite
    refine ⟨⟨_, hBack, ?_⟩, fun h => h.elim⟩
    show AmendedRead False Value Old
      (V32Word.OfInteger (max (Clamp Value.AsInteger 0 (Sound.Length - 1)) Sound.LoopStart))
      _ _ _ _ _
    simp only [SPUIntegerRange, SPUOtherLoopBound, hSound, Option.map_some']
    rcases le_total (Clamp Value.AsInteger 0 (Sound.Length - 1)) Sound.LoopStart with hLe | hLe
    · rw [max_eq_right hLe]
      exact Or.inr ⟨fun h => h, Or.inr (Or.inr ⟨_, rfl, rfl⟩)⟩
    · rw [max_eq_left hLe]
      exact AmendedRead_clamped (fun h => h) _ _
  | ChannelState =>
    simp only [WriteSPUPort, WriteSPUChannelState, Option.some.injEq] at hWrite
    subst hWrite
    exact ⟨⟨Old, hOld, AmendedRead_old trivial⟩, fun _ => rfl⟩
  | ChannelAssignedSound =>
    simp only [WriteSPUPort] at hWrite
    unfold WriteSPUChannelAssignedSound at hWrite
    by_cases h1 : Value.AsInteger < -1 ∨ Value.AsInteger ≥ ToInt32 SPU.CartridgeSounds.length
    · rw [if_pos h1] at hWrite
      cases hWrite
      exact ⟨⟨Old, hOld, AmendedRead_old (Or.inl h1)⟩, fun _ => rfl⟩
    · rw [if_neg h1] at hWrite
      cases hC : SPU.ChannelAt SPU.PointedChannel with
      | none => simp [hC] at hWrite
      | some Pointed =>
        simp only [hC] at hWrite
        by_cases h2 : Pointed.State ≠ V.SPUChannelState_Stopped
        · rw [if_pos h2] at hWrite
          cases hWrite
          exact ⟨⟨Old, hOld, AmendedRead_old (Or.inr (by simpa [hC] using h2))⟩, fun _ => rfl⟩
        · have hNot : ¬ SPUWriteIsIgnored V .ChannelAssignedSound SPU Value := by
            intro h
            rcases h with h | h
            · exact h1 h
            · exact h2 (by simpa [hC] using h)
          rw [if_neg h2] at hWrite
          by_cases h3 : Value.AsInteger = -1
          · rw [if_pos h3] at hWrite
            obtain ⟨Pointed2, -, hBack⟩ :=
              hChannelWrite _ (fun Channel => V32Word.OfInteger Channel.AssignedSound) hWrite
            exact ⟨⟨_, hBack, AmendedRead_value hNot (OfInteger_AsInteger Value)⟩,
              fun h => absurd h hNot⟩
          · rw [if_neg h3] at hWrite
            obtain ⟨Pointed2, -, hBack⟩ :=
              hChannelWrite _ (fun Channel => V32Word.OfInteger Channel.AssignedSound) hWrite
            exact ⟨⟨_, hBack, AmendedRead_value hNot (OfInteger_AsInteger Value)⟩,
              fun h => absurd h hNot⟩
  | ChannelVolume =>
    simp only [WriteSPUPort] at hWrite
    unfold WriteSPUChannelVolume at hWrite
    by_cases h1 : (Value.AsFloat.isnan || Value.AsFloat.isinf) = true
    · rw [if_pos h1] at hWrite
      cases hWrite
      exact ⟨⟨Old, hOld, AmendedRead_old ((NonFinite_iff _).mp h1)⟩, fun _ => rfl⟩
    · have hNot : ¬ SPUWriteIsIgnored V .ChannelVolume SPU Value :=
        fun h => h1 ((NonFinite_iff _).mpr h)
      rw [if_neg h1] at hWrite
      obtain ⟨Pointed, -, hBack⟩ :=
        hChannelWrite _ (fun Channel => (⟨Channel.Volume.Bits⟩ : V32Word)) hWrite
      exact ⟨⟨_, hBack, AmendedRead_float hNot _ _⟩, fun h => absurd h hNot⟩
  | ChannelSpeed =>
    simp only [WriteSPUPort] at hWrite
    unfold WriteSPUChannelSpeed at hWrite
    by_cases h1 : (Value.AsFloat.isnan || Value.AsFloat.isinf) = true
    · rw [if_pos h1] at hWrite
      cases hWrite
      exact ⟨⟨Old, hOld, AmendedRead_old ((NonFinite_iff _).mp h1)⟩, fun _ => rfl⟩
    · have hNot : ¬ SPUWriteIsIgnored V .ChannelSpeed SPU Value :=
        fun h => h1 ((NonFinite_iff _).mpr h)
      rw [if_neg h1] at hWrite
      obtain ⟨Pointed, -, hBack⟩ :=
        hChannelWrite _ (fun Channel => (⟨Channel.Speed.Bits⟩ : V32Word)) hWrite
      exact ⟨⟨_, hBack, AmendedRead_float hNot _ _⟩, fun h => absurd h hNot⟩
  | ChannelLoopEnabled =>
    obtain ⟨Pointed, -, hBack⟩ :=
      hChannelWrite _ (fun Channel => V32Word.OfInteger Channel.LoopEnabled) hWrite
    refine ⟨⟨_, hBack, Or.inr ⟨fun h => h, Or.inr (Or.inl ⟨rfl, ?_⟩)⟩⟩, fun h => h.elim⟩
    show V32Word.OfInteger (if Value.AsBinary ≠ 0 then 1 else 0) = _
    rw [Flag_eq_Clamp]
  | ChannelPosition =>
    simp only [WriteSPUPort] at hWrite
    unfold WriteSPUChannelPosition at hWrite
    cases hC : SPU.ChannelAt SPU.PointedChannel with
    | none => simp [hC] at hWrite
    | some Pointed =>
      simp only [hC] at hWrite
      cases hS : SPU.SoundAt Pointed.CurrentSound with
      | none => simp [hS] at hWrite
      | some Sound =>
        simp only [hS] at hWrite
        obtain ⟨Pointed2, -, hBack⟩ :=
          hChannelWrite _ (fun Channel => V32Word.OfInteger (Truncate Channel.Position)) hWrite
        refine ⟨⟨_, hBack, ?_⟩, fun h => h.elim⟩
        show AmendedRead False Value Old
          (V32Word.OfInteger (Truncate ((Clamp Value.AsInteger 0 (Sound.Length - 1) : Int) : ℚ)))
          _ _ _ _ _
        rw [Truncate_intCast]
        simp only [SPUIntegerRange, V32SPU.PointedCurrentSound, hC, hS, Option.map_some']
        exact AmendedRead_clamped (fun h => h) _ _

/-- An assignment through `PointedRegion` that is defined goes to a region. -/
theorem WritePointedRegion_pointed {GPU Changed : V32GPU} {Change : GPURegion → GPURegion}
    (h : GPU.WritePointedRegion Change = some Changed) :
    ∃ Region, GPU.RegionAt GPU.PointedRegion = some Region := by
  unfold V32GPU.WritePointedRegion at h
  unfold V32GPU.RegionAt
  cases hT : GPU.TextureAt GPU.PointedRegion.Texture with
  | none => simp [hT] at h
  | some Texture =>
    simp only [hT] at h ⊢
    by_cases hNeg : GPU.PointedRegion.Region < 0
    · simp [hNeg] at h
    · simp only [hNeg, if_false] at h ⊢
      cases hR : Texture.Regions[GPU.PointedRegion.Region.toNat]? with
      | none => simp [hR] at h
      | some Region => exact ⟨Region, rfl⟩

/-- With valid pointers every GPU port can be read. -/
theorem ReadGPUPort_defined (K : Constants) (Port : GPULocalPorts) {GPU : V32GPU}
    (h : GPUPointersValid K GPU) : ∃ Old, ReadGPUPort Port GPU = some Old := by
  obtain ⟨Changed, hChanged⟩ := WritePointedRegion_defined h id
  obtain ⟨Region, hRegion⟩ := WritePointedRegion_pointed hChanged
  cases Port <;> simp [ReadGPUPort, hRegion]

/-- With valid pointers every SPU port can be read. -/
theorem ReadSPUPort_defined (Port : SPULocalPorts) {SPU : V32SPU}
    (h : SPUPointersValid SPU) : ∃ Old, ReadSPUPort Port SPU = some Old := by
  obtain ⟨Q, hQ⟩ := WritePointedSound_defined h id
  obtain ⟨-, -, -, -, -, -, Sound, hSound, -⟩ := WritePointedSound_keeps hQ
  obtain ⟨R, hR⟩ := WritePointedChannel_defined h id
  have hChannel : ∃ Pointed, SPU.ChannelAt SPU.PointedChannel = some Pointed := by
    cases hC : SPU.ChannelAt SPU.PointedChannel with
    | none => simp [V32SPU.WritePointedChannel, hC] at hR
    | some Pointed => exact ⟨Pointed, rfl⟩
  obtain ⟨Pointed, hPointed⟩ := hChannel
  cases Port <;> simp [ReadSPUPort, hSound, hPointed]

/-- Claim C31 (counterexample): On the sample console, whose textures have 4
regions and where region 2 is selected, the write of 99 to the selected-region
port is ignored: the read of the port returns 2 after the write as before it,
which is neither 99, nor 99 clamped to a range of the port (the port has none;
clamped to the region numbers 0 to 3 it would be 3), nor the 0 of a write-only
register. -/
theorem C31_counterexample_ignored_write_reads_old_value :
    WriteGPUPort SampleConstants SampleValues SampleGPUMethods .SelectedRegion SampleVideo
        (V32Word.OfInteger 99) = some SampleVideo
    ∧ ReadGPUPort .SelectedRegion SampleVideo.GPU = some (V32Word.OfInteger 2)
    ∧ ¬ ClaimedRead (V32Word.OfInteger 99) (V32Word.OfInteger 2)
          (decide (GPULocalPorts.SelectedRegion = GPULocalPorts.Command))
          (GPUIntegerRange SampleConstants .SelectedRegion) (GPUFloatRange .SelectedRegion)
    ∧ V32Word.OfInteger 2
        ≠ V32Word.OfInteger (Clamp 99 0 (SampleConstants.GPURegionsPerTexture - 1)) := by
  refine ⟨by decide!, by decide!, ?_, by decide!⟩
  intro hClaimed
  rcases hClaimed with h | ⟨_, _, h, _⟩ | ⟨_, _, h, _⟩ | ⟨h, _⟩
  · exact absurd h (by decide!)
  · cases h
  · cases h
  · exact absurd h (by decide)

/-- Claim C31 (amended): For every GPU port and SPU port and every value v, take
a write of v that is defined, followed by a read of the register of the port
(the reads being modelled from the specification: the content of the register,
0 for the write-only command ports).  When the write is ignored (read-only
register, selection out of range, invalid blending mode, NaN or infinity to a
float port, sound out of range or assigned to a channel that is not stopped),
the read returns the word read before the write, and the write leaves the whole
state as it was.  When the write is not ignored, the read returns one of: the
word v; v clamped to the range of the port; for the two flag ports of the SPU,
v clamped to [0, 1] as the unsigned number that the writer reads (1 for every
v other than 0); for a loop bound of a sound, the other loop bound, to which
the write snaps; 0 for a write-only register.  With pointers that designate
objects every write and every read is defined. -/
theorem C31_read_after_write_is_related (K : Constants) (V : IOPortValues) (M : GPUMethods)
    (N : SPUMethods) (S : VideoState) (SPU : V32SPU) (Value : V32Word) :
    (∀ Port Q Old, WriteGPUPort K V M Port S Value = some Q →
        ReadGPUPort Port S.GPU = some Old →
        (∃ New, ReadGPUPort Port Q.GPU = some New
          ∧ AmendedRead (GPUWriteIsIgnored K V Port S.GPU Value) Value Old New
              (decide (Port = .Command)) (GPUIntegerRange K Port) (GPUFloatRange Port)
              false none)
        ∧ (GPUWriteIsIgnored K V Port S.GPU Value → Q = S))
    ∧ (∀ Port R Old, WriteSPUPort V N Port SPU Value = some R →
        ReadSPUPort Port SPU = some Old →
        (∃ New, ReadSPUPort Port R = some New
          ∧ AmendedRead (SPUWriteIsIgnored V Port SPU Value) Value Old New
              (decide (Port = .Command)) (SPUIntegerRange SPU Port) (SPUFloatRange Port)
              (SPUFlagPort Port) (SPUOtherLoopBound SPU Port))
        ∧ (SPUWriteIsIgnored V Port SPU Value → R = SPU))
    ∧ (GPUPointersValid K S.GPU → ∀ Port,
        ∃ Q Old, WriteGPUPort K V M Port S Value = some Q ∧ ReadGPUPort Port S.GPU = some Old)
    ∧ (SPUPointersValid SPU → ∀ Port,
        ∃ R Old, WriteSPUPort V N Port SPU Value = some R ∧ ReadSPUPort Port SPU = some Old) := by
  refine ⟨fun Port Q Old hWrite hOld => ReadGPUPort_after_write K V M Port Value hWrite hOld,
    fun Port R Old hWrite hOld => ReadSPUPort_after_write V N Port Value hWrite hOld, ?_, ?_⟩
  · intro hValid Port
    obtain ⟨Q, hQ⟩ := WriteGPUPort_defined K V M Port Value hValid
    obtain ⟨Old, hOld⟩ := ReadGPUPort_defined K Port hValid
    exact ⟨Q, Old, hQ, hOld⟩
  · intro hValid Port
    obtain ⟨R, hR⟩ := WriteSPUPort_defined V N Port Value hValid
    obtain ⟨Old, hOld⟩ := ReadSPUPort_defined Port hValid
    exact ⟨R, Old, hR, hOld⟩

/-- On the sample console: the write of 99 to the selected-region port is
ignored, reads back the 2 read before it and leaves the state as it was; the
write of 5000 to the drawing point X is not ignored and reads back 1640 (the
screen being 640 wide); the write of 80 to the loop start of the BIOS sound,
whose loop ends at 60, reads back 60; the write of 7 to the loop flag of the
selected channel reads back 1; and the command port, written with the code of a
screen clear, reads back 0. -/
theorem C31_read_after_write_is_related_witness :
    (WriteGPUPort SampleConstants SampleValues SampleGPUMethods .SelectedRegion SampleVideo
        (V32Word.OfInteger 99) = some SampleVideo
      ∧ ReadGPUPort .SelectedRegion SampleVideo.GPU = some (V32Word.OfInteger 2)
      ∧ GPUWriteIsIgnored SampleConstants SampleValues .SelectedRegion SampleVideo.GPU
          (V32Word.OfInteger 99)
      ∧ (∃ New, ReadGPUPort .SelectedRegion SampleVideo.GPU = some New
          ∧ AmendedRead
              (GPUWriteIsIgnored SampleConstants SampleValues .SelectedRegion SampleVideo.GPU
                (V32Word.OfInteger 99))
              (V32Word.OfInteger 99) (V32Word.OfInteger 2) New
              (decide (GPULocalPorts.SelectedRegion = GPULocalPorts.Command))
              (GPUIntegerRange SampleConstants .SelectedRegion) (GPUFloatRange .SelectedRegion)
              false none)
      ∧ (GPUWriteIsIgnored SampleConstants SampleValues .SelectedRegion SampleVideo.GPU
          (V32Word.OfInteger 99) → SampleVideo = SampleVideo))
    ∧ ¬ GPUWriteIsIgnored SampleConstants SampleValues .DrawingPointX SampleVideo.GPU
        (V32Word.OfInteger 5000)
    ∧ (WriteGPUPort SampleConstants SampleValues SampleGPUMethods .DrawingPointX SampleVideo
        (V32Word.OfInteger 5000)).bind (fun Q => ReadGPUPort .DrawingPointX Q.GPU)
        = some (V32Word.OfInteger 1640)
    ∧ (WriteSPUPort SampleValues SampleSPUMethods .SoundLoopStart SampleSPU
        (V32Word.OfInteger 80)).bind (fun R => ReadSPUPort .SoundLoopStart R)
        = some (V32Word.OfInteger 60)
    ∧ (WriteSPUPort SampleValues SampleSPUMethods .ChannelLoopEnabled SampleSPU
        (V32Word.OfInteger 7)).bind (fun R => ReadSPUPort .ChannelLoopEnabled R)
        = some (V32Word.OfInteger 1)
    ∧ (WriteGPUPort SampleConstants SampleValues SampleGPUMethods .Command SampleVideo
        (V32Word.OfInteger 16)).bind (fun Q => ReadGPUPort .Command Q.GPU)
        = some ⟨0⟩ :=
  ⟨⟨by decide!, by decide!, Or.inr (by decide!),
    (C31_read_after_write_is_related SampleConstants SampleValues SampleGPUMethods
      SampleSPUMethods SampleVideo SampleSPU (V32Word.OfInteger 99)).1 .SelectedRegion
      SampleVideo (V32Word.OfInteger 2) (by decide!) (by decide!)⟩,
   fun h => h, by decide!, by decide!, by decide!, by decide!⟩

/-! ## Theorems: conditional blocks with nested conditionals and includes -/

theorem Preprocessor_eta (P : VirconASMPreprocessor) :
    ({ P with ContextStack := P.ContextStack } : VirconASMPreprocessor) = P := by
  cases P; rfl

/-- A frame that evaluates true can be taken out of an if-stack without
changing whether all if-conditions are met. -/
theorem AreAllIfConditionsMet_without {TP TQ : ProcessingContext} {Nested Outer : List IfContext}
    {Frame : IfContext} (hFrame : Frame.Evaluates = true)
    (hTP : TP.IfStack = Nested ++ Frame :: Outer) (hTQ : TQ.IfStack = Nested ++ Outer) :
    TP.AreAllIfConditionsMet = TQ.AreAllIfConditionsMet := by
  simp [ProcessingContext.AreAllIfConditionsMet, hTP, hTQ, List.all_append, hFrame]

theorem ConditionalKeyword_flat {Line : TokenList} (h : IsFlatLine Line = true) :
    ConditionalKeyword Line = none := by
  unfold ConditionalKeyword
  unfold IsFlatLine at h
  split
  · rename_i Front Keyword Others
    simp only at h
    split
    · rename_i hPercent
      simp only [hPercent, if_true] at h
      split
      · rename_i Name hName
        simp only [hName, Bool.not_eq_true', Bool.or_eq_false_iff] at h
        simp [h.2]
      · rfl
    · rfl
  · rfl

theorem ConditionalKeyword_directive {Front Keyword : Token} {Others : TokenList}
    {Name : String} (hPercent : Front.Data = .Symbol .Percent)
    (hKeyword : Keyword.Data = .Identifier Name) :
    ConditionalKeyword (Front :: Keyword :: Others)
      = if IsConditionalName Name then some Name else none := by
  simp [ConditionalKeyword, (TokenIsThisSymbol_iff _ _).mpr hPercent, hKeyword]

theorem ProcessIf_pair {P Q : VirconASMPreprocessor} {T T' : ProcessingContext}
    {B B' : List ProcessingContext} (Line : TokenList) (IsIfndef : Bool)
    (hP : P.ContextStack = T :: B) (hQ : Q.ContextStack = T' :: B')
    (hD : P.Definitions = Q.Definitions) :
    (∃ E, ProcessIf P Line IsIfndef = .error E ∧ ProcessIf Q Line IsIfndef = .error E)
    ∨ (∃ Added,
        ProcessIf P Line IsIfndef
          = .ok { P with ContextStack := { T with IfStack := Added :: T.IfStack } :: B }
        ∧ ProcessIf Q Line IsIfndef
          = .ok { Q with ContextStack := { T' with IfStack := Added :: T'.IfStack } :: B' }) := by
  have hFind : ∀ Name, Q.Definitions.find Name = P.Definitions.find Name := fun Name => by
    rw [hD]
  unfold ProcessIf
  simp only [bind, Except.bind, hP, hQ, SetTop, List.tail_cons, hFind]
  cases Line[2]? with
  | none =>
    simp only
    cases FrontLocation Line with
    | error E => exact Or.inl ⟨E, rfl, rfl⟩
    | ok L => exact Or.inl ⟨_, rfl, rfl⟩
  | some Third =>
    simp only
    cases ExpectIdentifier Line 2 with
    | error E => exact Or.inl ⟨E, rfl, rfl⟩
    | ok R =>
      simp only
      cases ExpectEndOfLine Line R.2 with
      | error E => exact Or.inl ⟨E, rfl, rfl⟩
      | ok U =>
        simp only
        cases FrontLocation Line with
        | error E => exact Or.inl ⟨E, rfl, rfl⟩
        | ok L => exact Or.inr ⟨_, rfl, rfl⟩

theorem ProcessElse_pair {P Q : VirconASMPreprocessor} {T T' : ProcessingContext}
    {B B' : List ProcessingContext} {Inner : IfContext} {Others Others' : List IfContext}
    (Line : TokenList)
    (hP : P.ContextStack = T :: B) (hQ : Q.ContextStack = T' :: B')
    (hT : T.IfStack = Inner :: Others) (hT' : T'.IfStack = Inner :: Others') :
    (∃ E, ProcessElse P Line = .error E ∧ ProcessElse Q Line = .error E)
    ∨ (ProcessElse P Line
          = .ok { P with ContextStack :=
                    { T with IfStack := { Inner with ElseWasFound := true } :: Others } :: B }
        ∧ ProcessElse Q Line
          = .ok { Q with ContextStack :=
                    { T' with IfStack := { Inner with ElseWasFound := true } :: Others' }
                      :: B' }) := by
  unfold ProcessElse
  simp only [bind, Except.bind, hP, hQ, SetTop, List.tail_cons, hT, hT']
  cases ExpectEndOfLine Line 2 with
  | error E => exact Or.inl ⟨E, rfl, rfl⟩
  | ok U =>
    simp only
    cases FrontLocation Line with
    | error E => exact Or.inl ⟨E, rfl, rfl⟩
    | ok L =>
      simp only
      by_cases hE : Inner.ElseWasFound = true
      · simp only [hE, if_true]
        exact Or.inl ⟨_, rfl, rfl⟩
      · simp only [hE, if_false]
        exact Or.inr ⟨rfl, rfl⟩

theorem ProcessEndif_pair {P Q : VirconASMPreprocessor} {T T' : ProcessingContext}
    {B B' : List ProcessingContext} {Inner : IfContext} {Others Others' : List IfContext}
    (Line : TokenList)
    (hP : P.ContextStack = T :: B) (hQ : Q.ContextStack = T' :: B')
    (hT : T.IfStack = Inner :: Others) (hT' : T'.IfStack = Inner :: Others') :
    (∃ E, ProcessEndif P Line = .error E ∧ ProcessEndif Q Line = .error E)
    ∨ (ProcessEndif P Line = .ok { P with ContextStack := { T with IfStack := Others } :: B }
        ∧ ProcessEndif Q Line
          = .ok { Q with ContextStack := { T' with IfStack := Others' } :: B' }) := by
  unfold ProcessEndif
  simp only [bind, Except.bind, hP, hQ, SetTop, List.tail_cons, hT, hT']
  cases ExpectEndOfLine Line 2 with
  | error E => exact Or.inl ⟨E, rfl, rfl⟩
  | ok U =>
    simp only
    cases FrontLocation Line with
    | error E => exact Or.inl ⟨E, rfl, rfl⟩
    | ok L => exact Or.inr ⟨rfl, rfl⟩

theorem ProcessInclude_pair (H : Host) {P Q : VirconASMPreprocessor}
    {T T' : ProcessingContext} {B B' : List ProcessingContext} (Line : TokenList)
    (hP : P.ContextStack = T :: B) (hQ : Q.ContextStack = T' :: B')
    (hFolder : T.ReferenceFolder = T'.ReferenceFolder) :
    (∃ E, ProcessInclude H P Line = .error E ∧ ProcessInclude H Q Line = .error E)
    ∨ (∃ New, ProcessInclude H P Line = .ok { P with ContextStack := New :: T :: B }
        ∧ ProcessInclude H Q Line = .ok { Q with ContextStack := New :: T' :: B' }) := by
  unfold ProcessInclude
  simp only [bind, Except.bind, IncludeFile, PushContextFile, PushContextLexer, hP, hQ,
    ← hFolder]
  cases Line[2]? with
  | none =>
    simp only
    cases FrontLocation Line with
    | error E => exact Or.inl ⟨E, rfl, rfl⟩
    | ok L => exact Or.inl ⟨_, rfl, rfl⟩
  | some PathToken =>
    simp only
    cases PathToken.Data with
    | LiteralString IncludedFilePath =>
      simp only
      cases ExpectEndOfLine Line 3 with
      | error E => exact Or.inl ⟨E, rfl, rfl⟩
      | ok U =>
        simp only
        cases H.TokenizeFile ((T.ReferenceFolder.push H.PathSeparator) ++ IncludedFilePath) with
        | none => exact Or.inl ⟨_, rfl, rfl⟩
        | some Lexer =>
          simp only
          rcases hL : Lexer.TokenLines with _ | ⟨_ | ⟨First, Others⟩, Lines⟩
          · exact Or.inl ⟨_, rfl, rfl⟩
          · exact Or.inl ⟨_, rfl, rfl⟩
          · exact Or.inr ⟨_, rfl, rfl⟩
    | _ => exact Or.inl ⟨_, rfl, rfl⟩

/-- Processing a line of the first branch that is not flat, inside the block
and with the branch standing alone: both fail with the same failure, or both
change the conditionals opened within the branch in the same way, or both push
the same included context. -/
theorem ProcessLine_in_branch (H : Host) {P Q : VirconASMPreprocessor}
    {TP TQ : ProcessingContext} {Below : List ProcessingContext} {Line : TokenList}
    {Nested Outer : List IfContext} {Frame : IfContext} {Next : Nat}
    (hP : P.ContextStack = TP :: Below) (hQ : Q.ContextStack = TQ :: Below)
    (hD : P.Definitions = Q.Definitions)
    (hLineP : TP.GetCurrentLine = .ok Line) (hLineQ : TQ.GetCurrentLine = .ok Line)
    (hFolder : TP.ReferenceFolder = TQ.ReferenceFolder)
    (hFrame : Frame.Evaluates = true)
    (hTP : TP.IfStack = Nested ++ Frame :: Outer) (hTQ : TQ.IfStack = Nested ++ Outer)
    (hNext : NestingAfter Nested.length Line = some Next)
    (hFlat : IsFlatLine Line = false) :
    (∃ E, ProcessLine H P = .error E ∧ ProcessLine H Q = .error E)
    ∨ (∃ Inner, Inner.length = Next
        ∧ ProcessLine H P
          = .ok { P with ContextStack :=
                    { TP with IfStack := Inner ++ Frame :: Outer } :: Below }
        ∧ ProcessLine H Q
          = .ok { Q with ContextStack := { TQ with IfStack := Inner ++ Outer } :: Below })
    ∨ (∃ New, Nested.length = Next
        ∧ ProcessLine H P = .ok { P with ContextStack := New :: TP :: Below }
        ∧ ProcessLine H Q = .ok { Q with ContextStack := New :: TQ :: Below }) := by
  obtain ⟨Front, Keyword, Others, Name, rfl, hF, hK, hName⟩ := not_flat_line hFlat
  rw [ProcessLine_directive H hP hLineP hF hK, ProcessLine_directive H hQ hLineQ hF hK]
  have hActive : TQ.AreAllIfConditionsMet = TP.AreAllIfConditionsMet :=
    (AreAllIfConditionsMet_without hFrame hTP hTQ).symm
  rw [hActive]
  have hKey := @ConditionalKeyword_directive Front Keyword Others Name hF hK
  unfold NestingAfter at hNext
  rw [hKey] at hNext
  rcases hName with h | h | h | h | h
  · subst h
    have hNo : IsConditionalName "include" = false := by decide
    simp only [hNo, Bool.false_eq_true, if_false, Option.some.injEq] at hNext
    by_cases hSkip : (!TP.AreAllIfConditionsMet && !IsConditionalName "include") = true
    · rw [if_pos hSkip, if_pos hSkip]
      refine Or.inr (Or.inl ⟨Nested, hNext, ?_, ?_⟩)
      · rw [← hTP, ProcessingContext_eta, ← hP, Preprocessor_eta]
      · rw [← hTQ, ProcessingContext_eta, ← hQ, Preprocessor_eta]
    · rw [if_neg hSkip, if_neg hSkip]
      have hLen : Q.ContextStack.length = P.ContextStack.length := by
        rw [hP, hQ]; simp
      simp only [ProcessDirective, if_true, hLen]
      by_cases hDeep : P.ContextStack.length > 20
      · rw [if_pos hDeep, if_pos hDeep]
        exact Or.inl ⟨_, rfl, rfl⟩
      · rw [if_neg hDeep, if_neg hDeep]
        rcases ProcessInclude_pair H (Front :: Keyword :: Others) hP hQ hFolder with
          ⟨E, h1, h2⟩ | ⟨New, h1, h2⟩
        · exact Or.inl ⟨E, h1, h2⟩
        · exact Or.inr (Or.inr ⟨New, hNext, h1, h2⟩)
  · subst h
    have hYes : IsConditionalName "ifdef" = true := by decide
    simp only [hYes, if_true, true_or, Option.some.injEq] at hNext
    simp only [hYes, Bool.not_true, Bool.and_false, Bool.false_eq_true, if_false,
      ProcessDirective, String.reduceEq, if_true]
    rcases ProcessIf_pair (Front :: Keyword :: Others) false hP hQ hD with
      ⟨E, h1, h2⟩ | ⟨Added, h1, h2⟩
    · exact Or.inl ⟨E, h1, h2⟩
    · refine Or.inr (Or.inl ⟨Added :: Nested, by simpa using hNext, ?_, ?_⟩)
      · rw [h1, hTP]; rfl
      · rw [h2, hTQ]; rfl
  · subst h
    have hYes : IsConditionalName "ifndef" = true := by decide
    simp only [hYes, if_true, or_true, Option.some.injEq] at hNext
    simp only [hYes, Bool.not_true, Bool.and_false, Bool.false_eq_true, if_false,
      ProcessDirective, String.reduceEq, if_true]
    rcases ProcessIf_pair (Front :: Keyword :: Others) true hP hQ hD with
      ⟨E, h1, h2⟩ | ⟨Added, h1, h2⟩
    · exact Or.inl ⟨E, h1, h2⟩
    · refine Or.inr (Or.inl ⟨Added :: Nested, by simpa using hNext, ?_, ?_⟩)
      · rw [h1, hTP]; rfl
      · rw [h2, hTQ]; rfl
  · subst h
    have hYes : IsConditionalName "else" = true := by decide
    simp only [hYes, if_true, String.reduceEq, or_self, if_false] at hNext
    simp only [hYes, Bool.not_true, Bool.and_false, Bool.false_eq_true, if_false,
      ProcessDirective, String.reduceEq, if_true]
    cases Nested with
    | nil => simp at hNext
    | cons Inner Others' =>
      simp only [List.length_cons, Nat.add_one_ne_zero, if_false, Option.some.injEq] at hNext
      rcases ProcessElse_pair (Front :: Keyword :: Others) hP hQ hTP hTQ with
        ⟨E, h1, h2⟩ | ⟨h1, h2⟩
      · exact Or.inl ⟨E, h1, h2⟩
      · exact Or.inr (Or.inl ⟨{ Inner with ElseWasFound := true } :: Others',
          by simpa using hNext, h1, h2⟩)
  · subst h
    have hYes : IsConditionalName "endif" = true := by decide
    simp only [hYes, if_true, String.reduceEq, or_self, if_false] at hNext
    simp only [hYes, Bool.not_true, Bool.and_false, Bool.false_eq_true, if_false,
      ProcessDirective, String.reduceEq, if_true]
    cases Nested with
    | nil => simp at hNext
    | cons Inner Others' =>
      simp only [List.length_cons, Nat.add_one_ne_zero, if_false, Option.some.injEq,
        Nat.add_sub_cancel] at hNext
      rcases ProcessEndif_pair (Front :: Keyword :: Others) hP hQ hTP hTQ with
        ⟨E, h1, h2⟩ | ⟨h1, h2⟩
      · exact Or.inl ⟨E, h1, h2⟩
      · exact Or.inr (Or.inl ⟨Others', hNext, h1, h2⟩)

/-- One turn on a line of the first branch, inside the block and with the
branch standing alone: both turns fail with the same failure, or both lead to
states that differ as before, in the one context that holds the branch. -/
theorem LoopStep_in_branch (H : Host) {P : VirconASMPreprocessor}
    {TP TQ : ProcessingContext} {Below : List ProcessingContext} {Line : TokenList}
    {RestP RestQ : List TokenList} {Nested Outer : List IfContext} {Frame : IfContext}
    {Next : Nat}
    (hP : P.ContextStack = TP :: Below)
    (hPendingP : TP.Pending = Line :: RestP) (hPendingQ : TQ.Pending = Line :: RestQ)
    (hFolder : TP.ReferenceFolder = TQ.ReferenceFolder) (hFile : TP.FilePath = TQ.FilePath)
    (hFrame : Frame.Evaluates = true)
    (hTP : TP.IfStack = Nested ++ Frame :: Outer) (hTQ : TQ.IfStack = Nested ++ Outer)
    (hNext : NestingAfter Nested.length Line = some Next) :
    (∃ E, LoopStep H P = .error E
        ∧ LoopStep H { P with ContextStack := TQ :: Below } = .error E)
    ∨ (∃ (S : VirconASMPreprocessor) (Upper : List ProcessingContext)
          (NP NQ : ProcessingContext) (Inner : List IfContext),
        LoopStep H P = .ok { S with ContextStack := Upper ++ NP :: Below }
        ∧ LoopStep H { P with ContextStack := TQ :: Below }
            = .ok { S with ContextStack := Upper ++ NQ :: Below }
        ∧ NP.IfStack = Inner ++ Frame :: Outer ∧ NQ.IfStack = Inner ++ Outer
        ∧ Inner.length = Next
        ∧ NP.Pending = RestP ∧ NQ.Pending = RestQ
        ∧ NP.ReferenceFolder = NQ.ReferenceFolder ∧ NP.FilePath = NQ.FilePath) := by
  have hQ : ({ P with ContextStack := TQ :: Below } : VirconASMPreprocessor).ContextStack
      = TQ :: Below := rfl
  have hDropP := (Pending_cons hPendingP).2.2
  have hDropQ := (Pending_cons hPendingQ).2.2
  by_cases hFlat : IsFlatLine Line = true
  · have hSame : Nested.length = Next := by
      unfold NestingAfter at hNext
      rw [ConditionalKeyword_flat hFlat] at hNext
      simpa using hNext
    rw [LoopStep_flat H hP hPendingP hFlat, LoopStep_flat H hQ hPendingQ hFlat,
      ← AreAllIfConditionsMet_without hFrame hTP hTQ]
    cases FlatLine H (decide (Below ≠ [])) TP.AreAllIfConditionsMet P.Definitions Line with
    | error E => exact Or.inl ⟨E, rfl, rfl⟩
    | ok O =>
      have hSetP : (TP.SourceLines.set TP.LinePosition O.Rewritten).drop (TP.LinePosition + 1)
          = RestP := by
        rw [List.drop_set_of_lt _ _ (Nat.lt_succ_self _)]
        exact hDropP
      have hSetQ : (TQ.SourceLines.set TQ.LinePosition O.Rewritten).drop (TQ.LinePosition + 1)
          = RestQ := by
        rw [List.drop_set_of_lt _ _ (Nat.lt_succ_self _)]
        exact hDropQ
      exact Or.inr ⟨AfterLine P TP Below O, [], _, _, Nested, rfl, rfl, hTP, hTQ, hSame,
        hSetP, hSetQ, hFolder, hFile⟩
  · simp only [Bool.not_eq_true] at hFlat
    obtain ⟨-, hLineP⟩ := GetCurrentLine_of_pending hPendingP
    obtain ⟨-, hLineQ⟩ := GetCurrentLine_of_pending hPendingQ
    obtain ⟨hEndedP, -⟩ := GetCurrentLine_of_pending hPendingP
    obtain ⟨hEndedQ, -⟩ := GetCurrentLine_of_pending hPendingQ
    rcases ProcessLine_in_branch H hP hQ rfl hLineP hLineQ hFolder hFrame hTP hTQ hNext hFlat
      with ⟨E, h1, h2⟩ | ⟨Inner, hLen, h1, h2⟩ | ⟨New, hLen, h1, h2⟩
    · exact Or.inl ⟨E, LoopStep_of_error H hP hEndedP h1, LoopStep_of_error H hQ hEndedQ h2⟩
    · exact Or.inr ⟨P, [], _, _, Inner, LoopStep_of_frames H hP hPendingP h1,
        LoopStep_of_frames H hQ hPendingQ h2, rfl, rfl, hLen, hDropP, hDropQ, hFolder, hFile⟩
    · exact Or.inr ⟨P, [New], _, _, Nested, LoopStep_of_push H hP hPendingP h1,
        LoopStep_of_push H hQ hPendingQ h2, hTP, hTQ, hLen, hDropP, hDropQ, hFolder, hFile⟩

/-- One turn in two states that have the same context on top, above stacks of
the same height: both turns fail with the same failure, or both change what
lies above those stacks in the same way. -/
theorem LoopStep_same_top (H : Host) {P : VirconASMPreprocessor} {U : ProcessingContext}
    {RestP : List ProcessingContext} (RestQ : List ProcessingContext)
    (hP : P.ContextStack = U :: RestP) (hLength : RestP.length = RestQ.length) :
    (∃ E, LoopStep H P = .error E
        ∧ LoopStep H { P with ContextStack := U :: RestQ } = .error E)
    ∨ (∃ (S : VirconASMPreprocessor) (Upper : List ProcessingContext),
        LoopStep H P = .ok { S with ContextStack := Upper ++ RestP }
        ∧ LoopStep H { P with ContextStack := U :: RestQ }
            = .ok { S with ContextStack := Upper ++ RestQ }) := by
  have hQ : ({ P with ContextStack := U :: RestQ } : VirconASMPreprocessor).ContextStack
      = U :: RestQ := rfl
  by_cases hEnded : U.LinesHaveEnded = true
  · refine Or.inr ⟨P, [], ?_, ?_⟩
    · rw [LoopStep_pop H hP hEnded]
      simp [PopContext, hP]
    · rw [LoopStep_pop H hQ hEnded]
      simp [PopContext]
  · simp only [Bool.not_eq_true] at hEnded
    cases hPending : U.Pending with
    | nil =>
      exact Or.inl ⟨_, LoopStep_nothing_pending H hP hEnded hPending,
        LoopStep_nothing_pending H hQ hEnded hPending⟩
    | cons Line Rest =>
      have hBelow : decide (RestQ ≠ []) = decide (RestP ≠ []) := by
        cases RestP <;> cases RestQ <;> simp at hLength ⊢
      by_cases hFlat : IsFlatLine Line = true
      · rw [LoopStep_flat H hP hPending hFlat, LoopStep_flat H hQ hPending hFlat, hBelow]
        cases FlatLine H (decide (RestP ≠ [])) U.AreAllIfConditionsMet P.Definitions Line with
        | error E => exact Or.inl ⟨E, rfl, rfl⟩
        | ok O => exact Or.inr ⟨AfterLine P U RestP O, [_], rfl, rfl⟩
      · simp only [Bool.not_eq_true] at hFlat
        obtain ⟨-, hLine⟩ := GetCurrentLine_of_pending hPending
        rcases ProcessLine_effect H hP hQ hLine hLine rfl hLength rfl rfl hFlat with
          ⟨E, h1, h2⟩ | ⟨Frames, h1, h2⟩ | ⟨New, h1, h2⟩
        · exact Or.inl ⟨E, LoopStep_of_error H hP hEnded h1, LoopStep_of_error H hQ hEnded h2⟩
        · exact Or.inr ⟨P, [_], LoopStep_of_frames H hP hPending h1,
            LoopStep_of_frames H hQ hPending h2⟩
        · exact Or.inr ⟨P, [New, _], LoopStep_of_push H hP hPending h1,
            LoopStep_of_push H hQ hPending h2⟩

/-- One turn of the two runs through the first branch: the branch is at its
end, or both turns fail with the same failure, or both lead to states that are
again in the first branch. -/
theorem LoopStep_first_branch (H : Host) {Below : List ProcessingContext} {Frame : IfContext}
    {Outer : List IfContext} {Tail Post : List TokenList} {P Q : VirconASMPreprocessor}
    (hFrame : Frame.Evaluates = true)
    (h : InFirstBranch Below Frame Outer Tail Post P Q) :
    AtEndOfFirstBranch Below Frame Outer Tail Post P Q
    ∨ (∃ E, LoopStep H P = .error E ∧ LoopStep H Q = .error E)
    ∨ (∃ P2 Q2, LoopStep H P = .ok P2 ∧ LoopStep H Q = .ok Q2
        ∧ InFirstBranch Below Frame Outer Tail Post P2 Q2) := by
  obtain ⟨Upper, TP, TQ, Nested, Ahead, hP, hQ, hTP, hTQ, hPP, hPQ, hFolder, hFile, hN⟩ := h
  subst hQ
  cases Upper with
  | nil =>
    simp only [List.nil_append] at hP ⊢
    cases Ahead with
    | nil =>
      left
      simp only [Nesting, Option.some.injEq, List.length_eq_zero] at hN
      subst hN
      exact ⟨TP, TQ, hP, rfl, hTP, hTQ, hPP, hPQ, hFolder, hFile⟩
    | cons Line Rest =>
      right
      cases hNext : NestingAfter Nested.length Line with
      | none => simp [Nesting, hNext] at hN
      | some Next =>
        simp only [Nesting, hNext] at hN
        rcases LoopStep_in_branch H hP hPP hPQ hFolder hFile hFrame hTP hTQ hNext with
          ⟨E, h1, h2⟩ | ⟨S, Upper, NP, NQ, Inner, h1, h2, hNP, hNQ, hLen, hRP, hRQ, hFo, hFi⟩
        · exact Or.inl ⟨E, h1, h2⟩
        · refine Or.inr ⟨_, _, h1, h2, Upper, NP, NQ, Inner, Rest, rfl, rfl, hNP, hNQ, hRP, hRQ,
            hFo, hFi, ?_⟩
          rw [hLen]
          exact hN
  | cons U Others =>
    right
    have hLength : (Others ++ TP :: Below).length = (Others ++ TQ :: Below).length := by simp
    rcases LoopStep_same_top H (Others ++ TQ :: Below) hP hLength with
      ⟨E, h1, h2⟩ | ⟨S, Upper, h1, h2⟩
    · exact Or.inl ⟨E, h1, h2⟩
    · refine Or.inr ⟨_, _, h1, h2, Upper ++ Others, TP, TQ, Nested, Ahead, by simp, by simp,
        hTP, hTQ, hPP, hPQ, hFolder, hFile, hN⟩

/-- The two runs through the first branch, turn by turn: within `n` turns both
have failed with the same failure or have come to the end of the branch, or
after `n` turns both are still in the branch. -/
theorem RunLoop_first_branch (H : Host) {Below : List ProcessingContext} {Frame : IfContext}
    {Outer : List IfContext} {Tail Post : List TokenList}
    (hFrame : Frame.Evaluates = true) (n : Nat) :
    ∀ {P Q : VirconASMPreprocessor}, InFirstBranch Below Frame Outer Tail Post P Q →
      (∃ m, m ≤ n
        ∧ ((∃ E, RunLoop H m P = .error E ∧ RunLoop H m Q = .error E)
          ∨ (∃ P2 Q2, RunLoop H m P = .ok P2 ∧ RunLoop H m Q = .ok Q2
              ∧ AtEndOfFirstBranch Below Frame Outer Tail Post P2 Q2)))
      ∨ (∃ P2 Q2, RunLoop H n P = .ok P2 ∧ RunLoop H n Q = .ok Q2
          ∧ InFirstBranch Below Frame Outer Tail Post P2 Q2) := by
  induction n with
  | zero =>
    intro P Q h
    exact Or.inr ⟨P, Q, rfl, rfl, h⟩
  | succ n ih =>
    intro P Q h
    rcases LoopStep_first_branch H hFrame h with hEnd | ⟨E, h1, h2⟩ | ⟨P2, Q2, h1, h2, hRel⟩
    · exact Or.inl ⟨0, by omega, Or.inr ⟨P, Q, rfl, rfl, hEnd⟩⟩
    · refine Or.inl ⟨1, by omega, Or.inl ⟨E, ?_, ?_⟩⟩
      · rw [RunLoop_one, h1]
      · rw [RunLoop_one, h2]
    · rcases ih hRel with ⟨m, hm, hCase⟩ | ⟨P3, Q3, h3, h4, hRel3⟩
      · refine Or.inl ⟨m + 1, by omega, ?_⟩
        rw [RunLoop_succ H m h1, RunLoop_succ H m h2]
        exact hCase
      · refine Or.inr ⟨P3, Q3, ?_, ?_, hRel3⟩
        · rw [RunLoop_succ H n h1, h3]
        · rw [RunLoop_succ H n h2, h4]

/-- The two runs through the first branch come to an end together: after some
number of turns both have failed with the same failure, or both stand at the
end of the branch. -/
theorem RunLoop_ends_first_branch (H : Host) {Below : List ProcessingContext}
    {Frame : IfContext} {Outer : List IfContext} {Tail Post : List TokenList}
    {P Q : VirconASMPreprocessor} (hFrame : Frame.Evaluates = true)
    (h : InFirstBranch Below Frame Outer Tail Post P Q) :
    ∃ m, (∃ E, RunLoop H m P = .error E ∧ RunLoop H m Q = .error E)
      ∨ (∃ P2 Q2, RunLoop H m P = .ok P2 ∧ RunLoop H m Q = .ok Q2
          ∧ AtEndOfFirstBranch Below Frame Outer Tail Post P2 Q2) := by
  obtain ⟨Turns, hTurns⟩ := RunLoop_empties H Q
  rcases RunLoop_first_branch H hFrame Turns h with ⟨m, -, hCase⟩ | ⟨P2, Q2, -, hQ2, hRel⟩
  · exact ⟨m, hCase⟩
  · exfalso
    rcases hTurns with ⟨E, hE⟩ | ⟨R, hR, hEmpty⟩
    · rw [hE] at hQ2
      cases hQ2
    · rw [hR] at hQ2
      cases hQ2
      obtain ⟨Upper, TP, TQ, -, -, -, hQ, -⟩ := hRel
      rw [hQ] at hEmpty
      simp at hEmpty

/-- One turn on a line that an ignored section passes over in silence. -/
theorem LoopStep_skipped (H : Host) {P : VirconASMPreprocessor} {Top : ProcessingContext}
    {Below : List ProcessingContext} {Line : TokenList} {Rest : List TokenList}
    (hStack : P.ContextStack = Top :: Below) (hPending : Top.Pending = Line :: Rest)
    (hIgnored : Top.AreAllIfConditionsMet = false) (hSkipped : IsSkippedLine Line = true) :
    ∃ Next, LoopStep H P = .ok { P with ContextStack := Next :: Below }
      ∧ Next.Pending = Rest ∧ Next.IfStack = Top.IfStack
      ∧ Next.ReferenceFolder = Top.ReferenceFolder ∧ Next.FilePath = Top.FilePath := by
  obtain ⟨Next, hRun, hRest⟩ :=
    @RunLoop_skipped H [Line] P Top Below Rest hStack hPending hIgnored
      (fun L hL => by
        rw [List.mem_singleton] at hL
        rw [hL]
        exact hSkipped)
  refine ⟨Next, ?_, hRest⟩
  rw [← RunLoop_one]
  exact hRun

/-- One turn on a line of an ignored section that raises no failure: the state
changes in nothing but the line position and the conditionals opened within
the section, which change as `IgnoredLine` says. -/
theorem LoopStep_ignored_line (H : Host) {P : VirconASMPreprocessor} {Top : ProcessingContext}
    {Below : List ProcessingContext} {Line : TokenList} {Rest : List TokenList}
    {Inner Outer : List IfContext} {Dead : IfContext} {Next : List Bool}
    (hStack : P.ContextStack = Top :: Below) (hPending : Top.Pending = Line :: Rest)
    (hFrames : Top.IfStack = Inner ++ Dead :: Outer) (hDead : Dead.Evaluates = false)
    (hLine : IgnoredLine (Inner.map IfContext.ElseWasFound) Line = some Next) :
    ∃ After Inner2, LoopStep H P = .ok { P with ContextStack := After :: Below }
      ∧ After.Pending = Rest ∧ After.IfStack = Inner2 ++ Dead :: Outer
      ∧ Inner2.map IfContext.ElseWasFound = Next
      ∧ After.ReferenceFolder = Top.ReferenceFolder ∧ After.FilePath = Top.FilePath := by
  have hIgnored : Top.AreAllIfConditionsMet = false := by
    simp [ProcessingContext.AreAllIfConditionsMet, hFrames, List.all_append, hDead]
  have hSkip : IsSkippedLine Line = true → Inner.map IfContext.ElseWasFound = Next →
      ∃ After Inner2, LoopStep H P = .ok { P with ContextStack := After :: Below }
        ∧ After.Pending = Rest ∧ After.IfStack = Inner2 ++ Dead :: Outer
        ∧ Inner2.map IfContext.ElseWasFound = Next
        ∧ After.ReferenceFolder = Top.ReferenceFolder ∧ After.FilePath = Top.FilePath := by
    intro hS hN
    obtain ⟨After, h1, h2, h3, h4, h5⟩ := LoopStep_skipped H hStack hPending hIgnored hS
    exact ⟨After, Inner, h1, h2, h3.trans hFrames, hN, h4, h5⟩
  rcases Line with _ | ⟨Front, _ | ⟨Keyword, Others⟩⟩
  · exact hSkip rfl (by simpa [IgnoredLine] using hLine)
  · exact hSkip rfl (by simpa [IgnoredLine] using hLine)
  · by_cases hPercent : TokenIsThisSymbol Front .Percent = true
    · have hFront := (TokenIsThisSymbol_iff _ _).mp hPercent
      simp only [IgnoredLine, hPercent, if_true] at hLine
      cases hK : Keyword.Data with
      | Identifier Name =>
        simp only [hK] at hLine
        by_cases h1 : Name = "ifdef" ∨ Name = "ifndef"
        · rw [if_pos h1] at hLine
          rcases Others with _ | ⟨NameToken, _ | ⟨Extra, More⟩⟩
          · simp at hLine
          · cases hD : NameToken.Data with
            | Identifier Queried =>
              simp only [hD, Option.some.injEq] at hLine
              have hOpen : ∀ (IsIfndef : Bool),
                  Name = (if IsIfndef then "ifndef" else "ifdef") →
                  ∃ After Inner2, LoopStep H P = .ok { P with ContextStack := After :: Below }
                    ∧ After.Pending = Rest ∧ After.IfStack = Inner2 ++ Dead :: Outer
                    ∧ Inner2.map IfContext.ElseWasFound = Next
                    ∧ After.ReferenceFolder = Top.ReferenceFolder
                    ∧ After.FilePath = Top.FilePath := by
                intro IsIfndef hName
                have hDir : IsDirectiveLine Name [.Identifier Queried]
                    [Front, Keyword, NameToken] := by
                  simp [IsDirectiveLine, hFront, hK, hD]
                obtain ⟨After, StartingLine, h2, h3, h4, h5, h6⟩ :=
                  LoopStep_if H P IsIfndef hStack hPending hName hDir
                refine ⟨After,
                  { StartingLine := StartingLine
                    ConditionIsMet := ((P.Definitions.find Queried).isSome == !IsIfndef)
                    ElseWasFound := false } :: Inner, h2, h3, ?_, ?_, h5, h6⟩
                · rw [h4, hFrames]
                  rfl
                · rw [← hLine]
                  rfl
              rcases h1 with h1 | h1
              · exact hOpen false h1
              · exact hOpen true h1
            | _ => simp [hD] at hLine
          · simp at hLine
        · rw [if_neg h1] at hLine
          simp only [not_or] at h1
          by_cases h2 : Name = "else"
          · rw [if_pos h2] at hLine
            subst h2
            rcases Others with _ | ⟨Extra, More⟩
            · rcases Inner with _ | ⟨Innermost, Others2⟩
              · simp at hLine
              · cases hE : Innermost.ElseWasFound with
                | true => simp [hE] at hLine
                | false =>
                  simp only [List.map_cons, hE, Option.some.injEq] at hLine
                  have hDir : IsDirectiveLine "else" [] [Front, Keyword] := by
                    simp [IsDirectiveLine, hFront, hK]
                  obtain ⟨After, h3, h4, h5, h6, h7⟩ :=
                    LoopStep_else H P hStack hPending hDir hFrames hE
                  refine ⟨After, { Innermost with ElseWasFound := true } :: Others2, h3, h4, h5,
                    ?_, h6, h7⟩
                  rw [← hLine]
                  rfl
            · simp at hLine
          · rw [if_neg h2] at hLine
            by_cases h3 : Name = "endif"
            · rw [if_pos h3] at hLine
              subst h3
              rcases Others with _ | ⟨Extra, More⟩
              · rcases Inner with _ | ⟨Innermost, Others2⟩
                · simp at hLine
                · simp only [List.map_cons, Option.some.injEq] at hLine
                  have hDir : IsDirectiveLine "endif" [] [Front, Keyword] := by
                    simp [IsDirectiveLine, hFront, hK]
                  obtain ⟨After, h4, h5, h6, h7, h8⟩ :=
                    LoopStep_endif H P hStack hPending hDir hFrames
                  exact ⟨After, Others2, h4, h5, h6, hLine, h7, h8⟩
              · simp at hLine
            · rw [if_neg h3] at hLine
              simp only [Option.some.injEq] at hLine
              refine hSkip ?_ hLine
              simp [IsSkippedLine, hPercent, hK, IsConditionalName, h1.1, h1.2, h2, h3]
      | _ => simp [hK] at hLine
    · simp only [Bool.not_eq_true] at hPercent
      simp only [IgnoredLine, hPercent, Bool.false_eq_true, if_false, Option.some.injEq] at hLine
      refine hSkip ?_ hLine
      simp [IsSkippedLine, hPercent]

/-- The run through a sequence of lines that an ignored section passes over:
it takes one turn for each line and changes nothing but the line position. -/
theorem RunLoop_ignored_branch (H : Host) (B : List TokenList) {Below : List ProcessingContext}
    {Outer : List IfContext} {Dead : IfContext} {Post : List TokenList}
    (hDead : Dead.Evaluates = false) :
    ∀ {P : VirconASMPreprocessor} {Top : ProcessingContext} {Inner : List IfContext},
      P.ContextStack = Top :: Below → Top.Pending = B ++ Post →
      Top.IfStack = Inner ++ Dead :: Outer →
      IsIgnoredBranch (Inner.map IfContext.ElseWasFound) B = true →
      ∃ Next, RunLoop H B.length P = .ok { P with ContextStack := Next :: Below }
        ∧ Next.Pending = Post ∧ Next.IfStack = Dead :: Outer
        ∧ Next.ReferenceFolder = Top.ReferenceFolder ∧ Next.FilePath = Top.FilePath := by
  induction B with
  | nil =>
    intro P Top Inner hStack hPending hFrames hB
    simp only [IsIgnoredBranch, List.isEmpty_eq_true, List.map_eq_nil_iff] at hB
    subst hB
    refine ⟨Top, ?_, hPending, hFrames, rfl, rfl⟩
    rw [← hStack, Preprocessor_eta]
    rfl
  | cons Line Rest ih =>
    intro P Top Inner hStack hPending hFrames hB
    cases hLine : IgnoredLine (Inner.map IfContext.ElseWasFound) Line with
    | none => simp [IsIgnoredBranch, hLine] at hB
    | some Flags =>
      simp only [IsIgnoredBranch, hLine] at hB
      obtain ⟨After, Inner2, h1, h2, h3, h4, h5, h6⟩ :=
        LoopStep_ignored_line H hStack hPending hFrames hDead hLine
      rw [← h4] at hB
      obtain ⟨Next, h7, h8, h9, h10, h11⟩ :=
        @ih { P with ContextStack := After :: Below } After Inner2 rfl h2 h3 hB
      refine ⟨Next, ?_, h8, h9, h10.trans h5, h11.trans h6⟩
      rw [List.length_cons, RunLoop_succ H Rest.length h1, h7]

/-- A directive line whose second token is not an identifier raises a failure,
whether the line is ignored or not. -/
theorem ProcessLine_without_name (H : Host) {P : VirconASMPreprocessor}
    {Top : ProcessingContext} {Below : List ProcessingContext} {Front Keyword : Token}
    {Others : TokenList}
    (hStack : P.ContextStack = Top :: Below)
    (hLine : Top.GetCurrentLine = .ok (Front :: Keyword :: Others))
    (hPercent : Front.Data = .Symbol .Percent)
    (hKeyword : ∀ Name, Keyword.Data ≠ .Identifier Name) :
    ∃ E, ProcessLine H P = .error E := by
  have hT : Front.Type = .Symbol := by simp [Token.Type, hPercent]
  have hD : TokenIsThisSymbol Front .Percent = true := (TokenIsThisSymbol_iff _ _).mpr hPercent
  unfold ProcessLine
  simp only [hStack, hLine, bind, Except.bind, hT, hD, ExpectIdentifier]
  by_cases hL : IsLastToken Keyword = true
  · simp [hL]
  · simp only [Bool.not_eq_true] at hL
    cases hK : Keyword.Data with
    | Identifier Name => exact absurd hK (hKeyword Name)
    | _ => simp [hL, hK]

/-- The condition on the lines of an ignored section is needed: a line for
which `IgnoredLine` gives nothing stops the run with a failure, unless it is a
bare `%endif` met with no conditional open within the section, which closes
the section itself. -/
theorem LoopStep_ignored_line_fails (H : Host) {P : VirconASMPreprocessor}
    {Top : ProcessingContext} {Below : List ProcessingContext} {Line : TokenList}
    {Rest : List TokenList} {Inner Outer : List IfContext} {Dead : IfContext}
    (hStack : P.ContextStack = Top :: Below) (hPending : Top.Pending = Line :: Rest)
    (hFrames : Top.IfStack = Inner ++ Dead :: Outer) (hElse : Dead.ElseWasFound = true)
    (hLine : IgnoredLine (Inner.map IfContext.ElseWasFound) Line = none) :
    (∃ E, LoopStep H P = .error E) ∨ (Inner = [] ∧ IsDirectiveLine "endif" [] Line) := by
  obtain ⟨hEnded, hCurrent⟩ := GetCurrentLine_of_pending hPending
  rcases Line with _ | ⟨Front, _ | ⟨Keyword, Others⟩⟩
  · simp [IgnoredLine] at hLine
  · simp [IgnoredLine] at hLine
  · by_cases hPercent : TokenIsThisSymbol Front .Percent = true
    · have hFront := (TokenIsThisSymbol_iff _ _).mp hPercent
      simp only [IgnoredLine, hPercent, if_true] at hLine
      cases hK : Keyword.Data with
      | Identifier Name =>
        simp only [hK] at hLine
        have hDirective := @ProcessLine_directive H P Top Below Front Keyword Others Name hStack
          hCurrent hFront hK
        by_cases h1 : Name = "ifdef" ∨ Name = "ifndef"
        · left
          rw [if_pos h1] at hLine
          have hIf : ∀ (IsIfndef : Bool),
              ∃ E, ProcessIf P (Front :: Keyword :: Others) IsIfndef = .error E := by
            intro IsIfndef
            rcases Others with _ | ⟨NameToken, _ | ⟨Extra, More⟩⟩
            · exact ⟨_, by simp [ProcessIf, FrontLocation, bind, Except.bind]; rfl⟩
            · cases hD : NameToken.Data with
              | Identifier Queried => simp [hD] at hLine
              | _ =>
                by_cases hL : IsLastToken NameToken = true
                · exact ⟨_, by simp [ProcessIf, ExpectIdentifier, hL, bind, Except.bind]; rfl⟩
                · simp only [Bool.not_eq_true] at hL
                  exact ⟨_, by simp [ProcessIf, ExpectIdentifier, hL, hD, bind, Except.bind]; rfl⟩
            · cases hD : NameToken.Data with
              | Identifier Queried =>
                have hL : IsLastToken NameToken = false := by simp [IsLastToken, Token.Type, hD]
                exact ⟨_, by
                  simp [ProcessIf, ExpectIdentifier, hL, hD, ExpectEndOfLine, bind, Except.bind]
                  rfl⟩
              | _ =>
                by_cases hL : IsLastToken NameToken = true
                · exact ⟨_, by simp [ProcessIf, ExpectIdentifier, hL, bind, Except.bind]; rfl⟩
                · simp only [Bool.not_eq_true] at hL
                  exact ⟨_, by simp [ProcessIf, ExpectIdentifier, hL, hD, bind, Except.bind]; rfl⟩
          rcases h1 with h1 | h1
          · subst h1
            obtain ⟨E, hE⟩ := hIf false
            refine ⟨E, LoopStep_of_error H hStack hEnded ?_⟩
            rw [hDirective]
            simp only [IsConditionalName, ProcessDirective, String.reduceEq, if_false, if_true]
            simpa using hE
          · subst h1
            obtain ⟨E, hE⟩ := hIf true
            refine ⟨E, LoopStep_of_error H hStack hEnded ?_⟩
            rw [hDirective]
            simp only [IsConditionalName, ProcessDirective, String.reduceEq, if_false, if_true]
            simpa using hE
        · rw [if_neg h1] at hLine
          by_cases h2 : Name = "else"
          · left
            rw [if_pos h2] at hLine
            subst h2
            have hFails : ∃ E, ProcessElse P (Front :: Keyword :: Others) = .error E := by
              rcases Others with _ | ⟨Extra, More⟩
              · rw [ProcessElse_eq P Top Below Front Keyword hStack, hFrames]
                rcases Inner with _ | ⟨Innermost, Others2⟩
                · simp only [List.nil_append, hElse, if_true]
                  exact ⟨_, rfl⟩
                · cases hE : Innermost.ElseWasFound with
                  | true =>
                    simp only [List.cons_append, hE, if_true]
                    exact ⟨_, rfl⟩
                  | false => simp [hE] at hLine
              · exact ⟨_, by simp [ProcessElse, ExpectEndOfLine, bind, Except.bind]; rfl⟩
            obtain ⟨E, hE⟩ := hFails
            refine ⟨E, LoopStep_of_error H hStack hEnded ?_⟩
            rw [hDirective]
            simp only [IsConditionalName, ProcessDirective, String.reduceEq, if_false, if_true]
            simpa using hE
          · rw [if_neg h2] at hLine
            by_cases h3 : Name = "endif"
            · rw [if_pos h3] at hLine
              subst h3
              rcases Others with _ | ⟨Extra, More⟩
              · right
                rcases Inner with _ | ⟨Innermost, Others2⟩
                · exact ⟨rfl, by simp [IsDirectiveLine, hFront, hK]⟩
                · simp at hLine
              · left
                have hFails : ∃ E, ProcessEndif P (Front :: Keyword :: Extra :: More)
                    = .error E :=
                  ⟨_, by simp [ProcessEndif, ExpectEndOfLine, bind, Except.bind]; rfl⟩
                obtain ⟨E, hE⟩ := hFails
                refine ⟨E, LoopStep_of_error H hStack hEnded ?_⟩
                rw [hDirective]
                simp only [IsConditionalName, ProcessDirective, String.reduceEq, if_false,
                  if_true]
                simpa using hE
            · rw [if_neg h3] at hLine
              cases hLine
      | _ =>
        left
        obtain ⟨E, hE⟩ := ProcessLine_without_name H hStack hCurrent hFront
          (fun Name hN => by rw [hK] at hN; cases hN)
        exact ⟨E, LoopStep_of_error H hStack hEnded hE⟩
    · simp only [Bool.not_eq_true] at hPercent
      simp [IgnoredLine, hPercent] at hLine

/-- Claim C1 (counterexample): A line of the second branch can stop the run.  In
`SampleBadBranch`, with `X` defined, the second branch is the line `% 5`; the
name of a directive is read before the line is found to be ignored, so the run
raises "expected identifier" and emits nothing, while the input with the three
directive lines and the second branch removed is preprocessed to the end and
emits the line `a`. -/
theorem C1_counterexample_second_branch_is_parsed :
    (Preprocess NoFiles 9 Fresh SampleBadBranch).map (fun Q => Q.ProcessedTokens)
        = .error (.Error (At 5) "expected identifier")
    ∧ (Preprocess NoFiles 5 Fresh SampleBadBranchFirstBranch).map
          (fun Q => (Q.ContextStack.length, Q.ProcessedTokens))
        = .ok (0, [⟨At 0, .StartOfFile⟩, IdentifierAt 3 "a", ⟨At 7, .EndOfFile⟩])
    ∧ (∀ Fuel Turns, 6 ≤ Fuel →
        (Preprocess NoFiles Fuel Fresh SampleBadBranch).map (fun Q => Q.ProcessedTokens)
          ≠ (Preprocess NoFiles (5 + Turns) Fresh SampleBadBranchFirstBranch).map
              (fun Q => Q.ProcessedTokens)) := by
  have hBlock : ∀ Turns, Preprocess NoFiles (6 + Turns) Fresh SampleBadBranch
      = .error (.Error (At 5) "expected identifier") := by
    intro Turns
    have h6 : RunLoop NoFiles 6
        { ContextStack :=
            [{ ReferenceFolder := ".", FilePath := "main.asm"
               SourceLines := SampleBadBranch.TokenLines, LinePosition := 0, IfStack := [] }]
          Definitions := [], ProcessedTokens := [], Warnings := [] }
        = .error (.Error (At 5) "expected identifier") := by decide!
    exact RunLoop_failed NoFiles Turns h6
  have hAlone : ∀ Turns, (Preprocess NoFiles (5 + Turns) Fresh SampleBadBranchFirstBranch).map
      (fun Q => Q.ProcessedTokens)
      = .ok [⟨At 0, .StartOfFile⟩, IdentifierAt 3 "a", ⟨At 7, .EndOfFile⟩] := by
    intro Turns
    have h5 : RunLoop NoFiles 5
        { ContextStack :=
            [{ ReferenceFolder := ".", FilePath := "main.asm"
               SourceLines := SampleBadBranchFirstBranch.TokenLines, LinePosition := 0
               IfStack := [] }]
          Definitions := [], ProcessedTokens := [], Warnings := [] }
        = .ok { ContextStack := []
                Definitions := [("X", [])]
                ProcessedTokens :=
                  [⟨At 0, .StartOfFile⟩, IdentifierAt 3 "a", ⟨At 7, .EndOfFile⟩]
                Warnings := [] } := by decide!
    have hRun : Preprocess NoFiles (5 + Turns) Fresh SampleBadBranchFirstBranch
        = RunLoop NoFiles Turns
            { ContextStack := []
              Definitions := [("X", [])]
              ProcessedTokens :=
                [⟨At 0, .StartOfFile⟩, IdentifierAt 3 "a", ⟨At 7, .EndOfFile⟩]
              Warnings := [] } := RunLoop_then NoFiles Turns h5
    rw [hRun, RunLoop_of_empty NoFiles Turns rfl]
    rfl
  refine ⟨?_, ?_, ?_⟩
  · rw [hBlock 3]
    rfl
  · decide!
  · intro Fuel Turns hFuel
    obtain ⟨More, rfl⟩ := Nat.exists_eq_add_of_le hFuel
    rw [hBlock More, hAlone Turns]
    simp [Except.map]

/-- Claim C1 (amended): With `X` defined, let the conditional directives of the
first branch `A` be balanced (every `%else` and `%endif` of `A` belongs to an
`%ifdef` or `%ifndef` of `A`, and every conditional opened in `A` is closed in
`A`), and let the second branch `B` be a sequence of lines that an ignored
section passes over: its conditional directives are balanced and well formed
(`%ifdef NAME`, `%ifndef NAME`, at most one bare `%else` for each, a bare
`%endif`), and every other line of it either does not start with `%`, or is a
lone `%`, or is a `%` followed by an identifier.  `A` may hold nested
conditionals, includes and any other line.  Then there is a number of turns
after which the run through `A` alone, in the place of the block, has failed or
stands at the end of `A`, with the lines after the block before it; and the run
through `%ifdef X`, `A`, `%else`, `B`, `%endif`, given three turns more and one
for each line of `B`, has failed with the same failure or is in the same
observable state: same output tokens, same definitions, same warnings, same
if-stacks and same lines still to come. -/
theorem C1_ifdef_defined_keeps_first_branch (H : Host) (P : VirconASMPreprocessor)
    (Top Alone : ProcessingContext) (Below : List ProcessingContext) (X : String)
    (IfdefLine ElseLine EndifLine : TokenList) (A B Post : List TokenList)
    (hStack : P.ContextStack = Top :: Below)
    (hPending : Top.Pending = IfdefLine :: (A ++ ElseLine :: (B ++ EndifLine :: Post)))
    (hAlone : Alone.Pending = A ++ Post)
    (hIfStack : Alone.IfStack = Top.IfStack)
    (hFolder : Alone.ReferenceFolder = Top.ReferenceFolder)
    (hFile : Alone.FilePath = Top.FilePath)
    (hDefined : (P.Definitions.find X).isSome = true)
    (hIfdef : IsDirectiveLine "ifdef" [.Identifier X] IfdefLine)
    (hElse : IsDirectiveLine "else" [] ElseLine)
    (hEndif : IsDirectiveLine "endif" [] EndifLine)
    (hA : Nesting 0 A = some 0) (hB : IsIgnoredBranch [] B = true) :
    ∃ Turns,
      (RunLoop H (Turns + B.length + 3) P).map Observe
        = (RunLoop H Turns { P with ContextStack := Alone :: Below }).map Observe
      ∧ ((∃ E, RunLoop H Turns { P with ContextStack := Alone :: Below } = .error E)
        ∨ (∃ R Last, RunLoop H Turns { P with ContextStack := Alone :: Below } = .ok R
            ∧ R.ContextStack = Last :: Below ∧ Last.Pending = Post
            ∧ Last.IfStack = Alone.IfStack)) := by
  -- the `%ifdef X` line
  obtain ⟨T1, StartingLine, hS1, hP1, hI1, hR1, hF1⟩ :=
    LoopStep_if H P false hStack hPending rfl hIfdef
  simp only [hDefined, Bool.not_false, beq_self_eq_true] at hI1
  have hFrame : (⟨StartingLine, true, false⟩ : IfContext).Evaluates = true := rfl
  -- the first branch, in both runs
  have hRel : InFirstBranch Below ⟨StartingLine, true, false⟩ Top.IfStack
      (ElseLine :: (B ++ EndifLine :: Post)) Post
      { P with ContextStack := T1 :: Below } { P with ContextStack := Alone :: Below } :=
    ⟨[], T1, Alone, [], A, rfl, rfl, hI1, hIfStack, hP1, hAlone, hR1.trans hFolder.symm,
      hF1.trans hFile.symm, hA⟩
  obtain ⟨Turns, hTurns⟩ := RunLoop_ends_first_branch H hFrame hRel
  refine ⟨Turns, ?_⟩
  have hFuel : Turns + B.length + 3 = (Turns + (1 + (B.length + 1))) + 1 := by omega
  rw [hFuel, RunLoop_succ H _ hS1]
  rcases hTurns with ⟨E, h1, h2⟩ |
    ⟨P2, Q2, h1, h2, TP, TQ, hP2, hQ2, hTP, hTQ, hPP, hPQ, hFo, hFi⟩
  · rw [RunLoop_failed H _ h1, h2]
    exact ⟨rfl, Or.inl ⟨E, rfl⟩⟩
  · rw [RunLoop_then H _ h1, h2]
    refine ⟨?_, Or.inr ⟨Q2, TQ, rfl, by rw [hQ2], hPQ, hTQ.trans hIfStack.symm⟩⟩
    -- the `%else` line
    obtain ⟨T3, hS3, hP3, hI3, hR3, hF3⟩ := LoopStep_else H P2 hP2 hPP hElse hTP rfl
    rw [RunLoop_add, RunLoop_one, hS3]
    simp only
    -- the second branch
    have hDead : ({ (⟨StartingLine, true, false⟩ : IfContext) with ElseWasFound := true }
        : IfContext).Evaluates = false := rfl
    obtain ⟨T4, hRun4, hP4, hI4, hR4, hF4⟩ :=
      RunLoop_ignored_branch H B hDead
        (rfl : ({ P2 with ContextStack := T3 :: Below } : VirconASMPreprocessor).ContextStack
          = T3 :: Below)
        hP3
        (show T3.IfStack = ([] : List IfContext)
          ++ ({ (⟨StartingLine, true, false⟩ : IfContext) with ElseWasFound := true }
              : IfContext) :: Top.IfStack from hI3)
        hB
    rw [RunLoop_add, hRun4]
    simp only
    -- the `%endif` line
    obtain ⟨T5, hS5, hP5, hI5, hR5, hF5⟩ :=
      LoopStep_endif H { P2 with ContextStack := T4 :: Below } rfl hP4 hEndif hI4
    rw [RunLoop_one, hS5, hQ2]
    simp only [Except.map, Observe, ProcessingContext.View, List.map_cons, hP5, hI5, hR5, hF5,
      hR4, hF4, hR3, hF3, hPQ, hTQ, hFo, hFi]

/-- The sample block with `X` defined.  Its first branch holds a nested
`%ifdef X` … `%endif` and an include of `part.asm`; its second branch holds a
nested `%ifndef Z` … `%else` … `%endif`, an include of a file that does not
exist, an `%error` and a lone `%`.  The first branch alone comes to its end
after 10 turns, the block after 20, and both leave the lines `a` and
`MOV R0, 5` in the output and the same state behind. -/
theorem C1_ifdef_defined_keeps_first_branch_witness :
    (∃ Turns,
      (RunLoop SampleFiles (Turns + SampleSecondBranch.length + 3) SampleAtBlock).map Observe
        = (RunLoop SampleFiles Turns
            { SampleAtBlock with ContextStack := [SampleBranchContext] }).map Observe
      ∧ ((∃ E, RunLoop SampleFiles Turns
              { SampleAtBlock with ContextStack := [SampleBranchContext] } = .error E)
        ∨ (∃ R Last, RunLoop SampleFiles Turns
              { SampleAtBlock with ContextStack := [SampleBranchContext] } = .ok R
            ∧ R.ContextStack = [Last] ∧ Last.Pending = SampleAfterBlock
            ∧ Last.IfStack = SampleBranchContext.IfStack)))
    ∧ (RunLoop SampleFiles (10 + 7 + 3) SampleAtBlock).map Observe
        = .ok
            { Definitions := [("X", [⟨At 0, .LiteralInteger 5⟩])]
              ProcessedTokens :=
                [⟨At 0, .StartOfFile⟩, IdentifierAt 3 "a", ⟨InPart 2, .Other "MOV"⟩,
                  ⟨InPart 2, .Other "R0"⟩, ⟨InPart 2, .Symbol .Comma⟩,
                  ⟨InPart 2, .LiteralInteger 5⟩]
              Warnings := []
              Contexts :=
                [ { ReferenceFolder := ".", FilePath := "main.asm", IfStack := []
                    Pending := SampleAfterBlock } ] }
    ∧ (RunLoop SampleFiles (10 + 7 + 3) SampleAtBlock).map Observe
        = (RunLoop SampleFiles 10
            { SampleAtBlock with ContextStack := [SampleBranchContext] }).map Observe :=
  ⟨C1_ifdef_defined_keeps_first_branch SampleFiles SampleAtBlock SampleBlockContext
      SampleBranchContext [] "X"
      [PercentAt 1, IdentifierAt 1 "ifdef", IdentifierAt 1 "X"]
      [PercentAt 6, IdentifierAt 6 "else"]
      [PercentAt 14, IdentifierAt 14 "endif"]
      SampleFirstBranch SampleSecondBranch SampleAfterBlock
      rfl rfl rfl rfl rfl rfl (by decide) rfl rfl rfl (by decide!) (by decide!),
    by decide!, by decide!⟩

end Vircon
